import Mathlib

/-!
Faraday FTMAC100 Ethernet MAC driver (drivers/net/ftmac100.c).

A shallow embedding of the descriptor-ring core of the driver.  The driver
state `struct ftmac100_driver_s` becomes a record that is passed explicitly;
every C function becomes a function on that record.

Conventions of the embedding

* descriptor words are `unsigned int`; the code only assigns them and combines
  them with `&` and `|`, so they are natural numbers and no wrap-around occurs;
* the cursors index the descriptor arrays and `tx_pending` is a counter that
  the code increments from zero and decrements only while it is non-zero, so
  they are natural numbers;
* the descriptor arrays are lists; an array of `CONFIG_FTMAC100_TX_DESC`
  entries is a list of that length, which the theorems assume where they need
  it;
* `ftmac100_receive` and `ftmac100_interrupt_process` take a bound `fuel` on
  the iterations of the receive scan loop and return `none` when it is
  exhausted; `scan_terminates` shows that `RX_DESC + 1` iterations suffice;
* the register block, the two watchdogs, the interrupt line and the work slot
  are fields of the record; a ghost `trace` records, in order, the register
  writes, watchdog operations, upstream calls and the entries of
  `ftmac100_transmit`, `ftmac100_receive` and `ftmac100_txdone`;
* the header `nuttx/net/ftmac100.h`, the network headers and the board
  configuration are not part of the sources: their constants and macros are
  the fields of `Config`.
-/

namespace Ftmac100

/-- Constants and macros that the driver takes from `nuttx/net/ftmac100.h`,
from the network headers and from the board configuration. -/
structure Config where
  /-- The value of `CONFIG_FTMAC100_TX_DESC` -/
  TX_DESC : Nat
  /-- The value of `CONFIG_FTMAC100_RX_DESC` -/
  RX_DESC : Nat
  /-- Whether `CONFIG_NET_NOINTS` is defined -/
  NET_NOINTS : Bool
  /-- Whether `CONFIG_NET_PKT` is defined -/
  NET_PKT : Bool
  /-- Whether `CONFIG_NET_IPv4` is defined -/
  NET_IPv4 : Bool
  /-- Whether `CONFIG_NET_IPv6` is defined -/
  NET_IPv6 : Bool
  /-- Whether `CONFIG_NET_ARP` is defined -/
  NET_ARP : Bool
  TXDES0_TXDMA_OWN : Nat
  TXDES1_EDOTR : Nat
  TXDES1_FTS : Nat
  TXDES1_LTS : Nat
  TXDES1_TXIC : Nat
  TXDES1_TXBUF_SIZE : Nat → Nat
  RXDES0_RXDMA_OWN : Nat
  RXDES0_FRS : Nat
  RXDES0_LRS : Nat
  RXDES0_RFL : Nat → Nat
  RXDES1_EDORR : Nat
  RXDES1_RXBUF_SIZE : Nat → Nat
  INT_RPKT_FINISH : Nat
  INT_NORXBUF : Nat
  INT_XPKT_OK : Nat
  INT_XPKT_LOST : Nat
  INT_RPKT_SAV : Nat
  INT_RPKT_LOST : Nat
  INT_AHB_ERR : Nat
  INT_PHYSTS_CHG : Nat
  MACCR_XMT_EN : Nat
  MACCR_RCV_EN : Nat
  MACCR_XDMA_EN : Nat
  MACCR_RDMA_EN : Nat
  MACCR_CRC_APD : Nat
  MACCR_FULLDUP : Nat
  MACCR_RX_RUNT : Nat
  MACCR_RX_BROADPKT : Nat
  MACCR_SW_RST : Nat
  PHYCR_PHYAD : Nat → Nat
  PHYCR_REGAD : Nat → Nat
  PHYCR_MIIRD : Nat
  APTC_RXPOLL_CNT : Nat → Nat
  DBLAC_RXFIFO_LTHR : Nat → Nat
  DBLAC_RXFIFO_HTHR : Nat → Nat
  DBLAC_RX_THR_EN : Nat
  /-- The value of `HTONS(ETHTYPE_IP)` -/
  HTONS_ETHTYPE_IP : Nat
  /-- The value of `HTONS(ETHTYPE_IP6)` -/
  HTONS_ETHTYPE_IP6 : Nat
  /-- The value of `htons(ETHTYPE_ARP)` -/
  HTONS_ETHTYPE_ARP : Nat
  /-- The macro use `((struct eth_hdr_s *)d_buf)->type`, read from the bytes of the buffer -/
  eth_hdr_type : List Nat → Nat
  /-- The value of `IFF_IS_IPv4(d_flags)` -/
  IFF_IS_IPv4 : Nat → Bool

/-- From the source: `#define RX_BUF_SIZE 2044` -/
def RX_BUF_SIZE : Nat := 2044

/-- From the source: `#define ETH_ZLEN 60` -/
def ETH_ZLEN : Nat := 60

/-- From the source: `#define MACCR_ENABLE_ALL (...)` -/
def MACCR_ENABLE_ALL (cfg : Config) : Nat :=
  cfg.MACCR_XMT_EN ||| cfg.MACCR_RCV_EN ||| cfg.MACCR_XDMA_EN ||| cfg.MACCR_RDMA_EN |||
    cfg.MACCR_CRC_APD ||| cfg.MACCR_FULLDUP ||| cfg.MACCR_RX_RUNT ||| cfg.MACCR_RX_BROADPKT

/-- From the source: `#define MACCR_DISABLE_ALL 0` -/
def MACCR_DISABLE_ALL : Nat := 0

/-- From the source: `#define INT_MASK_ALL_ENABLED (...)` -/
def INT_MASK_ALL_ENABLED (cfg : Config) : Nat :=
  cfg.INT_RPKT_FINISH ||| cfg.INT_NORXBUF ||| cfg.INT_XPKT_OK ||| cfg.INT_XPKT_LOST |||
    cfg.INT_RPKT_LOST ||| cfg.INT_AHB_ERR ||| cfg.INT_PHYSTS_CHG

/-- From the source: `#define INT_MASK_ALL_DISABLED 0` -/
def INT_MASK_ALL_DISABLED : Nat := 0

/-- The value `OK` returned by the driver entry points. -/
def OK : Int := 0

/-- Record for `struct ftmac100_txdes_s`: the four words of a transmit descriptor. -/
structure ftmac100_txdes_s where
  txdes0 : Nat
  txdes1 : Nat
  txdes2 : Nat
  txdes3 : Nat
deriving DecidableEq, Repr, Inhabited

/-- Record for `struct ftmac100_rxdes_s`: the four words of a receive descriptor. -/
structure ftmac100_rxdes_s where
  rxdes0 : Nat
  rxdes1 : Nat
  rxdes2 : Nat
  rxdes3 : Nat
deriving DecidableEq, Repr, Inhabited

/-- The fields of `struct net_driver_s` that the driver reads or writes:
the address of the exchange buffer, the bytes stored there, the exchange
length and the interface flags. -/
structure net_driver_s where
  d_buf : Nat
  d_data : List Nat
  d_len : Nat
  d_flags : Nat
deriving DecidableEq, Repr, Inhabited

/-- The registers of `struct ftmac100_register_s` that the driver touches. -/
inductive Reg where
  | isr | imr | mac_madr | mac_ladr | txpd | rxpd | txr_badr | rxr_badr
  | aptc | dblac | maccr | phycr
deriving DecidableEq, Repr

/-- The two watchdogs of the driver. -/
inductive WdogId where
  | ft_txpoll | ft_txtimeout
deriving DecidableEq, Repr

/-- The worker entry points that can occupy the single `ft_work` slot. -/
inductive Work where
  | ftmac100_interrupt_work | ftmac100_txtimeout_work | ftmac100_poll_work
  | ftmac100_txavail_work
deriving DecidableEq, Repr

/-- Functions of the network stack that the driver calls. -/
inductive Upcall where
  | pkt_input | arp_ipin | ipv4_input | ipv6_input | arp_arpin | arp_out
  | neighbor_out | devif_poll | devif_timer
deriving DecidableEq, Repr

/-- Entries of the ghost trace. -/
inductive Event where
  | putreg32 (v : Nat) (reg : Reg)
  | wd_start (wd : WdogId)
  | wd_cancel (wd : WdogId)
  | mask_irq
  | unmask_irq
  | work_cancel
  | work_queue (w : Work)
  | upcall (f : Upcall) (dev : net_driver_s)
  | ftmac100_transmit
  | ftmac100_receive
  | ftmac100_txdone
deriving DecidableEq, Repr

/-- Record for `struct ftmac100_driver_s` together with the hardware it drives. -/
structure ftmac100_driver_s where
  txdes : List ftmac100_txdes_s
  rxdes : List ftmac100_rxdes_s
  rx_pointer : Nat
  tx_pointer : Nat
  tx_clean_pointer : Nat
  tx_pending : Nat
  /-- true: ifup, false: ifdown -/
  ft_bifup : Bool
  /-- the poll watchdog is running -/
  ft_txpoll : Bool
  /-- the TX timeout watchdog is running -/
  ft_txtimeout : Bool
  /-- last ISR status (`CONFIG_NET_NOINTS`) -/
  status : Nat
  /-- the work queued in `ft_work`, if any (`CONFIG_NET_NOINTS`) -/
  ft_work : Option Work
  ft_dev : net_driver_s
  /-- the register block at `iobase` -/
  iobase : Reg → Nat
  /-- values that successive reads of the PHY control register return -/
  phycr_in : List Nat
  /-- the device interrupt line is masked at the interrupt controller -/
  irq_masked : Bool
  /-- byte-addressed memory, the source of the receive buffers -/
  mem : Nat → Nat
  trace : List Event

/-- One round of the loop inside `devif_poll` or `devif_timer`: the stack
updates the device structure (`prep`) and invokes the poll callback, during
which `arp_out` or `neighbor_out` may be called. -/
structure PollStep where
  prep : net_driver_s → net_driver_s
  arp_out : net_driver_s → net_driver_s
  neighbor_out : net_driver_s → net_driver_s

/-- Behaviour of the network stack during one driver operation.  Each hook
maps the device structure it is given to the one it leaves behind;
`devif_poll` and `devif_timer` list the rounds of the respective loop. -/
structure Upstream where
  pkt_input : net_driver_s → net_driver_s
  arp_ipin : net_driver_s → net_driver_s
  ipv4_input : net_driver_s → net_driver_s
  ipv6_input : net_driver_s → net_driver_s
  arp_arpin : net_driver_s → net_driver_s
  arp_out : net_driver_s → net_driver_s
  neighbor_out : net_driver_s → net_driver_s
  devif_poll : List PollStep
  devif_timer : List PollStep

/-- Append an entry to the ghost trace. -/
def record (e : Event) (priv : ftmac100_driver_s) : ftmac100_driver_s :=
  { priv with trace := priv.trace ++ [e] }

/-- Embedding of `putreg32(v, &iobase->reg)` -/
def putreg32 (v : Nat) (reg : Reg) (priv : ftmac100_driver_s) : ftmac100_driver_s :=
  record (Event.putreg32 v reg)
    { priv with iobase := fun r => if r = reg then v else priv.iobase r }

/-- Embedding of `wd_start` on one of the two watchdogs. -/
def wd_start (wd : WdogId) (priv : ftmac100_driver_s) : ftmac100_driver_s :=
  record (Event.wd_start wd)
    (match wd with
     | WdogId.ft_txpoll => { priv with ft_txpoll := true }
     | WdogId.ft_txtimeout => { priv with ft_txtimeout := true })

/-- Embedding of `wd_cancel` on one of the two watchdogs. -/
def wd_cancel (wd : WdogId) (priv : ftmac100_driver_s) : ftmac100_driver_s :=
  record (Event.wd_cancel wd)
    (match wd with
     | WdogId.ft_txpoll => { priv with ft_txpoll := false }
     | WdogId.ft_txtimeout => { priv with ft_txtimeout := false })

/-- Call of a hook of the network stack on `priv->ft_dev`. -/
def upcall (f : Upcall) (hook : net_driver_s → net_driver_s)
    (priv : ftmac100_driver_s) : ftmac100_driver_s :=
  { record (Event.upcall f priv.ft_dev) priv with ft_dev := hook priv.ft_dev }

/-- Embedding of `ftmac100_current_rxdes` -/
def ftmac100_current_rxdes (priv : ftmac100_driver_s) : ftmac100_rxdes_s :=
  priv.rxdes.getD priv.rx_pointer default

/-- Embedding of `ftmac100_current_txdes` -/
def ftmac100_current_txdes (priv : ftmac100_driver_s) : ftmac100_txdes_s :=
  priv.txdes.getD priv.tx_pointer default

/-- Embedding of `ftmac100_current_clean_txdes` -/
def ftmac100_current_clean_txdes (priv : ftmac100_driver_s) : ftmac100_txdes_s :=
  priv.txdes.getD priv.tx_clean_pointer default

/-- Embedding of `ftmac100_transmit` -/
def ftmac100_transmit (cfg : Config) (priv : ftmac100_driver_s) :
    Int × ftmac100_driver_s :=
  let priv := record Event.ftmac100_transmit priv
  let len := priv.ft_dev.d_len
  let txdes := ftmac100_current_txdes priv
  let len := if len < ETH_ZLEN then ETH_ZLEN else len
  let txdes := { txdes with txdes2 := priv.ft_dev.d_buf }
  let txdes := { txdes with txdes1 := txdes.txdes1 &&& cfg.TXDES1_EDOTR }
  let txdes := { txdes with txdes1 := txdes.txdes1 |||
    (cfg.TXDES1_FTS ||| cfg.TXDES1_LTS ||| cfg.TXDES1_TXIC ||| cfg.TXDES1_TXBUF_SIZE len) }
  let txdes := { txdes with txdes0 := txdes.txdes0 ||| cfg.TXDES0_TXDMA_OWN }
  let priv := { priv with txdes := priv.txdes.set priv.tx_pointer txdes }
  let priv := { priv with tx_pointer := (priv.tx_pointer + 1) &&& (cfg.TX_DESC - 1) }
  let priv := { priv with tx_pending := priv.tx_pending + 1 }
  let priv := putreg32 1 Reg.txpd priv
  let priv := wd_start WdogId.ft_txtimeout priv
  (OK, priv)

/-- Embedding of `ftmac100_txpoll`; `st` holds the behaviour of `arp_out` and
`neighbor_out` during this invocation. -/
def ftmac100_txpoll (cfg : Config) (st : PollStep) (priv : ftmac100_driver_s) :
    Int × ftmac100_driver_s :=
  if priv.ft_dev.d_len > 0 then
    let priv :=
      if cfg.NET_IPv4 then
        if cfg.NET_IPv6 then
          if cfg.IFF_IS_IPv4 priv.ft_dev.d_flags then upcall Upcall.arp_out st.arp_out priv
          else upcall Upcall.neighbor_out st.neighbor_out priv
        else upcall Upcall.arp_out st.arp_out priv
      else if cfg.NET_IPv6 then upcall Upcall.neighbor_out st.neighbor_out priv
      else priv
    let priv := (ftmac100_transmit cfg priv).2
    (0, priv)
  else (0, priv)

/-- The loop of `devif_poll` and `devif_timer`: in every round the stack
updates the device structure and invokes the poll callback; the callback
returns zero, so the stack never stops early. -/
def poll_callbacks (cfg : Config) :
    List PollStep → ftmac100_driver_s → ftmac100_driver_s
  | [], priv => priv
  | st :: rest, priv =>
    poll_callbacks cfg rest
      (ftmac100_txpoll cfg st { priv with ft_dev := st.prep priv.ft_dev }).2

/-- Embedding of `devif_poll(&priv->ft_dev, ftmac100_txpoll)` -/
def devif_poll (cfg : Config) (up : Upstream) (priv : ftmac100_driver_s) :
    ftmac100_driver_s :=
  poll_callbacks cfg up.devif_poll (record (Event.upcall Upcall.devif_poll priv.ft_dev) priv)

/-- Embedding of `devif_timer(&priv->ft_dev, ftmac100_txpoll, FTMAC100_POLLHSEC)` -/
def devif_timer (cfg : Config) (up : Upstream) (priv : ftmac100_driver_s) :
    ftmac100_driver_s :=
  poll_callbacks cfg up.devif_timer (record (Event.upcall Upcall.devif_timer priv.ft_dev) priv)

/-- The `while (priv->tx_pending)` loop of `ftmac100_txdone`; the first
argument bounds the number of iterations. -/
def ftmac100_txdone_loop (cfg : Config) : Nat → ftmac100_driver_s → ftmac100_driver_s
  | 0, priv => priv
  | fuel + 1, priv =>
    if priv.tx_pending = 0 then priv
    else
      let txdes := ftmac100_current_clean_txdes priv
      if txdes.txdes0 &&& cfg.TXDES0_TXDMA_OWN ≠ 0 then priv
      else
        let txdes := { txdes with txdes0 := 0 }
        let txdes := { txdes with txdes1 := txdes.txdes1 &&& cfg.TXDES1_EDOTR }
        let txdes := { txdes with txdes2 := 0 }
        let txdes := { txdes with txdes3 := 0 }
        let priv := { priv with txdes := priv.txdes.set priv.tx_clean_pointer txdes }
        let priv := { priv with
          tx_clean_pointer := (priv.tx_clean_pointer + 1) &&& (cfg.TX_DESC - 1) }
        let priv := { priv with tx_pending := priv.tx_pending - 1 }
        ftmac100_txdone_loop cfg fuel priv

/-- The reclaim loop of `ftmac100_txdone`.  Every iteration decrements
`tx_pending`, so `tx_pending` iterations always suffice. -/
def ftmac100_txdone_reclaim (cfg : Config) (priv : ftmac100_driver_s) : ftmac100_driver_s :=
  ftmac100_txdone_loop cfg priv.tx_pending priv

/-- Embedding of `ftmac100_txdone` -/
def ftmac100_txdone (cfg : Config) (up : Upstream) (priv : ftmac100_driver_s) :
    ftmac100_driver_s :=
  let priv := record Event.ftmac100_txdone priv
  let priv := ftmac100_txdone_reclaim cfg priv
  let priv := wd_cancel WdogId.ft_txtimeout priv
  devif_poll cfg up priv

/-- The scan loop at the head of `ftmac100_receive`.  The first argument
bounds the number of iterations; the result is `none` when the bound is
reached, otherwise the state at the exit of the loop and whether the exit was
the jump to `found_segment`. -/
def ftmac100_receive_scan (cfg : Config) :
    Nat → ftmac100_driver_s → Option (ftmac100_driver_s × Bool)
  | 0, _ => none
  | fuel + 1, priv =>
    let rxdes := ftmac100_current_rxdes priv
    if rxdes.rxdes0 &&& cfg.RXDES0_RXDMA_OWN ≠ 0 then some (priv, false)
    else if rxdes.rxdes0 &&& cfg.RXDES0_FRS ≠ 0 then some (priv, true)
    else
      let rxdes := { rxdes with rxdes0 := cfg.RXDES0_RXDMA_OWN }
      let priv := { priv with rxdes := priv.rxdes.set priv.rx_pointer rxdes }
      let priv := { priv with rx_pointer := (priv.rx_pointer + 1) &&& (cfg.RX_DESC - 1) }
      ftmac100_receive_scan cfg fuel priv

/-- The bytes `memcpy(d_buf, data, len)` leaves in the exchange buffer. -/
def memcpy_d_buf (priv : ftmac100_driver_s) (data len : Nat) : List Nat :=
  (List.range len).map (fun k => priv.mem (data + k)) ++ priv.ft_dev.d_data.drop len

/-- The dispatch on the Ethernet type inside the `do ... while (0)` block of
`ftmac100_receive`: the input handler of the frame type and, when it leaves
`d_len > 0`, the transmission of the reply. -/
def ftmac100_receive_dispatch (cfg : Config) (up : Upstream) (priv : ftmac100_driver_s) :
    ftmac100_driver_s :=
  if cfg.NET_IPv4 && cfg.eth_hdr_type priv.ft_dev.d_data == cfg.HTONS_ETHTYPE_IP then
    let priv := upcall Upcall.arp_ipin up.arp_ipin priv
    let priv := upcall Upcall.ipv4_input up.ipv4_input priv
    if priv.ft_dev.d_len > 0 then
      let priv :=
        if cfg.NET_IPv6 then
          if cfg.IFF_IS_IPv4 priv.ft_dev.d_flags then upcall Upcall.arp_out up.arp_out priv
          else upcall Upcall.neighbor_out up.neighbor_out priv
        else upcall Upcall.arp_out up.arp_out priv
      (ftmac100_transmit cfg priv).2
    else priv
  else if cfg.NET_IPv6 && cfg.eth_hdr_type priv.ft_dev.d_data == cfg.HTONS_ETHTYPE_IP6 then
    let priv := upcall Upcall.ipv6_input up.ipv6_input priv
    if priv.ft_dev.d_len > 0 then
      let priv :=
        if cfg.NET_IPv4 then
          if cfg.IFF_IS_IPv4 priv.ft_dev.d_flags then upcall Upcall.arp_out up.arp_out priv
          else upcall Upcall.neighbor_out up.neighbor_out priv
        else upcall Upcall.neighbor_out up.neighbor_out priv
      (ftmac100_transmit cfg priv).2
    else priv
  else if cfg.NET_ARP && cfg.eth_hdr_type priv.ft_dev.d_data == cfg.HTONS_ETHTYPE_ARP then
    let priv := upcall Upcall.arp_arpin up.arp_arpin priv
    if priv.ft_dev.d_len > 0 then (ftmac100_transmit cfg priv).2 else priv
  else priv

/-- The body of the `do ... while (0)` block of `ftmac100_receive` after the
copy: the packet tap and the dispatch on the Ethernet type. -/
def ftmac100_receive_input (cfg : Config) (up : Upstream) (priv : ftmac100_driver_s) :
    ftmac100_driver_s :=
  let priv := if cfg.NET_PKT then upcall Upcall.pkt_input up.pkt_input priv else priv
  ftmac100_receive_dispatch cfg up priv

/-- The copy of the frame into the exchange buffer at `found_segment`. -/
def ftmac100_receive_copy (cfg : Config) (priv : ftmac100_driver_s) : ftmac100_driver_s :=
  let rxdes := ftmac100_current_rxdes priv
  let len := cfg.RXDES0_RFL rxdes.rxdes0
  let data := rxdes.rxdes2
  let priv := { priv with ft_dev := { priv.ft_dev with d_data := memcpy_d_buf priv data len } }
  { priv with ft_dev := { priv.ft_dev with d_len := len } }

/-- The last four statements of `ftmac100_receive`: the cursor moves on and
the descriptor `rxdes` (the entry `slot` of the ring) goes back to the
hardware. -/
def ftmac100_receive_recycle (cfg : Config) (slot : Nat) (priv : ftmac100_driver_s) :
    ftmac100_driver_s :=
  let priv := { priv with rx_pointer := (priv.rx_pointer + 1) &&& (cfg.RX_DESC - 1) }
  let rxdes := priv.rxdes.getD slot default
  let rxdes := { rxdes with rxdes1 := rxdes.rxdes1 &&& cfg.RXDES1_EDORR }
  let rxdes := { rxdes with rxdes1 := rxdes.rxdes1 ||| cfg.RXDES1_RXBUF_SIZE RX_BUF_SIZE }
  let rxdes := { rxdes with rxdes0 := rxdes.rxdes0 ||| cfg.RXDES0_RXDMA_OWN }
  { priv with rxdes := priv.rxdes.set slot rxdes }

/-- The part of `ftmac100_receive` from the label `found_segment` on. -/
def ftmac100_receive_found (cfg : Config) (up : Upstream) (priv : ftmac100_driver_s) :
    ftmac100_driver_s :=
  let slot := priv.rx_pointer
  let priv := ftmac100_receive_copy cfg priv
  let priv := ftmac100_receive_input cfg up priv
  ftmac100_receive_recycle cfg slot priv

/-- Embedding of `ftmac100_receive`; `fuel` bounds the iterations of the scan loop. -/
def ftmac100_receive (cfg : Config) (up : Upstream) (fuel : Nat)
    (priv : ftmac100_driver_s) : Option ftmac100_driver_s :=
  match ftmac100_receive_scan cfg fuel (record Event.ftmac100_receive priv) with
  | none => none
  | some (priv, false) => some priv
  | some (priv, true) => some (ftmac100_receive_found cfg up priv)

/-- Embedding of `getreg32(&iobase->phycr)`: the next value the hardware presents, or the
value last written when the list of presented values is exhausted. -/
def getreg32_phycr (priv : ftmac100_driver_s) : Nat × ftmac100_driver_s :=
  match priv.phycr_in with
  | [] => (priv.iobase Reg.phycr, priv)
  | v :: rest => (v, { priv with phycr_in := rest })

/-- The `for` loop of `ftmac100_mdio_read`: at most `n` reads of the PHY
control register, stopping at the first one with `MIIRD` clear. -/
def ftmac100_mdio_read_loop (cfg : Config) :
    Nat → Nat → ftmac100_driver_s → Nat × ftmac100_driver_s
  | 0, phycr, priv => (phycr, priv)
  | n + 1, _, priv =>
    let r := getreg32_phycr priv
    if r.1 &&& cfg.PHYCR_MIIRD = 0 then r
    else ftmac100_mdio_read_loop cfg n r.1 r.2

/-- Embedding of `ftmac100_mdio_read` -/
def ftmac100_mdio_read (cfg : Config) (reg : Nat) (priv : ftmac100_driver_s) :
    Nat × ftmac100_driver_s :=
  let phycr := cfg.PHYCR_PHYAD 1 ||| cfg.PHYCR_REGAD reg ||| cfg.PHYCR_MIIRD
  let priv := putreg32 phycr Reg.phycr priv
  let r := ftmac100_mdio_read_loop cfg 10 phycr priv
  (r.1 &&& 0xffff, r.2)

/-- The PHY branch of `ftmac100_interrupt_process`. -/
def ftmac100_phy_status (cfg : Config) (priv : ftmac100_driver_s) : ftmac100_driver_s :=
  let r := ftmac100_mdio_read cfg 1 priv
  let phycr := r.1
  let priv := r.2
  let priv := if phycr &&& 0x04 ≠ 0 then { priv with ft_bifup := true }
    else { priv with ft_bifup := false }
  (ftmac100_mdio_read cfg 5 priv).2

/-- Embedding of `ftmac100_interrupt_process`; `fuel` bounds the scan loop of
`ftmac100_receive`. -/
def ftmac100_interrupt_process (cfg : Config) (up : Upstream) (fuel : Nat)
    (priv : ftmac100_driver_s) : Option ftmac100_driver_s :=
  let status := if cfg.NET_NOINTS then priv.status else priv.iobase Reg.isr
  if status = 0 then some (putreg32 (INT_MASK_ALL_ENABLED cfg) Reg.imr priv)
  else
    let priv := if status &&& cfg.INT_RPKT_SAV ≠ 0 then putreg32 1 Reg.rxpd priv else priv
    let rx :=
      if status &&& (cfg.INT_RPKT_FINISH ||| cfg.INT_NORXBUF) ≠ 0 then
        ftmac100_receive cfg up fuel priv
      else some priv
    match rx with
    | none => none
    | some priv =>
      let priv := if status &&& cfg.INT_XPKT_OK ≠ 0 then ftmac100_txdone cfg up priv else priv
      let priv := if status &&& cfg.INT_PHYSTS_CHG ≠ 0 then ftmac100_phy_status cfg priv
        else priv
      some (putreg32 (INT_MASK_ALL_ENABLED cfg) Reg.imr priv)

/-- A configuration used to evaluate the embedding on concrete inputs: four
descriptors per ring, inline interrupt processing, IPv4 with ARP, the bit
assignments of the FTMAC100 register and descriptor layout, and the Ethernet
type read from bytes 12 and 13 of the frame on a little-endian host. -/
def cfg4 : Config where
  TX_DESC := 4
  RX_DESC := 4
  NET_NOINTS := false
  NET_PKT := false
  NET_IPv4 := true
  NET_IPv6 := false
  NET_ARP := true
  TXDES0_TXDMA_OWN := 0x80000000
  TXDES1_EDOTR := 0x80000000
  TXDES1_FTS := 0x10000000
  TXDES1_LTS := 0x08000000
  TXDES1_TXIC := 0x40000000
  TXDES1_TXBUF_SIZE := fun x => x &&& 0x7ff
  RXDES0_RXDMA_OWN := 0x80000000
  RXDES0_FRS := 0x20000000
  RXDES0_LRS := 0x10000000
  RXDES0_RFL := fun des => des &&& 0x7ff
  RXDES1_EDORR := 0x80000000
  RXDES1_RXBUF_SIZE := fun x => x &&& 0x7ff
  INT_RPKT_FINISH := 0x001
  INT_NORXBUF := 0x002
  INT_XPKT_OK := 0x010
  INT_XPKT_LOST := 0x020
  INT_RPKT_SAV := 0x040
  INT_RPKT_LOST := 0x080
  INT_AHB_ERR := 0x100
  INT_PHYSTS_CHG := 0x200
  MACCR_XMT_EN := 0x00020
  MACCR_RCV_EN := 0x00100
  MACCR_XDMA_EN := 0x00001
  MACCR_RDMA_EN := 0x00002
  MACCR_CRC_APD := 0x04000
  MACCR_FULLDUP := 0x08000
  MACCR_RX_RUNT := 0x00400
  MACCR_RX_BROADPKT := 0x20000
  MACCR_SW_RST := 0x00004
  PHYCR_PHYAD := fun x => (x &&& 0x1f) <<< 16
  PHYCR_REGAD := fun x => (x &&& 0x1f) <<< 21
  PHYCR_MIIRD := 0x4000000
  APTC_RXPOLL_CNT := fun x => x &&& 0xf
  DBLAC_RXFIFO_LTHR := fun x => (x &&& 0x7) <<< 3
  DBLAC_RXFIFO_HTHR := fun x => (x &&& 0x7) <<< 6
  DBLAC_RX_THR_EN := 0x200
  HTONS_ETHTYPE_IP := 0x0008
  HTONS_ETHTYPE_IP6 := 0xdd86
  HTONS_ETHTYPE_ARP := 0x0608
  eth_hdr_type := fun d => d.getD 12 0 + 256 * d.getD 13 0
  IFF_IS_IPv4 := fun _ => true

/-- A network stack that does nothing: every hook leaves the device
structure as it is and the poll loops make no round. -/
def idleUp : Upstream where
  pkt_input := id
  arp_ipin := id
  ipv4_input := id
  ipv6_input := id
  arp_arpin := id
  arp_out := id
  neighbor_out := id
  devif_poll := []
  devif_timer := []

/-- A driver state with empty rings, all counters zero and everything off;
the concrete states below are updates of it. -/
def priv0 : ftmac100_driver_s where
  txdes := []
  rxdes := []
  rx_pointer := 0
  tx_pointer := 0
  tx_clean_pointer := 0
  tx_pending := 0
  ft_bifup := false
  ft_txpoll := false
  ft_txtimeout := false
  status := 0
  ft_work := none
  ft_dev := { d_buf := 0, d_data := [], d_len := 0, d_flags := 0 }
  iobase := fun _ => 0
  phycr_in := []
  irq_masked := false
  mem := fun _ => 0
  trace := []

/-- The TX ring as `ftmac100_init` leaves it for four descriptors: all
words zero, the wrap marker in the last entry. -/
def txring4 : List ftmac100_txdes_s :=
  [⟨0, 0, 0, 0⟩, ⟨0, 0, 0, 0⟩, ⟨0, 0, 0, 0⟩, ⟨0, 0x80000000, 0, 0⟩]

/-- The RX ring as `ftmac100_init` leaves it for four descriptors located at
address `0x1040` with buffers of `RX_BUF_SIZE` bytes from address `0x10000`
on: every entry hardware-owned, the wrap marker in the last one. -/
def rxring4 : List ftmac100_rxdes_s :=
  [⟨0x80000000, 0x7fc, 0x10000, 0x1050⟩, ⟨0x80000000, 0x7fc, 0x107fc, 0x1060⟩,
    ⟨0x80000000, 0x7fc, 0x10ff8, 0x1070⟩, ⟨0x80000000, 0x800007fc, 0x117f4, 0x1040⟩]

/-- A transmit descriptor is owned by the hardware: the test of
`ftmac100_txdone`. -/
def tx_hw_owned (cfg : Config) (d : ftmac100_txdes_s) : Prop :=
  d.txdes0 &&& cfg.TXDES0_TXDMA_OWN ≠ 0

instance (cfg : Config) (d : ftmac100_txdes_s) : Decidable (tx_hw_owned cfg d) := by
  unfold tx_hw_owned; infer_instance

/-- A receive descriptor is owned by the hardware: the negation of the loop
condition of `ftmac100_receive`. -/
def rx_hw_owned (cfg : Config) (d : ftmac100_rxdes_s) : Prop :=
  d.rxdes0 &&& cfg.RXDES0_RXDMA_OWN ≠ 0

instance (cfg : Config) (d : ftmac100_rxdes_s) : Decidable (rx_hw_owned cfg d) := by
  unfold rx_hw_owned; infer_instance

/-- The descriptor that the reset in `ftmac100_txdone` leaves: all words
zero except the wrap marker. -/
def txdes_reset (cfg : Config) (d : ftmac100_txdes_s) : ftmac100_txdes_s :=
  ⟨0, d.txdes1 &&& cfg.TXDES1_EDOTR, 0, 0⟩

/-- The transmissions made inside a poll loop are admitted: whenever a round
leaves a frame (`d_len > 0`), so that `ftmac100_txpoll` calls
`ftmac100_transmit`, fewer than `CONFIG_FTMAC100_TX_DESC` descriptors are
pending at that moment. -/
def poll_guarded (cfg : Config) : List PollStep → ftmac100_driver_s → Prop
  | [], _ => True
  | st :: rest, priv =>
    ((st.prep priv.ft_dev).d_len > 0 → priv.tx_pending < cfg.TX_DESC) ∧
      poll_guarded cfg rest (ftmac100_txpoll cfg st { priv with ft_dev := st.prep priv.ft_dev }).2

/-- The states reached from a freshly initialised TX ring by interleaving
`ftmac100_transmit` and `ftmac100_txdone`, where a frame is submitted only
while fewer than `CONFIG_FTMAC100_TX_DESC` descriptors are pending.  Between
the calls the hardware and the rest of the system may change anything except
the three TX bookkeeping fields and the size of the ring (`env`). -/
inductive TxReach (cfg : Config) : ftmac100_driver_s → Prop where
  | init (priv : ftmac100_driver_s) :
      priv.txdes.length = cfg.TX_DESC → priv.tx_pointer = 0 → priv.tx_clean_pointer = 0 →
      priv.tx_pending = 0 → TxReach cfg priv
  | env (priv priv1 : ftmac100_driver_s) :
      TxReach cfg priv → priv1.txdes.length = priv.txdes.length →
      priv1.tx_pointer = priv.tx_pointer → priv1.tx_clean_pointer = priv.tx_clean_pointer →
      priv1.tx_pending = priv.tx_pending → TxReach cfg priv1
  | transmit (priv : ftmac100_driver_s) :
      TxReach cfg priv → priv.tx_pending < cfg.TX_DESC →
      TxReach cfg (ftmac100_transmit cfg priv).2
  | txdone (priv : ftmac100_driver_s) (up : Upstream) :
      TxReach cfg priv →
      poll_guarded cfg up.devif_poll
        (record (Event.upcall Upcall.devif_poll
            (wd_cancel WdogId.ft_txtimeout
              (ftmac100_txdone_reclaim cfg (record Event.ftmac100_txdone priv))).ft_dev)
          (wd_cancel WdogId.ft_txtimeout
            (ftmac100_txdone_reclaim cfg (record Event.ftmac100_txdone priv)))) →
      TxReach cfg (ftmac100_txdone cfg up priv)

/-- The length of the run of software-owned transmit descriptors that starts
at index `c` and follows the ring order, counted up to `n`. -/
def sw_run (cfg : Config) (txdes : List ftmac100_txdes_s) : Nat → Nat → Nat
  | _, 0 => 0
  | c, n + 1 =>
    if tx_hw_owned cfg (txdes.getD c default) then 0
    else sw_run cfg txdes ((c + 1) % cfg.TX_DESC) n + 1

/-- Submission of a list of frames: for each length the stack sets `d_len`
and `ftmac100_transmit` is called, with no reclaim in between. -/
def submit_all (cfg : Config) : List Nat → ftmac100_driver_s → ftmac100_driver_s
  | [], priv => priv
  | l :: ls, priv =>
    submit_all cfg ls
      (ftmac100_transmit cfg { priv with ft_dev := { priv.ft_dev with d_len := l } }).2

/-- The hardware finishes with the transmit descriptor `i`: it stores the
status word `v` in `txdes0`. -/
def hw_tx_complete (i v : Nat) (priv : ftmac100_driver_s) : ftmac100_driver_s :=
  { priv with txdes := priv.txdes.set i { priv.txdes.getD i default with txdes0 := v } }

/-- The relation between the TX bookkeeping fields: at most
`CONFIG_FTMAC100_TX_DESC` descriptors are pending and the current cursor is
`tx_pending` slots ahead of the clean cursor in ring order. -/
def TxInv (cfg : Config) (priv : ftmac100_driver_s) : Prop :=
  priv.tx_pending ≤ cfg.TX_DESC ∧
    priv.tx_pointer = (priv.tx_clean_pointer + priv.tx_pending) % cfg.TX_DESC

/-- A freshly initialised state for `cfg4`: the TX ring of `ftmac100_init`,
all cursors and `tx_pending` zero, and an exchange buffer at address
`0x2000`. -/
def fresh4 : ftmac100_driver_s :=
  { priv0 with
    txdes := txring4, rxdes := rxring4,
    ft_dev := { d_buf := 0x2000, d_data := [], d_len := 0, d_flags := 0 } }

/-- The state `fresh4` with the cursors at the last slot of the ring and a
30-byte frame in the exchange buffer. -/
def txlast4 : ftmac100_driver_s :=
  { fresh4 with
    tx_pointer := 3, tx_clean_pointer := 3,
    ft_dev := { d_buf := 0x2000, d_data := [], d_len := 30, d_flags := 0 } }

/-- The network stack of `idleUp` whose poll loop makes one round that
offers no frame. -/
def emptyPollUp : Upstream :=
  { idleUp with devif_poll := [⟨fun d => { d with d_len := 0 }, id, id⟩] }

/-- A TX ring state for `cfg4` with three descriptors pending: entries 0 and
1 have been completed by the hardware, entry 2 is still hardware-owned. -/
def txbusy4 : ftmac100_driver_s :=
  { fresh4 with
    txdes := [⟨0, 0x58000040, 0x2000, 0⟩, ⟨0, 0x580005dc, 0x2000, 0⟩,
      ⟨0x80000000, 0x5800003c, 0x2000, 0⟩, ⟨0, 0x80000000, 0, 0⟩],
    tx_pointer := 3, tx_clean_pointer := 0, tx_pending := 3 }

/-- The top-level actions of interrupt processing that the trace shows: the
write to the receive-poll register, the entries of `ftmac100_receive` and
`ftmac100_txdone`, and a write to the PHY control register (one per
`ftmac100_mdio_read`). -/
inductive Action where
  | ack_rx | receive | txdone | phy
deriving DecidableEq, Repr

/-- The action that a trace entry stands for, if any. -/
def action_of : Event → Option Action
  | Event.putreg32 _ Reg.rxpd => some Action.ack_rx
  | Event.putreg32 _ Reg.phycr => some Action.phy
  | Event.ftmac100_receive => some Action.receive
  | Event.ftmac100_txdone => some Action.txdone
  | _ => none

/-- Between the states `p` and `q` the trace grew by entries that stand for
exactly the actions `acts`, in that order. -/
def Emits (p q : ftmac100_driver_s) (acts : List Action) : Prop :=
  ∃ l, q.trace = p.trace ++ l ∧ l.filterMap action_of = acts

/-- The Ethernet type found in the exchange buffer is one that
`ftmac100_receive` hands to an input handler in this configuration. -/
def rx_accepted (cfg : Config) (d : List Nat) : Prop :=
  (cfg.NET_IPv4 = true ∧ cfg.eth_hdr_type d = cfg.HTONS_ETHTYPE_IP) ∨
    (cfg.NET_IPv6 = true ∧ cfg.eth_hdr_type d = cfg.HTONS_ETHTYPE_IP6) ∨
    (cfg.NET_ARP = true ∧ cfg.eth_hdr_type d = cfg.HTONS_ETHTYPE_ARP)

/-- The first function of the network stack that the dispatch of
`ftmac100_receive` calls for a frame of an accepted type. -/
def rx_handler (cfg : Config) (d : List Nat) : Upcall :=
  if cfg.NET_IPv4 && cfg.eth_hdr_type d == cfg.HTONS_ETHTYPE_IP then Upcall.arp_ipin
  else if cfg.NET_IPv6 && cfg.eth_hdr_type d == cfg.HTONS_ETHTYPE_IP6 then Upcall.ipv6_input
  else Upcall.arp_arpin

/-- The state `q` agrees with `p` on everything that neither the receive
path nor the transmit path writes: the link flag, the poll watchdog, the
captured status, the work slot, the interrupt line, the memory, the pending
PHY reads and every register other than the transmit-poll register. -/
def Quiet (p q : ftmac100_driver_s) : Prop :=
  q.ft_bifup = p.ft_bifup ∧ q.ft_txpoll = p.ft_txpoll ∧ q.status = p.status ∧
    q.ft_work = p.ft_work ∧ q.irq_masked = p.irq_masked ∧ q.mem = p.mem ∧
    q.phycr_in = p.phycr_in ∧ ∀ r, r ≠ Reg.txpd → q.iobase r = p.iobase r

/-- The step from `p` to `q` shows no top-level action in the trace, is
`Quiet`, and leaves the RX ring and its cursor alone: what calls into the
network stack and `ftmac100_transmit` have in common. -/
def Pass (p q : ftmac100_driver_s) : Prop :=
  Emits p q [] ∧ Quiet p q ∧ q.rxdes = p.rxdes ∧ q.rx_pointer = p.rx_pointer

/-- A network stack that consumes every received frame: the input handlers
leave `d_len = 0`, all other hooks leave the device structure as it is. -/
def sinkUp : Upstream :=
  { idleUp with
    ipv4_input := fun d => { d with d_len := 0 },
    ipv6_input := fun d => { d with d_len := 0 },
    arp_arpin := fun d => { d with d_len := 0 } }

/-- The calls into the network stack that a trace shows, each with the
exchange length it was given. -/
def upcalls_of : List Event → List (Upcall × Nat)
  | [] => []
  | Event.upcall f dev :: rest => (f, dev.d_len) :: upcalls_of rest
  | _ :: rest => upcalls_of rest

/-- A memory image whose byte at address `0x1000c` is `0x08`: the buffer at
`0x10000` holds a frame with Ethernet type IPv4. -/
def mem_ip (a : Nat) : Nat := if a = 0x1000c then 8 else 0

/-- The state `fresh4` after the hardware has released entry 0 of the RX ring
with the first-segment flag set, the last-segment flag clear and a frame
length of 64. -/
def rxfirst4 : ftmac100_driver_s :=
  { fresh4 with
    rxdes := [⟨0x20000040, 0x7fc, 0x10000, 0x1050⟩, ⟨0x80000000, 0x7fc, 0x107fc, 0x1060⟩,
      ⟨0x80000000, 0x7fc, 0x10ff8, 0x1070⟩, ⟨0x80000000, 0x800007fc, 0x117f4, 0x1040⟩],
    mem := mem_ip }

/-- The state `fresh4` after the hardware has released entry 0 of the RX ring
without the first-segment flag. -/
def rxskip4 : ftmac100_driver_s :=
  { fresh4 with
    rxdes := [⟨0x10000040, 0x7fc, 0x10000, 0x1050⟩, ⟨0x80000000, 0x7fc, 0x107fc, 0x1060⟩,
      ⟨0x80000000, 0x7fc, 0x10ff8, 0x1070⟩, ⟨0x80000000, 0x800007fc, 0x117f4, 0x1040⟩],
    mem := mem_ip }

/-- The state `fresh4` after the hardware has released the last entry of the
RX ring with a complete frame (first and last segment) of length 64; the
cursor is at that entry. -/
def rxfull4 : ftmac100_driver_s :=
  { fresh4 with
    rxdes := [⟨0x80000000, 0x7fc, 0x10000, 0x1050⟩, ⟨0x80000000, 0x7fc, 0x107fc, 0x1060⟩,
      ⟨0x80000000, 0x7fc, 0x10ff8, 0x1070⟩, ⟨0x30000040, 0x800007fc, 0x10000, 0x1040⟩],
    rx_pointer := 3,
    mem := mem_ip }

/-- The trace of `q` is the trace of `p` followed by `e` and further
entries. -/
def Starts (e : Event) (p q : ftmac100_driver_s) : Prop :=
  ∃ rest, q.trace = p.trace ++ e :: rest

/-- The status that `ftmac100_interrupt_process` works on: the snapshot in
`priv->status` under `CONFIG_NET_NOINTS`, otherwise the interrupt status
register. -/
def interrupt_status (cfg : Config) (priv : ftmac100_driver_s) : Nat :=
  if cfg.NET_NOINTS then priv.status else priv.iobase Reg.isr

/-- The actions that the specification selects for a status `s`, in its
order: the receive-poll write for `RPKT_SAV`, the receive pass for
`RPKT_FINISH` or `NORXBUF`, the reclaim for `XPKT_OK`, and the two PHY reads
for `PHYSTS_CHG`. -/
def interrupt_actions (cfg : Config) (s : Nat) : List Action :=
  (if s &&& cfg.INT_RPKT_SAV ≠ 0 then [Action.ack_rx] else []) ++
    (if s &&& (cfg.INT_RPKT_FINISH ||| cfg.INT_NORXBUF) ≠ 0 then [Action.receive] else []) ++
    (if s &&& cfg.INT_XPKT_OK ≠ 0 then [Action.txdone] else []) ++
    (if s &&& cfg.INT_PHYSTS_CHG ≠ 0 then [Action.phy, Action.phy] else [])

/-- The state `rxfull4` at an interrupt whose status register shows
`RPKT_FINISH`, `XPKT_OK`, `RPKT_SAV` and `PHYSTS_CHG`; the PHY answers the
first read with `0x0004` (link up) and the second with `0`. -/
def irq4 : ftmac100_driver_s :=
  { rxfull4 with
    iobase := fun r => if r = Reg.isr then 0x251 else 0,
    phycr_in := [0x0004, 0] }

/-- Addresses and data that `ftmac100_init` and `ftmac100_ifup` take from
their surroundings: the addresses of the two descriptor arrays inside
`g_ftmac100`, the size of one receive descriptor, the block that `memalign`
returns, and the six bytes of `priv->ft_dev.d_mac.ether_addr_octet`. -/
structure Board where
  txdes_addr : Nat
  rxdes_addr : Nat
  rxdes_size : Nat
  kmem : Nat
  mac : List Nat

/-- Embedding of `ftintc010_mask_irq(CONFIG_FTMAC100_IRQ)` -/
def ftintc010_mask_irq (priv : ftmac100_driver_s) : ftmac100_driver_s :=
  record Event.mask_irq { priv with irq_masked := true }

/-- Embedding of `ftintc010_unmask_irq(CONFIG_FTMAC100_IRQ)` -/
def ftintc010_unmask_irq (priv : ftmac100_driver_s) : ftmac100_driver_s :=
  record Event.unmask_irq { priv with irq_masked := false }

/-- Modelled from the spec: the work queue of the operating system is not
among the sources.  `work_cancel(HPWORK, &priv->ft_work)` removes the unit that
waits in the single work slot, if any. -/
def work_cancel (priv : ftmac100_driver_s) : ftmac100_driver_s :=
  record Event.work_cancel { priv with ft_work := none }

/-- Modelled from the spec: `work_queue(HPWORK, &priv->ft_work, w, priv, 0)`
puts the unit `w` into the single work slot. -/
def work_queue (w : Work) (priv : ftmac100_driver_s) : ftmac100_driver_s :=
  record (Event.work_queue w) { priv with ft_work := some w }

/-- Modelled from the spec: `work_available(&priv->ft_work)` holds when no
unit waits in the work slot. -/
def work_available (priv : ftmac100_driver_s) : Bool :=
  priv.ft_work.isNone

/-- Modelled from the spec: the watchdogs are one-shot timers; when one
expires it is no longer running, and then its handler is called. -/
def wd_expire (wd : WdogId) (priv : ftmac100_driver_s) : ftmac100_driver_s :=
  match wd with
  | WdogId.ft_txpoll => { priv with ft_txpoll := false }
  | WdogId.ft_txtimeout => { priv with ft_txtimeout := false }

/-- The body of `ftmac100_interrupt_process` once `status` has been read. -/
def ftmac100_interrupt_steps (cfg : Config) (up : Upstream) (fuel : Nat) (status : Nat)
    (priv : ftmac100_driver_s) : Option ftmac100_driver_s :=
  if status = 0 then some (putreg32 (INT_MASK_ALL_ENABLED cfg) Reg.imr priv)
  else
    let priv := if status &&& cfg.INT_RPKT_SAV ≠ 0 then putreg32 1 Reg.rxpd priv else priv
    let rx :=
      if status &&& (cfg.INT_RPKT_FINISH ||| cfg.INT_NORXBUF) ≠ 0 then
        ftmac100_receive cfg up fuel priv
      else some priv
    match rx with
    | none => none
    | some priv =>
      let priv := if status &&& cfg.INT_XPKT_OK ≠ 0 then ftmac100_txdone cfg up priv else priv
      let priv := if status &&& cfg.INT_PHYSTS_CHG ≠ 0 then ftmac100_phy_status cfg priv
        else priv
      some (putreg32 (INT_MASK_ALL_ENABLED cfg) Reg.imr priv)

/-- Embedding of `ftmac100_interrupt_work` (only under `CONFIG_NET_NOINTS`) -/
def ftmac100_interrupt_work (cfg : Config) (up : Upstream) (fuel : Nat)
    (priv : ftmac100_driver_s) : Option ftmac100_driver_s :=
  match ftmac100_interrupt_process cfg up fuel priv with
  | none => none
  | some priv => some (ftintc010_unmask_irq priv)

/-- Embedding of `ftmac100_interrupt`; the function returns `OK`, the result
here is the state it leaves (`none` when the receive scan of the inline
processing exceeds `fuel`). -/
def ftmac100_interrupt (cfg : Config) (up : Upstream) (fuel : Nat)
    (priv : ftmac100_driver_s) : Option ftmac100_driver_s :=
  if cfg.NET_NOINTS then
    let priv := { priv with status := priv.iobase Reg.isr }
    let priv := ftintc010_mask_irq priv
    let priv := putreg32 INT_MASK_ALL_DISABLED Reg.imr priv
    let priv :=
      if priv.status &&& cfg.INT_XPKT_OK ≠ 0 then wd_cancel WdogId.ft_txtimeout priv else priv
    let priv := work_cancel priv
    let priv := work_queue Work.ftmac100_interrupt_work priv
    some priv
  else
    let priv := putreg32 INT_MASK_ALL_DISABLED Reg.imr priv
    ftmac100_interrupt_process cfg up fuel priv

/-- Embedding of `ftmac100_txtimeout_process` -/
def ftmac100_txtimeout_process (cfg : Config) (up : Upstream) (priv : ftmac100_driver_s) :
    ftmac100_driver_s :=
  devif_poll cfg up priv

/-- Embedding of `ftmac100_txtimeout_work` (only under `CONFIG_NET_NOINTS`) -/
def ftmac100_txtimeout_work (cfg : Config) (up : Upstream) (priv : ftmac100_driver_s) :
    ftmac100_driver_s :=
  ftmac100_txtimeout_process cfg up priv

/-- Embedding of `ftmac100_txtimeout_expiry` -/
def ftmac100_txtimeout_expiry (cfg : Config) (up : Upstream) (priv : ftmac100_driver_s) :
    ftmac100_driver_s :=
  if cfg.NET_NOINTS then
    let priv := ftintc010_mask_irq priv
    let priv := work_cancel priv
    work_queue Work.ftmac100_txtimeout_work priv
  else ftmac100_txtimeout_process cfg up priv

/-- Embedding of `ftmac100_poll_process` -/
def ftmac100_poll_process (cfg : Config) (up : Upstream) (priv : ftmac100_driver_s) :
    ftmac100_driver_s :=
  let priv := devif_timer cfg up priv
  wd_start WdogId.ft_txpoll priv

/-- Embedding of `ftmac100_poll_work` (only under `CONFIG_NET_NOINTS`) -/
def ftmac100_poll_work (cfg : Config) (up : Upstream) (priv : ftmac100_driver_s) :
    ftmac100_driver_s :=
  ftmac100_poll_process cfg up priv

/-- Embedding of `ftmac100_poll_expiry` -/
def ftmac100_poll_expiry (cfg : Config) (up : Upstream) (priv : ftmac100_driver_s) :
    ftmac100_driver_s :=
  if cfg.NET_NOINTS then
    if work_available priv then work_queue Work.ftmac100_poll_work priv
    else wd_start WdogId.ft_txpoll priv
  else ftmac100_poll_process cfg up priv

/-- Embedding of `ftmac100_txavail_process` -/
def ftmac100_txavail_process (cfg : Config) (up : Upstream) (priv : ftmac100_driver_s) :
    ftmac100_driver_s :=
  if priv.ft_bifup then devif_poll cfg up priv else priv

/-- Embedding of `ftmac100_txavail_work` (only under `CONFIG_NET_NOINTS`) -/
def ftmac100_txavail_work (cfg : Config) (up : Upstream) (priv : ftmac100_driver_s) :
    ftmac100_driver_s :=
  ftmac100_txavail_process cfg up priv

/-- Embedding of `ftmac100_txavail`; the function returns `OK`. -/
def ftmac100_txavail (cfg : Config) (up : Upstream) (priv : ftmac100_driver_s) :
    ftmac100_driver_s :=
  if cfg.NET_NOINTS then
    if work_available priv then work_queue Work.ftmac100_txavail_work priv else priv
  else ftmac100_txavail_process cfg up priv

/-- Modelled from the spec: the worker of the operating system takes the unit
out of the work slot and runs it; with an empty slot it does nothing. -/
def work_run (cfg : Config) (up : Upstream) (fuel : Nat) (priv : ftmac100_driver_s) :
    Option ftmac100_driver_s :=
  match priv.ft_work with
  | none => some priv
  | some Work.ftmac100_interrupt_work =>
    ftmac100_interrupt_work cfg up fuel { priv with ft_work := none }
  | some Work.ftmac100_txtimeout_work =>
    some (ftmac100_txtimeout_work cfg up { priv with ft_work := none })
  | some Work.ftmac100_poll_work =>
    some (ftmac100_poll_work cfg up { priv with ft_work := none })
  | some Work.ftmac100_txavail_work =>
    some (ftmac100_txavail_work cfg up { priv with ft_work := none })

/-- The body of the first loop of `ftmac100_init` for the receive descriptor
`i`. -/
def ftmac100_init_rxdes (cfg : Config) (bd : Board) (i : Nat) (priv : ftmac100_driver_s) :
    ftmac100_driver_s :=
  let rxdes := priv.rxdes.getD i default
  let rxdes := { rxdes with rxdes0 := cfg.RXDES0_RXDMA_OWN }
  let rxdes := { rxdes with
    rxdes1 := rxdes.rxdes1 ||| cfg.RXDES1_RXBUF_SIZE RX_BUF_SIZE }
  let rxdes := { rxdes with rxdes2 := bd.kmem + i * RX_BUF_SIZE }
  let rxdes := { rxdes with rxdes3 := bd.rxdes_addr + (i + 1) * bd.rxdes_size }
  { priv with rxdes := priv.rxdes.set i rxdes }

/-- The first loop of `ftmac100_init`, over the receive descriptors. -/
def ftmac100_init_rxloop (cfg : Config) (bd : Board) (priv : ftmac100_driver_s) :
    ftmac100_driver_s :=
  (List.range cfg.RX_DESC).foldl (fun priv i => ftmac100_init_rxdes cfg bd i priv) priv

/-- The body of the second loop of `ftmac100_init` for the transmit
descriptor `i`. -/
def ftmac100_init_txdes (i : Nat) (priv : ftmac100_driver_s) : ftmac100_driver_s :=
  let txdes := priv.txdes.getD i default
  let txdes := { txdes with txdes0 := 0 }
  let txdes := { txdes with txdes1 := 0 }
  let txdes := { txdes with txdes2 := 0 }
  let txdes := { txdes with txdes3 := 0 }
  { priv with txdes := priv.txdes.set i txdes }

/-- The second loop of `ftmac100_init`, over the transmit descriptors. -/
def ftmac100_init_txloop (cfg : Config) (priv : ftmac100_driver_s) : ftmac100_driver_s :=
  (List.range cfg.TX_DESC).foldl (fun priv i => ftmac100_init_txdes i priv) priv

/-- Embedding of `ftmac100_init` -/
def ftmac100_init (cfg : Config) (bd : Board) (priv : ftmac100_driver_s) :
    ftmac100_driver_s :=
  let priv := putreg32 0 Reg.imr priv
  let priv := { priv with rx_pointer := 0 }
  let priv := { priv with tx_pointer := 0 }
  let priv := { priv with tx_clean_pointer := 0 }
  let priv := { priv with tx_pending := 0 }
  let last := priv.rxdes.getD (cfg.RX_DESC - 1) default
  let priv := { priv with
    rxdes := priv.rxdes.set (cfg.RX_DESC - 1) { last with rxdes1 := cfg.RXDES1_EDORR } }
  let priv := ftmac100_init_rxloop cfg bd priv
  let last := priv.rxdes.getD (cfg.RX_DESC - 1) default
  let priv := { priv with
    rxdes := priv.rxdes.set (cfg.RX_DESC - 1) { last with rxdes3 := bd.rxdes_addr } }
  let priv := ftmac100_init_txloop cfg priv
  let last := priv.txdes.getD (cfg.TX_DESC - 1) default
  let priv := { priv with
    txdes := priv.txdes.set (cfg.TX_DESC - 1) { last with txdes1 := cfg.TXDES1_EDOTR } }
  let priv := putreg32 bd.txdes_addr Reg.txr_badr priv
  let priv := putreg32 bd.rxdes_addr Reg.rxr_badr priv
  let priv := putreg32 (cfg.APTC_RXPOLL_CNT 1) Reg.aptc priv
  let priv := putreg32
    (cfg.DBLAC_RXFIFO_LTHR 2 ||| cfg.DBLAC_RXFIFO_HTHR 6 ||| cfg.DBLAC_RX_THR_EN) Reg.dblac priv
  let priv := putreg32 (MACCR_ENABLE_ALL cfg) Reg.maccr priv
  putreg32 (INT_MASK_ALL_ENABLED cfg) Reg.imr priv

/-- Embedding of `ftmac100_set_mac` -/
def ftmac100_set_mac (mac : List Nat) (priv : ftmac100_driver_s) : ftmac100_driver_s :=
  let maddr := (mac.getD 0 0 <<< 8 ||| mac.getD 1 0) % 2 ^ 32
  let laddr :=
    (mac.getD 2 0 <<< 24 ||| mac.getD 3 0 <<< 16 ||| mac.getD 4 0 <<< 8 ||| mac.getD 5 0) % 2 ^ 32
  let priv := putreg32 maddr Reg.mac_madr priv
  putreg32 laddr Reg.mac_ladr priv

/-- Embedding of `ftmac100_ifup`.  `ftmac100_ipv6multicast` only calls
`ftmac100_addmac`, which returns `OK` without touching anything, and the two
`ftintc010_set_trig_*` calls program the trigger of the interrupt controller,
which is not part of the state. -/
def ftmac100_ifup (cfg : Config) (bd : Board) (priv : ftmac100_driver_s) :
    Int × ftmac100_driver_s :=
  let priv := ftmac100_init cfg bd priv
  let priv := ftmac100_set_mac bd.mac priv
  let priv := wd_start WdogId.ft_txpoll priv
  let priv := { priv with ft_bifup := true }
  let priv := ftintc010_unmask_irq priv
  (OK, priv)

/-- Embedding of `ftmac100_ifdown` -/
def ftmac100_ifdown (priv : ftmac100_driver_s) : Int × ftmac100_driver_s :=
  let priv := ftintc010_mask_irq priv
  let priv := wd_cancel WdogId.ft_txpoll priv
  let priv := wd_cancel WdogId.ft_txtimeout priv
  let priv := putreg32 0 Reg.maccr priv
  let priv := { priv with ft_bifup := false }
  (OK, priv)

/-- The step of a cursor: `(i + 1) & (n - 1)`, the expression that
`ftmac100_transmit`, `ftmac100_txdone` and `ftmac100_receive` use with
`n = CONFIG_FTMAC100_TX_DESC` or `CONFIG_FTMAC100_RX_DESC`. -/
def cursor_advance (n i : Nat) : Nat :=
  (i + 1) &&& (n - 1)

/-- The state `txbusy4` with the TX-timeout watchdog running. -/
def txbusy4_armed : ftmac100_driver_s :=
  { txbusy4 with ft_txtimeout := true }

/-- The configuration `cfg4` with `CONFIG_NET_NOINTS` selected: interrupt
processing is deferred to the worker. -/
def cfg4d : Config :=
  { cfg4 with NET_NOINTS := true }

/-- Modelled from the spec: the device raises its interrupt with the value `v`
in the interrupt status register. -/
def hw_set_isr (v : Nat) (priv : ftmac100_driver_s) : ftmac100_driver_s :=
  { priv with iobase := fun r => if r = Reg.isr then v else priv.iobase r }

/-- Two interrupts in a row, the first with status `a`, the second with status
`b`, and no run of the worker in between. -/
def two_interrupts (cfg : Config) (up : Upstream) (fuel : Nat) (a b : Nat)
    (priv : ftmac100_driver_s) : Option ftmac100_driver_s :=
  (ftmac100_interrupt cfg up fuel (hw_set_isr a priv)).bind
    (fun s => ftmac100_interrupt cfg up fuel (hw_set_isr b s))

/-- One firing of the TX-timeout watchdog: the watchdog stops running,
`ftmac100_txtimeout_expiry` is called, and under `CONFIG_NET_NOINTS` the worker
then runs the unit that the handler queued. -/
def txtimeout_fires (cfg : Config) (up : Upstream) (fuel : Nat) (priv : ftmac100_driver_s) :
    Option ftmac100_driver_s :=
  let priv := ftmac100_txtimeout_expiry cfg up (wd_expire WdogId.ft_txtimeout priv)
  if cfg.NET_NOINTS then work_run cfg up fuel priv else some priv

/-- The trace entry is a call of `devif_poll`. -/
def is_poll_call : Event → Bool
  | Event.upcall Upcall.devif_poll _ => true
  | _ => false

/-- Every start of the TX-timeout watchdog in the trace segment `l` comes
after an entry of `ftmac100_transmit` in the same segment. -/
def armed_by_transmit (l : List Event) : Prop :=
  ∀ l1 l2, l = l1 ++ Event.wd_start WdogId.ft_txtimeout :: l2 → Event.ftmac100_transmit ∈ l1

/-- Between `p` and `q` the trace grew by a segment without a call of
`devif_poll`, in which the TX-timeout watchdog is started only after an entry
of `ftmac100_transmit`, and the watchdog is in the state it had unless
`ftmac100_transmit` was entered. -/
def Polled (p q : ftmac100_driver_s) : Prop :=
  ∃ l, q.trace = p.trace ++ l ∧ l.countP is_poll_call = 0 ∧ armed_by_transmit l ∧
    (q.ft_txtimeout = p.ft_txtimeout ∨ Event.ftmac100_transmit ∈ l) ∧
    (Event.ftmac100_transmit ∈ l → p.tx_pending < q.tx_pending)

/-- Addresses for `cfg4`: the TX ring at `0x1000`, the RX ring at `0x1040`
with descriptors of 16 bytes, the receive buffers from `0x10000` on, and the
station address `00:01:02:03:04:05`. -/
def board4 : Board where
  txdes_addr := 0x1000
  rxdes_addr := 0x1040
  rxdes_size := 16
  kmem := 0x10000
  mac := [0, 1, 2, 3, 4, 5]

/-- The state that `ftmac100_initialize` leaves for `cfg4`: the whole device
structure zeroed. -/
def zeroed4 : ftmac100_driver_s :=
  { priv0 with
    txdes := [⟨0, 0, 0, 0⟩, ⟨0, 0, 0, 0⟩, ⟨0, 0, 0, 0⟩, ⟨0, 0, 0, 0⟩],
    rxdes := [⟨0, 0, 0, 0⟩, ⟨0, 0, 0, 0⟩, ⟨0, 0, 0, 0⟩, ⟨0, 0, 0, 0⟩] }

/-- From `p` to `q` the number of pending transmit descriptors grew by at
most `n`. -/
structure Adds (n : Nat) (p q : ftmac100_driver_s) : Prop where
  le : q.tx_pending ≤ p.tx_pending + n

/-- The network stack of `idleUp` whose poll loop makes one round that
offers a frame of 64 bytes. -/
def framePollUp : Upstream :=
  { idleUp with devif_poll := [⟨fun d => { d with d_len := 64 }, id, id⟩] }

/-- The device of `cfg4d` after bring-up from the zeroed structure. -/
def up4d : ftmac100_driver_s :=
  (ftmac100_ifup cfg4d board4 zeroed4).2

/-- A run of three steps in deferred mode from `up4d`: the poll watchdog
fires, then the device raises an interrupt with status `0x01` before the
worker has run, then the worker runs the unit in the work slot. -/
def poll_then_interrupt : Option ftmac100_driver_s :=
  (ftmac100_interrupt cfg4d idleUp 5
      (hw_set_isr 0x01 (ftmac100_poll_expiry cfg4d idleUp (wd_expire WdogId.ft_txpoll up4d)))).bind
    (work_run cfg4d idleUp 5)

/-- The state `p` with the captured status, the flag of the interrupt line
and the work slot replaced, and with `pre` put in front of the trace: the
fields in which the state that `ftmac100_interrupt_process` starts from differs
between the two modes, apart from the TX-timeout watchdog. -/
def vary (st : Nat) (m : Bool) (w : Option Work) (pre : List Event)
    (p : ftmac100_driver_s) : ftmac100_driver_s :=
  { p with status := st, irq_masked := m, ft_work := w, trace := pre ++ p.trace }

/-- The state `p` with the TX-timeout watchdog running or not as `x` says. -/
def settm (x : Bool) (p : ftmac100_driver_s) : ftmac100_driver_s :=
  { p with ft_txtimeout := x }

/-- Handling of one interrupt with status `s` in deferred mode:
`ftmac100_interrupt` captures the status and the worker runs the queued unit
before anything else happens. -/
def interrupt_deferred_run (cfg : Config) (up : Upstream) (fuel : Nat) (s : Nat)
    (priv : ftmac100_driver_s) : Option ftmac100_driver_s :=
  (ftmac100_interrupt { cfg with NET_NOINTS := true } up fuel (hw_set_isr s priv)).bind
    (work_run { cfg with NET_NOINTS := true } up fuel)

/-- Handling of one interrupt with status `s` in inline mode. -/
def interrupt_inline_run (cfg : Config) (up : Upstream) (fuel : Nat) (s : Nat)
    (priv : ftmac100_driver_s) : Option ftmac100_driver_s :=
  ftmac100_interrupt { cfg with NET_NOINTS := false } up fuel (hw_set_isr s priv)

/-- The state `fresh4` after the hardware has released all four entries of the
RX ring, none with the first-segment flag; the cursor is at entry 2. -/
def rxallskip4 : ftmac100_driver_s :=
  { fresh4 with
    rxdes := [⟨0x10000040, 0x7fc, 0x10000, 0x1050⟩, ⟨0x10000040, 0x7fc, 0x107fc, 0x1060⟩,
      ⟨0x10000040, 0x7fc, 0x10ff8, 0x1070⟩, ⟨0x10000040, 0x800007fc, 0x117f4, 0x1040⟩],
    rx_pointer := 2 }

/-- The input handlers that the dispatch inside `ftmac100_receive` calls for
the frame in the exchange buffer, up to the test of `d_len`: `arp_ipin` and
`ipv4_input` for an IPv4 frame, `ipv6_input` for an IPv6 frame, `arp_arpin` for
an ARP frame, nothing for any other type. -/
def ftmac100_receive_handlers (cfg : Config) (up : Upstream) (priv : ftmac100_driver_s) :
    ftmac100_driver_s :=
  if cfg.NET_IPv4 && cfg.eth_hdr_type priv.ft_dev.d_data == cfg.HTONS_ETHTYPE_IP then
    upcall Upcall.ipv4_input up.ipv4_input (upcall Upcall.arp_ipin up.arp_ipin priv)
  else if cfg.NET_IPv6 && cfg.eth_hdr_type priv.ft_dev.d_data == cfg.HTONS_ETHTYPE_IP6 then
    upcall Upcall.ipv6_input up.ipv6_input priv
  else if cfg.NET_ARP && cfg.eth_hdr_type priv.ft_dev.d_data == cfg.HTONS_ETHTYPE_ARP then
    upcall Upcall.arp_arpin up.arp_arpin priv
  else priv

/-- The trace entry is a call of one of the input functions of the network
layer: `ipv4_input`, `ipv6_input` or `arp_arpin`. -/
def is_input_call : Event → Bool
  | Event.upcall Upcall.ipv4_input _ => true
  | Event.upcall Upcall.ipv6_input _ => true
  | Event.upcall Upcall.arp_arpin _ => true
  | _ => false

/-- The trace entry is a call of the packet tap `pkt_input`. -/
def is_tap_call : Event → Bool
  | Event.upcall Upcall.pkt_input _ => true
  | _ => false

/-- The trace entry is an entry of `ftmac100_transmit`. -/
def is_transmit_entry : Event → Bool
  | Event.ftmac100_transmit => true
  | _ => false

/-- The trace entry unmasks the interrupt line or writes the interrupt mask
register. -/
def is_line_event : Event → Bool
  | Event.unmask_irq => true
  | Event.putreg32 _ Reg.imr => true
  | _ => false

/-- From `p` to `q` the number of trace entries that satisfy `f` grew by at
most `n`. -/
structure Cnt (f : Event → Bool) (n : Nat) (p q : ftmac100_driver_s) : Prop where
  le : q.trace.countP f ≤ p.trace.countP f + n

/-- The state `q` has the TX ring, both TX cursors and `tx_pending` of `p`. -/
structure TxSame (p q : ftmac100_driver_s) : Prop where
  ring : q.txdes = p.txdes
  cur : q.tx_pointer = p.tx_pointer
  clean : q.tx_clean_pointer = p.tx_clean_pointer
  pending : q.tx_pending = p.tx_pending

/-- The packet tap at the head of the `do ... while (0)` block of
`ftmac100_receive`: under `CONFIG_NET_PKT` the frame goes to `pkt_input`. -/
def ftmac100_receive_tap (cfg : Config) (up : Upstream) (priv : ftmac100_driver_s) :
    ftmac100_driver_s :=
  if cfg.NET_PKT then upcall Upcall.pkt_input up.pkt_input priv else priv

/-- The state `fresh4` after the hardware has released entries 0 and 1 of the
RX ring, each with a complete frame (first and last segment) of length 64; the
cursor is at entry 0. -/
def rxtwo4 : ftmac100_driver_s :=
  { fresh4 with
    rxdes := [⟨0x30000040, 0x7fc, 0x10000, 0x1050⟩, ⟨0x30000040, 0x7fc, 0x107fc, 0x1060⟩,
      ⟨0x80000000, 0x7fc, 0x10ff8, 0x1070⟩, ⟨0x80000000, 0x800007fc, 0x117f4, 0x1040⟩],
    mem := mem_ip }

/-- The input function of the network layer that the dispatch of
`ftmac100_receive` calls for a frame of an accepted type. -/
def rx_input (cfg : Config) (d : List Nat) : Upcall :=
  if cfg.NET_IPv4 && cfg.eth_hdr_type d == cfg.HTONS_ETHTYPE_IP then Upcall.ipv4_input
  else if cfg.NET_IPv6 && cfg.eth_hdr_type d == cfg.HTONS_ETHTYPE_IP6 then Upcall.ipv6_input
  else Upcall.arp_arpin

/-- The calls that the dispatch of `ftmac100_receive` makes before the input
function: `arp_ipin` for an IPv4 frame, none otherwise. -/
def rx_before_input (cfg : Config) (dev : net_driver_s) : List Event :=
  if cfg.NET_IPv4 && cfg.eth_hdr_type dev.d_data == cfg.HTONS_ETHTYPE_IP then
    [Event.upcall Upcall.arp_ipin dev]
  else []

/-- The device structure that the dispatch of `ftmac100_receive` passes to the
input function: for an IPv4 frame `arp_ipin` has been called on it before. -/
def rx_input_dev (cfg : Config) (up : Upstream) (dev : net_driver_s) : net_driver_s :=
  if cfg.NET_IPv4 && cfg.eth_hdr_type dev.d_data == cfg.HTONS_ETHTYPE_IP then up.arp_ipin dev
  else dev

/-- The reply of a receive pass is admitted: when the scan of
`ftmac100_receive` stops at a frame of an accepted type and the input function
leaves `d_len > 0`, so that `ftmac100_transmit` is called, fewer than
`CONFIG_FTMAC100_TX_DESC` descriptors are pending. -/
def receive_guarded (cfg : Config) (up : Upstream) (fuel : Nat) (priv : ftmac100_driver_s) :
    Prop :=
  match ftmac100_receive_scan cfg fuel (record Event.ftmac100_receive priv) with
  | some (priv1, true) =>
    rx_accepted cfg
        (ftmac100_receive_tap cfg up (ftmac100_receive_copy cfg priv1)).ft_dev.d_data →
      0 < (ftmac100_receive_handlers cfg up
        (ftmac100_receive_tap cfg up (ftmac100_receive_copy cfg priv1))).ft_dev.d_len →
      priv.tx_pending < cfg.TX_DESC
  | _ => True

/-- The transmissions of the poll at the end of `ftmac100_txdone` are admitted:
`poll_guarded` for the state that the reclaim loop and the `wd_cancel` leave. -/
def txdone_guarded (cfg : Config) (up : Upstream) (priv : ftmac100_driver_s) : Prop :=
  poll_guarded cfg up.devif_poll
    (record (Event.upcall Upcall.devif_poll
        (wd_cancel WdogId.ft_txtimeout
          (ftmac100_txdone_reclaim cfg (record Event.ftmac100_txdone priv))).ft_dev)
      (wd_cancel WdogId.ft_txtimeout
        (ftmac100_txdone_reclaim cfg (record Event.ftmac100_txdone priv))))

/-- The transmissions of one run of `ftmac100_interrupt_process` are admitted:
the reply of the receive pass, if the status selects one, and the
transmissions of the poll of `ftmac100_txdone`, if the status selects it,
taken at the state in which that function is entered. -/
def interrupt_guarded (cfg : Config) (up : Upstream) (fuel : Nat) (priv : ftmac100_driver_s) :
    Prop :=
  let status := interrupt_status cfg priv
  let priv1 := if status &&& cfg.INT_RPKT_SAV ≠ 0 then putreg32 1 Reg.rxpd priv else priv
  status ≠ 0 →
    (status &&& (cfg.INT_RPKT_FINISH ||| cfg.INT_NORXBUF) ≠ 0 →
      receive_guarded cfg up fuel priv1) ∧
    (status &&& cfg.INT_XPKT_OK ≠ 0 →
      match (if status &&& (cfg.INT_RPKT_FINISH ||| cfg.INT_NORXBUF) ≠ 0 then
          ftmac100_receive cfg up fuel priv1 else some priv1) with
      | some priv2 => txdone_guarded cfg up priv2
      | none => True)

/-- The ring of `cfg4` completely filled by four submissions that the hardware
has all completed: four descriptors pending, every one software-owned. -/
def txfull4done : ftmac100_driver_s :=
  hw_tx_complete 3 0 (hw_tx_complete 2 0 (hw_tx_complete 1 0 (hw_tx_complete 0 0
    (submit_all cfg4 [64, 64, 64, 64] fresh4))))

/-- The shape of the two rings that the driver maintains: each has its
configured length, and `rxdes1` of every receive descriptor except the last
holds no bit outside `RXBUF_SIZE(RX_BUF_SIZE)`. -/
def RingShape (cfg : Config) (priv : ftmac100_driver_s) : Prop :=
  priv.rxdes.length = cfg.RX_DESC ∧ priv.txdes.length = cfg.TX_DESC ∧
    ∀ i, i + 1 < cfg.RX_DESC →
      (priv.rxdes.getD i default).rxdes1 ||| cfg.RXDES1_RXBUF_SIZE RX_BUF_SIZE =
        cfg.RXDES1_RXBUF_SIZE RX_BUF_SIZE

/-- The states that the device structure can be in.  `ftmac100_initialize`
clears the whole structure with `memset`, so both rings start with every word
zero.  From there the system calls the entry points of the driver in any
order: `ftmac100_ifup`, `ftmac100_ifdown`, `ftmac100_txavail`, the interrupt
handler, the two watchdog handlers and the worker.  In between, the hardware
and the rest of the system may change anything except the lengths of the rings
and the words `rxdes1`, which only the driver writes (`env`). -/
inductive Reach (cfg : Config) : ftmac100_driver_s → Prop where
  | zeroed (priv : ftmac100_driver_s) :
      priv.rxdes = List.replicate cfg.RX_DESC ⟨0, 0, 0, 0⟩ →
      priv.txdes = List.replicate cfg.TX_DESC ⟨0, 0, 0, 0⟩ → Reach cfg priv
  | env (priv priv1 : ftmac100_driver_s) :
      Reach cfg priv → priv1.txdes.length = priv.txdes.length →
      priv1.rxdes.map (fun d => d.rxdes1) = priv.rxdes.map (fun d => d.rxdes1) →
      Reach cfg priv1
  | ifup (priv : ftmac100_driver_s) (bd : Board) :
      Reach cfg priv → Reach cfg (ftmac100_ifup cfg bd priv).2
  | ifdown (priv : ftmac100_driver_s) :
      Reach cfg priv → Reach cfg (ftmac100_ifdown priv).2
  | txavail (priv : ftmac100_driver_s) (up : Upstream) :
      Reach cfg priv → Reach cfg (ftmac100_txavail cfg up priv)
  | interrupt (priv priv1 : ftmac100_driver_s) (up : Upstream) (fuel : Nat) :
      Reach cfg priv → ftmac100_interrupt cfg up fuel priv = some priv1 → Reach cfg priv1
  | txtimeout (priv : ftmac100_driver_s) (up : Upstream) :
      Reach cfg priv → Reach cfg (ftmac100_txtimeout_expiry cfg up priv)
  | poll (priv : ftmac100_driver_s) (up : Upstream) :
      Reach cfg priv → Reach cfg (ftmac100_poll_expiry cfg up priv)
  | work (priv priv1 : ftmac100_driver_s) (up : Upstream) (fuel : Nat) :
      Reach cfg priv → work_run cfg up fuel priv = some priv1 → Reach cfg priv1

/-- The state `q` has rings of the lengths of those of `p`, and every receive
descriptor has the `rxdes1` it has in `p`. -/
structure Keeps (p q : ftmac100_driver_s) : Prop where
  rxlen : q.rxdes.length = p.rxdes.length
  txlen : q.txdes.length = p.txdes.length
  rx1 : ∀ i, (q.rxdes.getD i default).rxdes1 = (p.rxdes.getD i default).rxdes1

/-- Addresses for a later bring-up of the device of `board4`: the descriptor
arrays are where they were, and `memalign`, called again while the block at
`0x10000` is still allocated, returns the block at `0x20000`. -/
def board4b : Board :=
  { board4 with kmem := 0x20000 }

/-! Auxiliary facts -/

theorem getD_set_eq_ite {α : Type} (l : List α) (i j : Nat) (a d : α) :
    (l.set i a).getD j d = if i = j ∧ i < l.length then a else l.getD j d := by
  simp only [List.getD_eq_getElem?_getD, List.getElem?_set]
  by_cases hij : i = j
  · by_cases hlt : i < l.length
    · simp [hij, hlt] at *
      simp [hlt]
    · subst hij
      have : l[i]? = none := by simp; omega
      simp [hlt, this]
  · simp [hij]

theorem and_mask_idem (a m : Nat) : a &&& m &&& m = a &&& m := by
  rw [Nat.and_assoc, Nat.and_self]

theorem or_and_self (a b : Nat) : (a ||| b) &&& b = b := by
  apply Nat.eq_of_testBit_eq
  intro i
  rw [Nat.testBit_and, Nat.testBit_or]
  cases a.testBit i <;> cases b.testBit i <;> rfl

theorem or_and_distrib (a b c : Nat) : (a ||| b) &&& c = (a &&& c) ||| (b &&& c) := by
  apply Nat.eq_of_testBit_eq
  intro i
  simp only [Nat.testBit_and, Nat.testBit_or]
  cases a.testBit i <;> cases b.testBit i <;> cases c.testBit i <;> rfl

theorem mask_or_keeps (a b m : Nat) (h : b &&& m = 0) :
    ((a &&& m) ||| b) &&& m = a &&& m := by
  rw [or_and_distrib, and_mask_idem, h, Nat.or_zero]

theorem and_pred_pow2 (x n : Nat) (h : ∃ k, n = 2 ^ k) : x &&& (n - 1) = x % n := by
  obtain ⟨k, rfl⟩ := h
  exact Nat.and_pow_two_sub_one_eq_mod x k

theorem txdes_reset_idem (cfg : Config) (d : ftmac100_txdes_s) :
    txdes_reset cfg (txdes_reset cfg d) = txdes_reset cfg d := by
  simp [txdes_reset, and_mask_idem]

/-- The reclaim loop needs no more than `tx_pending` iterations: any larger
bound gives the same result. -/
theorem txdone_loop_fuel (cfg : Config) (fuel : Nat) (priv : ftmac100_driver_s)
    (h : priv.tx_pending ≤ fuel) :
    ftmac100_txdone_loop cfg fuel priv = ftmac100_txdone_reclaim cfg priv := by
  unfold ftmac100_txdone_reclaim
  induction fuel generalizing priv with
  | zero =>
    have : priv.tx_pending = 0 := by omega
    rw [this]
  | succ n ih =>
    by_cases hp : priv.tx_pending = 0
    · rw [hp]; simp [ftmac100_txdone_loop, hp]
    · obtain ⟨p, hp1⟩ := Nat.exists_eq_succ_of_ne_zero hp
      rw [hp1]
      simp only [ftmac100_txdone_loop, hp]
      by_cases ho : (ftmac100_current_clean_txdes priv).txdes0 &&& cfg.TXDES0_TXDMA_OWN = 0
      · simp only [ho, ne_eq, not_true_eq_false, if_false]
        rw [ih _ (by simp; omega)]
        simp [hp1]
      · simp [ho]

theorem txdone_loop_keeps_hw (cfg : Config) (fuel : Nat) (priv : ftmac100_driver_s) (i : Nat)
    (h : tx_hw_owned cfg (priv.txdes.getD i default)) :
    (ftmac100_txdone_loop cfg fuel priv).txdes.getD i default = priv.txdes.getD i default := by
  induction fuel generalizing priv with
  | zero => rfl
  | succ n ih =>
    simp only [ftmac100_txdone_loop]
    by_cases hp : priv.tx_pending = 0
    · simp [hp]
    · by_cases ho : (ftmac100_current_clean_txdes priv).txdes0 &&& cfg.TXDES0_TXDMA_OWN = 0
      · simp only [hp, ho, ne_eq, not_true_eq_false, if_false]
        have hne : ¬ (priv.tx_clean_pointer = i ∧ priv.tx_clean_pointer < priv.txdes.length) := by
          rintro ⟨rfl, _⟩
          exact h ho
        rw [ih]
        · simp only [getD_set_eq_ite, hne, if_false]
        · simp only [getD_set_eq_ite, hne, if_false]
          exact h
      · simp [hp, ho]

/-! Claims -/

/-- C2: the reclaim loop of `ftmac100_txdone` leaves every transmit descriptor
that is hardware-owned before the call with all four words unchanged. -/
theorem reclaim_keeps_hardware_owned (cfg : Config) (priv : ftmac100_driver_s) (i : Nat)
    (h : tx_hw_owned cfg (priv.txdes.getD i default)) :
    (ftmac100_txdone_reclaim cfg priv).txdes.getD i default = priv.txdes.getD i default :=
  txdone_loop_keeps_hw cfg priv.tx_pending priv i h

theorem TxInv_congr (cfg : Config) (priv priv1 : ftmac100_driver_s)
    (h : TxInv cfg priv) (h1 : priv1.tx_pointer = priv.tx_pointer)
    (h2 : priv1.tx_clean_pointer = priv.tx_clean_pointer)
    (h3 : priv1.tx_pending = priv.tx_pending) : TxInv cfg priv1 := by
  unfold TxInv at *
  rw [h1, h2, h3]
  exact h

theorem TxInv_transmit (cfg : Config) (hpow : ∃ k, cfg.TX_DESC = 2 ^ k)
    (priv : ftmac100_driver_s) (h : TxInv cfg priv) (hroom : priv.tx_pending < cfg.TX_DESC) :
    TxInv cfg (ftmac100_transmit cfg priv).2 := by
  obtain ⟨hle, hptr⟩ := h
  refine ⟨?_, ?_⟩
  · show priv.tx_pending + 1 ≤ cfg.TX_DESC
    omega
  · show (priv.tx_pointer + 1) &&& (cfg.TX_DESC - 1) =
      (priv.tx_clean_pointer + (priv.tx_pending + 1)) % cfg.TX_DESC
    rw [and_pred_pow2 _ _ hpow, hptr, Nat.add_mod, Nat.mod_mod, ← Nat.add_mod, Nat.add_assoc]

theorem TxInv_txdone_loop (cfg : Config) (hpow : ∃ k, cfg.TX_DESC = 2 ^ k) (fuel : Nat)
    (priv : ftmac100_driver_s) (h : TxInv cfg priv) :
    TxInv cfg (ftmac100_txdone_loop cfg fuel priv) := by
  induction fuel generalizing priv with
  | zero => exact h
  | succ n ih =>
    simp only [ftmac100_txdone_loop]
    by_cases hp : priv.tx_pending = 0
    · simpa [hp] using h
    · by_cases ho : (ftmac100_current_clean_txdes priv).txdes0 &&& cfg.TXDES0_TXDMA_OWN = 0
      · simp only [hp, ho, ne_eq, not_true_eq_false, if_false]
        apply ih
        obtain ⟨hle, hptr⟩ := h
        refine ⟨?_, ?_⟩
        · show priv.tx_pending - 1 ≤ cfg.TX_DESC
          omega
        · show priv.tx_pointer =
            (((priv.tx_clean_pointer + 1) &&& (cfg.TX_DESC - 1)) + (priv.tx_pending - 1)) %
              cfg.TX_DESC
          rw [and_pred_pow2 _ _ hpow, Nat.add_mod, Nat.mod_mod, ← Nat.add_mod, hptr]
          congr 1
          omega
      · simpa [hp, ho] using h

theorem TxInv_txpoll (cfg : Config) (hpow : ∃ k, cfg.TX_DESC = 2 ^ k) (st : PollStep)
    (priv : ftmac100_driver_s) (h : TxInv cfg priv)
    (hroom : priv.ft_dev.d_len > 0 → priv.tx_pending < cfg.TX_DESC) :
    TxInv cfg (ftmac100_txpoll cfg st priv).2 := by
  unfold ftmac100_txpoll
  by_cases hl : priv.ft_dev.d_len > 0
  · simp only [hl, if_true]
    apply TxInv_transmit cfg hpow
    · apply TxInv_congr cfg priv _ h <;> (repeat' split) <;> rfl
    · have := hroom hl
      (repeat' split) <;> exact this
  · simpa only [hl, if_false] using h

theorem TxInv_poll_callbacks (cfg : Config) (hpow : ∃ k, cfg.TX_DESC = 2 ^ k)
    (steps : List PollStep) (priv : ftmac100_driver_s) (h : TxInv cfg priv)
    (hg : poll_guarded cfg steps priv) : TxInv cfg (poll_callbacks cfg steps priv) := by
  induction steps generalizing priv with
  | nil => exact h
  | cons st rest ih =>
    obtain ⟨h1, h2⟩ := hg
    simp only [poll_callbacks]
    apply ih _ _ h2
    apply TxInv_txpoll cfg hpow
    · exact TxInv_congr cfg priv _ h rfl rfl rfl
    · exact h1

/-- C1: starting from the freshly initialised TX ring with a power-of-two
capacity, every state reached by interleaving `ftmac100_transmit` and
`ftmac100_txdone`, with frames submitted only while fewer than the capacity are
pending, has `tx_pending` at most the capacity and `tx_pointer` equal to
`(tx_clean_pointer + tx_pending)` modulo the capacity. -/
theorem tx_ring_invariant (cfg : Config) (hpow : ∃ k, cfg.TX_DESC = 2 ^ k)
    (priv : ftmac100_driver_s) (hreach : TxReach cfg priv) :
    priv.tx_pending ≤ cfg.TX_DESC ∧
      priv.tx_pointer = (priv.tx_clean_pointer + priv.tx_pending) % cfg.TX_DESC := by
  have key : TxInv cfg priv := by
    induction hreach with
    | init priv _ h1 h2 h3 =>
      refine ⟨by omega, ?_⟩
      rw [h1, h2, h3]
      simp
    | env priv priv1 _ _ h1 h2 h3 ih => exact TxInv_congr cfg priv priv1 ih h1 h2 h3
    | transmit priv _ hroom ih => exact TxInv_transmit cfg hpow priv ih hroom
    | txdone priv up _ hg ih =>
      unfold ftmac100_txdone devif_poll
      apply TxInv_poll_callbacks cfg hpow _ _ _ hg
      apply TxInv_congr cfg (ftmac100_txdone_reclaim cfg (record Event.ftmac100_txdone priv))
      · exact TxInv_txdone_loop cfg hpow _ _ (TxInv_congr cfg priv _ ih rfl rfl rfl)
      · rfl
      · rfl
      · rfl
  exact key

/-- Witness for C1: the state after one admitted `ftmac100_transmit` from the
fresh ring of four descriptors is reachable and satisfies the invariant. -/
theorem tx_ring_invariant_witness :
    (∃ k, cfg4.TX_DESC = 2 ^ k) ∧ TxReach cfg4 (ftmac100_transmit cfg4 fresh4).2 ∧
      (ftmac100_transmit cfg4 fresh4).2.tx_pending ≤ cfg4.TX_DESC ∧
      (ftmac100_transmit cfg4 fresh4).2.tx_pointer =
        ((ftmac100_transmit cfg4 fresh4).2.tx_clean_pointer +
          (ftmac100_transmit cfg4 fresh4).2.tx_pending) % cfg4.TX_DESC :=
  ⟨⟨2, rfl⟩,
    TxReach.transmit fresh4 (TxReach.init fresh4 rfl rfl rfl rfl) (by decide),
    tx_ring_invariant cfg4 ⟨2, rfl⟩ _
      (TxReach.transmit fresh4 (TxReach.init fresh4 rfl rfl rfl rfl) (by decide))⟩

/-- Witness for C2: in a ring whose entry 1 is hardware-owned while entry 0
has completed, the reclaim loop leaves entry 1 as it was. -/
theorem reclaim_keeps_hardware_owned_witness :
    tx_hw_owned cfg4
        (({ fresh4 with
            txdes := [⟨0, 0x58000040, 0x2000, 0⟩, ⟨0x80000000, 0x58000040, 0x2000, 0⟩,
              ⟨0, 0, 0, 0⟩, ⟨0, 0x80000000, 0, 0⟩],
            tx_pointer := 2, tx_pending := 2 } : ftmac100_driver_s).txdes.getD 1 default) ∧
      (ftmac100_txdone_reclaim cfg4
          { fresh4 with
            txdes := [⟨0, 0x58000040, 0x2000, 0⟩, ⟨0x80000000, 0x58000040, 0x2000, 0⟩,
              ⟨0, 0, 0, 0⟩, ⟨0, 0x80000000, 0, 0⟩],
            tx_pointer := 2, tx_pending := 2 }).txdes.getD 1 default =
        ⟨0x80000000, 0x58000040, 0x2000, 0⟩ :=
  ⟨by decide, reclaim_keeps_hardware_owned cfg4 _ 1 (by decide)⟩

/-- C4: one call of `ftmac100_transmit` with an in-range `tx_pointer` returns
`OK`; the current slot receives the buffer address, the word
`(old & EDOTR) | FTS | LTS | TXIC | TXBUF_SIZE(max(d_len, 60))`, which keeps
the wrap marker, and the ownership bit; `tx_pointer` becomes
`(tx_pointer + 1) & (capacity - 1)`, `tx_pending` grows by one, the value 1 is
written to the transmit-poll register and the TX-timeout watchdog is started;
the clean cursor, the RX ring and every other TX slot are unchanged. -/
theorem transmit_effect (cfg : Config) (priv : ftmac100_driver_s)
    (hlen : priv.txdes.length = cfg.TX_DESC) (hin : priv.tx_pointer < cfg.TX_DESC)
    (hown : cfg.TXDES0_TXDMA_OWN ≠ 0)
    (hflags : (cfg.TXDES1_FTS ||| cfg.TXDES1_LTS ||| cfg.TXDES1_TXIC |||
      cfg.TXDES1_TXBUF_SIZE (max priv.ft_dev.d_len ETH_ZLEN)) &&& cfg.TXDES1_EDOTR = 0) :
    (ftmac100_transmit cfg priv).1 = OK ∧
    ((ftmac100_transmit cfg priv).2.txdes.getD priv.tx_pointer default).txdes2 =
      priv.ft_dev.d_buf ∧
    ((ftmac100_transmit cfg priv).2.txdes.getD priv.tx_pointer default).txdes1 =
      ((priv.txdes.getD priv.tx_pointer default).txdes1 &&& cfg.TXDES1_EDOTR) |||
        (cfg.TXDES1_FTS ||| cfg.TXDES1_LTS ||| cfg.TXDES1_TXIC |||
          cfg.TXDES1_TXBUF_SIZE (max priv.ft_dev.d_len ETH_ZLEN)) ∧
    ((ftmac100_transmit cfg priv).2.txdes.getD priv.tx_pointer default).txdes1 &&&
        cfg.TXDES1_EDOTR =
      (priv.txdes.getD priv.tx_pointer default).txdes1 &&& cfg.TXDES1_EDOTR ∧
    ((ftmac100_transmit cfg priv).2.txdes.getD priv.tx_pointer default).txdes0 =
      (priv.txdes.getD priv.tx_pointer default).txdes0 ||| cfg.TXDES0_TXDMA_OWN ∧
    tx_hw_owned cfg ((ftmac100_transmit cfg priv).2.txdes.getD priv.tx_pointer default) ∧
    ((ftmac100_transmit cfg priv).2.txdes.getD priv.tx_pointer default).txdes3 =
      (priv.txdes.getD priv.tx_pointer default).txdes3 ∧
    (ftmac100_transmit cfg priv).2.tx_pointer = (priv.tx_pointer + 1) &&& (cfg.TX_DESC - 1) ∧
    (ftmac100_transmit cfg priv).2.tx_pending = priv.tx_pending + 1 ∧
    (ftmac100_transmit cfg priv).2.iobase Reg.txpd = 1 ∧
    (ftmac100_transmit cfg priv).2.ft_txtimeout = true ∧
    (ftmac100_transmit cfg priv).2.trace =
      priv.trace ++ [Event.ftmac100_transmit, Event.putreg32 1 Reg.txpd,
        Event.wd_start WdogId.ft_txtimeout] ∧
    (ftmac100_transmit cfg priv).2.tx_clean_pointer = priv.tx_clean_pointer ∧
    (ftmac100_transmit cfg priv).2.rxdes = priv.rxdes ∧
    (ftmac100_transmit cfg priv).2.rx_pointer = priv.rx_pointer ∧
    (ftmac100_transmit cfg priv).2.txdes.length = priv.txdes.length ∧
    (∀ j, j ≠ priv.tx_pointer →
      (ftmac100_transmit cfg priv).2.txdes.getD j default = priv.txdes.getD j default) := by
  have hin1 : priv.tx_pointer < priv.txdes.length := by omega
  have hmax : (if priv.ft_dev.d_len < ETH_ZLEN then ETH_ZLEN else priv.ft_dev.d_len) =
      max priv.ft_dev.d_len ETH_ZLEN := by
    split <;> omega
  have hslot : (ftmac100_transmit cfg priv).2.txdes.getD priv.tx_pointer default =
      ⟨(priv.txdes.getD priv.tx_pointer default).txdes0 ||| cfg.TXDES0_TXDMA_OWN,
        ((priv.txdes.getD priv.tx_pointer default).txdes1 &&& cfg.TXDES1_EDOTR) |||
          (cfg.TXDES1_FTS ||| cfg.TXDES1_LTS ||| cfg.TXDES1_TXIC |||
            cfg.TXDES1_TXBUF_SIZE (max priv.ft_dev.d_len ETH_ZLEN)),
        priv.ft_dev.d_buf, (priv.txdes.getD priv.tx_pointer default).txdes3⟩ := by
    show (List.set _ _ _).getD _ _ = _
    rw [getD_set_eq_ite, if_pos ⟨rfl, hin1⟩]
    simp only [ftmac100_current_txdes, record, hmax]
  refine ⟨rfl, ?_, ?_, ?_, ?_, ?_, ?_, rfl, rfl, ?_, rfl, ?_, rfl, rfl, rfl, ?_, ?_⟩
  · rw [hslot]
  · rw [hslot]
  · rw [hslot]
    exact mask_or_keeps _ _ _ hflags
  · rw [hslot]
  · rw [hslot]
    show _ &&& _ ≠ 0
    rw [or_and_self]
    exact hown
  · rw [hslot]
  · simp [ftmac100_transmit, wd_start, putreg32, record]
  · simp [ftmac100_transmit, wd_start, putreg32, record]
  · show (List.set _ _ _).length = _
    rw [List.length_set]
    rfl
  · intro j hj
    show (List.set _ _ _).getD _ _ = _
    rw [getD_set_eq_ite, if_neg]
    · rfl
    · rintro ⟨h, _⟩
      exact hj h.symm

/-- Witness for C4: a 30-byte frame submitted at the last slot of the fresh
ring of four descriptors. -/
theorem transmit_effect_witness :
    txlast4.txdes.length = cfg4.TX_DESC ∧ txlast4.tx_pointer < cfg4.TX_DESC ∧
      cfg4.TXDES0_TXDMA_OWN ≠ 0 ∧
      ((ftmac100_transmit cfg4 txlast4).2.txdes.getD 3 default).txdes1 = 0xd800003c ∧
      ((ftmac100_transmit cfg4 txlast4).2.txdes.getD 3 default).txdes1 &&& 0x80000000 =
        0x80000000 ∧
      (ftmac100_transmit cfg4 txlast4).2.tx_pointer = 0 ∧
      (ftmac100_transmit cfg4 txlast4).2.tx_pending = 1 :=
  ⟨rfl, by decide, by decide,
    (transmit_effect cfg4 txlast4 rfl (by decide) (by decide) (by decide)).2.2.1,
    (transmit_effect cfg4 txlast4 rfl (by decide) (by decide) (by decide)).2.2.2.1,
    (transmit_effect cfg4 txlast4 rfl (by decide) (by decide) (by decide)).2.2.2.2.2.2.2.1,
    (transmit_effect cfg4 txlast4 rfl (by decide) (by decide) (by decide)).2.2.2.2.2.2.2.2.1⟩

theorem poll_callbacks_no_frame (cfg : Config) (steps : List PollStep)
    (priv : ftmac100_driver_s) (h : ∀ st ∈ steps, ∀ dev, (st.prep dev).d_len = 0) :
    poll_callbacks cfg steps priv =
      { priv with ft_dev := steps.foldl (fun d st => st.prep d) priv.ft_dev } := by
  induction steps generalizing priv with
  | nil => rfl
  | cons st rest ih =>
    have h0 : (st.prep priv.ft_dev).d_len = 0 := h st (List.mem_cons_self _ _) _
    simp only [poll_callbacks, ftmac100_txpoll, h0, gt_iff_lt, lt_self_iff_false, if_false]
    rw [ih _ (fun st1 hst => h st1 (List.mem_cons_of_mem _ hst))]
    rfl

/-- C6: from a state with nothing pending and both TX cursors equal, one
`ftmac100_transmit`, the hardware clearing the ownership bit of the submitted
descriptor, and `ftmac100_txdone` with a poll that offers no frame leave
`tx_pending` zero, the clean cursor equal to `tx_pointer`, the submitted slot
reset and software-owned, and the TX-timeout watchdog stopped. -/
theorem submit_complete_reclaim (cfg : Config) (up : Upstream) (priv : ftmac100_driver_s)
    (v : Nat) (hlen : priv.txdes.length = cfg.TX_DESC) (hin : priv.tx_pointer < cfg.TX_DESC)
    (hp : priv.tx_pending = 0) (hc : priv.tx_pointer = priv.tx_clean_pointer)
    (hv : v &&& cfg.TXDES0_TXDMA_OWN = 0)
    (hpoll : ∀ st ∈ up.devif_poll, ∀ dev, (st.prep dev).d_len = 0) :
    (ftmac100_txdone cfg up
        (hw_tx_complete priv.tx_pointer v (ftmac100_transmit cfg priv).2)).tx_pending = 0 ∧
    (ftmac100_txdone cfg up
        (hw_tx_complete priv.tx_pointer v (ftmac100_transmit cfg priv).2)).tx_clean_pointer =
      (ftmac100_txdone cfg up
        (hw_tx_complete priv.tx_pointer v (ftmac100_transmit cfg priv).2)).tx_pointer ∧
    (ftmac100_txdone cfg up
        (hw_tx_complete priv.tx_pointer v (ftmac100_transmit cfg priv).2)).txdes.getD
        priv.tx_pointer default =
      txdes_reset cfg ((ftmac100_transmit cfg priv).2.txdes.getD priv.tx_pointer default) ∧
    ¬ tx_hw_owned cfg
      ((ftmac100_txdone cfg up
        (hw_tx_complete priv.tx_pointer v (ftmac100_transmit cfg priv).2)).txdes.getD
        priv.tx_pointer default) ∧
    (ftmac100_txdone cfg up
        (hw_tx_complete priv.tx_pointer v (ftmac100_transmit cfg priv).2)).ft_txtimeout =
      false := by
  have hin1 : priv.tx_pointer < priv.txdes.length := by omega
  have hrec : ftmac100_txdone_reclaim cfg (record Event.ftmac100_txdone
      (hw_tx_complete priv.tx_pointer v (ftmac100_transmit cfg priv).2)) =
      { record Event.ftmac100_txdone
          (hw_tx_complete priv.tx_pointer v (ftmac100_transmit cfg priv).2) with
        txdes := ((hw_tx_complete priv.tx_pointer v (ftmac100_transmit cfg priv).2).txdes.set
          priv.tx_pointer
          (txdes_reset cfg ((ftmac100_transmit cfg priv).2.txdes.getD priv.tx_pointer default))),
        tx_clean_pointer := (priv.tx_pointer + 1) &&& (cfg.TX_DESC - 1),
        tx_pending := 0 } := by
    simp only [ftmac100_txdone_reclaim, record, hw_tx_complete, ftmac100_transmit, putreg32,
      wd_start, hp, ftmac100_txdone_loop, ftmac100_current_clean_txdes, ← hc,
      ftmac100_current_txdes, getD_set_eq_ite, List.length_set, hin1, and_self, if_true,
      hv, txdes_reset]
    simp
  have hfin : ftmac100_txdone cfg up
      (hw_tx_complete priv.tx_pointer v (ftmac100_transmit cfg priv).2) =
      { wd_cancel WdogId.ft_txtimeout
          (record (Event.upcall Upcall.devif_poll
            (hw_tx_complete priv.tx_pointer v (ftmac100_transmit cfg priv).2).ft_dev)
          (ftmac100_txdone_reclaim cfg (record Event.ftmac100_txdone
            (hw_tx_complete priv.tx_pointer v (ftmac100_transmit cfg priv).2)))) with
        trace := (ftmac100_txdone cfg up
          (hw_tx_complete priv.tx_pointer v (ftmac100_transmit cfg priv).2)).trace,
        ft_dev := (ftmac100_txdone cfg up
          (hw_tx_complete priv.tx_pointer v (ftmac100_transmit cfg priv).2)).ft_dev } := by
    simp only [ftmac100_txdone, devif_poll]
    rw [poll_callbacks_no_frame cfg _ _ hpoll]
    rfl
  rw [hfin, hrec]
  refine ⟨rfl, rfl, ?_, ?_, rfl⟩
  · show (List.set _ _ _).getD _ _ = _
    rw [getD_set_eq_ite, if_pos]
    refine ⟨rfl, ?_⟩
    simp only [hw_tx_complete, List.length_set, ftmac100_transmit, putreg32, wd_start, record]
    exact hin1
  · show ¬ tx_hw_owned cfg ((List.set _ _ _).getD _ _)
    rw [getD_set_eq_ite, if_pos]
    · simp [tx_hw_owned, txdes_reset]
    · refine ⟨rfl, ?_⟩
      simp only [hw_tx_complete, List.length_set, ftmac100_transmit, putreg32, wd_start, record]
      exact hin1

/-- Witness for C6: a 30-byte frame submitted at the last slot of the fresh
ring, completed by the hardware with status word 0 and reclaimed. -/
theorem submit_complete_reclaim_witness :
    txlast4.txdes.length = cfg4.TX_DESC ∧ txlast4.tx_pointer < cfg4.TX_DESC ∧
      txlast4.tx_pending = 0 ∧ txlast4.tx_pointer = txlast4.tx_clean_pointer ∧
      (ftmac100_txdone cfg4 emptyPollUp
        (hw_tx_complete 3 0 (ftmac100_transmit cfg4 txlast4).2)).tx_pending = 0 ∧
      (ftmac100_txdone cfg4 emptyPollUp
        (hw_tx_complete 3 0 (ftmac100_transmit cfg4 txlast4).2)).ft_txtimeout = false :=
  ⟨rfl, by decide, rfl, rfl,
    (submit_complete_reclaim cfg4 emptyPollUp txlast4 0 rfl (by decide) rfl rfl rfl
      (by intro st hst dev
          simp only [emptyPollUp, idleUp, List.mem_singleton] at hst
          subst hst
          rfl)).1,
    (submit_complete_reclaim cfg4 emptyPollUp txlast4 0 rfl (by decide) rfl rfl rfl
      (by intro st hst dev
          simp only [emptyPollUp, idleUp, List.mem_singleton] at hst
          subst hst
          rfl)).2.2.2.2⟩

theorem mod_succ_add (t i n : Nat) : ((t + 1) % n + i) % n = (t + (i + 1)) % n := by
  rw [Nat.add_mod, Nat.mod_mod, ← Nat.add_mod]
  congr 1
  omega

theorem add_mod_ne_self (t i n : Nat) (ht : t < n) (hi0 : 0 < i) (hi : i < n) :
    (t + i) % n ≠ t := by
  by_cases h : t + i < n
  · rw [Nat.mod_eq_of_lt h]
    omega
  · rw [Nat.mod_eq_sub_mod (by omega), Nat.mod_eq_of_lt (by omega)]
    omega

theorem transmit_slot (cfg : Config) (priv : ftmac100_driver_s)
    (hin : priv.tx_pointer < priv.txdes.length) (j : Nat) :
    (ftmac100_transmit cfg priv).2.txdes.getD j default =
      if priv.tx_pointer = j then
        ⟨(priv.txdes.getD j default).txdes0 ||| cfg.TXDES0_TXDMA_OWN,
          ((priv.txdes.getD j default).txdes1 &&& cfg.TXDES1_EDOTR) |||
            (cfg.TXDES1_FTS ||| cfg.TXDES1_LTS ||| cfg.TXDES1_TXIC |||
              cfg.TXDES1_TXBUF_SIZE (max priv.ft_dev.d_len ETH_ZLEN)),
          priv.ft_dev.d_buf, (priv.txdes.getD j default).txdes3⟩
      else priv.txdes.getD j default := by
  have hmax : (if priv.ft_dev.d_len < ETH_ZLEN then ETH_ZLEN else priv.ft_dev.d_len) =
      max priv.ft_dev.d_len ETH_ZLEN := by
    split <;> omega
  show (List.set _ _ _).getD _ _ = _
  rw [getD_set_eq_ite]
  by_cases h : priv.tx_pointer = j
  · subst h
    rw [if_pos ⟨rfl, hin⟩, if_pos rfl]
    simp only [ftmac100_current_txdes, record, hmax]
  · rw [if_neg (fun hh => h hh.1), if_neg h]
    rfl

theorem submit_all_spec (cfg : Config) (hpow : ∃ k, cfg.TX_DESC = 2 ^ k) (ls : List Nat)
    (priv : ftmac100_driver_s) (hlen : priv.txdes.length = cfg.TX_DESC)
    (hin : priv.tx_pointer < cfg.TX_DESC) (hls : ls.length ≤ cfg.TX_DESC) :
    (submit_all cfg ls priv).tx_pending = priv.tx_pending + ls.length ∧
    (submit_all cfg ls priv).tx_pointer = (priv.tx_pointer + ls.length) % cfg.TX_DESC ∧
    (∀ i, i < ls.length →
      ((submit_all cfg ls priv).txdes.getD ((priv.tx_pointer + i) % cfg.TX_DESC) default).txdes1 =
        ((priv.txdes.getD ((priv.tx_pointer + i) % cfg.TX_DESC) default).txdes1 &&&
            cfg.TXDES1_EDOTR) |||
          (cfg.TXDES1_FTS ||| cfg.TXDES1_LTS ||| cfg.TXDES1_TXIC |||
            cfg.TXDES1_TXBUF_SIZE (max (ls.getD i 0) ETH_ZLEN))) ∧
    (∀ j, (∀ i, i < ls.length → j ≠ (priv.tx_pointer + i) % cfg.TX_DESC) →
      (submit_all cfg ls priv).txdes.getD j default = priv.txdes.getD j default) := by
  induction ls generalizing priv with
  | nil =>
    refine ⟨rfl, ?_, ?_, ?_⟩
    · simp only [submit_all, List.length_nil, Nat.add_zero]
      exact (Nat.mod_eq_of_lt hin).symm
    · intro i hi
      simp at hi
    · intro j _
      rfl
  | cons l ls ih =>
    have hN : 0 < cfg.TX_DESC := by omega
    have hlen1 : (ftmac100_transmit cfg
        { priv with ft_dev := { priv.ft_dev with d_len := l } }).2.txdes.length =
        cfg.TX_DESC := by
      show (List.set _ _ _).length = _
      rw [List.length_set]
      exact hlen
    have hptr1 : (ftmac100_transmit cfg
        { priv with ft_dev := { priv.ft_dev with d_len := l } }).2.tx_pointer =
        (priv.tx_pointer + 1) % cfg.TX_DESC := and_pred_pow2 _ _ hpow
    have hin0 : ({ priv with ft_dev := { priv.ft_dev with d_len := l } } :
        ftmac100_driver_s).tx_pointer <
        ({ priv with ft_dev := { priv.ft_dev with d_len := l } } :
          ftmac100_driver_s).txdes.length := by
      show priv.tx_pointer < priv.txdes.length
      omega
    simp only [List.length_cons] at hls
    obtain ⟨h1, h2, h3, h4⟩ := ih _ hlen1 (by rw [hptr1]; exact Nat.mod_lt _ hN) (by omega)
    simp only [submit_all, List.length_cons]
    rw [hptr1] at h2 h3 h4
    refine ⟨?_, ?_, ?_, ?_⟩
    · rw [h1]
      show priv.tx_pending + 1 + ls.length = _
      omega
    · rw [h2, mod_succ_add]
    · intro i hi
      cases i with
      | zero =>
        have hfar : ∀ i, i < ls.length →
            priv.tx_pointer ≠ ((priv.tx_pointer + 1) % cfg.TX_DESC + i) % cfg.TX_DESC := by
          intro i hi2
          rw [mod_succ_add]
          exact (add_mod_ne_self _ _ _ hin (by omega) (by omega)).symm
        rw [Nat.add_zero, Nat.mod_eq_of_lt hin, h4 _ hfar, transmit_slot cfg _ hin0, if_pos rfl]
        rfl
      | succ i =>
        have hi2 : i < ls.length := by omega
        have h := h3 i hi2
        rw [mod_succ_add] at h
        have hne : ¬ (priv.tx_pointer = (priv.tx_pointer + (i + 1)) % cfg.TX_DESC) :=
          (add_mod_ne_self _ _ _ hin (by omega) (by omega)).symm
        rw [h, transmit_slot cfg _ hin0, if_neg hne]
        rfl
    · intro j hj
      have hne : ¬ (priv.tx_pointer = j) := by
        have := hj 0 (by omega)
        rw [Nat.add_zero, Nat.mod_eq_of_lt hin] at this
        exact fun h => this h.symm
      have hfar : ∀ i, i < ls.length →
          j ≠ ((priv.tx_pointer + 1) % cfg.TX_DESC + i) % cfg.TX_DESC := by
        intro i hi
        rw [mod_succ_add]
        exact hj (i + 1) (by omega)
      rw [h4 _ hfar, transmit_slot cfg _ hin0, if_neg hne]

theorem txdone_loop_idle (cfg : Config) (fuel : Nat) (priv : ftmac100_driver_s)
    (h : priv.tx_pending = 0) : ftmac100_txdone_loop cfg fuel priv = priv := by
  cases fuel with
  | zero => rfl
  | succ n => simp [ftmac100_txdone_loop, h]

theorem txdone_loop_stop (cfg : Config) (fuel : Nat) (priv : ftmac100_driver_s)
    (h : tx_hw_owned cfg (priv.txdes.getD priv.tx_clean_pointer default)) :
    ftmac100_txdone_loop cfg fuel priv = priv := by
  cases fuel with
  | zero => rfl
  | succ n =>
    have h1 : (ftmac100_current_clean_txdes priv).txdes0 &&& cfg.TXDES0_TXDMA_OWN ≠ 0 := h
    simp [ftmac100_txdone_loop, h1]

theorem txdone_loop_step (cfg : Config) (fuel : Nat) (priv : ftmac100_driver_s)
    (hp : priv.tx_pending ≠ 0)
    (h : ¬ tx_hw_owned cfg (priv.txdes.getD priv.tx_clean_pointer default)) :
    ftmac100_txdone_loop cfg (fuel + 1) priv =
      ftmac100_txdone_loop cfg fuel
        { priv with
          txdes := priv.txdes.set priv.tx_clean_pointer
            (txdes_reset cfg (priv.txdes.getD priv.tx_clean_pointer default)),
          tx_clean_pointer := (priv.tx_clean_pointer + 1) &&& (cfg.TX_DESC - 1),
          tx_pending := priv.tx_pending - 1 } := by
  have h1 : (ftmac100_current_clean_txdes priv).txdes0 &&& cfg.TXDES0_TXDMA_OWN = 0 := by
    unfold tx_hw_owned at h
    exact not_not.mp h
  simp only [ftmac100_txdone_loop, hp, h1, ne_eq, not_true_eq_false, if_false]
  rfl

theorem txdone_loop_frame (cfg : Config) (fuel : Nat) (priv : ftmac100_driver_s) :
    ∃ t c p, ftmac100_txdone_loop cfg fuel priv =
      { priv with txdes := t, tx_clean_pointer := c, tx_pending := p } := by
  induction fuel generalizing priv with
  | zero => exact ⟨_, _, _, rfl⟩
  | succ n ih =>
    by_cases hp : priv.tx_pending = 0
    · rw [txdone_loop_idle cfg _ priv hp]
      exact ⟨_, _, _, rfl⟩
    · by_cases h : tx_hw_owned cfg (priv.txdes.getD priv.tx_clean_pointer default)
      · rw [txdone_loop_stop cfg _ priv h]
        exact ⟨_, _, _, rfl⟩
      · rw [txdone_loop_step cfg n priv hp h]
        obtain ⟨t, c, p, e⟩ := ih
          { priv with
            txdes := priv.txdes.set priv.tx_clean_pointer
              (txdes_reset cfg (priv.txdes.getD priv.tx_clean_pointer default)),
            tx_clean_pointer := (priv.tx_clean_pointer + 1) &&& (cfg.TX_DESC - 1),
            tx_pending := priv.tx_pending - 1 }
        exact ⟨t, c, p, e⟩

theorem sw_run_congr (cfg : Config) (r1 r2 : List ftmac100_txdes_s)
    (h : ∀ i, tx_hw_owned cfg (r1.getD i default) ↔ tx_hw_owned cfg (r2.getD i default))
    (c n : Nat) : sw_run cfg r1 c n = sw_run cfg r2 c n := by
  induction n generalizing c with
  | zero => rfl
  | succ n ih =>
    simp only [sw_run, h c, ih]

theorem sw_run_le (cfg : Config) (r : List ftmac100_txdes_s) (c n : Nat) :
    sw_run cfg r c n ≤ n := by
  induction n generalizing c with
  | zero => exact Nat.le_refl _
  | succ n ih =>
    simp only [sw_run]
    split
    · omega
    · have := ih ((c + 1) % cfg.TX_DESC)
      omega

theorem sw_run_released (cfg : Config) (r : List ftmac100_txdes_s) (c n : Nat)
    (hc : c < cfg.TX_DESC) (j : Nat) (hj : j < sw_run cfg r c n) :
    ¬ tx_hw_owned cfg (r.getD ((c + j) % cfg.TX_DESC) default) := by
  induction n generalizing c j with
  | zero => simp [sw_run] at hj
  | succ n ih =>
    simp only [sw_run] at hj
    by_cases h : tx_hw_owned cfg (r.getD c default)
    · rw [if_pos h] at hj
      omega
    · rw [if_neg h] at hj
      cases j with
      | zero =>
        rw [Nat.add_zero, Nat.mod_eq_of_lt hc]
        exact h
      | succ j =>
        have := ih ((c + 1) % cfg.TX_DESC) (Nat.mod_lt _ (by omega)) j (by omega)
        rw [mod_succ_add] at this
        exact this

theorem sw_run_blocked (cfg : Config) (r : List ftmac100_txdes_s) (c n : Nat)
    (hc : c < cfg.TX_DESC) (hlt : sw_run cfg r c n < n) :
    tx_hw_owned cfg (r.getD ((c + sw_run cfg r c n) % cfg.TX_DESC) default) := by
  induction n generalizing c with
  | zero => omega
  | succ n ih =>
    simp only [sw_run] at hlt ⊢
    by_cases h : tx_hw_owned cfg (r.getD c default)
    · rw [if_pos h, Nat.add_zero, Nat.mod_eq_of_lt hc]
      exact h
    · rw [if_neg h] at hlt ⊢
      have := ih ((c + 1) % cfg.TX_DESC) (Nat.mod_lt _ (by omega)) (by omega)
      rw [mod_succ_add] at this
      exact this

theorem txdes_reset_released (cfg : Config) (d : ftmac100_txdes_s) :
    ¬ tx_hw_owned cfg (txdes_reset cfg d) := by
  simp [tx_hw_owned, txdes_reset]

theorem txdone_loop_spec (cfg : Config) (hpow : ∃ k, cfg.TX_DESC = 2 ^ k) (n : Nat)
    (priv : ftmac100_driver_s) (hp : priv.tx_pending = n)
    (hc : priv.tx_clean_pointer < cfg.TX_DESC) (hlen : priv.txdes.length = cfg.TX_DESC) :
    (ftmac100_txdone_loop cfg n priv).tx_pending =
      n - sw_run cfg priv.txdes priv.tx_clean_pointer n ∧
    (ftmac100_txdone_loop cfg n priv).tx_clean_pointer =
      (priv.tx_clean_pointer + sw_run cfg priv.txdes priv.tx_clean_pointer n) % cfg.TX_DESC ∧
    (∀ j, j < sw_run cfg priv.txdes priv.tx_clean_pointer n →
      (ftmac100_txdone_loop cfg n priv).txdes.getD
          ((priv.tx_clean_pointer + j) % cfg.TX_DESC) default =
        txdes_reset cfg
          (priv.txdes.getD ((priv.tx_clean_pointer + j) % cfg.TX_DESC) default)) ∧
    (∀ i, (∀ j, j < sw_run cfg priv.txdes priv.tx_clean_pointer n →
        (priv.tx_clean_pointer + j) % cfg.TX_DESC ≠ i) →
      (ftmac100_txdone_loop cfg n priv).txdes.getD i default = priv.txdes.getD i default) := by
  induction n generalizing priv with
  | zero =>
    refine ⟨hp, ?_, ?_, ?_⟩
    · show priv.tx_clean_pointer = (priv.tx_clean_pointer + 0) % cfg.TX_DESC
      rw [Nat.add_zero, Nat.mod_eq_of_lt hc]
    · intro j hj
      exact absurd hj (Nat.not_lt_zero _)
    · intro i _
      rfl
  | succ n ih =>
    have hp0 : priv.tx_pending ≠ 0 := by omega
    by_cases h : tx_hw_owned cfg (priv.txdes.getD priv.tx_clean_pointer default)
    · have hk : sw_run cfg priv.txdes priv.tx_clean_pointer (n + 1) = 0 := by
        simp only [sw_run]
        rw [if_pos h]
      rw [txdone_loop_stop cfg _ priv h, hk]
      refine ⟨hp, ?_, ?_, ?_⟩
      · rw [Nat.add_zero, Nat.mod_eq_of_lt hc]
      · intro j hj
        exact absurd hj (Nat.not_lt_zero _)
      · intro i _
        rfl
    · have hlen0 : priv.tx_clean_pointer < priv.txdes.length := by omega
      have hslot : ∀ i, (priv.txdes.set priv.tx_clean_pointer
          (txdes_reset cfg (priv.txdes.getD priv.tx_clean_pointer default))).getD i default =
          if priv.tx_clean_pointer = i then txdes_reset cfg (priv.txdes.getD i default)
          else priv.txdes.getD i default := by
        intro i
        rw [getD_set_eq_ite]
        by_cases hi : priv.tx_clean_pointer = i
        · subst hi
          rw [if_pos ⟨rfl, hlen0⟩, if_pos rfl]
        · rw [if_neg (fun hh => hi hh.1), if_neg hi]
      have hequiv : ∀ i, tx_hw_owned cfg ((priv.txdes.set priv.tx_clean_pointer
          (txdes_reset cfg (priv.txdes.getD priv.tx_clean_pointer default))).getD i default) ↔
          tx_hw_owned cfg (priv.txdes.getD i default) := by
        intro i
        rw [hslot]
        by_cases hi : priv.tx_clean_pointer = i
        · subst hi
          rw [if_pos rfl]
          exact ⟨fun hh => absurd hh (txdes_reset_released cfg _), fun hh => absurd hh h⟩
        · rw [if_neg hi]
      have hk : sw_run cfg priv.txdes priv.tx_clean_pointer (n + 1) =
          sw_run cfg priv.txdes ((priv.tx_clean_pointer + 1) % cfg.TX_DESC) n + 1 := by
        simp only [sw_run]
        rw [if_neg h]
      have hN : 0 < cfg.TX_DESC := by omega
      have hc1 : (priv.tx_clean_pointer + 1) &&& (cfg.TX_DESC - 1) =
          (priv.tx_clean_pointer + 1) % cfg.TX_DESC := and_pred_pow2 _ _ hpow
      obtain ⟨h1, h2, h3, h4⟩ := ih
        { priv with
          txdes := priv.txdes.set priv.tx_clean_pointer
            (txdes_reset cfg (priv.txdes.getD priv.tx_clean_pointer default)),
          tx_clean_pointer := (priv.tx_clean_pointer + 1) &&& (cfg.TX_DESC - 1),
          tx_pending := priv.tx_pending - 1 }
        (by show priv.tx_pending - 1 = n; omega)
        (by show (priv.tx_clean_pointer + 1) &&& (cfg.TX_DESC - 1) < cfg.TX_DESC
            rw [hc1]
            exact Nat.mod_lt _ hN)
        (by show (List.set _ _ _).length = _
            rw [List.length_set]
            exact hlen)
      simp only [hc1, sw_run_congr cfg _ _ hequiv] at h1 h2 h3 h4
      rw [txdone_loop_step cfg n priv hp0 h, hk]
      simp only [hc1]
      refine ⟨?_, ?_, ?_, ?_⟩
      · rw [h1]
        omega
      · rw [h2, mod_succ_add]
      · intro j hj
        cases j with
        | zero =>
          have e0 : (priv.tx_clean_pointer + 0) % cfg.TX_DESC = priv.tx_clean_pointer :=
            Nat.mod_eq_of_lt hc
          rw [e0]
          by_cases hex : ∃ j1, j1 < sw_run cfg priv.txdes
              ((priv.tx_clean_pointer + 1) % cfg.TX_DESC) n ∧
              ((priv.tx_clean_pointer + 1) % cfg.TX_DESC + j1) % cfg.TX_DESC =
                priv.tx_clean_pointer
          · obtain ⟨j1, hj1, he⟩ := hex
            have := h3 j1 hj1
            rw [he, hslot, if_pos rfl, txdes_reset_idem] at this
            exact this
          · have hall : ∀ j1, j1 < sw_run cfg priv.txdes
                ((priv.tx_clean_pointer + 1) % cfg.TX_DESC) n →
                ((priv.tx_clean_pointer + 1) % cfg.TX_DESC + j1) % cfg.TX_DESC ≠
                  priv.tx_clean_pointer := fun j1 hj1 he => hex ⟨j1, hj1, he⟩
            rw [h4 _ hall, hslot, if_pos rfl]
        | succ j =>
          have := h3 j (by omega)
          rw [mod_succ_add, hslot] at this
          rw [this]
          split
          · exact txdes_reset_idem cfg _
          · rfl
      · intro i hi
        have hne : ¬ (priv.tx_clean_pointer = i) := by
          have := hi 0 (by omega)
          rw [Nat.add_zero, Nat.mod_eq_of_lt hc] at this
          exact this
        have hall : ∀ j1, j1 < sw_run cfg priv.txdes
            ((priv.tx_clean_pointer + 1) % cfg.TX_DESC) n →
            ((priv.tx_clean_pointer + 1) % cfg.TX_DESC + j1) % cfg.TX_DESC ≠ i := by
          intro j1 hj1
          rw [mod_succ_add]
          exact hi (j1 + 1) (by omega)
        rw [h4 _ hall, hslot, if_neg hne]

/-- C3: with an in-range clean cursor and a power-of-two capacity, the reclaim
loop of `ftmac100_txdone` reclaims exactly `k` descriptors, where `k` is the
length of the run of software-owned slots that starts at the clean cursor,
capped at `tx_pending`: each of these slots ends with `txdes0`, `txdes2` and
`txdes3` zero and `txdes1` masked to the wrap marker, every other slot is
unchanged, the clean cursor advances by `k` modulo the capacity, `tx_pending`
decreases by `k`, and nothing else in the state changes. -/
theorem reclaim_exact (cfg : Config) (hpow : ∃ k, cfg.TX_DESC = 2 ^ k)
    (priv : ftmac100_driver_s) (hlen : priv.txdes.length = cfg.TX_DESC)
    (hc : priv.tx_clean_pointer < cfg.TX_DESC) :
    sw_run cfg priv.txdes priv.tx_clean_pointer priv.tx_pending ≤ priv.tx_pending ∧
    (∀ j, j < sw_run cfg priv.txdes priv.tx_clean_pointer priv.tx_pending →
      ¬ tx_hw_owned cfg
        (priv.txdes.getD ((priv.tx_clean_pointer + j) % cfg.TX_DESC) default)) ∧
    (sw_run cfg priv.txdes priv.tx_clean_pointer priv.tx_pending < priv.tx_pending →
      tx_hw_owned cfg
        (priv.txdes.getD
          ((priv.tx_clean_pointer +
            sw_run cfg priv.txdes priv.tx_clean_pointer priv.tx_pending) % cfg.TX_DESC)
          default)) ∧
    (∀ j, j < sw_run cfg priv.txdes priv.tx_clean_pointer priv.tx_pending →
      (ftmac100_txdone_reclaim cfg priv).txdes.getD
          ((priv.tx_clean_pointer + j) % cfg.TX_DESC) default =
        ⟨0, (priv.txdes.getD ((priv.tx_clean_pointer + j) % cfg.TX_DESC) default).txdes1 &&&
          cfg.TXDES1_EDOTR, 0, 0⟩) ∧
    (∀ i, (∀ j, j < sw_run cfg priv.txdes priv.tx_clean_pointer priv.tx_pending →
        (priv.tx_clean_pointer + j) % cfg.TX_DESC ≠ i) →
      (ftmac100_txdone_reclaim cfg priv).txdes.getD i default = priv.txdes.getD i default) ∧
    (ftmac100_txdone_reclaim cfg priv).tx_clean_pointer =
      (priv.tx_clean_pointer + sw_run cfg priv.txdes priv.tx_clean_pointer priv.tx_pending) %
        cfg.TX_DESC ∧
    (ftmac100_txdone_reclaim cfg priv).tx_pending =
      priv.tx_pending - sw_run cfg priv.txdes priv.tx_clean_pointer priv.tx_pending ∧
    ftmac100_txdone_reclaim cfg priv =
      { priv with
        txdes := (ftmac100_txdone_reclaim cfg priv).txdes,
        tx_clean_pointer := (ftmac100_txdone_reclaim cfg priv).tx_clean_pointer,
        tx_pending := (ftmac100_txdone_reclaim cfg priv).tx_pending } := by
  obtain ⟨h1, h2, h3, h4⟩ := txdone_loop_spec cfg hpow priv.tx_pending priv rfl hc hlen
  refine ⟨sw_run_le cfg _ _ _, sw_run_released cfg _ _ _ hc, sw_run_blocked cfg _ _ _ hc,
    h3, h4, h2, h1, ?_⟩
  obtain ⟨t, c, p, e⟩ := txdone_loop_frame cfg priv.tx_pending priv
  unfold ftmac100_txdone_reclaim
  rw [e]

/-- Witness for C3: in `txbusy4` the run of software-owned slots at the clean
cursor has length 2; the loop resets entries 0 and 1, stops at entry 2, and
leaves the clean cursor at 2 with one descriptor pending. -/
theorem reclaim_exact_witness :
    (∃ k, cfg4.TX_DESC = 2 ^ k) ∧ txbusy4.txdes.length = cfg4.TX_DESC ∧
      txbusy4.tx_clean_pointer < cfg4.TX_DESC ∧
      sw_run cfg4 txbusy4.txdes txbusy4.tx_clean_pointer txbusy4.tx_pending = 2 ∧
      (ftmac100_txdone_reclaim cfg4 txbusy4).tx_clean_pointer = 2 ∧
      (ftmac100_txdone_reclaim cfg4 txbusy4).tx_pending = 1 ∧
      (ftmac100_txdone_reclaim cfg4 txbusy4).txdes.getD 1 default = ⟨0, 0, 0, 0⟩ :=
  ⟨⟨2, rfl⟩, rfl, by decide, by decide,
    (reclaim_exact cfg4 ⟨2, rfl⟩ txbusy4 rfl (by decide)).2.2.2.2.2.1,
    (reclaim_exact cfg4 ⟨2, rfl⟩ txbusy4 rfl (by decide)).2.2.2.2.2.2.1,
    (reclaim_exact cfg4 ⟨2, rfl⟩ txbusy4 rfl (by decide)).2.2.2.1 1 (by decide)⟩

theorem Quiet.qrefl (p : ftmac100_driver_s) : Quiet p p :=
  ⟨rfl, rfl, rfl, rfl, rfl, rfl, rfl, fun _ _ => rfl⟩

theorem Quiet.qtrans {p q r : ftmac100_driver_s} (h1 : Quiet p q) (h2 : Quiet q r) :
    Quiet p r := by
  obtain ⟨a1, a2, a3, a4, a5, a6, a7, a8⟩ := h1
  obtain ⟨b1, b2, b3, b4, b5, b6, b7, b8⟩ := h2
  exact ⟨b1.trans a1, b2.trans a2, b3.trans a3, b4.trans a4, b5.trans a5, b6.trans a6,
    b7.trans a7, fun r hr => (b8 r hr).trans (a8 r hr)⟩

theorem Quiet_upcall (f : Upcall) (hook : net_driver_s → net_driver_s)
    (p : ftmac100_driver_s) : Quiet p (upcall f hook p) :=
  ⟨rfl, rfl, rfl, rfl, rfl, rfl, rfl, fun _ _ => rfl⟩

theorem Quiet_record (e : Event) (p : ftmac100_driver_s) : Quiet p (record e p) :=
  ⟨rfl, rfl, rfl, rfl, rfl, rfl, rfl, fun _ _ => rfl⟩

theorem Quiet_transmit (cfg : Config) (p : ftmac100_driver_s) :
    Quiet p (ftmac100_transmit cfg p).2 := by
  refine ⟨rfl, rfl, rfl, rfl, rfl, rfl, rfl, ?_⟩
  intro r hr
  simp [ftmac100_transmit, wd_start, putreg32, record, hr]

theorem Emits.erefl (p : ftmac100_driver_s) : Emits p p [] :=
  ⟨[], by simp, rfl⟩

theorem Emits.etrans {p q r : ftmac100_driver_s} {a b : List Action}
    (h1 : Emits p q a) (h2 : Emits q r b) : Emits p r (a ++ b) := by
  obtain ⟨l1, e1, f1⟩ := h1
  obtain ⟨l2, e2, f2⟩ := h2
  refine ⟨l1 ++ l2, ?_, ?_⟩
  · rw [e2, e1, List.append_assoc]
  · rw [List.filterMap_append, f1, f2]

theorem Emits_of_trace_eq {p q : ftmac100_driver_s} (h : q.trace = p.trace) : Emits p q [] :=
  ⟨[], by simp [h], rfl⟩

theorem Emits_record (e : Event) (p : ftmac100_driver_s) :
    Emits p (record e p) ((action_of e).toList) := by
  refine ⟨[e], rfl, ?_⟩
  cases h : action_of e <;> simp [List.filterMap, h]

theorem Emits_upcall (f : Upcall) (hook : net_driver_s → net_driver_s)
    (p : ftmac100_driver_s) : Emits p (upcall f hook p) [] :=
  ⟨[Event.upcall f p.ft_dev], rfl, rfl⟩

theorem Emits_transmit (cfg : Config) (p : ftmac100_driver_s) :
    Emits p (ftmac100_transmit cfg p).2 [] := by
  refine ⟨[Event.ftmac100_transmit, Event.putreg32 1 Reg.txpd,
    Event.wd_start WdogId.ft_txtimeout], ?_, rfl⟩
  simp [ftmac100_transmit, wd_start, putreg32, record]

theorem Pass.prefl (p : ftmac100_driver_s) : Pass p p :=
  ⟨Emits.erefl p, Quiet.qrefl p, rfl, rfl⟩

theorem Pass.ptrans {p q r : ftmac100_driver_s} (h1 : Pass p q) (h2 : Pass q r) : Pass p r := by
  obtain ⟨a1, a2, a3, a4⟩ := h1
  obtain ⟨b1, b2, b3, b4⟩ := h2
  exact ⟨a1.etrans b1, a2.qtrans b2, b3.trans a3, b4.trans a4⟩

theorem Pass_upcall {p q : ftmac100_driver_s} (f : Upcall) (hook : net_driver_s → net_driver_s)
    (h : Pass p q) : Pass p (upcall f hook q) :=
  h.ptrans ⟨Emits_upcall f hook q, Quiet_upcall f hook q, rfl, rfl⟩

theorem Pass_transmit {p q : ftmac100_driver_s} (cfg : Config) (h : Pass p q) :
    Pass p (ftmac100_transmit cfg q).2 :=
  h.ptrans ⟨Emits_transmit cfg q, Quiet_transmit cfg q, rfl, rfl⟩

theorem Pass_dispatch (cfg : Config) (up : Upstream) (p : ftmac100_driver_s) :
    Pass p (ftmac100_receive_dispatch cfg up p) := by
  simp only [ftmac100_receive_dispatch]
  split_ifs <;>
    repeat (first | apply Pass_transmit | apply Pass_upcall | exact Pass.prefl _)

theorem scan_stop_owned (cfg : Config) (fuel : Nat) (p : ftmac100_driver_s)
    (h : rx_hw_owned cfg (p.rxdes.getD p.rx_pointer default)) :
    ftmac100_receive_scan cfg (fuel + 1) p = some (p, false) := by
  have h1 : (ftmac100_current_rxdes p).rxdes0 &&& cfg.RXDES0_RXDMA_OWN ≠ 0 := h
  simp only [ftmac100_receive_scan, h1, ne_eq, not_false_eq_true, if_true]

theorem scan_stop_found (cfg : Config) (fuel : Nat) (p : ftmac100_driver_s)
    (h : ¬ rx_hw_owned cfg (p.rxdes.getD p.rx_pointer default))
    (hf : (p.rxdes.getD p.rx_pointer default).rxdes0 &&& cfg.RXDES0_FRS ≠ 0) :
    ftmac100_receive_scan cfg (fuel + 1) p = some (p, true) := by
  have h1 : (ftmac100_current_rxdes p).rxdes0 &&& cfg.RXDES0_RXDMA_OWN = 0 := by
    unfold rx_hw_owned at h
    exact not_not.mp h
  have h2 : (ftmac100_current_rxdes p).rxdes0 &&& cfg.RXDES0_FRS ≠ 0 := hf
  simp only [ftmac100_receive_scan, h1, h2, ne_eq, not_true_eq_false, not_false_eq_true,
    if_true, if_false]

theorem scan_skip (cfg : Config) (fuel : Nat) (p : ftmac100_driver_s)
    (h : ¬ rx_hw_owned cfg (p.rxdes.getD p.rx_pointer default))
    (hf : (p.rxdes.getD p.rx_pointer default).rxdes0 &&& cfg.RXDES0_FRS = 0) :
    ftmac100_receive_scan cfg (fuel + 1) p =
      ftmac100_receive_scan cfg fuel
        { p with
          rxdes := p.rxdes.set p.rx_pointer
            { p.rxdes.getD p.rx_pointer default with rxdes0 := cfg.RXDES0_RXDMA_OWN },
          rx_pointer := (p.rx_pointer + 1) &&& (cfg.RX_DESC - 1) } := by
  have h1 : (ftmac100_current_rxdes p).rxdes0 &&& cfg.RXDES0_RXDMA_OWN = 0 := by
    unfold rx_hw_owned at h
    exact not_not.mp h
  have h2 : (ftmac100_current_rxdes p).rxdes0 &&& cfg.RXDES0_FRS = 0 := hf
  simp only [ftmac100_receive_scan, h1, h2, ne_eq, not_true_eq_false, if_false]
  rfl

/-- What the scan loop of `ftmac100_receive` guarantees when it ends: only
the RX ring and its cursor have changed, the ring has kept its size, the cursor
is in range, the slot at the cursor is released with the first-segment flag
when the exit is `found_segment` and hardware-owned otherwise, and every slot
is either unchanged or hardware-owned. -/
theorem scan_spec (cfg : Config) (hown : cfg.RXDES0_RXDMA_OWN ≠ 0) (fuel : Nat)
    (p q : ftmac100_driver_s) (b : Bool)
    (h : ftmac100_receive_scan cfg fuel p = some (q, b)) :
    (∃ r x, q = { p with rxdes := r, rx_pointer := x }) ∧
    q.rxdes.length = p.rxdes.length ∧
    (p.rx_pointer < cfg.RX_DESC → q.rx_pointer < cfg.RX_DESC) ∧
    (b = true → ¬ rx_hw_owned cfg (q.rxdes.getD q.rx_pointer default) ∧
      (q.rxdes.getD q.rx_pointer default).rxdes0 &&& cfg.RXDES0_FRS ≠ 0) ∧
    (b = false → rx_hw_owned cfg (q.rxdes.getD q.rx_pointer default)) ∧
    (∀ i, q.rxdes.getD i default = p.rxdes.getD i default ∨
      rx_hw_owned cfg (q.rxdes.getD i default)) := by
  induction fuel generalizing p with
  | zero => simp [ftmac100_receive_scan] at h
  | succ n ih =>
    by_cases ho : rx_hw_owned cfg (p.rxdes.getD p.rx_pointer default)
    · rw [scan_stop_owned cfg n p ho] at h
      simp only [Option.some.injEq, Prod.mk.injEq] at h
      obtain ⟨rfl, rfl⟩ := h
      exact ⟨⟨_, _, rfl⟩, rfl, id, fun hb => absurd hb (by decide), fun _ => ho,
        fun _ => Or.inl rfl⟩
    · by_cases hf : (p.rxdes.getD p.rx_pointer default).rxdes0 &&& cfg.RXDES0_FRS = 0
      · rw [scan_skip cfg n p ho hf] at h
        obtain ⟨⟨r, x, e⟩, h2, h3, h4, h5, h6⟩ := ih _ h
        refine ⟨⟨r, x, by rw [e]⟩, ?_, ?_, h4, h5, ?_⟩
        · rw [h2]
          show (List.set _ _ _).length = _
          rw [List.length_set]
        · intro hin
          apply h3
          show (p.rx_pointer + 1) &&& (cfg.RX_DESC - 1) < cfg.RX_DESC
          have := @Nat.and_le_right (p.rx_pointer + 1) (cfg.RX_DESC - 1)
          omega
        · intro i
          rcases h6 i with h7 | h7
          · have h8 : (p.rxdes.set p.rx_pointer
                { p.rxdes.getD p.rx_pointer default with
                  rxdes0 := cfg.RXDES0_RXDMA_OWN }).getD i default =
                if p.rx_pointer = i ∧ p.rx_pointer < p.rxdes.length then
                  { p.rxdes.getD p.rx_pointer default with rxdes0 := cfg.RXDES0_RXDMA_OWN }
                else p.rxdes.getD i default := getD_set_eq_ite _ _ _ _ _
            by_cases hi : p.rx_pointer = i ∧ p.rx_pointer < p.rxdes.length
            · right
              rw [h7]
              show rx_hw_owned cfg ((List.set _ _ _).getD i default)
              rw [h8, if_pos hi]
              show cfg.RXDES0_RXDMA_OWN &&& cfg.RXDES0_RXDMA_OWN ≠ 0
              rw [Nat.and_self]
              exact hown
            · left
              rw [h7]
              show (List.set _ _ _).getD i default = _
              rw [h8, if_neg hi]
          · exact Or.inr h7
      · rw [scan_stop_found cfg n p ho hf] at h
        simp only [Option.some.injEq, Prod.mk.injEq] at h
        obtain ⟨rfl, rfl⟩ := h
        exact ⟨⟨_, _, rfl⟩, rfl, id, fun _ => ⟨ho, hf⟩, fun hb => absurd hb (by decide),
          fun _ => Or.inl rfl⟩

theorem scan_mono (cfg : Config) (fuel : Nat) (p : ftmac100_driver_s)
    (r : ftmac100_driver_s × Bool) (h : ftmac100_receive_scan cfg fuel p = some r) (d : Nat) :
    ftmac100_receive_scan cfg (fuel + d) p = some r := by
  induction fuel generalizing p with
  | zero => simp [ftmac100_receive_scan] at h
  | succ n ih =>
    have e : n + 1 + d = (n + d) + 1 := by omega
    rw [e]
    by_cases ho : rx_hw_owned cfg (p.rxdes.getD p.rx_pointer default)
    · rw [scan_stop_owned cfg _ p ho] at h ⊢
      exact h
    · by_cases hf : (p.rxdes.getD p.rx_pointer default).rxdes0 &&& cfg.RXDES0_FRS = 0
      · rw [scan_skip cfg _ p ho hf] at h ⊢
        exact ih _ h
      · rw [scan_stop_found cfg _ p ho hf] at h ⊢
        exact h

theorem back_index (rp n j : Nat) (h1 : 1 ≤ j) (hj : j ≤ n) :
    ((rp + 1) % n + n - j) % n = (rp + n - (j - 1)) % n := by
  have e1 : (rp + 1) % n + n - j = (rp + 1) % n + (n - j) := by
    generalize (rp + 1) % n = x
    omega
  rw [e1, Nat.add_mod, Nat.mod_mod, ← Nat.add_mod]
  congr 1
  omega

theorem scan_terminates_aux (cfg : Config) (hpow : ∃ k, cfg.RX_DESC = 2 ^ k)
    (hown : cfg.RXDES0_RXDMA_OWN ≠ 0) (d : Nat) (p : ftmac100_driver_s)
    (hlen : p.rxdes.length = cfg.RX_DESC) (hin : p.rx_pointer < cfg.RX_DESC)
    (hd : d ≤ cfg.RX_DESC)
    (hback : ∀ j, 1 ≤ j → j ≤ cfg.RX_DESC - d →
      rx_hw_owned cfg (p.rxdes.getD ((p.rx_pointer + cfg.RX_DESC - j) % cfg.RX_DESC) default)) :
    ∃ r, ftmac100_receive_scan cfg (d + 1) p = some r := by
  induction d generalizing p with
  | zero =>
    have h := hback cfg.RX_DESC (by omega) (by omega)
    rw [Nat.add_sub_cancel, Nat.mod_eq_of_lt hin] at h
    exact ⟨_, scan_stop_owned cfg 0 p h⟩
  | succ d ih =>
    by_cases ho : rx_hw_owned cfg (p.rxdes.getD p.rx_pointer default)
    · exact ⟨_, scan_stop_owned cfg _ p ho⟩
    · by_cases hf : (p.rxdes.getD p.rx_pointer default).rxdes0 &&& cfg.RXDES0_FRS = 0
      · rw [scan_skip cfg _ p ho hf]
        have hc1 : (p.rx_pointer + 1) &&& (cfg.RX_DESC - 1) =
            (p.rx_pointer + 1) % cfg.RX_DESC := and_pred_pow2 _ _ hpow
        have hmark : ∀ i, (i = p.rx_pointer ∨ rx_hw_owned cfg (p.rxdes.getD i default)) →
            rx_hw_owned cfg ((p.rxdes.set p.rx_pointer
              { p.rxdes.getD p.rx_pointer default with
                rxdes0 := cfg.RXDES0_RXDMA_OWN }).getD i default) := by
          intro i hi
          rw [getD_set_eq_ite]
          by_cases hc : p.rx_pointer = i ∧ p.rx_pointer < p.rxdes.length
          · rw [if_pos hc]
            show cfg.RXDES0_RXDMA_OWN &&& cfg.RXDES0_RXDMA_OWN ≠ 0
            rw [Nat.and_self]
            exact hown
          · rw [if_neg hc]
            rcases hi with hi | hi
            · exact absurd ⟨hi.symm, by omega⟩ hc
            · exact hi
        apply ih
        · show (List.set _ _ _).length = _
          rw [List.length_set]
          exact hlen
        · show (p.rx_pointer + 1) &&& (cfg.RX_DESC - 1) < cfg.RX_DESC
          rw [hc1]
          exact Nat.mod_lt _ (by omega)
        · omega
        · intro j h1 hj
          show rx_hw_owned cfg ((List.set _ _ _).getD
            ((((p.rx_pointer + 1) &&& (cfg.RX_DESC - 1)) + cfg.RX_DESC - j) % cfg.RX_DESC) default)
          rw [hc1, back_index _ _ _ h1 (by omega)]
          apply hmark
          by_cases hj1 : j = 1
          · left
            subst hj1
            show (p.rx_pointer + cfg.RX_DESC - 0) % cfg.RX_DESC = p.rx_pointer
            rw [Nat.sub_zero, Nat.add_mod_right, Nat.mod_eq_of_lt hin]
          · right
            exact hback (j - 1) (by omega) (by omega)
      · exact ⟨_, scan_stop_found cfg _ p ho hf⟩

/-- The scan loop of `ftmac100_receive` ends within `RX_DESC + 1` iterations
when the capacity is a power of two, the cursor is in range and the ownership
bit is not zero. -/
theorem scan_terminates (cfg : Config) (hpow : ∃ k, cfg.RX_DESC = 2 ^ k)
    (hown : cfg.RXDES0_RXDMA_OWN ≠ 0) (fuel : Nat) (p : ftmac100_driver_s)
    (hlen : p.rxdes.length = cfg.RX_DESC) (hin : p.rx_pointer < cfg.RX_DESC)
    (hfuel : cfg.RX_DESC + 1 ≤ fuel) :
    ∃ r, ftmac100_receive_scan cfg fuel p = some r := by
  obtain ⟨r, hr⟩ := scan_terminates_aux cfg hpow hown cfg.RX_DESC p hlen hin (Nat.le_refl _)
    (by intro j h1 hj; omega)
  refine ⟨r, ?_⟩
  have := scan_mono cfg _ p r hr (fuel - (cfg.RX_DESC + 1))
  rw [Nat.add_sub_cancel' hfuel] at this
  exact this

/-- C9: when the RX slot at `rx_pointer` is hardware-owned, `ftmac100_receive`
returns at once and changes nothing: the result is the input state, the trace
having gained only the entry of `ftmac100_receive` itself (no call into the
network stack, no `ftmac100_transmit`). -/
theorem receive_nothing_released (cfg : Config) (up : Upstream) (fuel : Nat)
    (priv : ftmac100_driver_s)
    (h : rx_hw_owned cfg (priv.rxdes.getD priv.rx_pointer default)) :
    ftmac100_receive cfg up (fuel + 1) priv =
      some { priv with trace := priv.trace ++ [Event.ftmac100_receive] } := by
  unfold ftmac100_receive
  rw [scan_stop_owned cfg fuel (record Event.ftmac100_receive priv) h]
  rfl

/-- Witness for C9: the freshly initialised RX ring has every entry
hardware-owned; a receive pass leaves cursor, rings, pending count and
exchange buffer as they were. -/
theorem receive_nothing_released_witness :
    rx_hw_owned cfg4 (fresh4.rxdes.getD fresh4.rx_pointer default) ∧
      ftmac100_receive cfg4 idleUp 5 fresh4 =
        some { fresh4 with trace := fresh4.trace ++ [Event.ftmac100_receive] } :=
  ⟨by decide, receive_nothing_released cfg4 idleUp 4 fresh4 (by decide)⟩

/-- Counterexample to C8 as stated: in `rxfirst4` the released slot at the
cursor has the first-segment flag set and the last-segment flag clear, so it
does not have both flags set; yet `ftmac100_receive` copies its 64 bytes into
the exchange buffer and hands them to `arp_ipin` and `ipv4_input`. -/
theorem receive_first_segment_only_delivered :
    ¬ rx_hw_owned cfg4 (rxfirst4.rxdes.getD rxfirst4.rx_pointer default) ∧
      (rxfirst4.rxdes.getD rxfirst4.rx_pointer default).rxdes0 &&& cfg4.RXDES0_LRS = 0 ∧
      (ftmac100_receive cfg4 sinkUp 5 rxfirst4).map (fun s => upcalls_of s.trace) =
        some [(Upcall.arp_ipin, 64), (Upcall.ipv4_input, 64)] ∧
      rxfirst4.ft_dev.d_data = [] ∧
      (ftmac100_receive cfg4 sinkUp 5 rxfirst4).map (fun s => s.ft_dev.d_data.length) =
        some 64 ∧
      (ftmac100_receive cfg4 sinkUp 5 rxfirst4).map (fun s => s.ft_dev.d_data.getD 12 0) =
        some 8 := by
  refine ⟨by decide, by decide, ?_, rfl, ?_, ?_⟩ <;> rfl

/-- C8, amended: a released RX slot at the cursor without the first-segment
flag is not delivered: `ftmac100_receive` sets its status word to the bare
ownership bit, moves the cursor on and continues exactly as a call on the
resulting ring, the exchange buffer untouched; a released slot with the
first-segment flag is delivered whatever its last-segment flag. -/
theorem receive_skips_without_first_segment (cfg : Config) (up : Upstream) (fuel : Nat)
    (priv : ftmac100_driver_s)
    (hrel : ¬ rx_hw_owned cfg (priv.rxdes.getD priv.rx_pointer default)) :
    ((priv.rxdes.getD priv.rx_pointer default).rxdes0 &&& cfg.RXDES0_FRS = 0 →
      ftmac100_receive cfg up (fuel + 1) priv =
        ftmac100_receive cfg up fuel
          { priv with
            rxdes := priv.rxdes.set priv.rx_pointer
              { priv.rxdes.getD priv.rx_pointer default with
                rxdes0 := cfg.RXDES0_RXDMA_OWN },
            rx_pointer := (priv.rx_pointer + 1) &&& (cfg.RX_DESC - 1) }) ∧
    ((priv.rxdes.getD priv.rx_pointer default).rxdes0 &&& cfg.RXDES0_FRS ≠ 0 →
      ftmac100_receive cfg up (fuel + 1) priv =
        some (ftmac100_receive_found cfg up (record Event.ftmac100_receive priv))) := by
  constructor
  · intro hf
    unfold ftmac100_receive
    rw [scan_skip cfg fuel (record Event.ftmac100_receive priv) hrel hf]
    rfl
  · intro hf
    unfold ftmac100_receive
    rw [scan_stop_found cfg fuel (record Event.ftmac100_receive priv) hrel hf]

/-- Witness for the amended C8: in `rxskip4` the released slot at the cursor
lacks the first-segment flag; the receive pass continues on the ring in which
that slot is hardware-owned and the cursor is at entry 1. -/
theorem receive_skips_without_first_segment_witness :
    ¬ rx_hw_owned cfg4 (rxskip4.rxdes.getD rxskip4.rx_pointer default) ∧
      (rxskip4.rxdes.getD rxskip4.rx_pointer default).rxdes0 &&& cfg4.RXDES0_FRS = 0 ∧
      ftmac100_receive cfg4 sinkUp 5 rxskip4 =
        ftmac100_receive cfg4 sinkUp 4
          { rxskip4 with
            rxdes := rxskip4.rxdes.set rxskip4.rx_pointer
              { rxskip4.rxdes.getD rxskip4.rx_pointer default with
                rxdes0 := cfg4.RXDES0_RXDMA_OWN },
            rx_pointer := (rxskip4.rx_pointer + 1) &&& (cfg4.RX_DESC - 1) } :=
  ⟨by decide, by decide,
    (receive_skips_without_first_segment cfg4 sinkUp 4 rxskip4 (by decide)).1 (by decide)⟩

theorem Starts_first (f : Upcall) (hook : net_driver_s → net_driver_s) (p : ftmac100_driver_s) :
    Starts (Event.upcall f p.ft_dev) p (upcall f hook p) :=
  ⟨[], rfl⟩

theorem Starts_of_Pass {e : Event} {p q r : ftmac100_driver_s} (h : Starts e p q)
    (h2 : Pass q r) : Starts e p r := by
  obtain ⟨rest, e1⟩ := h
  obtain ⟨⟨l, e2, _⟩, _⟩ := h2
  exact ⟨rest ++ l, by rw [e2, e1]; simp⟩

theorem Starts_upcall {e : Event} {p q : ftmac100_driver_s} (f : Upcall)
    (hook : net_driver_s → net_driver_s) (h : Starts e p q) : Starts e p (upcall f hook q) :=
  Starts_of_Pass h (Pass_upcall f hook (Pass.prefl q))

theorem Starts_transmit {e : Event} {p q : ftmac100_driver_s} (cfg : Config)
    (h : Starts e p q) : Starts e p (ftmac100_transmit cfg q).2 :=
  Starts_of_Pass h (Pass_transmit cfg (Pass.prefl q))

theorem dispatch_first_call (cfg : Config) (up : Upstream) (p : ftmac100_driver_s)
    (hacc : rx_accepted cfg p.ft_dev.d_data) :
    Starts (Event.upcall (rx_handler cfg p.ft_dev.d_data) p.ft_dev) p
      (ftmac100_receive_dispatch cfg up p) := by
  by_cases c1 : (cfg.NET_IPv4 && cfg.eth_hdr_type p.ft_dev.d_data == cfg.HTONS_ETHTYPE_IP) = true
  · have hh : rx_handler cfg p.ft_dev.d_data = Upcall.arp_ipin := by
      simp only [rx_handler, c1, if_true]
    have hq := Starts_first Upcall.arp_ipin up.arp_ipin p
    rw [hh]
    simp only [ftmac100_receive_dispatch, c1, if_true]
    generalize upcall Upcall.arp_ipin up.arp_ipin p = q at hq ⊢
    split_ifs <;> repeat (first | apply Starts_transmit | apply Starts_upcall | exact hq)
  · by_cases c2 :
        (cfg.NET_IPv6 && cfg.eth_hdr_type p.ft_dev.d_data == cfg.HTONS_ETHTYPE_IP6) = true
    · have hh : rx_handler cfg p.ft_dev.d_data = Upcall.ipv6_input := by
        simp only [rx_handler, c1, c2, if_true, if_false]
        rfl
      have hq := Starts_first Upcall.ipv6_input up.ipv6_input p
      rw [hh]
      simp only [ftmac100_receive_dispatch, c1, c2, if_true, if_false]
      simp only [Bool.false_eq_true, if_false]
      generalize upcall Upcall.ipv6_input up.ipv6_input p = q at hq ⊢
      split_ifs <;> repeat (first | apply Starts_transmit | apply Starts_upcall | exact hq)
    · have hh : rx_handler cfg p.ft_dev.d_data = Upcall.arp_arpin := by
        simp only [rx_handler, c1, c2, if_false]
        rfl
      have c3 : (cfg.NET_ARP && cfg.eth_hdr_type p.ft_dev.d_data == cfg.HTONS_ETHTYPE_ARP) =
          true := by
        rcases hacc with ⟨a, b⟩ | ⟨a, b⟩ | ⟨a, b⟩
        · exact absurd (by simp [a, b]) c1
        · exact absurd (by simp [a, b]) c2
        · simp [a, b]
      have hq := Starts_first Upcall.arp_arpin up.arp_arpin p
      rw [hh]
      simp only [ftmac100_receive_dispatch, c1, c2, c3, if_true, if_false]
      simp only [Bool.false_eq_true, if_false]
      generalize upcall Upcall.arp_arpin up.arp_arpin p = q at hq ⊢
      split_ifs <;> repeat (first | apply Starts_transmit | apply Starts_upcall | exact hq)

theorem Pass_input (cfg : Config) (up : Upstream) (p : ftmac100_driver_s) :
    Pass p (ftmac100_receive_input cfg up p) := by
  simp only [ftmac100_receive_input]
  split_ifs
  · exact (Pass_upcall _ _ (Pass.prefl p)).ptrans (Pass_dispatch cfg up _)
  · exact Pass_dispatch cfg up p

theorem input_first_call (cfg : Config) (up : Upstream) (p : ftmac100_driver_s)
    (hacc : rx_accepted cfg (if cfg.NET_PKT then up.pkt_input p.ft_dev else p.ft_dev).d_data) :
    Starts
      (Event.upcall (if cfg.NET_PKT then Upcall.pkt_input else rx_handler cfg p.ft_dev.d_data)
        p.ft_dev) p (ftmac100_receive_input cfg up p) := by
  simp only [ftmac100_receive_input]
  by_cases hp : cfg.NET_PKT = true
  · simp only [hp, if_true]
    exact Starts_of_Pass (Starts_first _ _ p) (Pass_dispatch cfg up _)
  · simp only [hp, if_false] at hacc ⊢
    simp only [Bool.false_eq_true, if_false]
    exact dispatch_first_call cfg up p hacc

theorem Pass_set_dev {p q : ftmac100_driver_s} (d : net_driver_s) (h : Pass p q) :
    Pass p { q with ft_dev := d } :=
  h.ptrans ⟨Emits_of_trace_eq rfl, ⟨rfl, rfl, rfl, rfl, rfl, rfl, rfl, fun _ _ => rfl⟩, rfl, rfl⟩

theorem Pass_txpoll (cfg : Config) (st : PollStep) (p : ftmac100_driver_s) :
    Pass p (ftmac100_txpoll cfg st p).2 := by
  simp only [ftmac100_txpoll]
  split_ifs <;>
    repeat (first | apply Pass_transmit | apply Pass_upcall | exact Pass.prefl _)

theorem Pass_poll_callbacks (cfg : Config) (steps : List PollStep) (p : ftmac100_driver_s) :
    Pass p (poll_callbacks cfg steps p) := by
  induction steps generalizing p with
  | nil => exact Pass.prefl p
  | cons st rest ih =>
    simp only [poll_callbacks]
    exact ((Pass_set_dev _ (Pass.prefl p)).ptrans (Pass_txpoll cfg st _)).ptrans (ih _)

theorem Pass_txdone_loop (cfg : Config) (fuel : Nat) (p : ftmac100_driver_s) :
    Pass p (ftmac100_txdone_loop cfg fuel p) := by
  obtain ⟨t, c, n, e⟩ := txdone_loop_frame cfg fuel p
  rw [e]
  exact ⟨Emits_of_trace_eq rfl, ⟨rfl, rfl, rfl, rfl, rfl, rfl, rfl, fun _ _ => rfl⟩, rfl, rfl⟩

theorem txdone_emits (cfg : Config) (up : Upstream) (p : ftmac100_driver_s) :
    Emits p (ftmac100_txdone cfg up p) [Action.txdone] ∧ Quiet p (ftmac100_txdone cfg up p) := by
  have h1 : Emits p (record Event.ftmac100_txdone p) [Action.txdone] :=
    Emits_record Event.ftmac100_txdone p
  have h2 := Pass_txdone_loop cfg (record Event.ftmac100_txdone p).tx_pending
    (record Event.ftmac100_txdone p)
  have h3 : Pass (ftmac100_txdone_reclaim cfg (record Event.ftmac100_txdone p))
      (record (Event.upcall Upcall.devif_poll
        (wd_cancel WdogId.ft_txtimeout
          (ftmac100_txdone_reclaim cfg (record Event.ftmac100_txdone p))).ft_dev)
        (wd_cancel WdogId.ft_txtimeout
          (ftmac100_txdone_reclaim cfg (record Event.ftmac100_txdone p)))) :=
    ⟨⟨[Event.wd_cancel WdogId.ft_txtimeout, Event.upcall Upcall.devif_poll
          (ftmac100_txdone_reclaim cfg (record Event.ftmac100_txdone p)).ft_dev],
        by show (_ ++ [_]) ++ [_] = _
           rw [List.append_assoc]
           rfl, rfl⟩,
      ⟨rfl, rfl, rfl, rfl, rfl, rfl, rfl, fun _ _ => rfl⟩, rfl, rfl⟩
  have h4 := Pass_poll_callbacks cfg up.devif_poll
    (record (Event.upcall Upcall.devif_poll
        (wd_cancel WdogId.ft_txtimeout
          (ftmac100_txdone_reclaim cfg (record Event.ftmac100_txdone p))).ft_dev)
        (wd_cancel WdogId.ft_txtimeout
          (ftmac100_txdone_reclaim cfg (record Event.ftmac100_txdone p))))
  have h5 := (h2.ptrans h3).ptrans h4
  exact ⟨h1.etrans h5.1, (Quiet_record _ p).qtrans h5.2.1⟩

theorem receive_emits (cfg : Config) (hown : cfg.RXDES0_RXDMA_OWN ≠ 0) (up : Upstream)
    (fuel : Nat) (p q : ftmac100_driver_s) (h : ftmac100_receive cfg up fuel p = some q) :
    Emits p q [Action.receive] ∧ Quiet p q := by
  unfold ftmac100_receive at h
  have h0 : Emits p (record Event.ftmac100_receive p) [Action.receive] :=
    Emits_record Event.ftmac100_receive p
  cases hs : ftmac100_receive_scan cfg fuel (record Event.ftmac100_receive p) with
  | none => simp [hs] at h
  | some res =>
    obtain ⟨p1, b⟩ := res
    obtain ⟨⟨r, x, e⟩, _⟩ := scan_spec cfg hown fuel _ p1 b hs
    have hq1 : Quiet (record Event.ftmac100_receive p) p1 := by
      rw [e]
      exact ⟨rfl, rfl, rfl, rfl, rfl, rfl, rfl, fun _ _ => rfl⟩
    have he1 : Emits (record Event.ftmac100_receive p) p1 [] := by
      rw [e]
      exact Emits_of_trace_eq rfl
    rw [hs] at h
    cases b with
    | false =>
      simp only [Option.some.injEq] at h
      subst h
      exact ⟨h0.etrans he1, (Quiet_record _ p).qtrans hq1⟩
    | true =>
      simp only [Option.some.injEq] at h
      subst h
      have hc : Pass p1 (ftmac100_receive_copy cfg p1) :=
        ⟨Emits_of_trace_eq rfl, ⟨rfl, rfl, rfl, rfl, rfl, rfl, rfl, fun _ _ => rfl⟩, rfl, rfl⟩
      have hi := hc.ptrans (Pass_input cfg up (ftmac100_receive_copy cfg p1))
      have hr : Emits (ftmac100_receive_input cfg up (ftmac100_receive_copy cfg p1))
          (ftmac100_receive_found cfg up p1) [] ∧
          Quiet (ftmac100_receive_input cfg up (ftmac100_receive_copy cfg p1))
            (ftmac100_receive_found cfg up p1) :=
        ⟨Emits_of_trace_eq rfl, ⟨rfl, rfl, rfl, rfl, rfl, rfl, rfl, fun _ _ => rfl⟩⟩
      exact ⟨(h0.etrans he1).etrans (hi.1.etrans hr.1),
        ((Quiet_record _ p).qtrans hq1).qtrans (hi.2.1.qtrans hr.2)⟩

theorem getreg32_phycr_cases (p : ftmac100_driver_s) :
    (p.phycr_in = [] ∧ getreg32_phycr p = (p.iobase Reg.phycr, p)) ∨
      ∃ v rest, p.phycr_in = v :: rest ∧ getreg32_phycr p = (v, { p with phycr_in := rest }) := by
  unfold getreg32_phycr
  cases h : p.phycr_in with
  | nil => exact Or.inl ⟨rfl, rfl⟩
  | cons v rest => exact Or.inr ⟨v, rest, rfl, rfl⟩

theorem mdio_loop_frame (cfg : Config) (n v : Nat) (p : ftmac100_driver_s) :
    ∃ pin, (ftmac100_mdio_read_loop cfg n v p).2 = { p with phycr_in := pin } := by
  induction n generalizing v p with
  | zero => exact ⟨_, rfl⟩
  | succ n ih =>
    simp only [ftmac100_mdio_read_loop]
    rcases getreg32_phycr_cases p with ⟨_, e⟩ | ⟨w, rest, _, e⟩
    · rw [e]
      split_ifs
      · exact ⟨_, rfl⟩
      · exact ih _ _
    · rw [e]
      split_ifs
      · exact ⟨_, rfl⟩
      · obtain ⟨pin, e2⟩ := ih w { p with phycr_in := rest }
        exact ⟨pin, e2⟩

theorem mdio_loop_value (cfg : Config) (n v : Nat) (p q : ftmac100_driver_s)
    (h1 : p.phycr_in = q.phycr_in) (h2 : p.iobase Reg.phycr = q.iobase Reg.phycr) :
    (ftmac100_mdio_read_loop cfg n v p).1 = (ftmac100_mdio_read_loop cfg n v q).1 := by
  induction n generalizing v p q with
  | zero => rfl
  | succ n ih =>
    simp only [ftmac100_mdio_read_loop]
    rcases getreg32_phycr_cases p with ⟨hp, e⟩ | ⟨w, rest, hp, e⟩
    · rcases getreg32_phycr_cases q with ⟨_, e2⟩ | ⟨w2, rest2, hq, _⟩
      · rw [e, e2]
        simp only [h2]
        split_ifs
        · rfl
        · exact ih _ _ _ h1 h2
      · rw [hp] at h1
        rw [hq] at h1
        exact absurd h1 (by simp)
    · rcases getreg32_phycr_cases q with ⟨hq, _⟩ | ⟨w2, rest2, hq, e2⟩
      · rw [hp, hq] at h1
        exact absurd h1 (by simp)
      · rw [hp, hq] at h1
        simp only [List.cons.injEq] at h1
        obtain ⟨rfl, rfl⟩ := h1
        rw [e, e2]
        split_ifs
        · rfl
        · exact ih _ _ _ rfl h2

theorem mdio_read_value (cfg : Config) (reg : Nat) (p q : ftmac100_driver_s)
    (h : p.phycr_in = q.phycr_in) :
    (ftmac100_mdio_read cfg reg p).1 = (ftmac100_mdio_read cfg reg q).1 := by
  simp only [ftmac100_mdio_read]
  rw [mdio_loop_value cfg 10 _
    (putreg32 (cfg.PHYCR_PHYAD 1 ||| cfg.PHYCR_REGAD reg ||| cfg.PHYCR_MIIRD) Reg.phycr p)
    (putreg32 (cfg.PHYCR_PHYAD 1 ||| cfg.PHYCR_REGAD reg ||| cfg.PHYCR_MIIRD) Reg.phycr q) h
    (by simp [putreg32, record])]

theorem mdio_read_frame (cfg : Config) (reg : Nat) (p : ftmac100_driver_s) :
    ∃ pin, (ftmac100_mdio_read cfg reg p).2 =
      { p with
        iobase := fun r => if r = Reg.phycr then
          cfg.PHYCR_PHYAD 1 ||| cfg.PHYCR_REGAD reg ||| cfg.PHYCR_MIIRD else p.iobase r,
        phycr_in := pin,
        trace := p.trace ++ [Event.putreg32
          (cfg.PHYCR_PHYAD 1 ||| cfg.PHYCR_REGAD reg ||| cfg.PHYCR_MIIRD) Reg.phycr] } := by
  obtain ⟨pin, e⟩ := mdio_loop_frame cfg 10
    (cfg.PHYCR_PHYAD 1 ||| cfg.PHYCR_REGAD reg ||| cfg.PHYCR_MIIRD)
    (putreg32 (cfg.PHYCR_PHYAD 1 ||| cfg.PHYCR_REGAD reg ||| cfg.PHYCR_MIIRD) Reg.phycr p)
  refine ⟨pin, ?_⟩
  show (ftmac100_mdio_read_loop cfg 10 _ _).2 = _
  rw [e]
  rfl

/-- The PHY branch of `ftmac100_interrupt_process` shows two PHY register
writes in the trace, sets the link flag from bit 2 of PHY register 1 and
changes no register other than the PHY control register. -/
theorem phy_status_spec (cfg : Config) (p : ftmac100_driver_s) :
    Emits p (ftmac100_phy_status cfg p) [Action.phy, Action.phy] ∧
      (ftmac100_phy_status cfg p).ft_bifup =
        decide ((ftmac100_mdio_read cfg 1 p).1 &&& 0x04 ≠ 0) ∧
      ∀ r, r ≠ Reg.phycr → (ftmac100_phy_status cfg p).iobase r = p.iobase r := by
  obtain ⟨pin1, e1⟩ := mdio_read_frame cfg 1 p
  have hb : ∀ q : ftmac100_driver_s,
      (if (ftmac100_mdio_read cfg 1 p).1 &&& 0x04 ≠ 0 then { q with ft_bifup := true }
        else { q with ft_bifup := false }) =
      { q with ft_bifup := decide ((ftmac100_mdio_read cfg 1 p).1 &&& 0x04 ≠ 0) } := by
    intro q
    split_ifs with h <;> simp [h]
  obtain ⟨pin2, e2⟩ := mdio_read_frame cfg 5
    { (ftmac100_mdio_read cfg 1 p).2 with
      ft_bifup := decide ((ftmac100_mdio_read cfg 1 p).1 &&& 0x04 ≠ 0) }
  have e : ftmac100_phy_status cfg p = (ftmac100_mdio_read cfg 5
      { (ftmac100_mdio_read cfg 1 p).2 with
        ft_bifup := decide ((ftmac100_mdio_read cfg 1 p).1 &&& 0x04 ≠ 0) }).2 := by
    simp only [ftmac100_phy_status]
    rw [hb]
  rw [e, e2, e1]
  refine ⟨⟨[Event.putreg32 (cfg.PHYCR_PHYAD 1 ||| cfg.PHYCR_REGAD 1 ||| cfg.PHYCR_MIIRD)
      Reg.phycr, Event.putreg32 (cfg.PHYCR_PHYAD 1 ||| cfg.PHYCR_REGAD 5 ||| cfg.PHYCR_MIIRD)
      Reg.phycr], ?_, rfl⟩, rfl, ?_⟩
  · show (_ ++ [_]) ++ [_] = _
    rw [List.append_assoc]
    rfl
  · intro r hr
    simp [hr]

theorem receive_returns (cfg : Config) (hpow : ∃ k, cfg.RX_DESC = 2 ^ k)
    (hown : cfg.RXDES0_RXDMA_OWN ≠ 0) (up : Upstream) (fuel : Nat) (p : ftmac100_driver_s)
    (hlen : p.rxdes.length = cfg.RX_DESC) (hin : p.rx_pointer < cfg.RX_DESC)
    (hfuel : cfg.RX_DESC + 1 ≤ fuel) : ∃ q, ftmac100_receive cfg up fuel p = some q := by
  obtain ⟨⟨q, b⟩, hr⟩ := scan_terminates cfg hpow hown fuel (record Event.ftmac100_receive p)
    hlen hin hfuel
  unfold ftmac100_receive
  rw [hr]
  cases b with
  | false => exact ⟨_, rfl⟩
  | true => exact ⟨_, rfl⟩

theorem Emits_step (c : Prop) [Decidable c] (p q : ftmac100_driver_s) (a : List Action)
    (h : Emits p q a) : Emits p (if c then q else p) (if c then a else []) := by
  split_ifs
  · exact h
  · exact Emits.erefl p

theorem Quiet_step (c : Prop) [Decidable c] (p q : ftmac100_driver_s) (h : Quiet p q) :
    Quiet p (if c then q else p) := by
  split_ifs
  · exact h
  · exact Quiet.qrefl p

/-- C10: `ftmac100_interrupt_process` returns, and the trace shows exactly the
actions that the status selects, in order: the write to the receive-poll
register iff `RPKT_SAV` is set (the value written is 1), `ftmac100_receive` iff
`RPKT_FINISH` or `NORXBUF` is set, `ftmac100_txdone` iff `XPKT_OK` is set, the
PHY reads iff `PHYSTS_CHG` is set, in which case the link flag becomes
`(PHY register 1 & 0x04) != 0`.  With status 0 the only effect is the final
write of the interrupt mask; otherwise the final state is the composition of
the selected steps followed by that write. -/
theorem interrupt_process_actions (cfg : Config) (up : Upstream) (fuel : Nat)
    (priv : ftmac100_driver_s)
    (hpow : ∃ k, cfg.RX_DESC = 2 ^ k) (hown : cfg.RXDES0_RXDMA_OWN ≠ 0)
    (hlen : priv.rxdes.length = cfg.RX_DESC) (hin : priv.rx_pointer < cfg.RX_DESC)
    (hfuel : cfg.RX_DESC + 1 ≤ fuel) :
    ∃ priv1,
      ftmac100_interrupt_process cfg up fuel priv = some priv1 ∧
      Emits priv priv1 (interrupt_actions cfg (interrupt_status cfg priv)) ∧
      priv1.ft_bifup =
        (if interrupt_status cfg priv &&& cfg.INT_PHYSTS_CHG ≠ 0 then
          decide ((ftmac100_mdio_read cfg 1 priv).1 &&& 0x04 ≠ 0)
        else priv.ft_bifup) ∧
      priv1.iobase Reg.rxpd =
        (if interrupt_status cfg priv &&& cfg.INT_RPKT_SAV ≠ 0 then 1
          else priv.iobase Reg.rxpd) ∧
      (interrupt_status cfg priv = 0 →
        priv1 = putreg32 (INT_MASK_ALL_ENABLED cfg) Reg.imr priv) ∧
      (interrupt_status cfg priv ≠ 0 →
        ∃ p1,
          (if interrupt_status cfg priv &&& (cfg.INT_RPKT_FINISH ||| cfg.INT_NORXBUF) ≠ 0 then
            ftmac100_receive cfg up fuel
              (if interrupt_status cfg priv &&& cfg.INT_RPKT_SAV ≠ 0 then
                putreg32 1 Reg.rxpd priv else priv)
          else some (if interrupt_status cfg priv &&& cfg.INT_RPKT_SAV ≠ 0 then
            putreg32 1 Reg.rxpd priv else priv)) = some p1 ∧
          priv1 = putreg32 (INT_MASK_ALL_ENABLED cfg) Reg.imr
            (if interrupt_status cfg priv &&& cfg.INT_PHYSTS_CHG ≠ 0 then
              ftmac100_phy_status cfg
                (if interrupt_status cfg priv &&& cfg.INT_XPKT_OK ≠ 0 then
                  ftmac100_txdone cfg up p1 else p1)
            else
              (if interrupt_status cfg priv &&& cfg.INT_XPKT_OK ≠ 0 then
                ftmac100_txdone cfg up p1 else p1))) := by
  generalize hs : interrupt_status cfg priv = s
  have hs' : (if cfg.NET_NOINTS = true then priv.status else priv.iobase Reg.isr) = s := hs
  have hmask : ∀ q : ftmac100_driver_s,
      Emits q (putreg32 (INT_MASK_ALL_ENABLED cfg) Reg.imr q) [] :=
    fun q => ⟨[Event.putreg32 (INT_MASK_ALL_ENABLED cfg) Reg.imr], rfl, rfl⟩
  by_cases h0 : s = 0
  · refine ⟨putreg32 (INT_MASK_ALL_ENABLED cfg) Reg.imr priv, ?_, ?_, ?_, ?_, fun _ => rfl,
      fun h => absurd h0 h⟩
    · simp only [ftmac100_interrupt_process, hs', h0, if_true]
    · rw [h0]
      simp only [interrupt_actions, Nat.zero_and, ne_eq, not_true_eq_false, if_false,
        List.append_nil]
      exact hmask priv
    · rw [h0]
      simp only [Nat.zero_and, ne_eq, not_true_eq_false, if_false]
      rfl
    · rw [h0]
      simp only [Nat.zero_and, ne_eq, not_true_eq_false, if_false]
      rfl
  · -- the acknowledge step
    have hA : Emits priv
        (if s &&& cfg.INT_RPKT_SAV ≠ 0 then putreg32 1 Reg.rxpd priv else priv)
        (if s &&& cfg.INT_RPKT_SAV ≠ 0 then [Action.ack_rx] else []) :=
      Emits_step _ _ _ _ ⟨[Event.putreg32 1 Reg.rxpd], rfl, rfl⟩
    have hAf : ∀ A : ftmac100_driver_s,
        A = (if s &&& cfg.INT_RPKT_SAV ≠ 0 then putreg32 1 Reg.rxpd priv else priv) →
        A.rxdes = priv.rxdes ∧ A.rx_pointer = priv.rx_pointer ∧ A.ft_bifup = priv.ft_bifup ∧
          A.phycr_in = priv.phycr_in ∧
          A.iobase Reg.rxpd = (if s &&& cfg.INT_RPKT_SAV ≠ 0 then 1 else priv.iobase Reg.rxpd) := by
      intro A hA
      rw [hA]
      split_ifs
      · exact ⟨rfl, rfl, rfl, rfl, rfl⟩
      · exact ⟨rfl, rfl, rfl, rfl, rfl⟩
    generalize hAdef :
      (if s &&& cfg.INT_RPKT_SAV ≠ 0 then putreg32 1 Reg.rxpd priv else priv) = A at hA
    obtain ⟨a1, a2, a3, a4, a5⟩ := hAf A hAdef.symm
    -- the receive step
    have hB : ∃ p1,
        (if s &&& (cfg.INT_RPKT_FINISH ||| cfg.INT_NORXBUF) ≠ 0 then
          ftmac100_receive cfg up fuel A else some A) = some p1 ∧
        Emits A p1
          (if s &&& (cfg.INT_RPKT_FINISH ||| cfg.INT_NORXBUF) ≠ 0 then [Action.receive]
            else []) ∧
        Quiet A p1 := by
      split_ifs
      · obtain ⟨q, hq⟩ := receive_returns cfg hpow hown up fuel A (by rw [a1]; exact hlen)
          (by rw [a2]; exact hin) hfuel
        exact ⟨q, hq, receive_emits cfg hown up fuel A q hq⟩
      · exact ⟨A, rfl, Emits.erefl A, Quiet.qrefl A⟩
    obtain ⟨p1, hB1, hB2, hB3⟩ := hB
    -- the reclaim step
    have hC : Emits p1
        (if s &&& cfg.INT_XPKT_OK ≠ 0 then ftmac100_txdone cfg up p1 else p1)
        (if s &&& cfg.INT_XPKT_OK ≠ 0 then [Action.txdone] else []) :=
      Emits_step _ _ _ _ (txdone_emits cfg up p1).1
    have hCq : Quiet p1 (if s &&& cfg.INT_XPKT_OK ≠ 0 then ftmac100_txdone cfg up p1 else p1) :=
      Quiet_step _ _ _ (txdone_emits cfg up p1).2
    generalize hCdef :
      (if s &&& cfg.INT_XPKT_OK ≠ 0 then ftmac100_txdone cfg up p1 else p1) = C at hC hCq
    have hAC : Quiet A C := hB3.qtrans hCq
    -- the PHY step
    have hD : Emits C (if s &&& cfg.INT_PHYSTS_CHG ≠ 0 then ftmac100_phy_status cfg C else C)
        (if s &&& cfg.INT_PHYSTS_CHG ≠ 0 then [Action.phy, Action.phy] else []) :=
      Emits_step _ _ _ _ (phy_status_spec cfg C).1
    have hval : (ftmac100_mdio_read cfg 1 C).1 = (ftmac100_mdio_read cfg 1 priv).1 :=
      mdio_read_value cfg 1 C priv (hAC.2.2.2.2.2.2.1.trans a4)
    have hDf : (if s &&& cfg.INT_PHYSTS_CHG ≠ 0 then ftmac100_phy_status cfg C else C).ft_bifup =
          (if s &&& cfg.INT_PHYSTS_CHG ≠ 0 then
            decide ((ftmac100_mdio_read cfg 1 priv).1 &&& 0x04 ≠ 0) else priv.ft_bifup) ∧
        (if s &&& cfg.INT_PHYSTS_CHG ≠ 0 then ftmac100_phy_status cfg C else C).iobase Reg.rxpd =
          (if s &&& cfg.INT_RPKT_SAV ≠ 0 then 1 else priv.iobase Reg.rxpd) := by
      have hrx : C.iobase Reg.rxpd = A.iobase Reg.rxpd := hAC.2.2.2.2.2.2.2 Reg.rxpd (by decide)
      by_cases h4 : s &&& cfg.INT_PHYSTS_CHG ≠ 0
      · simp only [if_pos h4]
        refine ⟨?_, ?_⟩
        · rw [(phy_status_spec cfg C).2.1, hval]
        · rw [(phy_status_spec cfg C).2.2 Reg.rxpd (by decide), hrx, a5]
      · simp only [if_neg h4]
        exact ⟨hAC.1.trans a3, hrx.trans a5⟩
    subst hCdef
    subst hAdef
    refine ⟨putreg32 (INT_MASK_ALL_ENABLED cfg) Reg.imr
      (if s &&& cfg.INT_PHYSTS_CHG ≠ 0 then
        ftmac100_phy_status cfg
          (if s &&& cfg.INT_XPKT_OK ≠ 0 then ftmac100_txdone cfg up p1 else p1)
      else (if s &&& cfg.INT_XPKT_OK ≠ 0 then ftmac100_txdone cfg up p1 else p1)),
      ?_, ?_, hDf.1, hDf.2, fun h => absurd h h0, fun _ => ⟨p1, hB1, rfl⟩⟩
    · simp only [ftmac100_interrupt_process, hs', h0, if_false]
      rw [hB1]
    · have := (((hA.etrans hB2).etrans hC).etrans hD).etrans (hmask _)
      simpa only [interrupt_actions, List.append_nil] using this

/-- Witness for C10: with status `0x251` (`RPKT_FINISH`, `XPKT_OK`, `RPKT_SAV`,
`PHYSTS_CHG`) the trace shows the receive-poll write, the receive pass, the
reclaim and the two PHY reads, in this order, and the link flag is set. -/
theorem interrupt_process_actions_witness :
    (∃ k, cfg4.RX_DESC = 2 ^ k) ∧ cfg4.RXDES0_RXDMA_OWN ≠ 0 ∧
      irq4.rxdes.length = cfg4.RX_DESC ∧ irq4.rx_pointer < cfg4.RX_DESC ∧
      cfg4.RX_DESC + 1 ≤ 5 ∧
      ∃ priv1, ftmac100_interrupt_process cfg4 sinkUp 5 irq4 = some priv1 ∧
        Emits irq4 priv1
          [Action.ack_rx, Action.receive, Action.txdone, Action.phy, Action.phy] ∧
        priv1.ft_bifup = true ∧ priv1.iobase Reg.rxpd = 1 := by
  refine ⟨⟨2, rfl⟩, by decide, rfl, by decide, by decide, ?_⟩
  obtain ⟨priv1, h1, h2, h3, h4, _, _⟩ :=
    interrupt_process_actions cfg4 sinkUp 5 irq4 ⟨2, rfl⟩ (by decide) rfl (by decide)
      (by decide)
  exact ⟨priv1, h1, h2, h3, h4⟩

theorem cursor_advance_iterate (c : Nat) (hpow : ∃ k, c = 2 ^ k) (i k : Nat) (hi : i < c) :
    (cursor_advance c)^[k] i = (i + k) % c := by
  induction k with
  | zero => exact (Nat.mod_eq_of_lt hi).symm
  | succ k ih =>
    rw [Function.iterate_succ_apply', ih]
    unfold cursor_advance
    rw [and_pred_pow2 _ _ hpow, Nat.add_mod, Nat.mod_mod, ← Nat.add_mod, Nat.add_assoc]

/-- C19: for a power-of-two capacity `c` and an index `i < c`, the cursor step
`(i + 1) & (c - 1)` that `ftmac100_transmit` applies to `tx_pointer`,
`ftmac100_txdone` to `tx_clean_pointer` and `ftmac100_receive` to `rx_pointer`
equals `(i + 1) mod c`, stays below `c`, and applied `c` times returns `i`. -/
theorem cursor_advance_wraps (c i : Nat) (hpow : ∃ k, c = 2 ^ k) (hi : i < c) :
    cursor_advance c i = (i + 1) % c ∧ cursor_advance c i < c ∧
      (cursor_advance c)^[c] i = i ∧
      (∀ (cfg : Config) (priv : ftmac100_driver_s),
        (ftmac100_transmit cfg priv).2.tx_pointer = cursor_advance cfg.TX_DESC priv.tx_pointer) ∧
      (∀ (cfg : Config) (priv : ftmac100_driver_s), priv.tx_pending ≠ 0 →
        ¬ tx_hw_owned cfg (priv.txdes.getD priv.tx_clean_pointer default) →
        (ftmac100_txdone_loop cfg 1 priv).tx_clean_pointer =
          cursor_advance cfg.TX_DESC priv.tx_clean_pointer) ∧
      (∀ (cfg : Config) (slot : Nat) (priv : ftmac100_driver_s),
        (ftmac100_receive_recycle cfg slot priv).rx_pointer =
          cursor_advance cfg.RX_DESC priv.rx_pointer) ∧
      (∀ (cfg : Config) (fuel : Nat) (priv : ftmac100_driver_s),
        ¬ rx_hw_owned cfg (priv.rxdes.getD priv.rx_pointer default) →
        (priv.rxdes.getD priv.rx_pointer default).rxdes0 &&& cfg.RXDES0_FRS = 0 →
        ftmac100_receive_scan cfg (fuel + 1) priv =
          ftmac100_receive_scan cfg fuel
            { priv with
              rxdes := priv.rxdes.set priv.rx_pointer
                { priv.rxdes.getD priv.rx_pointer default with
                  rxdes0 := cfg.RXDES0_RXDMA_OWN },
              rx_pointer := cursor_advance cfg.RX_DESC priv.rx_pointer }) := by
  have hc : 0 < c := by omega
  have h1 : cursor_advance c i = (i + 1) % c := and_pred_pow2 _ _ hpow
  refine ⟨h1, ?_, ?_, fun _ _ => rfl, ?_, fun _ _ _ => rfl, ?_⟩
  · rw [h1]
    exact Nat.mod_lt _ hc
  · rw [cursor_advance_iterate c hpow i c hi, Nat.add_mod_right, Nat.mod_eq_of_lt hi]
  · intro cfg priv hp ho
    rw [txdone_loop_step cfg 0 priv hp ho]
    rfl
  · intro cfg fuel priv ho hf
    exact scan_skip cfg fuel priv ho hf

/-- Witness for C19: capacity 4 and index 3; the step wraps to 0 and four
steps return to 3. -/
theorem cursor_advance_wraps_witness :
    (∃ k, 4 = 2 ^ k) ∧ 3 < 4 ∧ cursor_advance 4 3 = 0 ∧ (cursor_advance 4)^[4] 3 = 3 :=
  ⟨⟨2, rfl⟩, by decide, (cursor_advance_wraps 4 3 ⟨2, rfl⟩ (by decide)).1,
    (cursor_advance_wraps 4 3 ⟨2, rfl⟩ (by decide)).2.2.1⟩

/-- C16, the code at the failing input: in `txbusy4_armed` three descriptors
are pending and the TX-timeout watchdog runs; `ftmac100_txdone` reclaims two,
stops at the hardware-owned entry 2 with one descriptor still pending, the
poll offers no frame, and the watchdog has nevertheless been cancelled. -/
theorem txdone_cancels_while_pending :
    txbusy4_armed.ft_txtimeout = true ∧
      tx_hw_owned cfg4
        ((ftmac100_txdone cfg4 emptyPollUp txbusy4_armed).txdes.getD
          (ftmac100_txdone cfg4 emptyPollUp txbusy4_armed).tx_clean_pointer default) ∧
      (ftmac100_txdone cfg4 emptyPollUp txbusy4_armed).tx_pending = 1 ∧
      (ftmac100_txdone cfg4 emptyPollUp txbusy4_armed).ft_txtimeout = false := by
  refine ⟨rfl, by decide, rfl, rfl⟩

theorem txpoll_tx (cfg : Config) (st : PollStep) (p : ftmac100_driver_s) :
    (ftmac100_txpoll cfg st p).2.tx_clean_pointer = p.tx_clean_pointer ∧
      p.tx_pending ≤ (ftmac100_txpoll cfg st p).2.tx_pending ∧
      (ftmac100_txpoll cfg st p).2.tx_pending ≤ p.tx_pending + 1 := by
  simp only [ftmac100_txpoll]
  split_ifs <;> refine ⟨rfl, ?_, ?_⟩ <;>
    first
      | exact Nat.le_refl _
      | exact Nat.le_succ _

theorem poll_callbacks_tx (cfg : Config) (steps : List PollStep) (p : ftmac100_driver_s) :
    (poll_callbacks cfg steps p).tx_clean_pointer = p.tx_clean_pointer ∧
      p.tx_pending ≤ (poll_callbacks cfg steps p).tx_pending ∧
      (poll_callbacks cfg steps p).tx_pending ≤ p.tx_pending + steps.length := by
  induction steps generalizing p with
  | nil => exact ⟨rfl, Nat.le_refl _, Nat.le_refl _⟩
  | cons st rest ih =>
    simp only [poll_callbacks, List.length_cons]
    obtain ⟨h1, h2, h3⟩ := ih (ftmac100_txpoll cfg st { p with ft_dev := st.prep p.ft_dev }).2
    obtain ⟨g1, g2, g3⟩ := txpoll_tx cfg st { p with ft_dev := st.prep p.ft_dev }
    refine ⟨h1.trans g1, ?_, ?_⟩
    · exact Nat.le_trans g2 h2
    · have g3' : (ftmac100_txpoll cfg st { p with ft_dev := st.prep p.ft_dev }).2.tx_pending ≤
          p.tx_pending + 1 := g3
      omega

/-- Counterexample to C15 as stated: in `txbusy4` three descriptors are
pending and the slot at the clean cursor is software-owned, yet after
`ftmac100_txtimeout_process` the clean cursor has not advanced and
`tx_pending` has not decreased. -/
theorem txtimeout_does_not_reclaim :
    0 < txbusy4.tx_pending ∧
      ¬ tx_hw_owned cfg4 (txbusy4.txdes.getD txbusy4.tx_clean_pointer default) ∧
      (ftmac100_txtimeout_process cfg4 emptyPollUp txbusy4).tx_clean_pointer =
        txbusy4.tx_clean_pointer ∧
      (ftmac100_txtimeout_process cfg4 emptyPollUp txbusy4).tx_pending = txbusy4.tx_pending ∧
      (ftmac100_txtimeout_process cfg4 emptyPollUp txbusy4).txdes = txbusy4.txdes := by
  refine ⟨by decide, by decide, rfl, rfl, rfl⟩

/-- C15, amended: timeout recovery does not run the reclaim operation;
`ftmac100_txtimeout_process` only invokes the upstream poll, so it leaves the
clean cursor where it was and `tx_pending` does not decrease (it grows by at
most one per round of the poll). -/
theorem txtimeout_only_polls (cfg : Config) (up : Upstream) (priv : ftmac100_driver_s) :
    ftmac100_txtimeout_process cfg up priv = devif_poll cfg up priv ∧
      (ftmac100_txtimeout_process cfg up priv).tx_clean_pointer = priv.tx_clean_pointer ∧
      priv.tx_pending ≤ (ftmac100_txtimeout_process cfg up priv).tx_pending ∧
      (ftmac100_txtimeout_process cfg up priv).tx_pending ≤
        priv.tx_pending + up.devif_poll.length := by
  obtain ⟨h1, h2, h3⟩ := poll_callbacks_tx cfg up.devif_poll
    (record (Event.upcall Upcall.devif_poll priv.ft_dev) priv)
  exact ⟨rfl, h1, h2, h3⟩

/-- Counterexample to C12 as stated: under `CONFIG_NET_NOINTS` an interrupt
with status `0x10` (`XPKT_OK`) is followed by one with status `0x01`
(`RPKT_FINISH`) before the worker runs.  One unit is queued, but the snapshot
is `0x01`, not `0x11`, and the pass of the worker runs `ftmac100_receive` only:
the three pending descriptors are not reclaimed. -/
theorem interrupt_snapshot_not_or :
    cfg4d.NET_NOINTS = true ∧
      (two_interrupts cfg4d idleUp 5 0x10 0x01 txbusy4_armed).map
          (fun s => (s.ft_work, s.status)) =
        some (some Work.ftmac100_interrupt_work, 0x01) ∧
      (0x10 ||| 0x01 : Nat) = 0x11 ∧
      ((two_interrupts cfg4d idleUp 5 0x10 0x01 txbusy4_armed).bind
          (work_run cfg4d idleUp 5)).map
          (fun s => (s.trace.filterMap action_of, s.tx_pending)) =
        some ([Action.receive], 3) := by
  refine ⟨rfl, rfl, rfl, rfl⟩

theorem interrupt_deferred (cfg : Config) (up : Upstream) (fuel : Nat)
    (priv : ftmac100_driver_s) (hd : cfg.NET_NOINTS = true) :
    ∃ s, ftmac100_interrupt cfg up fuel priv = some s ∧
      s.ft_work = some Work.ftmac100_interrupt_work ∧ s.status = priv.iobase Reg.isr ∧
      s.iobase Reg.isr = priv.iobase Reg.isr := by
  simp only [ftmac100_interrupt, hd, if_true]
  refine ⟨_, rfl, rfl, ?_, ?_⟩
  · split_ifs <;> rfl
  · split_ifs <;> rfl

/-- C12, amended: under `CONFIG_NET_NOINTS`, when two interrupts with the
status values `a` and `b` arrive before the worker runs, exactly one unit
(`ftmac100_interrupt_work`) is in the work slot afterwards, and the snapshot
that its pass processes is `b`, the value captured by the later interrupt; the
earlier value is overwritten. -/
theorem interrupt_snapshot_latest (cfg : Config) (up : Upstream) (fuel : Nat)
    (priv : ftmac100_driver_s) (a b : Nat) (hd : cfg.NET_NOINTS = true) :
    ∃ s, two_interrupts cfg up fuel a b priv = some s ∧
      s.ft_work = some Work.ftmac100_interrupt_work ∧ s.status = b ∧
      interrupt_status cfg s = b ∧
      work_run cfg up fuel s =
        (ftmac100_interrupt_steps cfg up fuel b { s with ft_work := none }).map
          ftintc010_unmask_irq := by
  obtain ⟨s1, e1, _, _, _⟩ := interrupt_deferred cfg up fuel (hw_set_isr a priv) hd
  obtain ⟨s2, e2, w2, t2, _⟩ := interrupt_deferred cfg up fuel (hw_set_isr b s1) hd
  have hb : s2.status = b := t2
  refine ⟨s2, ?_, w2, hb, ?_, ?_⟩
  · unfold two_interrupts
    rw [e1]
    exact e2
  · simp only [interrupt_status, hd, if_true, hb]
  · have e : ftmac100_interrupt_process cfg up fuel { s2 with ft_work := none } =
        ftmac100_interrupt_steps cfg up fuel b { s2 with ft_work := none } := by
      simp only [ftmac100_interrupt_process, ftmac100_interrupt_steps, hd, if_true, hb]
    simp only [work_run, w2, ftmac100_interrupt_work, e]
    cases ftmac100_interrupt_steps cfg up fuel b { s2 with ft_work := none } <;> rfl

/-- Witness for C12 (amended): the two interrupts of the counterexample, with
status `0x10` and then `0x01`. -/
theorem interrupt_snapshot_latest_witness :
    cfg4d.NET_NOINTS = true ∧
      ∃ s, two_interrupts cfg4d idleUp 5 0x10 0x01 txbusy4_armed = some s ∧
        s.ft_work = some Work.ftmac100_interrupt_work ∧ s.status = 0x01 ∧
        interrupt_status cfg4d s = 0x01 ∧
        work_run cfg4d idleUp 5 s =
          (ftmac100_interrupt_steps cfg4d idleUp 5 0x01 { s with ft_work := none }).map
            ftintc010_unmask_irq :=
  ⟨rfl, interrupt_snapshot_latest cfg4d idleUp 5 txbusy4_armed 0x10 0x01 rfl⟩

theorem armed_by_transmit_nil : armed_by_transmit [] := by
  intro l1 l2 h
  cases l1 <;> simp at h

theorem armed_by_transmit_append {a b : List Event} (ha : armed_by_transmit a)
    (hb : armed_by_transmit b) : armed_by_transmit (a ++ b) := by
  intro l1 l2 h
  rcases List.append_eq_append_iff.1 h with ⟨a1, e1, e2⟩ | ⟨c1, e1, e2⟩
  · rw [e1]
    exact List.mem_append_right _ (hb a1 l2 e2)
  · cases c1 with
    | nil =>
      simp only [List.nil_append] at e2
      exact absurd (hb [] l2 e2.symm) (List.not_mem_nil _)
    | cons c cs =>
      simp only [List.cons_append, List.cons.injEq] at e2
      obtain ⟨rfl, _⟩ := e2
      exact ha l1 cs e1

theorem armed_by_transmit_single (e : Event) (he : e ≠ Event.wd_start WdogId.ft_txtimeout) :
    armed_by_transmit [e] := by
  intro l1 l2 h
  cases l1 with
  | nil =>
    simp only [List.nil_append, List.cons.injEq] at h
    exact absurd h.1 he
  | cons a t =>
    simp only [List.cons_append, List.cons.injEq] at h
    cases t <;> simp at h

theorem Polled.polled_refl (p : ftmac100_driver_s) : Polled p p :=
  ⟨[], by simp, rfl, armed_by_transmit_nil, Or.inl rfl, by simp⟩

theorem Polled.polled_trans {p q r : ftmac100_driver_s} (h1 : Polled p q) (h2 : Polled q r)
    (hmono : p.tx_pending ≤ q.tx_pending ∧ q.tx_pending ≤ r.tx_pending) : Polled p r := by
  obtain ⟨l1, e1, c1, a1, t1, n1⟩ := h1
  obtain ⟨l2, e2, c2, a2, t2, n2⟩ := h2
  refine ⟨l1 ++ l2, ?_, ?_, armed_by_transmit_append a1 a2, ?_, ?_⟩
  · rw [e2, e1, List.append_assoc]
  · rw [List.countP_append, c1, c2]
  · rcases t2 with t2 | t2
    · rcases t1 with t1 | t1
      · exact Or.inl (t2.trans t1)
      · exact Or.inr (List.mem_append_left _ t1)
    · exact Or.inr (List.mem_append_right _ t2)
  · intro h
    rcases List.mem_append.1 h with h | h
    · have := n1 h
      omega
    · have := n2 h
      omega

theorem Polled_upcall (f : Upcall) (hook : net_driver_s → net_driver_s)
    (p : ftmac100_driver_s) (hf : f ≠ Upcall.devif_poll) : Polled p (upcall f hook p) := by
  refine ⟨[Event.upcall f p.ft_dev], rfl, ?_, ?_, Or.inl rfl, ?_⟩
  · cases f <;> first | rfl | exact absurd rfl hf
  · exact armed_by_transmit_single _ (by simp)
  · simp

theorem Polled_transmit (cfg : Config) (p : ftmac100_driver_s) :
    Polled p (ftmac100_transmit cfg p).2 := by
  refine ⟨[Event.ftmac100_transmit, Event.putreg32 1 Reg.txpd,
    Event.wd_start WdogId.ft_txtimeout], ?_, rfl, ?_, Or.inr (by simp), ?_⟩
  · simp [ftmac100_transmit, wd_start, putreg32, record]
  · intro l1 l2 h
    cases l1 with
    | nil => simp at h
    | cons a t =>
      simp only [List.cons_append, List.cons.injEq] at h
      rw [← h.1]
      exact List.mem_cons_self _ _
  · intro _
    exact Nat.lt_succ_self _

theorem Polled_txpoll (cfg : Config) (st : PollStep) (p : ftmac100_driver_s) :
    Polled p (ftmac100_txpoll cfg st p).2 := by
  have hT : ∀ q : ftmac100_driver_s, Polled p q → p.tx_pending ≤ q.tx_pending →
      Polled p (ftmac100_transmit cfg q).2 := fun q h hle =>
    h.polled_trans (Polled_transmit cfg q) ⟨hle, Nat.le_succ _⟩
  simp only [ftmac100_txpoll]
  split_ifs
  · exact hT _ (Polled_upcall _ _ p (by decide)) (Nat.le_refl _)
  · exact hT _ (Polled_upcall _ _ p (by decide)) (Nat.le_refl _)
  · exact hT _ (Polled_upcall _ _ p (by decide)) (Nat.le_refl _)
  · exact hT _ (Polled_upcall _ _ p (by decide)) (Nat.le_refl _)
  · exact hT _ (Polled.polled_refl p) (Nat.le_refl _)
  · exact Polled.polled_refl p

theorem Polled_poll_callbacks (cfg : Config) (steps : List PollStep) (p : ftmac100_driver_s) :
    Polled p (poll_callbacks cfg steps p) := by
  induction steps generalizing p with
  | nil => exact Polled.polled_refl p
  | cons st rest ih =>
    simp only [poll_callbacks]
    have h0 : Polled p { p with ft_dev := st.prep p.ft_dev } :=
      ⟨[], by simp, rfl, armed_by_transmit_nil, Or.inl rfl, by simp⟩
    have h1 := Polled_txpoll cfg st { p with ft_dev := st.prep p.ft_dev }
    have m1 := (txpoll_tx cfg st { p with ft_dev := st.prep p.ft_dev }).2.1
    have m2 := (poll_callbacks_tx cfg rest
      (ftmac100_txpoll cfg st { p with ft_dev := st.prep p.ft_dev }).2).2.1
    exact (h0.polled_trans h1 ⟨Nat.le_refl _, m1⟩).polled_trans (ih _) ⟨m1, m2⟩

theorem devif_poll_trace (cfg : Config) (up : Upstream) (p : ftmac100_driver_s) :
    ∃ l, (devif_poll cfg up p).trace = p.trace ++ l ∧ l.countP is_poll_call = 1 ∧
      armed_by_transmit l ∧
      ((devif_poll cfg up p).ft_txtimeout = p.ft_txtimeout ∨ Event.ftmac100_transmit ∈ l) ∧
      (Event.ftmac100_transmit ∈ l → p.tx_pending < (devif_poll cfg up p).tx_pending) := by
  obtain ⟨l, e, c, a, t, n⟩ := Polled_poll_callbacks cfg up.devif_poll
    (record (Event.upcall Upcall.devif_poll p.ft_dev) p)
  refine ⟨Event.upcall Upcall.devif_poll p.ft_dev :: l, ?_, ?_, ?_, ?_, ?_⟩
  · show (poll_callbacks cfg up.devif_poll _).trace = _
    rw [e]
    show (p.trace ++ [_]) ++ l = _
    rw [List.append_assoc]
    rfl
  · rw [List.countP_cons, c]
    rfl
  · exact armed_by_transmit_append (armed_by_transmit_single _ (by simp)) a
  · rcases t with t | t
    · exact Or.inl t
    · exact Or.inr (List.mem_cons_of_mem _ t)
  · intro h
    rcases List.mem_cons.1 h with h | h
    · exact absurd h (by simp)
    · exact n h

theorem txtimeout_poll_aux (cfg : Config) (up : Upstream) (priv p0 : ftmac100_driver_s)
    (pre : List Event) (ht : p0.ft_txtimeout = false) (hp : p0.trace = priv.trace ++ pre)
    (hc : pre.countP is_poll_call = 0) (ha : armed_by_transmit pre)
    (hn : Event.ftmac100_transmit ∉ pre) :
    ∃ l, (devif_poll cfg up p0).trace = priv.trace ++ l ∧ l.countP is_poll_call = 1 ∧
      armed_by_transmit l ∧
      ((devif_poll cfg up p0).ft_txtimeout = true → Event.ftmac100_transmit ∈ l) ∧
      ((∀ st ∈ up.devif_poll, ∀ dev, (st.prep dev).d_len = 0) →
        (devif_poll cfg up p0).ft_txtimeout = false ∧ Event.ftmac100_transmit ∉ l) := by
  obtain ⟨l, e, c, a, t, n⟩ := devif_poll_trace cfg up p0
  have hidle : (∀ st ∈ up.devif_poll, ∀ dev, (st.prep dev).d_len = 0) →
      Event.ftmac100_transmit ∉ l := by
    intro h hm
    have h1 := n hm
    have h2 : (devif_poll cfg up p0).tx_pending = p0.tx_pending := by
      unfold devif_poll
      rw [poll_callbacks_no_frame cfg _ _ h]
      rfl
    omega
  refine ⟨pre ++ l, ?_, ?_, armed_by_transmit_append ha a, ?_, ?_⟩
  · rw [e, hp, List.append_assoc]
  · rw [List.countP_append, hc, c]
  · intro h
    rcases t with t | t
    · rw [t, ht] at h
      exact absurd h (by decide)
    · exact List.mem_append_right _ t
  · intro h
    have h3 := hidle h
    refine ⟨?_, ?_⟩
    · rcases t with t | t
      · rw [t, ht]
      · exact absurd t h3
    · intro hm
      rcases List.mem_append.1 hm with hm | hm
      · exact hn hm
      · exact h3 hm

/-- C14: one firing of the TX-timeout watchdog (in inline mode
`ftmac100_txtimeout_expiry` alone, under `CONFIG_NET_NOINTS` followed by the
worker pass it queues) returns and calls `devif_poll` exactly once.  Within the
trace of the firing the watchdog is started only after an entry of
`ftmac100_transmit`, so the handler itself never re-arms it: the watchdog runs
afterwards only if `ftmac100_transmit` was entered, and when the poll offers no
frame it is not running and `ftmac100_transmit` was not entered. -/
theorem txtimeout_fires_polls_once (cfg : Config) (up : Upstream) (fuel : Nat)
    (priv : ftmac100_driver_s) :
    ∃ q l, txtimeout_fires cfg up fuel priv = some q ∧ q.trace = priv.trace ++ l ∧
      l.countP is_poll_call = 1 ∧ armed_by_transmit l ∧
      (q.ft_txtimeout = true → Event.ftmac100_transmit ∈ l) ∧
      ((∀ st ∈ up.devif_poll, ∀ dev, (st.prep dev).d_len = 0) →
        q.ft_txtimeout = false ∧ Event.ftmac100_transmit ∉ l) := by
  by_cases hd : cfg.NET_NOINTS = true
  · have e : txtimeout_fires cfg up fuel priv =
        some (devif_poll cfg up
          { work_queue Work.ftmac100_txtimeout_work
              (work_cancel (ftintc010_mask_irq (wd_expire WdogId.ft_txtimeout priv))) with
            ft_work := none }) := by
      simp only [txtimeout_fires, ftmac100_txtimeout_expiry, hd, if_true]
      rfl
    obtain ⟨l, h⟩ := txtimeout_poll_aux cfg up priv
      { work_queue Work.ftmac100_txtimeout_work
          (work_cancel (ftintc010_mask_irq (wd_expire WdogId.ft_txtimeout priv))) with
        ft_work := none }
      [Event.mask_irq, Event.work_cancel, Event.work_queue Work.ftmac100_txtimeout_work]
      rfl (by simp [work_queue, work_cancel, ftintc010_mask_irq, wd_expire, record]) rfl
      (armed_by_transmit_append (armed_by_transmit_single _ (by simp))
        (armed_by_transmit_append (armed_by_transmit_single _ (by simp))
          (armed_by_transmit_single _ (by simp))))
      (by simp)
    exact ⟨_, l, e, h⟩
  · have e : txtimeout_fires cfg up fuel priv =
        some (devif_poll cfg up (wd_expire WdogId.ft_txtimeout priv)) := by
      simp only [txtimeout_fires, ftmac100_txtimeout_expiry, hd, ftmac100_txtimeout_process]
      rfl
    obtain ⟨l, h⟩ := txtimeout_poll_aux cfg up priv (wd_expire WdogId.ft_txtimeout priv) []
      rfl (by simp [wd_expire]) rfl armed_by_transmit_nil (by simp)
    exact ⟨_, l, e, h⟩

/-- Witness for C14: the TX-timeout fires in `txbusy4_armed` (three
descriptors pending) with a network stack whose poll offers no frame; in the
deferred configuration the watchdog is not running afterwards. -/
theorem txtimeout_fires_polls_once_witness :
    0 < txbusy4_armed.tx_pending ∧
      (∀ st ∈ emptyPollUp.devif_poll, ∀ dev, (st.prep dev).d_len = 0) ∧
      ∃ q l, txtimeout_fires cfg4d emptyPollUp 5 txbusy4_armed = some q ∧
        q.trace = txbusy4_armed.trace ++ l ∧ l.countP is_poll_call = 1 ∧
        q.ft_txtimeout = false ∧ Event.ftmac100_transmit ∉ l := by
  have hidle : ∀ st ∈ emptyPollUp.devif_poll, ∀ dev, (st.prep dev).d_len = 0 := by
    intro st hst dev
    simp only [emptyPollUp, List.mem_singleton] at hst
    rw [hst]
  obtain ⟨q, l, h1, h2, h3, _, _, h6⟩ :=
    txtimeout_fires_polls_once cfg4d emptyPollUp 5 txbusy4_armed
  exact ⟨by decide, hidle, q, l, h1, h2, h3, (h6 hidle).1, (h6 hidle).2⟩

theorem init_rxloop_spec (cfg : Config) (bd : Board) (p : ftmac100_driver_s) (k : Nat)
    (hk : k ≤ p.rxdes.length) :
    (∃ r, (List.range k).foldl (fun priv i => ftmac100_init_rxdes cfg bd i priv) p =
      { p with rxdes := r }) ∧
    ((List.range k).foldl (fun priv i => ftmac100_init_rxdes cfg bd i priv) p).rxdes.length =
      p.rxdes.length ∧
    ∀ i, ((List.range k).foldl
        (fun priv i => ftmac100_init_rxdes cfg bd i priv) p).rxdes.getD i default =
      if i < k then
        ⟨cfg.RXDES0_RXDMA_OWN,
          (p.rxdes.getD i default).rxdes1 ||| cfg.RXDES1_RXBUF_SIZE RX_BUF_SIZE,
          bd.kmem + i * RX_BUF_SIZE, bd.rxdes_addr + (i + 1) * bd.rxdes_size⟩
      else p.rxdes.getD i default := by
  induction k with
  | zero =>
    refine ⟨⟨_, rfl⟩, rfl, ?_⟩
    intro i
    rw [if_neg (Nat.not_lt_zero _)]
    rfl
  | succ k ih =>
    obtain ⟨⟨r, e⟩, hl, hg⟩ := ih (by omega)
    rw [List.range_succ, List.foldl_append]
    simp only [List.foldl_cons, List.foldl_nil]
    generalize (List.range k).foldl (fun priv i => ftmac100_init_rxdes cfg bd i priv) p = q
      at e hl hg
    refine ⟨⟨_, by rw [e]; rfl⟩, ?_, ?_⟩
    · show (List.set _ _ _).length = _
      rw [List.length_set, hl]
    · intro i
      show (List.set _ _ _).getD i default = _
      rw [getD_set_eq_ite]
      by_cases hik : k = i
      · subst hik
        rw [if_pos ⟨rfl, by omega⟩, if_pos (Nat.lt_succ_self _), hg k,
          if_neg (Nat.lt_irrefl _)]
      · rw [if_neg (fun h => hik h.1), hg i]
        by_cases hlt : i < k
        · rw [if_pos hlt, if_pos (by omega)]
        · rw [if_neg hlt, if_neg (by omega)]

theorem init_txloop_spec (p : ftmac100_driver_s) (k : Nat) (hk : k ≤ p.txdes.length) :
    (∃ t, (List.range k).foldl (fun priv i => ftmac100_init_txdes i priv) p =
      { p with txdes := t }) ∧
    ((List.range k).foldl (fun priv i => ftmac100_init_txdes i priv) p).txdes.length =
      p.txdes.length ∧
    ∀ i, ((List.range k).foldl (fun priv i => ftmac100_init_txdes i priv) p).txdes.getD i
        default =
      if i < k then ⟨0, 0, 0, 0⟩ else p.txdes.getD i default := by
  induction k with
  | zero =>
    refine ⟨⟨_, rfl⟩, rfl, ?_⟩
    intro i
    rw [if_neg (Nat.not_lt_zero _)]
    rfl
  | succ k ih =>
    obtain ⟨⟨r, e⟩, hl, hg⟩ := ih (by omega)
    rw [List.range_succ, List.foldl_append]
    simp only [List.foldl_cons, List.foldl_nil]
    generalize (List.range k).foldl (fun priv i => ftmac100_init_txdes i priv) p = q
      at e hl hg
    refine ⟨⟨_, by rw [e]; rfl⟩, ?_, ?_⟩
    · show (List.set _ _ _).length = _
      rw [List.length_set, hl]
    · intro i
      show (List.set _ _ _).getD i default = _
      rw [getD_set_eq_ite]
      by_cases hik : k = i
      · subst hik
        rw [if_pos ⟨rfl, by omega⟩, if_pos (Nat.lt_succ_self _)]
      · rw [if_neg (fun h => hik h.1), hg i]
        by_cases hlt : i < k
        · rw [if_pos hlt, if_pos (by omega)]
        · rw [if_neg hlt, if_neg (by omega)]

theorem init_spec (cfg : Config) (bd : Board) (priv : ftmac100_driver_s)
    (hrx : priv.rxdes.length = cfg.RX_DESC) (htx : priv.txdes.length = cfg.TX_DESC) :
    (ftmac100_init cfg bd priv).rx_pointer = 0 ∧ (ftmac100_init cfg bd priv).tx_pointer = 0 ∧
    (ftmac100_init cfg bd priv).tx_clean_pointer = 0 ∧
    (ftmac100_init cfg bd priv).tx_pending = 0 ∧
    (ftmac100_init cfg bd priv).iobase Reg.txr_badr = bd.txdes_addr ∧
    (ftmac100_init cfg bd priv).iobase Reg.rxr_badr = bd.rxdes_addr ∧
    (ftmac100_init cfg bd priv).iobase Reg.maccr = MACCR_ENABLE_ALL cfg ∧
    (ftmac100_init cfg bd priv).iobase Reg.imr = INT_MASK_ALL_ENABLED cfg ∧
    (ftmac100_init cfg bd priv).rxdes.length = cfg.RX_DESC ∧
    (ftmac100_init cfg bd priv).txdes.length = cfg.TX_DESC ∧
    (∀ i, i < cfg.RX_DESC → (ftmac100_init cfg bd priv).rxdes.getD i default =
      ⟨cfg.RXDES0_RXDMA_OWN,
        (if i = cfg.RX_DESC - 1 then cfg.RXDES1_EDORR else (priv.rxdes.getD i default).rxdes1)
          ||| cfg.RXDES1_RXBUF_SIZE RX_BUF_SIZE,
        bd.kmem + i * RX_BUF_SIZE,
        if i = cfg.RX_DESC - 1 then bd.rxdes_addr
        else bd.rxdes_addr + (i + 1) * bd.rxdes_size⟩) ∧
    (∀ i, i < cfg.TX_DESC → (ftmac100_init cfg bd priv).txdes.getD i default =
      ⟨0, if i = cfg.TX_DESC - 1 then cfg.TXDES1_EDOTR else 0, 0, 0⟩) ∧
    (ftmac100_init cfg bd priv).ft_txtimeout = priv.ft_txtimeout ∧
    (ftmac100_init cfg bd priv).ft_work = priv.ft_work := by
  let X3 : ftmac100_driver_s :=
    { putreg32 0 Reg.imr priv with
      rx_pointer := 0, tx_pointer := 0, tx_clean_pointer := 0, tx_pending := 0,
      rxdes := priv.rxdes.set (cfg.RX_DESC - 1)
        { priv.rxdes.getD (cfg.RX_DESC - 1) default with rxdes1 := cfg.RXDES1_EDORR } }
  have hX3l : X3.rxdes.length = cfg.RX_DESC := by
    show (List.set priv.rxdes _ _).length = _
    rw [List.length_set, hrx]
  have hX3g : ∀ i, i < cfg.RX_DESC → (X3.rxdes.getD i default).rxdes1 =
      if i = cfg.RX_DESC - 1 then cfg.RXDES1_EDORR else (priv.rxdes.getD i default).rxdes1 := by
    intro i hi
    have hs : X3.rxdes.getD i default =
        if cfg.RX_DESC - 1 = i ∧ cfg.RX_DESC - 1 < priv.rxdes.length then
          { priv.rxdes.getD (cfg.RX_DESC - 1) default with rxdes1 := cfg.RXDES1_EDORR }
        else priv.rxdes.getD i default := getD_set_eq_ite _ _ _ _ _
    rw [hs]
    by_cases hil : i = cfg.RX_DESC - 1
    · rw [if_pos ⟨hil.symm, by omega⟩, if_pos hil]
    · rw [if_neg (fun h => hil h.1.symm), if_neg hil]
  obtain ⟨⟨r, er⟩, hlr, hgr⟩ := init_rxloop_spec cfg bd X3 cfg.RX_DESC (Nat.le_of_eq hX3l.symm)
  rw [er] at hlr hgr
  have hlr1 : r.length = cfg.RX_DESC := hlr.trans hX3l
  have hgr1 : ∀ i, i < cfg.RX_DESC → r.getD i default =
      ⟨cfg.RXDES0_RXDMA_OWN,
        (if i = cfg.RX_DESC - 1 then cfg.RXDES1_EDORR else (priv.rxdes.getD i default).rxdes1)
          ||| cfg.RXDES1_RXBUF_SIZE RX_BUF_SIZE,
        bd.kmem + i * RX_BUF_SIZE, bd.rxdes_addr + (i + 1) * bd.rxdes_size⟩ := by
    intro i hi
    have h : r.getD i default = _ := hgr i
    rw [h, if_pos hi, hX3g i hi]
  let X5 : ftmac100_driver_s :=
    { X3 with
      rxdes := r.set (cfg.RX_DESC - 1)
        { r.getD (cfg.RX_DESC - 1) default with rxdes3 := bd.rxdes_addr } }
  obtain ⟨⟨t, et⟩, hlt, hgt⟩ := init_txloop_spec X5 cfg.TX_DESC (Nat.le_of_eq htx.symm)
  rw [et] at hlt hgt
  have hlt1 : t.length = cfg.TX_DESC := hlt.trans htx
  have hgt1 : ∀ i, i < cfg.TX_DESC → t.getD i default = ⟨0, 0, 0, 0⟩ := by
    intro i hi
    have h : t.getD i default = _ := hgt i
    rw [h, if_pos hi]
  have e : ftmac100_init cfg bd priv =
      putreg32 (INT_MASK_ALL_ENABLED cfg) Reg.imr
        (putreg32 (MACCR_ENABLE_ALL cfg) Reg.maccr
          (putreg32
            (cfg.DBLAC_RXFIFO_LTHR 2 ||| cfg.DBLAC_RXFIFO_HTHR 6 ||| cfg.DBLAC_RX_THR_EN)
            Reg.dblac
            (putreg32 (cfg.APTC_RXPOLL_CNT 1) Reg.aptc
              (putreg32 bd.rxdes_addr Reg.rxr_badr
                (putreg32 bd.txdes_addr Reg.txr_badr
                  { X5 with
                    txdes := t.set (cfg.TX_DESC - 1)
                      { t.getD (cfg.TX_DESC - 1) default with
                        txdes1 := cfg.TXDES1_EDOTR } }))))) := by
    have e0 : ftmac100_init cfg bd priv =
        (fun P6 : ftmac100_driver_s =>
          putreg32 (INT_MASK_ALL_ENABLED cfg) Reg.imr
            (putreg32 (MACCR_ENABLE_ALL cfg) Reg.maccr
              (putreg32
                (cfg.DBLAC_RXFIFO_LTHR 2 ||| cfg.DBLAC_RXFIFO_HTHR 6 ||| cfg.DBLAC_RX_THR_EN)
                Reg.dblac
                (putreg32 (cfg.APTC_RXPOLL_CNT 1) Reg.aptc
                  (putreg32 bd.rxdes_addr Reg.rxr_badr
                    (putreg32 bd.txdes_addr Reg.txr_badr
                      { P6 with
                        txdes := P6.txdes.set (cfg.TX_DESC - 1)
                          { P6.txdes.getD (cfg.TX_DESC - 1) default with
                            txdes1 := cfg.TXDES1_EDOTR } }))))))
          ((List.range cfg.TX_DESC).foldl (fun priv i => ftmac100_init_txdes i priv)
            ((fun P4 : ftmac100_driver_s =>
              { P4 with
                rxdes := P4.rxdes.set (cfg.RX_DESC - 1)
                  { P4.rxdes.getD (cfg.RX_DESC - 1) default with rxdes3 := bd.rxdes_addr } })
              ((List.range cfg.RX_DESC).foldl
                (fun priv i => ftmac100_init_rxdes cfg bd i priv) X3))) := rfl
    rw [e0, er]
    show (fun P6 : ftmac100_driver_s => _)
      ((List.range cfg.TX_DESC).foldl (fun priv i => ftmac100_init_txdes i priv) X5) = _
    rw [et]
  rw [e]
  refine ⟨rfl, rfl, rfl, rfl, rfl, rfl, rfl, rfl, ?_, ?_, ?_, ?_, rfl, rfl⟩
  · show (List.set r _ _).length = _
    rw [List.length_set, hlr1]
  · show (List.set t _ _).length = _
    rw [List.length_set, hlt1]
  · intro i hi
    show (List.set r _ _).getD i default = _
    rw [getD_set_eq_ite]
    by_cases hil : i = cfg.RX_DESC - 1
    · rw [if_pos ⟨hil.symm, by omega⟩, hgr1 _ (by omega), if_pos hil, if_pos rfl, ← hil,
        if_pos rfl]
    · rw [if_neg (fun h => hil h.1.symm), hgr1 i hi, if_neg hil, if_neg hil]
  · intro i hi
    show (List.set t _ _).getD i default = _
    rw [getD_set_eq_ite]
    by_cases hil : i = cfg.TX_DESC - 1
    · rw [if_pos ⟨hil.symm, by omega⟩, hgt1 _ (by omega), if_pos hil]
    · rw [if_neg (fun h => hil h.1.symm), hgt1 i hi, if_neg hil]

theorem txdone_loop_pending (cfg : Config) (fuel : Nat) (p : ftmac100_driver_s) :
    (ftmac100_txdone_loop cfg fuel p).tx_pending ≤ p.tx_pending := by
  induction fuel generalizing p with
  | zero => exact Nat.le_refl _
  | succ n ih =>
    by_cases hp : p.tx_pending = 0
    · rw [txdone_loop_idle cfg _ p hp]
    · by_cases h : tx_hw_owned cfg (p.txdes.getD p.tx_clean_pointer default)
      · rw [txdone_loop_stop cfg _ p h]
      · rw [txdone_loop_step cfg n p hp h]
        exact Nat.le_trans (ih _) (Nat.sub_le _ _)

theorem txdone_pending (cfg : Config) (up : Upstream) (p : ftmac100_driver_s) :
    (ftmac100_txdone cfg up p).tx_pending ≤ p.tx_pending + up.devif_poll.length := by
  have h1 := (poll_callbacks_tx cfg up.devif_poll
    (record (Event.upcall Upcall.devif_poll
        (wd_cancel WdogId.ft_txtimeout
          (ftmac100_txdone_reclaim cfg (record Event.ftmac100_txdone p))).ft_dev)
      (wd_cancel WdogId.ft_txtimeout
        (ftmac100_txdone_reclaim cfg (record Event.ftmac100_txdone p))))).2.2
  have h2 : (ftmac100_txdone_reclaim cfg (record Event.ftmac100_txdone p)).tx_pending ≤
      p.tx_pending :=
    txdone_loop_pending cfg _ (record Event.ftmac100_txdone p)
  have h3 : (ftmac100_txdone cfg up p).tx_pending ≤
      (ftmac100_txdone_reclaim cfg (record Event.ftmac100_txdone p)).tx_pending +
        up.devif_poll.length := h1
  omega

theorem scan_frame (cfg : Config) (fuel : Nat) (p q : ftmac100_driver_s) (b : Bool)
    (h : ftmac100_receive_scan cfg fuel p = some (q, b)) :
    ∃ r x, q = { p with rxdes := r, rx_pointer := x } := by
  induction fuel generalizing p with
  | zero => simp [ftmac100_receive_scan] at h
  | succ n ih =>
    by_cases ho : rx_hw_owned cfg (p.rxdes.getD p.rx_pointer default)
    · rw [scan_stop_owned cfg n p ho] at h
      simp only [Option.some.injEq, Prod.mk.injEq] at h
      obtain ⟨rfl, rfl⟩ := h
      exact ⟨_, _, rfl⟩
    · by_cases hf : (p.rxdes.getD p.rx_pointer default).rxdes0 &&& cfg.RXDES0_FRS = 0
      · rw [scan_skip cfg n p ho hf] at h
        obtain ⟨r, x, e⟩ := ih _ h
        exact ⟨r, x, by rw [e]⟩
      · rw [scan_stop_found cfg n p ho hf] at h
        simp only [Option.some.injEq, Prod.mk.injEq] at h
        obtain ⟨rfl, rfl⟩ := h
        exact ⟨_, _, rfl⟩

theorem Adds.arefl (n : Nat) (p : ftmac100_driver_s) : Adds n p p :=
  ⟨Nat.le_add_right _ _⟩

theorem Adds_upcall {n : Nat} {p q : ftmac100_driver_s} (f : Upcall)
    (hook : net_driver_s → net_driver_s) (h : Adds n p q) : Adds n p (upcall f hook q) :=
  ⟨h.le⟩

theorem Adds_transmit {p q : ftmac100_driver_s} (cfg : Config) (h : Adds 0 p q) :
    Adds 1 p (ftmac100_transmit cfg q).2 :=
  ⟨Nat.succ_le_succ h.le⟩

theorem dispatch_pending (cfg : Config) (up : Upstream) (p : ftmac100_driver_s) :
    Adds 1 p (ftmac100_receive_dispatch cfg up p) := by
  simp only [ftmac100_receive_dispatch]
  split_ifs <;>
    repeat (first | apply Adds_transmit | apply Adds_upcall | exact Adds.arefl _ _)

theorem input_pending (cfg : Config) (up : Upstream) (p : ftmac100_driver_s) :
    (ftmac100_receive_input cfg up p).tx_pending ≤ p.tx_pending + 1 := by
  simp only [ftmac100_receive_input]
  split_ifs
  · exact (dispatch_pending cfg up (upcall Upcall.pkt_input up.pkt_input p)).le
  · exact (dispatch_pending cfg up p).le

theorem receive_pending (cfg : Config) (up : Upstream) (fuel : Nat) (p q : ftmac100_driver_s)
    (h : ftmac100_receive cfg up fuel p = some q) : q.tx_pending ≤ p.tx_pending + 1 := by
  unfold ftmac100_receive at h
  cases hs : ftmac100_receive_scan cfg fuel (record Event.ftmac100_receive p) with
  | none => simp [hs] at h
  | some res =>
    obtain ⟨p1, b⟩ := res
    obtain ⟨r, x, e⟩ := scan_frame cfg fuel _ p1 b hs
    have hp1 : p1.tx_pending = p.tx_pending := by rw [e]; rfl
    rw [hs] at h
    cases b with
    | false =>
      simp only [Option.some.injEq] at h
      rw [← h, hp1]
      exact Nat.le_succ _
    | true =>
      simp only [Option.some.injEq] at h
      rw [← h, ← hp1]
      exact input_pending cfg up (ftmac100_receive_copy cfg p1)

theorem phy_status_frame (cfg : Config) (p : ftmac100_driver_s) :
    ∃ io pin tr b, ftmac100_phy_status cfg p =
      { p with iobase := io, phycr_in := pin, trace := tr, ft_bifup := b } := by
  obtain ⟨pin1, e1⟩ := mdio_read_frame cfg 1 p
  simp only [ftmac100_phy_status]
  split_ifs
  · obtain ⟨pin2, e2⟩ := mdio_read_frame cfg 5
      { (ftmac100_mdio_read cfg 1 p).2 with ft_bifup := true }
    rw [e2, e1]
    exact ⟨_, _, _, _, rfl⟩
  · obtain ⟨pin2, e2⟩ := mdio_read_frame cfg 5
      { (ftmac100_mdio_read cfg 1 p).2 with ft_bifup := false }
    rw [e2, e1]
    exact ⟨_, _, _, _, rfl⟩

theorem interrupt_steps_eq (cfg : Config) (up : Upstream) (fuel : Nat) (s : Nat)
    (p : ftmac100_driver_s) :
    ftmac100_interrupt_steps cfg up fuel s p =
      (if s &&& (cfg.INT_RPKT_FINISH ||| cfg.INT_NORXBUF) ≠ 0 then
        ftmac100_receive cfg up fuel
          (if s &&& cfg.INT_RPKT_SAV ≠ 0 then putreg32 1 Reg.rxpd p else p)
      else some (if s &&& cfg.INT_RPKT_SAV ≠ 0 then putreg32 1 Reg.rxpd p else p)).map
        (fun p2 =>
          putreg32 (INT_MASK_ALL_ENABLED cfg) Reg.imr
            (if s &&& cfg.INT_PHYSTS_CHG ≠ 0 then
              ftmac100_phy_status cfg
                (if s &&& cfg.INT_XPKT_OK ≠ 0 then ftmac100_txdone cfg up p2 else p2)
            else (if s &&& cfg.INT_XPKT_OK ≠ 0 then ftmac100_txdone cfg up p2 else p2))) := by
  unfold ftmac100_interrupt_steps
  by_cases hs : s = 0
  · subst hs
    simp only [Nat.zero_and, ne_eq, not_true_eq_false, if_false, if_true, Option.map_some']
  · simp only [hs, if_false]
    cases (if s &&& (cfg.INT_RPKT_FINISH ||| cfg.INT_NORXBUF) ≠ 0 then
        ftmac100_receive cfg up fuel
          (if s &&& cfg.INT_RPKT_SAV ≠ 0 then putreg32 1 Reg.rxpd p else p)
      else some (if s &&& cfg.INT_RPKT_SAV ≠ 0 then putreg32 1 Reg.rxpd p else p)) <;> rfl

theorem interrupt_process_eq (cfg : Config) (up : Upstream) (fuel : Nat)
    (p : ftmac100_driver_s) :
    ftmac100_interrupt_process cfg up fuel p =
      ftmac100_interrupt_steps cfg up fuel (interrupt_status cfg p) p := rfl

theorem interrupt_steps_pending (cfg : Config) (up : Upstream) (fuel : Nat) (s : Nat)
    (p q : ftmac100_driver_s) (h : ftmac100_interrupt_steps cfg up fuel s p = some q) :
    q.tx_pending ≤ p.tx_pending + 1 + up.devif_poll.length := by
  rw [interrupt_steps_eq] at h
  have h0 : (if s &&& cfg.INT_RPKT_SAV ≠ 0 then putreg32 1 Reg.rxpd p else p).tx_pending =
      p.tx_pending := by split_ifs <;> rfl
  generalize (if s &&& cfg.INT_RPKT_SAV ≠ 0 then putreg32 1 Reg.rxpd p else p) = p1 at h h0
  have h1 : ∀ p2, (if s &&& (cfg.INT_RPKT_FINISH ||| cfg.INT_NORXBUF) ≠ 0 then
      ftmac100_receive cfg up fuel p1 else some p1) = some p2 →
      p2.tx_pending ≤ p.tx_pending + 1 := by
    intro p2 h2
    split_ifs at h2
    · rw [← h0]
      exact receive_pending cfg up fuel p1 p2 h2
    · simp only [Option.some.injEq] at h2
      rw [← h2, h0]
      exact Nat.le_succ _
  cases hr : (if s &&& (cfg.INT_RPKT_FINISH ||| cfg.INT_NORXBUF) ≠ 0 then
      ftmac100_receive cfg up fuel p1 else some p1) with
  | none => rw [hr] at h; simp at h
  | some p2 =>
    rw [hr] at h
    simp only [Option.map_some', Option.some.injEq] at h
    have h2 := h1 p2 hr
    have h3 : (if s &&& cfg.INT_XPKT_OK ≠ 0 then ftmac100_txdone cfg up p2 else p2).tx_pending ≤
        p2.tx_pending + up.devif_poll.length := by
      split_ifs
      · exact txdone_pending cfg up p2
      · exact Nat.le_add_right _ _
    generalize (if s &&& cfg.INT_XPKT_OK ≠ 0 then ftmac100_txdone cfg up p2 else p2) = p3 at h h3
    have h4 : (if s &&& cfg.INT_PHYSTS_CHG ≠ 0 then ftmac100_phy_status cfg p3
        else p3).tx_pending = p3.tx_pending := by
      split_ifs
      · obtain ⟨io, pin, tr, b, e⟩ := phy_status_frame cfg p3
        rw [e]
      · rfl
    rw [← h]
    show (if s &&& cfg.INT_PHYSTS_CHG ≠ 0 then ftmac100_phy_status cfg p3
        else p3).tx_pending ≤ _
    rw [h4]
    omega

theorem init_pending (cfg : Config) (bd : Board) (p : ftmac100_driver_s) :
    (ftmac100_init cfg bd p).tx_pending = 0 := by
  have hrx : ∀ (l : List Nat) (x : ftmac100_driver_s),
      (l.foldl (fun priv i => ftmac100_init_rxdes cfg bd i priv) x).tx_pending =
        x.tx_pending := by
    intro l
    induction l with
    | nil => intro x; rfl
    | cons a t ih =>
      intro x
      rw [List.foldl_cons, ih]
      rfl
  have htx : ∀ (l : List Nat) (x : ftmac100_driver_s),
      (l.foldl (fun priv i => ftmac100_init_txdes i priv) x).tx_pending = x.tx_pending := by
    intro l
    induction l with
    | nil => intro x; rfl
    | cons a t ih =>
      intro x
      rw [List.foldl_cons, ih]
      rfl
  show ((List.range cfg.TX_DESC).foldl (fun priv i => ftmac100_init_txdes i priv) _).tx_pending
    = 0
  rw [htx]
  show ((List.range cfg.RX_DESC).foldl
    (fun priv i => ftmac100_init_rxdes cfg bd i priv) _).tx_pending = 0
  rw [hrx]

/-- Counterexample to C18 as stated: four submissions fill the ring of
`cfg4`, so `tx_pending = 4 = CONFIG_FTMAC100_TX_DESC` and the bound holds.
A fifth `ftmac100_transmit` makes it 5, and so does `ftmac100_txdone` when the
hardware has completed nothing and the poll of the network stack offers a
frame. -/
theorem pending_exceeds_capacity :
    (submit_all cfg4 [64, 64, 64, 64] fresh4).tx_pending ≤ cfg4.TX_DESC ∧
      ¬ (ftmac100_transmit cfg4 (submit_all cfg4 [64, 64, 64, 64] fresh4)).2.tx_pending ≤
        cfg4.TX_DESC ∧
      ¬ (ftmac100_txdone cfg4 framePollUp (submit_all cfg4 [64, 64, 64, 64] fresh4)).tx_pending ≤
        cfg4.TX_DESC := by
  refine ⟨by decide, by decide, by decide⟩

theorem interrupt_steps_returns (cfg : Config) (up : Upstream) (fuel : Nat) (s : Nat)
    (p : ftmac100_driver_s)
    (hpow : ∃ k, cfg.RX_DESC = 2 ^ k) (hown : cfg.RXDES0_RXDMA_OWN ≠ 0)
    (hlen : p.rxdes.length = cfg.RX_DESC) (hin : p.rx_pointer < cfg.RX_DESC)
    (hfuel : cfg.RX_DESC + 1 ≤ fuel) :
    ∃ p4 l, ftmac100_interrupt_steps cfg up fuel s p =
        some (putreg32 (INT_MASK_ALL_ENABLED cfg) Reg.imr p4) ∧
      p4.trace = p.trace ++ l := by
  rw [interrupt_steps_eq]
  have hA : ∃ a, Emits p
      (if s &&& cfg.INT_RPKT_SAV ≠ 0 then putreg32 1 Reg.rxpd p else p) a :=
    ⟨_, Emits_step _ _ _ _ ⟨[Event.putreg32 1 Reg.rxpd], rfl, rfl⟩⟩
  have hAf : (if s &&& cfg.INT_RPKT_SAV ≠ 0 then putreg32 1 Reg.rxpd p else p).rxdes = p.rxdes ∧
      (if s &&& cfg.INT_RPKT_SAV ≠ 0 then putreg32 1 Reg.rxpd p else p).rx_pointer =
        p.rx_pointer := by
    split_ifs <;> exact ⟨rfl, rfl⟩
  generalize (if s &&& cfg.INT_RPKT_SAV ≠ 0 then putreg32 1 Reg.rxpd p else p) = A at hA hAf
  obtain ⟨a, hA⟩ := hA
  have hB : ∃ p1 b,
      (if s &&& (cfg.INT_RPKT_FINISH ||| cfg.INT_NORXBUF) ≠ 0 then
        ftmac100_receive cfg up fuel A else some A) = some p1 ∧ Emits A p1 b := by
    split_ifs
    · obtain ⟨q, hq⟩ := receive_returns cfg hpow hown up fuel A (by rw [hAf.1]; exact hlen)
        (by rw [hAf.2]; exact hin) hfuel
      exact ⟨q, _, hq, (receive_emits cfg hown up fuel A q hq).1⟩
    · exact ⟨A, _, rfl, Emits.erefl A⟩
  obtain ⟨p1, b, hB1, hB2⟩ := hB
  have hC : ∃ c, Emits p1
      (if s &&& cfg.INT_XPKT_OK ≠ 0 then ftmac100_txdone cfg up p1 else p1) c :=
    ⟨_, Emits_step _ _ _ _ (txdone_emits cfg up p1).1⟩
  generalize hCdef :
    (if s &&& cfg.INT_XPKT_OK ≠ 0 then ftmac100_txdone cfg up p1 else p1) = C at hC
  obtain ⟨c, hC⟩ := hC
  have hD : ∃ d, Emits C
      (if s &&& cfg.INT_PHYSTS_CHG ≠ 0 then ftmac100_phy_status cfg C else C) d :=
    ⟨_, Emits_step _ _ _ _ (phy_status_spec cfg C).1⟩
  obtain ⟨d, hD⟩ := hD
  obtain ⟨l, hl, _⟩ := ((hA.etrans hB2).etrans hC).etrans hD
  subst hCdef
  rw [hB1]
  exact ⟨_, l, rfl, hl⟩

theorem interrupt_noints (cfg : Config) (up : Upstream) (fuel : Nat)
    (priv : ftmac100_driver_s) (hd : cfg.NET_NOINTS = true) :
    ∃ q, ftmac100_interrupt cfg up fuel priv = some q ∧
      ∃ m : ftmac100_driver_s,
        m.trace = priv.trace ++ [Event.mask_irq] ++ [Event.putreg32 0 Reg.imr] ∧
        m.iobase Reg.imr = 0 ∧
        (m.txdes = priv.txdes ∧ m.rxdes = priv.rxdes ∧ m.rx_pointer = priv.rx_pointer ∧
          m.tx_pointer = priv.tx_pointer ∧ m.tx_clean_pointer = priv.tx_clean_pointer ∧
          m.tx_pending = priv.tx_pending) ∧
        ∃ l, q.trace = m.trace ++ l ∧
          (q.iobase Reg.imr = m.iobase Reg.imr ∧
            q.ft_work = some Work.ftmac100_interrupt_work) ∧
          (q.txdes = m.txdes ∧ q.rxdes = m.rxdes ∧ q.rx_pointer = m.rx_pointer ∧
            q.tx_pointer = m.tx_pointer ∧ q.tx_clean_pointer = m.tx_clean_pointer ∧
            q.tx_pending = m.tx_pending) := by
  have hm : ∃ m : ftmac100_driver_s,
      m = putreg32 INT_MASK_ALL_DISABLED Reg.imr
        (ftintc010_mask_irq { priv with status := priv.iobase Reg.isr }) := ⟨_, rfl⟩
  obtain ⟨m, hm⟩ := hm
  have e : ftmac100_interrupt cfg up fuel priv =
      some (work_queue Work.ftmac100_interrupt_work
        (work_cancel (if m.status &&& cfg.INT_XPKT_OK ≠ 0 then
          wd_cancel WdogId.ft_txtimeout m else m))) := by
    rw [hm]
    simp only [ftmac100_interrupt, hd, if_true]
  have ht : m.trace = priv.trace ++ [Event.mask_irq] ++ [Event.putreg32 0 Reg.imr] := by
    rw [hm]
    rfl
  have hi : m.iobase Reg.imr = 0 := by
    rw [hm]
    rfl
  have hf : m.txdes = priv.txdes ∧ m.rxdes = priv.rxdes ∧ m.rx_pointer = priv.rx_pointer ∧
      m.tx_pointer = priv.tx_pointer ∧ m.tx_clean_pointer = priv.tx_clean_pointer ∧
      m.tx_pending = priv.tx_pending := by
    rw [hm]
    exact ⟨rfl, rfl, rfl, rfl, rfl, rfl⟩
  refine ⟨_, e, m, ht, hi, hf, ?_⟩
  by_cases hc : m.status &&& cfg.INT_XPKT_OK ≠ 0
  · rw [if_pos hc]
    exact ⟨[Event.wd_cancel WdogId.ft_txtimeout, Event.work_cancel,
      Event.work_queue Work.ftmac100_interrupt_work],
      by simp [work_queue, work_cancel, wd_cancel, record], ⟨rfl, rfl⟩,
      ⟨rfl, rfl, rfl, rfl, rfl, rfl⟩⟩
  · rw [if_neg hc]
    exact ⟨[Event.work_cancel, Event.work_queue Work.ftmac100_interrupt_work],
      by simp [work_queue, work_cancel, record], ⟨rfl, rfl⟩, ⟨rfl, rfl, rfl, rfl, rfl, rfl⟩⟩

/-- C11: `INT_MASK_ALL_ENABLED` is the OR of the seven sources, and for every
state and status `ftmac100_interrupt_process` returns with that value in the
interrupt mask register, the write being its last step.  `ftmac100_interrupt`
returns as well; the state `m` right after its write of 0 to the interrupt
mask register (the first write in inline mode, preceded only by the masking of
the interrupt line under `CONFIG_NET_NOINTS`) still has both rings, the three
cursors and `tx_pending` as they were at entry.  In inline mode the rest of the
handler is `ftmac100_interrupt_process` on `m`; under `CONFIG_NET_NOINTS` the
handler leaves the rings untouched altogether, the mask register at 0 and
`ftmac100_interrupt_work` in the work slot. -/
theorem interrupt_mask_discipline (cfg : Config) (up : Upstream) (fuel : Nat)
    (priv : ftmac100_driver_s)
    (hpow : ∃ k, cfg.RX_DESC = 2 ^ k) (hown : cfg.RXDES0_RXDMA_OWN ≠ 0)
    (hlen : priv.rxdes.length = cfg.RX_DESC) (hin : priv.rx_pointer < cfg.RX_DESC)
    (hfuel : cfg.RX_DESC + 1 ≤ fuel) :
    INT_MASK_ALL_ENABLED cfg =
      (cfg.INT_RPKT_FINISH ||| cfg.INT_NORXBUF ||| cfg.INT_XPKT_OK ||| cfg.INT_XPKT_LOST |||
        cfg.INT_RPKT_LOST ||| cfg.INT_AHB_ERR ||| cfg.INT_PHYSTS_CHG) ∧
    (∃ q l, ftmac100_interrupt_process cfg up fuel priv = some q ∧
      q.iobase Reg.imr = INT_MASK_ALL_ENABLED cfg ∧
      q.trace = priv.trace ++ l ++ [Event.putreg32 (INT_MASK_ALL_ENABLED cfg) Reg.imr]) ∧
    (∃ m q l, ftmac100_interrupt cfg up fuel priv = some q ∧
      m.trace = priv.trace ++ (if cfg.NET_NOINTS then [Event.mask_irq] else []) ++
        [Event.putreg32 0 Reg.imr] ∧
      m.iobase Reg.imr = 0 ∧
      m.txdes = priv.txdes ∧ m.rxdes = priv.rxdes ∧ m.rx_pointer = priv.rx_pointer ∧
      m.tx_pointer = priv.tx_pointer ∧ m.tx_clean_pointer = priv.tx_clean_pointer ∧
      m.tx_pending = priv.tx_pending ∧
      q.trace = m.trace ++ l ∧
      (cfg.NET_NOINTS = false →
        ftmac100_interrupt_process cfg up fuel m = some q ∧
        q.iobase Reg.imr = INT_MASK_ALL_ENABLED cfg) ∧
      (cfg.NET_NOINTS = true →
        q.iobase Reg.imr = 0 ∧ q.txdes = priv.txdes ∧ q.rxdes = priv.rxdes ∧
        q.rx_pointer = priv.rx_pointer ∧ q.tx_pointer = priv.tx_pointer ∧
        q.tx_clean_pointer = priv.tx_clean_pointer ∧ q.tx_pending = priv.tx_pending ∧
        q.ft_work = some Work.ftmac100_interrupt_work)) := by
  refine ⟨rfl, ?_, ?_⟩
  · obtain ⟨p4, l, e, hl⟩ := interrupt_steps_returns cfg up fuel (interrupt_status cfg priv)
      priv hpow hown hlen hin hfuel
    refine ⟨_, l, e, rfl, ?_⟩
    show p4.trace ++ [_] = _
    rw [hl]
  · by_cases hd : cfg.NET_NOINTS = true
    · obtain ⟨q, hq, m, hm1, hm2, hm3, l, hl, hq1, hq2⟩ := interrupt_noints cfg up fuel priv hd
      refine ⟨m, q, l, hq, ?_, hm2, hm3.1, hm3.2.1, hm3.2.2.1, hm3.2.2.2.1, hm3.2.2.2.2.1,
        hm3.2.2.2.2.2, hl, fun h => absurd hd (by rw [h]; decide), fun _ => ?_⟩
      · rw [hm1, hd]
        rfl
      · rw [hq2.1, hq2.2.1, hq2.2.2.1, hq2.2.2.2.1, hq2.2.2.2.2.1, hq2.2.2.2.2.2, hq1.1]
        exact ⟨hm2, hm3.1, hm3.2.1, hm3.2.2.1, hm3.2.2.2.1, hm3.2.2.2.2.1, hm3.2.2.2.2.2, hq1.2⟩
    · have hd0 : cfg.NET_NOINTS = false := by
        cases h : cfg.NET_NOINTS
        · rfl
        · exact absurd h hd
      obtain ⟨p4, l, e, hl⟩ := interrupt_steps_returns cfg up fuel
        (interrupt_status cfg (putreg32 0 Reg.imr priv)) (putreg32 0 Reg.imr priv)
        hpow hown hlen hin hfuel
      have e1 : ftmac100_interrupt cfg up fuel priv =
          ftmac100_interrupt_process cfg up fuel (putreg32 0 Reg.imr priv) := by
        simp only [ftmac100_interrupt, hd0]
        rfl
      refine ⟨putreg32 0 Reg.imr priv, _, l ++ [Event.putreg32 (INT_MASK_ALL_ENABLED cfg) Reg.imr],
        e1.trans e, ?_, rfl, rfl, rfl, rfl, rfl, rfl, rfl, ?_, fun _ => ⟨e, rfl⟩,
        fun h => absurd h hd⟩
      · rw [hd0]
        simp [putreg32, record]
      · show p4.trace ++ [_] = _
        rw [hl, List.append_assoc]

/-- Witness for C11: the interrupt of `irq4` (status `0x251`) in inline mode;
the mask register ends with `INT_MASK_ALL_ENABLED`, which is `0x3b3` for the
bit assignment of `cfg4`. -/
theorem interrupt_mask_discipline_witness :
    (∃ k, cfg4.RX_DESC = 2 ^ k) ∧ cfg4.RXDES0_RXDMA_OWN ≠ 0 ∧
      irq4.rxdes.length = cfg4.RX_DESC ∧ irq4.rx_pointer < cfg4.RX_DESC ∧
      cfg4.RX_DESC + 1 ≤ 5 ∧ INT_MASK_ALL_ENABLED cfg4 = 0x3b3 ∧
      ∃ q l, ftmac100_interrupt_process cfg4 sinkUp 5 irq4 = some q ∧
        q.iobase Reg.imr = INT_MASK_ALL_ENABLED cfg4 ∧
        q.trace = irq4.trace ++ l ++ [Event.putreg32 (INT_MASK_ALL_ENABLED cfg4) Reg.imr] :=
  ⟨⟨2, rfl⟩, by decide, rfl, by decide, by decide, rfl,
    (interrupt_mask_discipline cfg4 sinkUp 5 irq4 ⟨2, rfl⟩ (by decide) rfl (by decide)
      (by decide)).2.1⟩

/-- C17, the code at the failing input: in deferred mode the poll watchdog of
the brought-up device `up4d` fires and `ftmac100_poll_expiry` queues
`ftmac100_poll_work` without restarting the watchdog; an interrupt arrives
before the worker runs and `ftmac100_interrupt` cancels that unit; after the
worker has run the interrupt unit the poll watchdog is not running, the work
slot is empty and `devif_timer` was never called, so nothing will start the
periodic poll again.  The other paths do restart it: in inline mode every
firing ends with the watchdog running, and in deferred mode a firing that
finds the work slot occupied restarts the watchdog at once and calls nothing
else. -/
theorem poll_timer_lost :
    up4d.ft_txpoll = true ∧ up4d.ft_bifup = true ∧ up4d.ft_work = none ∧
      (ftmac100_poll_expiry cfg4d idleUp (wd_expire WdogId.ft_txpoll up4d)).ft_work =
        some Work.ftmac100_poll_work ∧
      poll_then_interrupt.map
          (fun s => (s.ft_txpoll, s.ft_work, (upcalls_of s.trace).map Prod.fst)) =
        some (false, none, []) ∧
      poll_then_interrupt.bind (work_run cfg4d idleUp 5) = poll_then_interrupt ∧
      (∀ (cfg : Config) (up : Upstream) (priv : ftmac100_driver_s), cfg.NET_NOINTS = false →
        (ftmac100_poll_expiry cfg up (wd_expire WdogId.ft_txpoll priv)).ft_txpoll = true) ∧
      (∀ (cfg : Config) (up : Upstream) (priv : ftmac100_driver_s) (w : Work),
        cfg.NET_NOINTS = true → priv.ft_work = some w →
        ftmac100_poll_expiry cfg up (wd_expire WdogId.ft_txpoll priv) =
          { priv with ft_txpoll := true,
                      trace := priv.trace ++ [Event.wd_start WdogId.ft_txpoll] }) := by
  refine ⟨rfl, rfl, rfl, rfl, rfl, rfl, ?_, ?_⟩
  · intro cfg up priv hd
    simp only [ftmac100_poll_expiry, hd]
    rfl
  · intro cfg up priv w hd hw
    have hav : work_available (wd_expire WdogId.ft_txpoll priv) = false := by
      show priv.ft_work.isNone = false
      rw [hw]
      rfl
    simp only [ftmac100_poll_expiry, hd, if_true, hav]
    rfl

theorem poll_callbacks_noints (cfg : Config) (b : Bool) (steps : List PollStep)
    (p : ftmac100_driver_s) :
    poll_callbacks { cfg with NET_NOINTS := b } steps p = poll_callbacks cfg steps p := by
  induction steps generalizing p with
  | nil => rfl
  | cons st rest ih =>
    simp only [poll_callbacks]
    rw [ih]
    rfl

theorem txdone_loop_noints (cfg : Config) (b : Bool) (fuel : Nat) (p : ftmac100_driver_s) :
    ftmac100_txdone_loop { cfg with NET_NOINTS := b } fuel p =
      ftmac100_txdone_loop cfg fuel p := by
  induction fuel generalizing p with
  | zero => rfl
  | succ n ih => simp only [ftmac100_txdone_loop, ih]

theorem scan_noints (cfg : Config) (b : Bool) (fuel : Nat) (p : ftmac100_driver_s) :
    ftmac100_receive_scan { cfg with NET_NOINTS := b } fuel p =
      ftmac100_receive_scan cfg fuel p := by
  induction fuel generalizing p with
  | zero => rfl
  | succ n ih => simp only [ftmac100_receive_scan, ih]

theorem mdio_loop_noints (cfg : Config) (b : Bool) (n v : Nat) (p : ftmac100_driver_s) :
    ftmac100_mdio_read_loop { cfg with NET_NOINTS := b } n v p =
      ftmac100_mdio_read_loop cfg n v p := by
  induction n generalizing v p with
  | zero => rfl
  | succ n ih => simp only [ftmac100_mdio_read_loop, ih]

theorem receive_noints (cfg : Config) (b : Bool) (up : Upstream) (fuel : Nat)
    (p : ftmac100_driver_s) :
    ftmac100_receive { cfg with NET_NOINTS := b } up fuel p = ftmac100_receive cfg up fuel p := by
  unfold ftmac100_receive
  rw [scan_noints]
  rfl

theorem txdone_noints (cfg : Config) (b : Bool) (up : Upstream) (p : ftmac100_driver_s) :
    ftmac100_txdone { cfg with NET_NOINTS := b } up p = ftmac100_txdone cfg up p := by
  simp only [ftmac100_txdone, devif_poll, ftmac100_txdone_reclaim, txdone_loop_noints,
    poll_callbacks_noints]

theorem phy_status_noints (cfg : Config) (b : Bool) (p : ftmac100_driver_s) :
    ftmac100_phy_status { cfg with NET_NOINTS := b } p = ftmac100_phy_status cfg p := by
  simp only [ftmac100_phy_status, ftmac100_mdio_read, mdio_loop_noints]

theorem steps_noints (cfg : Config) (b : Bool) (up : Upstream) (fuel s : Nat)
    (p : ftmac100_driver_s) :
    ftmac100_interrupt_steps { cfg with NET_NOINTS := b } up fuel s p =
      ftmac100_interrupt_steps cfg up fuel s p := by
  simp only [ftmac100_interrupt_steps, receive_noints, txdone_noints, phy_status_noints,
    INT_MASK_ALL_ENABLED]

theorem record_vary (st : Nat) (m : Bool) (w : Option Work) (pre : List Event) (e : Event)
    (p : ftmac100_driver_s) :
    record e (vary st m w pre p) = vary st m w pre (record e p) := by
  simp [record, vary]

theorem putreg32_vary (st : Nat) (m : Bool) (w : Option Work) (pre : List Event) (v : Nat)
    (reg : Reg) (p : ftmac100_driver_s) :
    putreg32 v reg (vary st m w pre p) = vary st m w pre (putreg32 v reg p) := by
  simp [putreg32, record, vary]

theorem wd_start_vary (st : Nat) (m : Bool) (w : Option Work) (pre : List Event) (wd : WdogId)
    (p : ftmac100_driver_s) :
    wd_start wd (vary st m w pre p) = vary st m w pre (wd_start wd p) := by
  cases wd <;> simp [wd_start, record, vary]

theorem wd_cancel_vary (st : Nat) (m : Bool) (w : Option Work) (pre : List Event) (wd : WdogId)
    (p : ftmac100_driver_s) :
    wd_cancel wd (vary st m w pre p) = vary st m w pre (wd_cancel wd p) := by
  cases wd <;> simp [wd_cancel, record, vary]

theorem upcall_vary (st : Nat) (m : Bool) (w : Option Work) (pre : List Event) (f : Upcall)
    (hook : net_driver_s → net_driver_s) (p : ftmac100_driver_s) :
    upcall f hook (vary st m w pre p) = vary st m w pre (upcall f hook p) := by
  simp [upcall, record, vary]

theorem transmit_vary (st : Nat) (m : Bool) (w : Option Work) (pre : List Event) (cfg : Config)
    (p : ftmac100_driver_s) :
    (ftmac100_transmit cfg (vary st m w pre p)).2 =
      vary st m w pre (ftmac100_transmit cfg p).2 := by
  simp [ftmac100_transmit, ftmac100_current_txdes, wd_start, putreg32, record, vary]

theorem vary_ft_dev (st : Nat) (m : Bool) (w : Option Work) (pre : List Event)
    (p : ftmac100_driver_s) : (vary st m w pre p).ft_dev = p.ft_dev := rfl

theorem setdev_vary (st : Nat) (m : Bool) (w : Option Work) (pre : List Event)
    (d : net_driver_s) (p : ftmac100_driver_s) :
    { vary st m w pre p with ft_dev := d } = vary st m w pre { p with ft_dev := d } := rfl

theorem txpoll_vary (st : Nat) (m : Bool) (w : Option Work) (pre : List Event) (cfg : Config)
    (ps : PollStep) (p : ftmac100_driver_s) :
    (ftmac100_txpoll cfg ps (vary st m w pre p)).2 =
      vary st m w pre (ftmac100_txpoll cfg ps p).2 := by
  simp only [ftmac100_txpoll, vary_ft_dev]
  split_ifs <;> simp only [upcall_vary, transmit_vary]

theorem poll_callbacks_vary (st : Nat) (m : Bool) (w : Option Work) (pre : List Event)
    (cfg : Config) (steps : List PollStep) (p : ftmac100_driver_s) :
    poll_callbacks cfg steps (vary st m w pre p) =
      vary st m w pre (poll_callbacks cfg steps p) := by
  induction steps generalizing p with
  | nil => rfl
  | cons ps rest ih =>
    simp only [poll_callbacks, vary_ft_dev, setdev_vary, txpoll_vary, ih]

theorem devif_poll_vary (st : Nat) (m : Bool) (w : Option Work) (pre : List Event)
    (cfg : Config) (up : Upstream) (p : ftmac100_driver_s) :
    devif_poll cfg up (vary st m w pre p) = vary st m w pre (devif_poll cfg up p) := by
  simp only [devif_poll, vary_ft_dev, record_vary, poll_callbacks_vary]

theorem txdone_loop_vary (st : Nat) (m : Bool) (w : Option Work) (pre : List Event)
    (cfg : Config) (fuel : Nat) (p : ftmac100_driver_s) :
    ftmac100_txdone_loop cfg fuel (vary st m w pre p) =
      vary st m w pre (ftmac100_txdone_loop cfg fuel p) := by
  induction fuel generalizing p with
  | zero => rfl
  | succ k ih =>
    by_cases hp : p.tx_pending = 0
    · rw [txdone_loop_idle cfg _ p hp, txdone_loop_idle cfg _ _ (by exact hp)]
    · by_cases h : tx_hw_owned cfg (p.txdes.getD p.tx_clean_pointer default)
      · rw [txdone_loop_stop cfg _ p h, txdone_loop_stop cfg _ _ (by exact h)]
      · rw [txdone_loop_step cfg k p hp h,
          txdone_loop_step cfg k (vary st m w pre p) (by exact hp) (by exact h)]
        exact ih
          { p with
            txdes := p.txdes.set p.tx_clean_pointer
              (txdes_reset cfg (p.txdes.getD p.tx_clean_pointer default)),
            tx_clean_pointer := (p.tx_clean_pointer + 1) &&& (cfg.TX_DESC - 1),
            tx_pending := p.tx_pending - 1 }

theorem txdone_vary (st : Nat) (m : Bool) (w : Option Work) (pre : List Event)
    (cfg : Config) (up : Upstream) (p : ftmac100_driver_s) :
    ftmac100_txdone cfg up (vary st m w pre p) = vary st m w pre (ftmac100_txdone cfg up p) := by
  have h : ∀ q : ftmac100_driver_s, ftmac100_txdone_reclaim cfg (vary st m w pre q) =
      vary st m w pre (ftmac100_txdone_reclaim cfg q) :=
    fun q => txdone_loop_vary st m w pre cfg q.tx_pending q
  simp only [ftmac100_txdone, record_vary, h, wd_cancel_vary, devif_poll_vary]

theorem scan_vary (st : Nat) (m : Bool) (w : Option Work) (pre : List Event)
    (cfg : Config) (fuel : Nat) (p : ftmac100_driver_s) :
    ftmac100_receive_scan cfg fuel (vary st m w pre p) =
      (ftmac100_receive_scan cfg fuel p).map (fun r => (vary st m w pre r.1, r.2)) := by
  induction fuel generalizing p with
  | zero => rfl
  | succ n ih =>
    by_cases ho : rx_hw_owned cfg (p.rxdes.getD p.rx_pointer default)
    · rw [scan_stop_owned cfg n p ho, scan_stop_owned cfg n _ (by exact ho)]
      rfl
    · by_cases hf : (p.rxdes.getD p.rx_pointer default).rxdes0 &&& cfg.RXDES0_FRS = 0
      · rw [scan_skip cfg n p ho hf, scan_skip cfg n (vary st m w pre p) (by exact ho)
          (by exact hf)]
        exact ih
          { p with
            rxdes := p.rxdes.set p.rx_pointer
              { p.rxdes.getD p.rx_pointer default with rxdes0 := cfg.RXDES0_RXDMA_OWN },
            rx_pointer := (p.rx_pointer + 1) &&& (cfg.RX_DESC - 1) }
      · rw [scan_stop_found cfg n p ho hf, scan_stop_found cfg n _ (by exact ho) (by exact hf)]
        rfl

theorem dispatch_vary (st : Nat) (m : Bool) (w : Option Work) (pre : List Event)
    (cfg : Config) (up : Upstream) (p : ftmac100_driver_s) :
    ftmac100_receive_dispatch cfg up (vary st m w pre p) =
      vary st m w pre (ftmac100_receive_dispatch cfg up p) := by
  simp only [ftmac100_receive_dispatch, vary_ft_dev, upcall_vary]
  split_ifs <;> simp only [upcall_vary, transmit_vary]

theorem input_vary (st : Nat) (m : Bool) (w : Option Work) (pre : List Event)
    (cfg : Config) (up : Upstream) (p : ftmac100_driver_s) :
    ftmac100_receive_input cfg up (vary st m w pre p) =
      vary st m w pre (ftmac100_receive_input cfg up p) := by
  simp only [ftmac100_receive_input]
  split_ifs
  · rw [upcall_vary, dispatch_vary]
  · rw [dispatch_vary]

theorem found_vary (st : Nat) (m : Bool) (w : Option Work) (pre : List Event)
    (cfg : Config) (up : Upstream) (p : ftmac100_driver_s) :
    ftmac100_receive_found cfg up (vary st m w pre p) =
      vary st m w pre (ftmac100_receive_found cfg up p) := by
  have h1 : ftmac100_receive_copy cfg (vary st m w pre p) =
      vary st m w pre (ftmac100_receive_copy cfg p) := rfl
  have h2 : ∀ (k : Nat) (q : ftmac100_driver_s),
      ftmac100_receive_recycle cfg k (vary st m w pre q) =
        vary st m w pre (ftmac100_receive_recycle cfg k q) := fun _ _ => rfl
  show ftmac100_receive_recycle cfg p.rx_pointer
    (ftmac100_receive_input cfg up (ftmac100_receive_copy cfg (vary st m w pre p))) = _
  rw [h1, input_vary, h2]
  rfl

theorem receive_vary (st : Nat) (m : Bool) (w : Option Work) (pre : List Event)
    (cfg : Config) (up : Upstream) (fuel : Nat) (p : ftmac100_driver_s) :
    ftmac100_receive cfg up fuel (vary st m w pre p) =
      (ftmac100_receive cfg up fuel p).map (vary st m w pre) := by
  unfold ftmac100_receive
  rw [record_vary, scan_vary]
  cases ftmac100_receive_scan cfg fuel (record Event.ftmac100_receive p) with
  | none => rfl
  | some r =>
    obtain ⟨q, b⟩ := r
    cases b with
    | false => rfl
    | true =>
      show some (ftmac100_receive_found cfg up (vary st m w pre q)) = _
      rw [found_vary]
      rfl

theorem mdio_loop_vary (st : Nat) (m : Bool) (w : Option Work) (pre : List Event)
    (cfg : Config) (n v : Nat) (p : ftmac100_driver_s) :
    ftmac100_mdio_read_loop cfg n v (vary st m w pre p) =
      ((ftmac100_mdio_read_loop cfg n v p).1,
        vary st m w pre (ftmac100_mdio_read_loop cfg n v p).2) := by
  induction n generalizing v p with
  | zero => rfl
  | succ n ih =>
    simp only [ftmac100_mdio_read_loop]
    rcases getreg32_phycr_cases p with ⟨hp, e⟩ | ⟨x, rest, hp, e⟩
    · have e2 : getreg32_phycr (vary st m w pre p) =
          (p.iobase Reg.phycr, vary st m w pre p) := by
        unfold getreg32_phycr
        rw [show (vary st m w pre p).phycr_in = [] from hp]
        rfl
      rw [e, e2]
      split_ifs
      · rfl
      · exact ih _ _
    · have e2 : getreg32_phycr (vary st m w pre p) =
          (x, vary st m w pre { p with phycr_in := rest }) := by
        unfold getreg32_phycr
        rw [show (vary st m w pre p).phycr_in = x :: rest from hp]
        rfl
      rw [e, e2]
      split_ifs
      · rfl
      · exact ih _ _

theorem mdio_read_vary (st : Nat) (m : Bool) (w : Option Work) (pre : List Event)
    (cfg : Config) (reg : Nat) (p : ftmac100_driver_s) :
    ftmac100_mdio_read cfg reg (vary st m w pre p) =
      ((ftmac100_mdio_read cfg reg p).1, vary st m w pre (ftmac100_mdio_read cfg reg p).2) := by
  simp only [ftmac100_mdio_read, putreg32_vary, mdio_loop_vary]

theorem phy_status_vary (st : Nat) (m : Bool) (w : Option Work) (pre : List Event)
    (cfg : Config) (p : ftmac100_driver_s) :
    ftmac100_phy_status cfg (vary st m w pre p) =
      vary st m w pre (ftmac100_phy_status cfg p) := by
  simp only [ftmac100_phy_status, mdio_read_vary]
  split_ifs
  · have h : ∀ q : ftmac100_driver_s, { vary st m w pre q with ft_bifup := true } =
        vary st m w pre { q with ft_bifup := true } := fun _ => rfl
    rw [h, mdio_read_vary]
  · have h : ∀ q : ftmac100_driver_s, { vary st m w pre q with ft_bifup := false } =
        vary st m w pre { q with ft_bifup := false } := fun _ => rfl
    rw [h, mdio_read_vary]

theorem steps_vary (st : Nat) (m : Bool) (w : Option Work) (pre : List Event)
    (cfg : Config) (up : Upstream) (fuel s : Nat) (p : ftmac100_driver_s) :
    ftmac100_interrupt_steps cfg up fuel s (vary st m w pre p) =
      (ftmac100_interrupt_steps cfg up fuel s p).map (vary st m w pre) := by
  rw [interrupt_steps_eq, interrupt_steps_eq]
  have hA : (if s &&& cfg.INT_RPKT_SAV ≠ 0 then putreg32 1 Reg.rxpd (vary st m w pre p)
      else vary st m w pre p) =
      vary st m w pre (if s &&& cfg.INT_RPKT_SAV ≠ 0 then putreg32 1 Reg.rxpd p else p) := by
    split_ifs
    · rw [putreg32_vary]
    · rfl
  rw [hA]
  generalize (if s &&& cfg.INT_RPKT_SAV ≠ 0 then putreg32 1 Reg.rxpd p else p) = A
  have hB : (if s &&& (cfg.INT_RPKT_FINISH ||| cfg.INT_NORXBUF) ≠ 0 then
      ftmac100_receive cfg up fuel (vary st m w pre A) else some (vary st m w pre A)) =
      (if s &&& (cfg.INT_RPKT_FINISH ||| cfg.INT_NORXBUF) ≠ 0 then
        ftmac100_receive cfg up fuel A else some A).map (vary st m w pre) := by
    split_ifs
    · rw [receive_vary]
    · rfl
  rw [hB]
  cases (if s &&& (cfg.INT_RPKT_FINISH ||| cfg.INT_NORXBUF) ≠ 0 then
      ftmac100_receive cfg up fuel A else some A) with
  | none => rfl
  | some p2 =>
    simp only [Option.map_some', Option.some.injEq]
    have hC : (if s &&& cfg.INT_XPKT_OK ≠ 0 then ftmac100_txdone cfg up (vary st m w pre p2)
        else vary st m w pre p2) =
        vary st m w pre (if s &&& cfg.INT_XPKT_OK ≠ 0 then ftmac100_txdone cfg up p2
          else p2) := by
      split_ifs
      · rw [txdone_vary]
      · rfl
    rw [hC]
    generalize (if s &&& cfg.INT_XPKT_OK ≠ 0 then ftmac100_txdone cfg up p2 else p2) = C
    split_ifs
    · rw [phy_status_vary, putreg32_vary]
    · rw [putreg32_vary]

theorem settm_ft_dev (x : Bool) (p : ftmac100_driver_s) : (settm x p).ft_dev = p.ft_dev := rfl

theorem upcall_settm (x : Bool) (f : Upcall) (hook : net_driver_s → net_driver_s)
    (p : ftmac100_driver_s) : upcall f hook (settm x p) = settm x (upcall f hook p) := rfl

theorem transmit_settm (x : Bool) (cfg : Config) (p : ftmac100_driver_s) :
    (ftmac100_transmit cfg (settm x p)).2 = (ftmac100_transmit cfg p).2 := rfl

theorem dispatch_settm (x : Bool) (cfg : Config) (up : Upstream) (p : ftmac100_driver_s) :
    ∃ y, ftmac100_receive_dispatch cfg up (settm x p) =
      settm y (ftmac100_receive_dispatch cfg up p) := by
  simp only [ftmac100_receive_dispatch, upcall_settm, settm_ft_dev, transmit_settm]
  split_ifs <;> exact ⟨_, rfl⟩

theorem input_settm (x : Bool) (cfg : Config) (up : Upstream) (p : ftmac100_driver_s) :
    ∃ y, ftmac100_receive_input cfg up (settm x p) =
      settm y (ftmac100_receive_input cfg up p) := by
  simp only [ftmac100_receive_input]
  split_ifs
  · rw [upcall_settm]
    exact dispatch_settm x cfg up _
  · exact dispatch_settm x cfg up p

theorem found_settm (x : Bool) (cfg : Config) (up : Upstream) (p : ftmac100_driver_s) :
    ∃ y, ftmac100_receive_found cfg up (settm x p) =
      settm y (ftmac100_receive_found cfg up p) := by
  obtain ⟨y, e⟩ := input_settm x cfg up (ftmac100_receive_copy cfg p)
  refine ⟨y, ?_⟩
  show ftmac100_receive_recycle cfg p.rx_pointer
    (ftmac100_receive_input cfg up (settm x (ftmac100_receive_copy cfg p))) = _
  rw [e]
  rfl

theorem scan_settm (x : Bool) (cfg : Config) (fuel : Nat) (p : ftmac100_driver_s) :
    ftmac100_receive_scan cfg fuel (settm x p) =
      (ftmac100_receive_scan cfg fuel p).map (fun r => (settm x r.1, r.2)) := by
  induction fuel generalizing p with
  | zero => rfl
  | succ n ih =>
    by_cases ho : rx_hw_owned cfg (p.rxdes.getD p.rx_pointer default)
    · rw [scan_stop_owned cfg n p ho, scan_stop_owned cfg n _ (by exact ho)]
      rfl
    · by_cases hf : (p.rxdes.getD p.rx_pointer default).rxdes0 &&& cfg.RXDES0_FRS = 0
      · rw [scan_skip cfg n p ho hf, scan_skip cfg n (settm x p) (by exact ho) (by exact hf)]
        exact ih
          { p with
            rxdes := p.rxdes.set p.rx_pointer
              { p.rxdes.getD p.rx_pointer default with rxdes0 := cfg.RXDES0_RXDMA_OWN },
            rx_pointer := (p.rx_pointer + 1) &&& (cfg.RX_DESC - 1) }
      · rw [scan_stop_found cfg n p ho hf, scan_stop_found cfg n _ (by exact ho) (by exact hf)]
        rfl

theorem receive_settm (x : Bool) (cfg : Config) (up : Upstream) (fuel : Nat)
    (p q : ftmac100_driver_s) (h : ftmac100_receive cfg up fuel p = some q) :
    ∃ y, ftmac100_receive cfg up fuel (settm x p) = some (settm y q) := by
  unfold ftmac100_receive at h ⊢
  have e : ftmac100_receive_scan cfg fuel (record Event.ftmac100_receive (settm x p)) =
      (ftmac100_receive_scan cfg fuel (record Event.ftmac100_receive p)).map
        (fun r => (settm x r.1, r.2)) :=
    scan_settm x cfg fuel (record Event.ftmac100_receive p)
  rw [e]
  cases hs : ftmac100_receive_scan cfg fuel (record Event.ftmac100_receive p) with
  | none => rw [hs] at h; simp at h
  | some r =>
    obtain ⟨p1, b⟩ := r
    rw [hs] at h
    cases b with
    | false =>
      simp only [Option.some.injEq] at h
      exact ⟨x, by rw [← h]; rfl⟩
    | true =>
      simp only [Option.some.injEq] at h
      obtain ⟨y, e2⟩ := found_settm x cfg up p1
      refine ⟨y, ?_⟩
      show some (ftmac100_receive_found cfg up (settm x p1)) = _
      rw [e2, h]

theorem txdone_loop_settm (x : Bool) (cfg : Config) (fuel : Nat) (p : ftmac100_driver_s) :
    ftmac100_txdone_loop cfg fuel (settm x p) = settm x (ftmac100_txdone_loop cfg fuel p) := by
  induction fuel generalizing p with
  | zero => rfl
  | succ k ih =>
    by_cases hp : p.tx_pending = 0
    · rw [txdone_loop_idle cfg _ p hp, txdone_loop_idle cfg _ _ (by exact hp)]
    · by_cases h : tx_hw_owned cfg (p.txdes.getD p.tx_clean_pointer default)
      · rw [txdone_loop_stop cfg _ p h, txdone_loop_stop cfg _ _ (by exact h)]
      · rw [txdone_loop_step cfg k p hp h,
          txdone_loop_step cfg k (settm x p) (by exact hp) (by exact h)]
        exact ih
          { p with
            txdes := p.txdes.set p.tx_clean_pointer
              (txdes_reset cfg (p.txdes.getD p.tx_clean_pointer default)),
            tx_clean_pointer := (p.tx_clean_pointer + 1) &&& (cfg.TX_DESC - 1),
            tx_pending := p.tx_pending - 1 }

theorem txdone_settm (x : Bool) (cfg : Config) (up : Upstream) (p : ftmac100_driver_s) :
    ftmac100_txdone cfg up (settm x p) = ftmac100_txdone cfg up p := by
  have h : ftmac100_txdone_reclaim cfg (record Event.ftmac100_txdone (settm x p)) =
      settm x (ftmac100_txdone_reclaim cfg (record Event.ftmac100_txdone p)) :=
    txdone_loop_settm x cfg p.tx_pending (record Event.ftmac100_txdone p)
  show devif_poll cfg up (wd_cancel WdogId.ft_txtimeout
    (ftmac100_txdone_reclaim cfg (record Event.ftmac100_txdone (settm x p)))) = _
  rw [h]
  rfl

theorem steps_settm (x : Bool) (cfg : Config) (up : Upstream) (fuel s : Nat)
    (p r : ftmac100_driver_s) (hc : s &&& cfg.INT_XPKT_OK ≠ 0)
    (h : ftmac100_interrupt_steps cfg up fuel s p = some r) :
    ftmac100_interrupt_steps cfg up fuel s (settm x p) = some r := by
  rw [interrupt_steps_eq] at h ⊢
  have hA : (if s &&& cfg.INT_RPKT_SAV ≠ 0 then putreg32 1 Reg.rxpd (settm x p)
      else settm x p) =
      settm x (if s &&& cfg.INT_RPKT_SAV ≠ 0 then putreg32 1 Reg.rxpd p else p) := by
    split_ifs <;> rfl
  rw [hA]
  generalize (if s &&& cfg.INT_RPKT_SAV ≠ 0 then putreg32 1 Reg.rxpd p else p) = A at h ⊢
  cases hr : (if s &&& (cfg.INT_RPKT_FINISH ||| cfg.INT_NORXBUF) ≠ 0 then
      ftmac100_receive cfg up fuel A else some A) with
  | none => rw [hr] at h; simp at h
  | some p2 =>
    rw [hr] at h
    have hB : ∃ y, (if s &&& (cfg.INT_RPKT_FINISH ||| cfg.INT_NORXBUF) ≠ 0 then
        ftmac100_receive cfg up fuel (settm x A) else some (settm x A)) =
        some (settm y p2) := by
      split_ifs at hr ⊢
      · exact receive_settm x cfg up fuel A p2 hr
      · simp only [Option.some.injEq] at hr
        exact ⟨x, by rw [hr]⟩
    obtain ⟨y, hB⟩ := hB
    rw [hB]
    simp only [Option.map_some', if_pos hc, txdone_settm] at h ⊢
    exact h

theorem upcalls_of_append (a b : List Event) :
    upcalls_of (a ++ b) = upcalls_of a ++ upcalls_of b := by
  induction a with
  | nil => rfl
  | cons e t ih =>
    cases e <;> simp [upcalls_of, ih]

theorem inline_run_eq (cfg : Config) (up : Upstream) (fuel : Nat) (s : Nat)
    (priv r : ftmac100_driver_s)
    (h : ftmac100_interrupt_steps cfg up fuel s
      { putreg32 0 Reg.imr (hw_set_isr s priv) with trace := [] } = some r) :
    interrupt_inline_run cfg up fuel s priv =
      some (vary priv.status priv.irq_masked priv.ft_work
        (priv.trace ++ [Event.putreg32 0 Reg.imr]) r) := by
  have e1 : interrupt_inline_run cfg up fuel s priv =
      ftmac100_interrupt_steps { cfg with NET_NOINTS := false } up fuel s
        (putreg32 0 Reg.imr (hw_set_isr s priv)) := by
    simp only [interrupt_inline_run, ftmac100_interrupt]
    rfl
  have e2 : putreg32 0 Reg.imr (hw_set_isr s priv) =
      vary priv.status priv.irq_masked priv.ft_work (priv.trace ++ [Event.putreg32 0 Reg.imr])
        { putreg32 0 Reg.imr (hw_set_isr s priv) with trace := [] } := by
    simp [vary, putreg32, record, hw_set_isr]
  rw [e1, steps_noints, e2, steps_vary, h]
  rfl

theorem interrupt_work_eq (cfg : Config) (up : Upstream) (fuel : Nat)
    (p : ftmac100_driver_s) :
    ftmac100_interrupt_work cfg up fuel p =
      (ftmac100_interrupt_steps cfg up fuel (interrupt_status cfg p) p).map
        ftintc010_unmask_irq := by
  unfold ftmac100_interrupt_work
  rw [interrupt_process_eq]
  cases ftmac100_interrupt_steps cfg up fuel (interrupt_status cfg p) p <;> rfl

theorem deferred_run_eq (cfg : Config) (up : Upstream) (fuel : Nat) (s : Nat)
    (priv r : ftmac100_driver_s)
    (h : ftmac100_interrupt_steps cfg up fuel s
      { putreg32 0 Reg.imr (hw_set_isr s priv) with trace := [] } = some r) :
    interrupt_deferred_run cfg up fuel s priv =
      some (ftintc010_unmask_irq (vary s true none
        (priv.trace ++ ([Event.mask_irq, Event.putreg32 0 Reg.imr] ++
          (if s &&& cfg.INT_XPKT_OK ≠ 0 then [Event.wd_cancel WdogId.ft_txtimeout] else []) ++
          [Event.work_cancel, Event.work_queue Work.ftmac100_interrupt_work])) r)) := by
  by_cases hc : s &&& cfg.INT_XPKT_OK ≠ 0
  · have e1 : interrupt_deferred_run cfg up fuel s priv =
        (ftmac100_interrupt_steps { cfg with NET_NOINTS := true } up fuel s
          { work_queue Work.ftmac100_interrupt_work
              (work_cancel (wd_cancel WdogId.ft_txtimeout
                (putreg32 0 Reg.imr
                  (ftintc010_mask_irq { hw_set_isr s priv with status := s })))) with
            ft_work := none }).map ftintc010_unmask_irq := by
      have hc1 : (putreg32 INT_MASK_ALL_DISABLED Reg.imr
          (ftintc010_mask_irq
            { hw_set_isr s priv with status := (hw_set_isr s priv).iobase Reg.isr })).status &&&
          cfg.INT_XPKT_OK ≠ 0 := hc
      simp only [interrupt_deferred_run, ftmac100_interrupt, if_true, hc1, ne_eq,
        not_false_eq_true, Option.some_bind]
      show ftmac100_interrupt_work _ up fuel _ = _
      rw [interrupt_work_eq]
      rfl
    have e2 : ({ work_queue Work.ftmac100_interrupt_work
          (work_cancel (wd_cancel WdogId.ft_txtimeout
            (putreg32 0 Reg.imr
              (ftintc010_mask_irq { hw_set_isr s priv with status := s })))) with
          ft_work := none } : ftmac100_driver_s) =
        vary s true none
          (priv.trace ++ [Event.mask_irq, Event.putreg32 0 Reg.imr,
            Event.wd_cancel WdogId.ft_txtimeout, Event.work_cancel,
            Event.work_queue Work.ftmac100_interrupt_work])
          (settm false { putreg32 0 Reg.imr (hw_set_isr s priv) with trace := [] }) := by
      simp [vary, settm, work_queue, work_cancel, wd_cancel, putreg32, ftintc010_mask_irq,
        record, hw_set_isr]
    rw [e1, steps_noints, e2, steps_vary, steps_settm false cfg up fuel s _ r hc h, if_pos hc]
    rfl
  · have e1 : interrupt_deferred_run cfg up fuel s priv =
        (ftmac100_interrupt_steps { cfg with NET_NOINTS := true } up fuel s
          { work_queue Work.ftmac100_interrupt_work
              (work_cancel
                (putreg32 0 Reg.imr
                  (ftintc010_mask_irq { hw_set_isr s priv with status := s }))) with
            ft_work := none }).map ftintc010_unmask_irq := by
      have hc1 : ¬ (putreg32 INT_MASK_ALL_DISABLED Reg.imr
          (ftintc010_mask_irq
            { hw_set_isr s priv with status := (hw_set_isr s priv).iobase Reg.isr })).status &&&
          cfg.INT_XPKT_OK ≠ 0 := hc
      simp only [interrupt_deferred_run, ftmac100_interrupt, if_true, hc1, if_false,
        Option.some_bind]
      show ftmac100_interrupt_work _ up fuel _ = _
      rw [interrupt_work_eq]
      rfl
    have e2 : ({ work_queue Work.ftmac100_interrupt_work
          (work_cancel
            (putreg32 0 Reg.imr
              (ftintc010_mask_irq { hw_set_isr s priv with status := s }))) with
          ft_work := none } : ftmac100_driver_s) =
        vary s true none
          (priv.trace ++ [Event.mask_irq, Event.putreg32 0 Reg.imr,
            Event.work_cancel, Event.work_queue Work.ftmac100_interrupt_work])
          { putreg32 0 Reg.imr (hw_set_isr s priv) with trace := [] } := by
      simp [vary, work_queue, work_cancel, putreg32, ftintc010_mask_irq, record, hw_set_isr]
    rw [e1, steps_noints, e2, steps_vary, h, if_neg hc]
    rfl

/-- C13: for every state, status value `s` and network stack, handling one
interrupt in inline mode (`ftmac100_interrupt` calling
`ftmac100_interrupt_process`) and in deferred mode (`ftmac100_interrupt`
capturing `s`, then `ftmac100_interrupt_work` on the worker) both return, and
the final states have the same RX ring, TX ring, cursors, `tx_pending`, link
flag, registers (the interrupt mask register among them), TX-timeout watchdog
state and exchange buffer.  The trace segment `l` of the processing, with all
calls into the network stack, is the same in both; the deferred trace only has
the bookkeeping of the handler before it and the unmasking of the interrupt
line after it. -/
theorem interrupt_modes_agree (cfg : Config) (up : Upstream) (fuel : Nat) (s : Nat)
    (priv : ftmac100_driver_s)
    (hpow : ∃ k, cfg.RX_DESC = 2 ^ k) (hown : cfg.RXDES0_RXDMA_OWN ≠ 0)
    (hlen : priv.rxdes.length = cfg.RX_DESC) (hin : priv.rx_pointer < cfg.RX_DESC)
    (hfuel : cfg.RX_DESC + 1 ≤ fuel) :
    ∃ qi qd l,
      interrupt_inline_run cfg up fuel s priv = some qi ∧
      interrupt_deferred_run cfg up fuel s priv = some qd ∧
      qd.rxdes = qi.rxdes ∧ qd.txdes = qi.txdes ∧ qd.rx_pointer = qi.rx_pointer ∧
      qd.tx_pointer = qi.tx_pointer ∧ qd.tx_clean_pointer = qi.tx_clean_pointer ∧
      qd.tx_pending = qi.tx_pending ∧ qd.ft_bifup = qi.ft_bifup ∧
      qd.iobase = qi.iobase ∧ qd.iobase Reg.imr = INT_MASK_ALL_ENABLED cfg ∧
      qd.ft_txtimeout = qi.ft_txtimeout ∧ qd.ft_dev = qi.ft_dev ∧
      qi.trace = priv.trace ++ [Event.putreg32 0 Reg.imr] ++ l ∧
      qd.trace = priv.trace ++ ([Event.mask_irq, Event.putreg32 0 Reg.imr] ++
          (if s &&& cfg.INT_XPKT_OK ≠ 0 then [Event.wd_cancel WdogId.ft_txtimeout] else []) ++
          [Event.work_cancel, Event.work_queue Work.ftmac100_interrupt_work]) ++ l ++
        [Event.unmask_irq] ∧
      upcalls_of qd.trace = upcalls_of qi.trace := by
  obtain ⟨p4, l, e, _⟩ := interrupt_steps_returns cfg up fuel s
    { putreg32 0 Reg.imr (hw_set_isr s priv) with trace := [] } hpow hown hlen hin hfuel
  refine ⟨_, _, _, inline_run_eq cfg up fuel s priv _ e, deferred_run_eq cfg up fuel s priv _ e,
    rfl, rfl, rfl, rfl, rfl, rfl, rfl, rfl, rfl, rfl, rfl, rfl, rfl, ?_⟩
  show upcalls_of ((priv.trace ++ _ ++ _) ++ [Event.unmask_irq]) =
    upcalls_of (priv.trace ++ [Event.putreg32 0 Reg.imr] ++ _)
  simp only [upcalls_of_append]
  split_ifs <;> simp [upcalls_of]

/-- Witness for C13: the interrupt of `irq4` with status `0x251` handled in
both modes. -/
theorem interrupt_modes_agree_witness :
    (∃ k, cfg4.RX_DESC = 2 ^ k) ∧ cfg4.RXDES0_RXDMA_OWN ≠ 0 ∧
      irq4.rxdes.length = cfg4.RX_DESC ∧ irq4.rx_pointer < cfg4.RX_DESC ∧
      cfg4.RX_DESC + 1 ≤ 5 ∧
      ∃ qi qd, interrupt_inline_run cfg4 sinkUp 5 0x251 irq4 = some qi ∧
        interrupt_deferred_run cfg4 sinkUp 5 0x251 irq4 = some qd ∧
        qd.rxdes = qi.rxdes ∧ qd.txdes = qi.txdes ∧ qd.tx_pending = qi.tx_pending ∧
        qd.ft_bifup = qi.ft_bifup ∧ qd.iobase Reg.imr = INT_MASK_ALL_ENABLED cfg4 ∧
        qd.ft_txtimeout = qi.ft_txtimeout ∧ upcalls_of qd.trace = upcalls_of qi.trace := by
  refine ⟨⟨2, rfl⟩, by decide, rfl, by decide, by decide, ?_⟩
  obtain ⟨qi, qd, l, h1, h2, h3, h4, _, _, _, h8, h9, _, h11, h12, _, _, _, h16⟩ :=
    interrupt_modes_agree cfg4 sinkUp 5 0x251 irq4 ⟨2, rfl⟩ (by decide) rfl (by decide)
      (by decide)
  exact ⟨qi, qd, h1, h2, h3, h4, h8, h9, h11, h12, h16⟩

theorem ifdown_flags (priv : ftmac100_driver_s) :
    (ftmac100_ifdown priv).1 = OK ∧
    (ftmac100_ifdown priv).2.irq_masked = true ∧
    (ftmac100_ifdown priv).2.ft_txpoll = false ∧
    (ftmac100_ifdown priv).2.ft_txtimeout = false ∧
    (ftmac100_ifdown priv).2.iobase Reg.maccr = 0 ∧
    (ftmac100_ifdown priv).2.ft_bifup = false :=
  ⟨rfl, rfl, rfl, rfl, rfl, rfl⟩

theorem ifdown_frame (priv : ftmac100_driver_s) :
    (ftmac100_ifdown priv).2.txdes = priv.txdes ∧
    (ftmac100_ifdown priv).2.rxdes = priv.rxdes ∧
    (ftmac100_ifdown priv).2.rx_pointer = priv.rx_pointer ∧
    (ftmac100_ifdown priv).2.tx_pointer = priv.tx_pointer ∧
    (ftmac100_ifdown priv).2.tx_clean_pointer = priv.tx_clean_pointer ∧
    (ftmac100_ifdown priv).2.tx_pending = priv.tx_pending := by
  simp only [ftmac100_ifdown]
  exact ⟨rfl, rfl, rfl, rfl, rfl, rfl⟩

theorem back_slot (t n i : Nat) (ht : t < n) (hi : i < n) :
    ∃ j, 1 ≤ j ∧ j ≤ n ∧ (t + n - j) % n = i := by
  by_cases h1 : i < t
  · refine ⟨t - i, by omega, by omega, ?_⟩
    have e : t + n - (t - i) = i + n := by omega
    rw [e, Nat.add_mod_right, Nat.mod_eq_of_lt hi]
  · by_cases h2 : i = t
    · refine ⟨n, by omega, Nat.le_refl _, ?_⟩
      rw [Nat.add_sub_cancel, Nat.mod_eq_of_lt ht, h2]
    · refine ⟨t + n - i, by omega, by omega, ?_⟩
      have e : t + n - (t + n - i) = i := by omega
      rw [e, Nat.mod_eq_of_lt hi]

theorem scan_all_skipped_aux (cfg : Config) (hpow : ∃ k, cfg.RX_DESC = 2 ^ k)
    (hown : cfg.RXDES0_RXDMA_OWN ≠ 0) (o : List ftmac100_rxdes_s) (c0 d : Nat)
    (p : ftmac100_driver_s)
    (hlen : p.rxdes.length = cfg.RX_DESC) (hin : p.rx_pointer < cfg.RX_DESC)
    (hd : d ≤ cfg.RX_DESC)
    (hptr : p.rx_pointer = (c0 + (cfg.RX_DESC - d)) % cfg.RX_DESC)
    (hmarked : ∀ j, 1 ≤ j → j ≤ cfg.RX_DESC - d →
      p.rxdes.getD ((p.rx_pointer + cfg.RX_DESC - j) % cfg.RX_DESC) default =
        { o.getD ((p.rx_pointer + cfg.RX_DESC - j) % cfg.RX_DESC) default with
          rxdes0 := cfg.RXDES0_RXDMA_OWN })
    (hrest : ∀ j, j < d →
      p.rxdes.getD ((p.rx_pointer + j) % cfg.RX_DESC) default =
        o.getD ((p.rx_pointer + j) % cfg.RX_DESC) default)
    (hall : ∀ i, i < cfg.RX_DESC → ¬ rx_hw_owned cfg (o.getD i default) ∧
      (o.getD i default).rxdes0 &&& cfg.RXDES0_FRS = 0) :
    ∃ q, ftmac100_receive_scan cfg (d + 1) p = some (q, false) ∧
      q.rx_pointer = (c0 + cfg.RX_DESC) % cfg.RX_DESC ∧
      ∀ i, i < cfg.RX_DESC →
        q.rxdes.getD i default = { o.getD i default with rxdes0 := cfg.RXDES0_RXDMA_OWN } := by
  have hN : 0 < cfg.RX_DESC := by omega
  induction d generalizing p with
  | zero =>
    have hcur : p.rxdes.getD p.rx_pointer default =
        { o.getD p.rx_pointer default with rxdes0 := cfg.RXDES0_RXDMA_OWN } := by
      have h := hmarked cfg.RX_DESC (by omega) (by omega)
      rw [Nat.add_sub_cancel, Nat.mod_eq_of_lt hin] at h
      exact h
    have ho : rx_hw_owned cfg (p.rxdes.getD p.rx_pointer default) := by
      rw [hcur]
      show cfg.RXDES0_RXDMA_OWN &&& cfg.RXDES0_RXDMA_OWN ≠ 0
      rw [Nat.and_self]
      exact hown
    refine ⟨p, scan_stop_owned cfg 0 p ho, ?_, ?_⟩
    · rw [hptr, Nat.sub_zero]
    · intro i hi
      obtain ⟨j, j1, j2, e⟩ := back_slot p.rx_pointer cfg.RX_DESC i hin hi
      have h := hmarked j j1 (by omega)
      rw [e] at h
      exact h
  | succ d ih =>
    have hcur : p.rxdes.getD p.rx_pointer default = o.getD p.rx_pointer default := by
      have h := hrest 0 (by omega)
      rw [Nat.add_zero, Nat.mod_eq_of_lt hin] at h
      exact h
    have ho : ¬ rx_hw_owned cfg (p.rxdes.getD p.rx_pointer default) := by
      rw [hcur]
      exact (hall _ hin).1
    have hf : (p.rxdes.getD p.rx_pointer default).rxdes0 &&& cfg.RXDES0_FRS = 0 := by
      rw [hcur]
      exact (hall _ hin).2
    have hc1 : (p.rx_pointer + 1) &&& (cfg.RX_DESC - 1) =
        (p.rx_pointer + 1) % cfg.RX_DESC := and_pred_pow2 _ _ hpow
    rw [scan_skip cfg _ p ho hf]
    apply ih
    · show (List.set _ _ _).length = _
      rw [List.length_set]
      exact hlen
    · show (p.rx_pointer + 1) &&& (cfg.RX_DESC - 1) < cfg.RX_DESC
      rw [hc1]
      exact Nat.mod_lt _ hN
    · omega
    · show (p.rx_pointer + 1) &&& (cfg.RX_DESC - 1) = _
      rw [hc1, hptr, Nat.add_mod, Nat.mod_mod, ← Nat.add_mod]
      congr 1
      omega
    · intro j h1 hj
      show (List.set _ _ _).getD
        ((((p.rx_pointer + 1) &&& (cfg.RX_DESC - 1)) + cfg.RX_DESC - j) % cfg.RX_DESC) default
        = { o.getD ((((p.rx_pointer + 1) &&& (cfg.RX_DESC - 1)) + cfg.RX_DESC - j) %
            cfg.RX_DESC) default with rxdes0 := cfg.RXDES0_RXDMA_OWN }
      rw [hc1, back_index _ _ _ h1 (by omega), getD_set_eq_ite]
      by_cases hj1 : j = 1
      · subst hj1
        have e : (p.rx_pointer + cfg.RX_DESC - (1 - 1)) % cfg.RX_DESC = p.rx_pointer := by
          show (p.rx_pointer + cfg.RX_DESC - 0) % cfg.RX_DESC = p.rx_pointer
          rw [Nat.sub_zero, Nat.add_mod_right, Nat.mod_eq_of_lt hin]
        rw [e, if_pos ⟨rfl, by omega⟩, hcur]
      · have hne : (p.rx_pointer + cfg.RX_DESC - (j - 1)) % cfg.RX_DESC ≠ p.rx_pointer := by
          have e : p.rx_pointer + cfg.RX_DESC - (j - 1) =
              p.rx_pointer + (cfg.RX_DESC - (j - 1)) := by omega
          rw [e]
          exact add_mod_ne_self _ _ _ hin (by omega) (by omega)
        rw [if_neg (fun h => hne h.1.symm)]
        exact hmarked (j - 1) (by omega) (by omega)
    · intro j hj
      show (List.set _ _ _).getD
        ((((p.rx_pointer + 1) &&& (cfg.RX_DESC - 1)) + j) % cfg.RX_DESC) default = _
      rw [hc1, mod_succ_add, getD_set_eq_ite]
      have hne : (p.rx_pointer + (j + 1)) % cfg.RX_DESC ≠ p.rx_pointer :=
        add_mod_ne_self _ _ _ hin (by omega) (by omega)
      rw [if_neg (fun h => hne h.1.symm)]
      exact hrest (j + 1) (by omega)
/-- C25: with a power-of-two capacity, a ring of that length and an in-range
`rx_pointer`, the scan loop of `ftmac100_receive` exits within
`CONFIG_FTMAC100_RX_DESC` skips (one more test ends it), and every larger
bound gives the same exit; a skip writes the bare ownership bit into the slot
at the cursor, which is thereby hardware-owned, and only then moves the cursor;
when every slot is released and none has the first-segment flag, the loop exits
without a frame, `rx_pointer` at its starting value, every slot hardware-owned
with only its status word changed, and nothing else in the state touched. -/
theorem scan_stops_within_capacity (cfg : Config) (hpow : ∃ k, cfg.RX_DESC = 2 ^ k)
    (hown : cfg.RXDES0_RXDMA_OWN ≠ 0) (p : ftmac100_driver_s)
    (hlen : p.rxdes.length = cfg.RX_DESC) (hin : p.rx_pointer < cfg.RX_DESC) :
    (∃ r, ftmac100_receive_scan cfg (cfg.RX_DESC + 1) p = some r ∧
      ∀ fuel, cfg.RX_DESC + 1 ≤ fuel → ftmac100_receive_scan cfg fuel p = some r) ∧
    (¬ rx_hw_owned cfg (p.rxdes.getD p.rx_pointer default) →
      (p.rxdes.getD p.rx_pointer default).rxdes0 &&& cfg.RXDES0_FRS = 0 →
      (∀ fuel, ftmac100_receive_scan cfg (fuel + 1) p =
        ftmac100_receive_scan cfg fuel
          { p with
            rxdes := p.rxdes.set p.rx_pointer
              { p.rxdes.getD p.rx_pointer default with rxdes0 := cfg.RXDES0_RXDMA_OWN },
            rx_pointer := cursor_advance cfg.RX_DESC p.rx_pointer }) ∧
      rx_hw_owned cfg
        ((p.rxdes.set p.rx_pointer
          { p.rxdes.getD p.rx_pointer default with rxdes0 := cfg.RXDES0_RXDMA_OWN }).getD
            p.rx_pointer default)) ∧
    ((∀ i, i < cfg.RX_DESC → ¬ rx_hw_owned cfg (p.rxdes.getD i default) ∧
        (p.rxdes.getD i default).rxdes0 &&& cfg.RXDES0_FRS = 0) →
      ∃ q, ftmac100_receive_scan cfg (cfg.RX_DESC + 1) p = some (q, false) ∧
        q.rx_pointer = p.rx_pointer ∧
        q = { p with rxdes := q.rxdes } ∧
        ∀ i, i < cfg.RX_DESC →
          rx_hw_owned cfg (q.rxdes.getD i default) ∧
          q.rxdes.getD i default =
            { p.rxdes.getD i default with rxdes0 := cfg.RXDES0_RXDMA_OWN }) := by
  have hself : cfg.RXDES0_RXDMA_OWN &&& cfg.RXDES0_RXDMA_OWN ≠ 0 := by
    rw [Nat.and_self]
    exact hown
  refine ⟨?_, ?_, ?_⟩
  · obtain ⟨r, hr⟩ := scan_terminates cfg hpow hown (cfg.RX_DESC + 1) p hlen hin (Nat.le_refl _)
    refine ⟨r, hr, ?_⟩
    intro fuel hfuel
    have := scan_mono cfg _ p r hr (fuel - (cfg.RX_DESC + 1))
    rw [Nat.add_sub_cancel' hfuel] at this
    exact this
  · intro ho hf
    refine ⟨fun fuel => scan_skip cfg fuel p ho hf, ?_⟩
    rw [getD_set_eq_ite, if_pos ⟨rfl, by omega⟩]
    exact hself
  · intro hall
    obtain ⟨q, hq, hptr, hslots⟩ := scan_all_skipped_aux cfg hpow hown p.rxdes p.rx_pointer
      cfg.RX_DESC p hlen hin (Nat.le_refl _)
      (by rw [Nat.sub_self, Nat.add_zero, Nat.mod_eq_of_lt hin])
      (by intro j h1 hj; omega) (fun _ _ => rfl) hall
    refine ⟨q, hq, ?_, ?_, ?_⟩
    · rw [hptr, Nat.add_mod_right, Nat.mod_eq_of_lt hin]
    · obtain ⟨r, x, e⟩ := scan_frame cfg _ p q false hq
      have hx : q.rx_pointer = p.rx_pointer := by
        rw [hptr, Nat.add_mod_right, Nat.mod_eq_of_lt hin]
      rw [e] at hx ⊢
      simp only at hx
      rw [hx]
    · intro i hi
      have h := hslots i hi
      refine ⟨?_, h⟩
      rw [h]
      exact hself

/-- Witness for C25: in `rxallskip4` (capacity 4, cursor at entry 2) all four
entries are released and none has the first-segment flag; the scan exits
without a frame after four skips, the cursor back at entry 2 and every status
word equal to the bare ownership bit. -/
theorem scan_stops_within_capacity_witness :
    (∃ k, cfg4.RX_DESC = 2 ^ k) ∧ cfg4.RXDES0_RXDMA_OWN ≠ 0 ∧
      rxallskip4.rxdes.length = cfg4.RX_DESC ∧ rxallskip4.rx_pointer < cfg4.RX_DESC ∧
      (∀ i, i < cfg4.RX_DESC → ¬ rx_hw_owned cfg4 (rxallskip4.rxdes.getD i default) ∧
        (rxallskip4.rxdes.getD i default).rxdes0 &&& cfg4.RXDES0_FRS = 0) ∧
      ftmac100_receive_scan cfg4 4 rxallskip4 = none ∧
      (ftmac100_receive_scan cfg4 5 rxallskip4).map (fun r => (r.1.rxdes, r.1.rx_pointer, r.2)) =
        some ([⟨0x80000000, 0x7fc, 0x10000, 0x1050⟩, ⟨0x80000000, 0x7fc, 0x107fc, 0x1060⟩,
          ⟨0x80000000, 0x7fc, 0x10ff8, 0x1070⟩, ⟨0x80000000, 0x800007fc, 0x117f4, 0x1040⟩],
          2, false) ∧
      ∃ q, ftmac100_receive_scan cfg4 (cfg4.RX_DESC + 1) rxallskip4 = some (q, false) ∧
        q.rx_pointer = rxallskip4.rx_pointer ∧
        q = { rxallskip4 with rxdes := q.rxdes } ∧
        ∀ i, i < cfg4.RX_DESC →
          rx_hw_owned cfg4 (q.rxdes.getD i default) ∧
          q.rxdes.getD i default =
            { rxallskip4.rxdes.getD i default with rxdes0 := cfg4.RXDES0_RXDMA_OWN } :=
  ⟨⟨2, rfl⟩, by decide, rfl, by decide, by decide, rfl, rfl,
    (scan_stops_within_capacity cfg4 ⟨2, rfl⟩ (by decide) rxallskip4 rfl (by decide)).2.2
      (by decide)⟩

theorem Cnt.crefl (f : Event → Bool) (n : Nat) (p : ftmac100_driver_s) : Cnt f n p p :=
  ⟨Nat.le_add_right _ _⟩

theorem Cnt.ctrans {f : Event → Bool} {a b : Nat} {p q r : ftmac100_driver_s}
    (h1 : Cnt f a p q) (h2 : Cnt f b q r) : Cnt f (a + b) p r := by
  have := h1.le
  have := h2.le
  exact ⟨by omega⟩

theorem Cnt_record0 {f : Event → Bool} {n : Nat} {p q : ftmac100_driver_s} (e : Event)
    (he : f e = false) (h : Cnt f n p q) : Cnt f n p (record e q) := by
  refine ⟨?_⟩
  show (q.trace ++ [e]).countP f ≤ _
  rw [List.countP_append, List.countP_singleton, he]
  exact h.le

theorem Cnt_upcall0 {f : Event → Bool} {n : Nat} {p q : ftmac100_driver_s} (g : Upcall)
    (hook : net_driver_s → net_driver_s) (he : ∀ d, f (Event.upcall g d) = false)
    (h : Cnt f n p q) : Cnt f n p (upcall g hook q) := by
  refine ⟨?_⟩
  show (q.trace ++ [Event.upcall g q.ft_dev]).countP f ≤ _
  rw [List.countP_append, List.countP_singleton, he]
  exact h.le

theorem Cnt_upcall1 {f : Event → Bool} {n : Nat} {p q : ftmac100_driver_s} (g : Upcall)
    (hook : net_driver_s → net_driver_s) (h : Cnt f n p q) :
    Cnt f (n + 1) p (upcall g hook q) := by
  refine ⟨?_⟩
  show (q.trace ++ [Event.upcall g q.ft_dev]).countP f ≤ _
  rw [List.countP_append, List.countP_singleton]
  have := h.le
  split_ifs <;> omega

theorem Cnt_transmit0 {f : Event → Bool} {n : Nat} {p q : ftmac100_driver_s} (cfg : Config)
    (h1 : f Event.ftmac100_transmit = false) (h2 : f (Event.putreg32 1 Reg.txpd) = false)
    (h3 : f (Event.wd_start WdogId.ft_txtimeout) = false) (h : Cnt f n p q) :
    Cnt f n p (ftmac100_transmit cfg q).2 := by
  refine ⟨?_⟩
  have e : (ftmac100_transmit cfg q).2.trace =
      q.trace ++ [Event.ftmac100_transmit, Event.putreg32 1 Reg.txpd,
        Event.wd_start WdogId.ft_txtimeout] := by
    simp [ftmac100_transmit, wd_start, putreg32, record]
  rw [e, List.countP_append]
  have e2 : List.countP f [Event.ftmac100_transmit, Event.putreg32 1 Reg.txpd,
      Event.wd_start WdogId.ft_txtimeout] = 0 := by
    simp [List.countP_cons, h1, h2, h3]
  rw [e2]
  exact h.le

theorem Cnt_set_dev {f : Event → Bool} {n : Nat} {p q : ftmac100_driver_s} (d : net_driver_s)
    (h : Cnt f n p q) : Cnt f n p { q with ft_dev := d } :=
  ⟨h.le⟩

theorem Cnt_segment {f : Event → Bool} {n : Nat} {p q : ftmac100_driver_s} {l : List Event}
    (h : Cnt f n p q) (e : q.trace = p.trace ++ l) : l.countP f ≤ n := by
  have := h.le
  rw [e, List.countP_append] at this
  omega

theorem TxSame.trefl (p : ftmac100_driver_s) : TxSame p p :=
  ⟨rfl, rfl, rfl, rfl⟩

theorem TxSame_upcall {p q : ftmac100_driver_s} (g : Upcall)
    (hook : net_driver_s → net_driver_s) (h : TxSame p q) : TxSame p (upcall g hook q) :=
  ⟨h.ring, h.cur, h.clean, h.pending⟩

theorem handlers_spec (cfg : Config) (up : Upstream) (p : ftmac100_driver_s) :
    Pass p (ftmac100_receive_handlers cfg up p) ∧
      TxSame p (ftmac100_receive_handlers cfg up p) ∧
      Cnt is_transmit_entry 0 p (ftmac100_receive_handlers cfg up p) ∧
      Cnt is_input_call 1 p (ftmac100_receive_handlers cfg up p) ∧
      Cnt is_tap_call 0 p (ftmac100_receive_handlers cfg up p) := by
  simp only [ftmac100_receive_handlers]
  split_ifs <;> refine ⟨?_, ?_, ?_, ?_, ?_⟩ <;>
    repeat (first
      | apply Pass_upcall
      | apply TxSame_upcall
      | refine Cnt_upcall0 _ _ (fun _ => rfl) ?_
      | refine Cnt_upcall1 _ _ ?_
      | exact Pass.prefl _
      | exact TxSame.trefl _
      | exact Cnt.crefl _ _ _)

theorem dispatch_reply (cfg : Config) (up : Upstream) (p : ftmac100_driver_s)
    (hacc : rx_accepted cfg p.ft_dev.d_data)
    (hlen : (ftmac100_receive_handlers cfg up p).ft_dev.d_len > 0) :
    ∃ X, ftmac100_receive_dispatch cfg up p = (ftmac100_transmit cfg X).2 ∧
      Pass (ftmac100_receive_handlers cfg up p) X ∧
      TxSame (ftmac100_receive_handlers cfg up p) X ∧
      Cnt is_transmit_entry 0 (ftmac100_receive_handlers cfg up p) X ∧
      Cnt is_input_call 0 (ftmac100_receive_handlers cfg up p) X ∧
      Cnt is_tap_call 0 (ftmac100_receive_handlers cfg up p) X := by
  have hleaf : ∀ (g : Upcall) (hook : net_driver_s → net_driver_s) (q : ftmac100_driver_s),
      (∀ d, is_input_call (Event.upcall g d) = false) →
      (∀ d, is_tap_call (Event.upcall g d) = false) →
      ∃ X, (ftmac100_transmit cfg (upcall g hook q)).2 = (ftmac100_transmit cfg X).2 ∧
        Pass q X ∧ TxSame q X ∧ Cnt is_transmit_entry 0 q X ∧ Cnt is_input_call 0 q X ∧
        Cnt is_tap_call 0 q X := fun g hook q h1 h2 =>
    ⟨_, rfl, Pass_upcall g hook (Pass.prefl q), TxSame_upcall g hook (TxSame.trefl q),
      Cnt_upcall0 g hook (fun _ => rfl) (Cnt.crefl _ _ _),
      Cnt_upcall0 g hook h1 (Cnt.crefl _ _ _), Cnt_upcall0 g hook h2 (Cnt.crefl _ _ _)⟩
  by_cases c1 : (cfg.NET_IPv4 && cfg.eth_hdr_type p.ft_dev.d_data == cfg.HTONS_ETHTYPE_IP) = true
  · simp only [ftmac100_receive_handlers, c1, if_true] at hlen ⊢
    simp only [ftmac100_receive_dispatch, c1, if_true, if_pos hlen]
    generalize upcall Upcall.ipv4_input up.ipv4_input
      (upcall Upcall.arp_ipin up.arp_ipin p) = q
    split_ifs <;> exact hleaf _ _ q (fun _ => rfl) (fun _ => rfl)
  · by_cases c2 :
        (cfg.NET_IPv6 && cfg.eth_hdr_type p.ft_dev.d_data == cfg.HTONS_ETHTYPE_IP6) = true
    · simp only [ftmac100_receive_handlers, c1, c2, if_true, if_false] at hlen ⊢
      simp only [Bool.false_eq_true, if_false] at hlen ⊢
      simp only [ftmac100_receive_dispatch, c1, c2, if_true, if_false, if_pos hlen]
      simp only [Bool.false_eq_true, if_false, if_pos hlen]
      generalize upcall Upcall.ipv6_input up.ipv6_input p = q
      split_ifs <;> exact hleaf _ _ q (fun _ => rfl) (fun _ => rfl)
    · by_cases c3 :
          (cfg.NET_ARP && cfg.eth_hdr_type p.ft_dev.d_data == cfg.HTONS_ETHTYPE_ARP) = true
      · simp only [ftmac100_receive_handlers, c1, c2, c3, if_true, if_false] at hlen ⊢
        simp only [Bool.false_eq_true, if_false] at hlen ⊢
        simp only [ftmac100_receive_dispatch, c1, c2, c3, if_true, if_false, if_pos hlen]
        simp only [Bool.false_eq_true, if_false, if_pos hlen]
        exact ⟨_, rfl, Pass.prefl _, TxSame.trefl _, Cnt.crefl _ _ _, Cnt.crefl _ _ _,
          Cnt.crefl _ _ _⟩
      · exfalso
        rcases hacc with ⟨h1, h2⟩ | ⟨h1, h2⟩ | ⟨h1, h2⟩
        · exact c1 (by simp [h1, h2])
        · exact c2 (by simp [h1, h2])
        · exact c3 (by simp [h1, h2])

theorem dispatch_silent (cfg : Config) (up : Upstream) (p : ftmac100_driver_s)
    (hlen : (ftmac100_receive_handlers cfg up p).ft_dev.d_len = 0) :
    ftmac100_receive_dispatch cfg up p = ftmac100_receive_handlers cfg up p := by
  have h0 : ¬ (ftmac100_receive_handlers cfg up p).ft_dev.d_len > 0 := by omega
  by_cases c1 : (cfg.NET_IPv4 && cfg.eth_hdr_type p.ft_dev.d_data == cfg.HTONS_ETHTYPE_IP) = true
  · simp only [ftmac100_receive_handlers, c1, if_true] at h0 ⊢
    simp only [ftmac100_receive_dispatch, c1, if_true, if_neg h0]
  · by_cases c2 :
        (cfg.NET_IPv6 && cfg.eth_hdr_type p.ft_dev.d_data == cfg.HTONS_ETHTYPE_IP6) = true
    · simp only [ftmac100_receive_handlers, c1, c2, if_true, if_false] at h0 ⊢
      simp only [Bool.false_eq_true, if_false] at h0 ⊢
      simp only [ftmac100_receive_dispatch, c1, c2, if_true, if_false, if_neg h0]
      simp only [Bool.false_eq_true, if_false, if_neg h0]
    · by_cases c3 :
          (cfg.NET_ARP && cfg.eth_hdr_type p.ft_dev.d_data == cfg.HTONS_ETHTYPE_ARP) = true
      · simp only [ftmac100_receive_handlers, c1, c2, c3, if_true, if_false] at h0 ⊢
        simp only [Bool.false_eq_true, if_false] at h0 ⊢
        simp only [ftmac100_receive_dispatch, c1, c2, c3, if_true, if_false, if_neg h0]
        simp only [Bool.false_eq_true, if_false, if_neg h0]
      · simp only [ftmac100_receive_handlers, ftmac100_receive_dispatch, c1, c2, c3, if_false]
        simp only [Bool.false_eq_true, if_false]
theorem TxSame.ttrans {p q r : ftmac100_driver_s} (h1 : TxSame p q) (h2 : TxSame q r) :
    TxSame p r :=
  ⟨h2.ring.trans h1.ring, h2.cur.trans h1.cur, h2.clean.trans h1.clean,
    h2.pending.trans h1.pending⟩

theorem tap_spec (cfg : Config) (up : Upstream) (p : ftmac100_driver_s) :
    Pass p (ftmac100_receive_tap cfg up p) ∧ TxSame p (ftmac100_receive_tap cfg up p) ∧
      Cnt is_transmit_entry 0 p (ftmac100_receive_tap cfg up p) ∧
      Cnt is_input_call 0 p (ftmac100_receive_tap cfg up p) ∧
      Cnt is_tap_call 1 p (ftmac100_receive_tap cfg up p) := by
  simp only [ftmac100_receive_tap]
  split_ifs
  · exact ⟨Pass_upcall _ _ (Pass.prefl p), TxSame_upcall _ _ (TxSame.trefl p),
      Cnt_upcall0 _ _ (fun _ => rfl) (Cnt.crefl _ _ _),
      Cnt_upcall0 _ _ (fun _ => rfl) (Cnt.crefl _ _ _), Cnt_upcall1 _ _ (Cnt.crefl _ _ _)⟩
  · exact ⟨Pass.prefl p, TxSame.trefl p, Cnt.crefl _ _ _, Cnt.crefl _ _ _, Cnt.crefl _ _ _⟩

theorem input_eq (cfg : Config) (up : Upstream) (p : ftmac100_driver_s) :
    ftmac100_receive_input cfg up p =
      ftmac100_receive_dispatch cfg up (ftmac100_receive_tap cfg up p) :=
  rfl

theorem dispatch_counts (cfg : Config) (up : Upstream) (p : ftmac100_driver_s) :
    Cnt is_input_call 1 p (ftmac100_receive_dispatch cfg up p) ∧
      Cnt is_tap_call 0 p (ftmac100_receive_dispatch cfg up p) := by
  simp only [ftmac100_receive_dispatch]
  split_ifs <;> refine ⟨?_, ?_⟩ <;>
    repeat (first
      | refine Cnt_transmit0 _ rfl rfl rfl ?_
      | refine Cnt_upcall0 _ _ (fun _ => rfl) ?_
      | refine Cnt_upcall1 _ _ ?_
      | exact Cnt.crefl _ _ _)

theorem input_counts (cfg : Config) (up : Upstream) (p : ftmac100_driver_s) :
    Cnt is_input_call 1 p (ftmac100_receive_input cfg up p) ∧
      Cnt is_tap_call 1 p (ftmac100_receive_input cfg up p) := by
  rw [input_eq]
  obtain ⟨_, _, _, h1, h2⟩ := tap_spec cfg up p
  obtain ⟨h3, h4⟩ := dispatch_counts cfg up (ftmac100_receive_tap cfg up p)
  exact ⟨h1.ctrans h3, h2.ctrans h4⟩

theorem scan_found_released (cfg : Config) (fuel : Nat) (p q : ftmac100_driver_s)
    (h : ftmac100_receive_scan cfg fuel p = some (q, true)) :
    ¬ rx_hw_owned cfg (q.rxdes.getD q.rx_pointer default) ∧
      (q.rxdes.getD q.rx_pointer default).rxdes0 &&& cfg.RXDES0_FRS ≠ 0 := by
  induction fuel generalizing p with
  | zero => simp [ftmac100_receive_scan] at h
  | succ n ih =>
    by_cases ho : rx_hw_owned cfg (p.rxdes.getD p.rx_pointer default)
    · rw [scan_stop_owned cfg n p ho] at h
      simp at h
    · by_cases hf : (p.rxdes.getD p.rx_pointer default).rxdes0 &&& cfg.RXDES0_FRS = 0
      · rw [scan_skip cfg n p ho hf] at h
        exact ih _ h
      · rw [scan_stop_found cfg n p ho hf] at h
        simp only [Option.some.injEq, Prod.mk.injEq, and_true] at h
        subst h
        exact ⟨ho, hf⟩

theorem scan_keeps_first (cfg : Config) (fuel : Nat) (p q : ftmac100_driver_s) (b : Bool)
    (h : ftmac100_receive_scan cfg fuel p = some (q, b)) (i : Nat) :
    q.rxdes.getD i default = p.rxdes.getD i default ∨
      (¬ rx_hw_owned cfg (p.rxdes.getD i default) ∧
        (p.rxdes.getD i default).rxdes0 &&& cfg.RXDES0_FRS = 0) := by
  induction fuel generalizing p with
  | zero => simp [ftmac100_receive_scan] at h
  | succ n ih =>
    by_cases ho : rx_hw_owned cfg (p.rxdes.getD p.rx_pointer default)
    · rw [scan_stop_owned cfg n p ho] at h
      simp only [Option.some.injEq, Prod.mk.injEq] at h
      obtain ⟨rfl, _⟩ := h
      exact Or.inl rfl
    · by_cases hf : (p.rxdes.getD p.rx_pointer default).rxdes0 &&& cfg.RXDES0_FRS = 0
      · rw [scan_skip cfg n p ho hf] at h
        by_cases hi : p.rx_pointer = i
        · subst hi
          exact Or.inr ⟨ho, hf⟩
        · rcases ih _ h with h1 | h1
          · left
            rw [h1]
            show (List.set _ _ _).getD _ _ = _
            rw [getD_set_eq_ite, if_neg (fun c => hi c.1)]
          · right
            have e : (p.rxdes.set p.rx_pointer
                { p.rxdes.getD p.rx_pointer default with
                  rxdes0 := cfg.RXDES0_RXDMA_OWN }).getD i default =
                p.rxdes.getD i default := by
              rw [getD_set_eq_ite, if_neg (fun c => hi c.1)]
            rw [← e]
            exact h1
      · rw [scan_stop_found cfg n p ho hf] at h
        simp only [Option.some.injEq, Prod.mk.injEq] at h
        obtain ⟨rfl, _⟩ := h
        exact Or.inl rfl

theorem transmit_trace (cfg : Config) (q : ftmac100_driver_s) :
    (ftmac100_transmit cfg q).2.trace =
      q.trace ++ [Event.ftmac100_transmit, Event.putreg32 1 Reg.txpd,
        Event.wd_start WdogId.ft_txtimeout] := by
  simp [ftmac100_transmit, wd_start, putreg32, record]

theorem input_reply (cfg : Config) (up : Upstream) (p : ftmac100_driver_s)
    (hacc : rx_accepted cfg (ftmac100_receive_tap cfg up p).ft_dev.d_data)
    (hlen : 0 < (ftmac100_receive_handlers cfg up (ftmac100_receive_tap cfg up p)).ft_dev.d_len) :
    ∃ X, ftmac100_receive_input cfg up p = (ftmac100_transmit cfg X).2 ∧
      Pass p X ∧ TxSame p X ∧ Cnt is_transmit_entry 0 p X := by
  obtain ⟨a1, a2, a3, _, _⟩ := tap_spec cfg up p
  obtain ⟨b1, b2, b3, _, _⟩ := handlers_spec cfg up (ftmac100_receive_tap cfg up p)
  obtain ⟨X, e, c1, c2, c3, _, _⟩ :=
    dispatch_reply cfg up (ftmac100_receive_tap cfg up p) hacc hlen
  refine ⟨X, ?_, (a1.ptrans b1).ptrans c1, (a2.ttrans b2).ttrans c2, (a3.ctrans b3).ctrans c3⟩
  rw [input_eq, e]

theorem input_silent (cfg : Config) (up : Upstream) (p : ftmac100_driver_s)
    (hlen : (ftmac100_receive_handlers cfg up (ftmac100_receive_tap cfg up p)).ft_dev.d_len = 0) :
    Pass p (ftmac100_receive_input cfg up p) ∧ TxSame p (ftmac100_receive_input cfg up p) ∧
      Cnt is_transmit_entry 0 p (ftmac100_receive_input cfg up p) := by
  obtain ⟨a1, a2, a3, _, _⟩ := tap_spec cfg up p
  obtain ⟨b1, b2, b3, _, _⟩ := handlers_spec cfg up (ftmac100_receive_tap cfg up p)
  rw [input_eq, dispatch_silent cfg up _ hlen]
  exact ⟨a1.ptrans b1, a2.ttrans b2, a3.ctrans b3⟩
/-- C22: let the scan of `ftmac100_receive` stop at a frame.  When the frame
has an accepted type and the input handler leaves `d_len > 0`, the call is the
recycling of the slot applied to the state that one call of
`ftmac100_transmit` returns: up to the entry of that call the trace shows no
entry of `ftmac100_transmit` and the TX ring, TX cursors and pending count are
those before the receive; at the entry and at the return of the call the RX
ring is the one the scan left, `rx_pointer` designates the slot and the slot
is software-owned; the cursor moves only afterwards.  When the handler leaves
`d_len = 0`, the trace of the call shows no entry of `ftmac100_transmit` and
the TX ring, the TX cursors and the pending count are unchanged. -/
theorem receive_reply_before_recycle (cfg : Config) (up : Upstream) (fuel : Nat)
    (priv priv1 : ftmac100_driver_s)
    (hscan : ftmac100_receive_scan cfg fuel (record Event.ftmac100_receive priv) =
      some (priv1, true)) :
    (rx_accepted cfg
        (ftmac100_receive_tap cfg up (ftmac100_receive_copy cfg priv1)).ft_dev.d_data →
      0 < (ftmac100_receive_handlers cfg up
        (ftmac100_receive_tap cfg up (ftmac100_receive_copy cfg priv1))).ft_dev.d_len →
      ∃ X l,
        ftmac100_receive cfg up fuel priv =
          some (ftmac100_receive_recycle cfg priv1.rx_pointer (ftmac100_transmit cfg X).2) ∧
        X.trace = priv.trace ++ l ∧ l.countP is_transmit_entry = 0 ∧
        (ftmac100_receive_recycle cfg priv1.rx_pointer (ftmac100_transmit cfg X).2).trace =
          X.trace ++ [Event.ftmac100_transmit, Event.putreg32 1 Reg.txpd,
            Event.wd_start WdogId.ft_txtimeout] ∧
        (X.txdes = priv.txdes ∧ X.tx_pointer = priv.tx_pointer ∧
          X.tx_clean_pointer = priv.tx_clean_pointer ∧ X.tx_pending = priv.tx_pending) ∧
        (X.rxdes = priv1.rxdes ∧ X.rx_pointer = priv1.rx_pointer ∧
          ¬ rx_hw_owned cfg (X.rxdes.getD X.rx_pointer default)) ∧
        ((ftmac100_transmit cfg X).2.rxdes = priv1.rxdes ∧
          (ftmac100_transmit cfg X).2.rx_pointer = priv1.rx_pointer ∧
          ¬ rx_hw_owned cfg ((ftmac100_transmit cfg X).2.rxdes.getD
            (ftmac100_transmit cfg X).2.rx_pointer default)) ∧
        (ftmac100_receive_recycle cfg priv1.rx_pointer (ftmac100_transmit cfg X).2).rx_pointer =
          cursor_advance cfg.RX_DESC priv1.rx_pointer) ∧
    ((ftmac100_receive_handlers cfg up
        (ftmac100_receive_tap cfg up (ftmac100_receive_copy cfg priv1))).ft_dev.d_len = 0 →
      ∃ q l, ftmac100_receive cfg up fuel priv = some q ∧ q.trace = priv.trace ++ l ∧
        l.countP is_transmit_entry = 0 ∧ q.txdes = priv.txdes ∧
        q.tx_pointer = priv.tx_pointer ∧ q.tx_clean_pointer = priv.tx_clean_pointer ∧
        q.tx_pending = priv.tx_pending) := by
  obtain ⟨r, x, e⟩ := scan_frame cfg fuel (record Event.ftmac100_receive priv) priv1 true hscan
  obtain ⟨hrel, _⟩ := scan_found_released cfg fuel _ priv1 hscan
  have htr : (ftmac100_receive_copy cfg priv1).trace = priv.trace ++ [Event.ftmac100_receive] := by
    rw [e]
    rfl
  have htx : TxSame priv (ftmac100_receive_copy cfg priv1) := by
    rw [e]
    exact ⟨rfl, rfl, rfl, rfl⟩
  have hrx : (ftmac100_receive_copy cfg priv1).rxdes = priv1.rxdes := rfl
  have hrp : (ftmac100_receive_copy cfg priv1).rx_pointer = priv1.rx_pointer := rfl
  have hrecv : ftmac100_receive cfg up fuel priv =
      some (ftmac100_receive_recycle cfg priv1.rx_pointer
        (ftmac100_receive_input cfg up (ftmac100_receive_copy cfg priv1))) := by
    unfold ftmac100_receive
    rw [hscan]
    rfl
  generalize ftmac100_receive_copy cfg priv1 = A at htr htx hrx hrp hrecv ⊢
  constructor
  · intro hacc hlen
    obtain ⟨X, eX, ⟨⟨l0, el0, _⟩, _, prx, prp⟩, tX, cX⟩ := input_reply cfg up A hacc hlen
    have hc0 := Cnt_segment cX el0
    obtain ⟨_, _, trx, trp⟩ := Pass_transmit cfg (Pass.prefl X)
    refine ⟨X, Event.ftmac100_receive :: l0, ?_, ?_, ?_, transmit_trace cfg X, ?_, ?_, ?_, ?_⟩
    · rw [hrecv, eX]
    · rw [el0, htr, List.append_assoc]
      rfl
    · rw [List.countP_cons]
      simp only [is_transmit_entry, Bool.false_eq_true, if_false, Nat.add_zero]
      omega
    · have := htx.ttrans tX
      exact ⟨this.ring, this.cur, this.clean, this.pending⟩
    · refine ⟨prx.trans hrx, prp.trans hrp, ?_⟩
      rw [prx, prp, hrx, hrp]
      exact hrel
    · refine ⟨(trx.trans prx).trans hrx, (trp.trans prp).trans hrp, ?_⟩
      rw [trx, trp, prx, prp, hrx, hrp]
      exact hrel
    · show ((ftmac100_transmit cfg X).2.rx_pointer + 1) &&& (cfg.RX_DESC - 1) = _
      rw [trp, prp, hrp]
      rfl
  · intro hlen
    obtain ⟨⟨⟨l0, el0, _⟩, _, _, _⟩, tX, cX⟩ := input_silent cfg up A hlen
    have hc0 := Cnt_segment cX el0
    have ht := htx.ttrans tX
    refine ⟨_, Event.ftmac100_receive :: l0, hrecv, ?_, ?_, ht.ring, ht.cur, ht.clean,
      ht.pending⟩
    · show (ftmac100_receive_input cfg up A).trace = _
      rw [el0, htr, List.append_assoc]
      rfl
    · rw [List.countP_cons]
      simp only [is_transmit_entry, Bool.false_eq_true, if_false, Nat.add_zero]
      omega

/-- Witness for C22: in `rxfull4` the cursor is at a complete 64-byte IPv4
frame.  With the stack `idleUp`, whose handlers leave `d_len` at 64, the reply
is transmitted once, before the slot is recycled; with `sinkUp`, whose
handlers leave `d_len = 0`, nothing is transmitted and the pending count
stays 0. -/
theorem receive_reply_before_recycle_witness :
    ftmac100_receive_scan cfg4 5 (record Event.ftmac100_receive rxfull4) =
        some (record Event.ftmac100_receive rxfull4, true) ∧
      (ftmac100_receive cfg4 idleUp 5 rxfull4).map
          (fun s => (s.trace.countP is_transmit_entry, s.tx_pending, s.rx_pointer)) =
        some (1, 1, 0) ∧
      (ftmac100_receive cfg4 sinkUp 5 rxfull4).map
          (fun s => (s.trace.countP is_transmit_entry, s.tx_pending, s.rx_pointer)) =
        some (0, 0, 0) ∧
      (∃ X l,
        ftmac100_receive cfg4 idleUp 5 rxfull4 =
          some (ftmac100_receive_recycle cfg4 3 (ftmac100_transmit cfg4 X).2) ∧
        X.trace = rxfull4.trace ++ l ∧ l.countP is_transmit_entry = 0 ∧
        X.tx_pending = 0 ∧ X.rx_pointer = 3 ∧
        ¬ rx_hw_owned cfg4 (X.rxdes.getD X.rx_pointer default)) ∧
      ∃ q l, ftmac100_receive cfg4 sinkUp 5 rxfull4 = some q ∧ q.trace = rxfull4.trace ++ l ∧
        l.countP is_transmit_entry = 0 ∧ q.txdes = rxfull4.txdes ∧
        q.tx_pointer = rxfull4.tx_pointer ∧ q.tx_clean_pointer = rxfull4.tx_clean_pointer ∧
        q.tx_pending = rxfull4.tx_pending := by
  refine ⟨rfl, rfl, rfl, ?_, ?_⟩
  · obtain ⟨X, l, h1, h2, h3, _, ⟨_, _, _, h4⟩, ⟨_, h5, h6⟩, _, _⟩ :=
      (receive_reply_before_recycle cfg4 idleUp 5 rxfull4 (record Event.ftmac100_receive rxfull4)
        rfl).1 (Or.inl ⟨rfl, rfl⟩) (by decide)
    exact ⟨X, l, h1, h2, h3, h4, h5, h6⟩
  · exact (receive_reply_before_recycle cfg4 sinkUp 5 rxfull4
      (record Event.ftmac100_receive rxfull4) rfl).2 rfl

/-- C24: whenever `ftmac100_receive` returns, the trace of the call shows at
most one call of an input function of the network layer (`ipv4_input`,
`ipv6_input`, `arp_arpin`) and at most one call of the packet tap.  When the
scan exits without a frame, the call does nothing after the scan.  When the
scan exits at a frame, `rx_pointer` ends one step past that slot, and every
other slot that had the first-segment flag on entry is exactly as it was on
entry, so a released frame there is still software-owned.  For a power-of-two
capacity, a ring of that length and an in-range cursor the call does
return. -/
theorem receive_at_most_one_frame (cfg : Config) (up : Upstream) (fuel : Nat)
    (priv : ftmac100_driver_s) :
    (∀ q, ftmac100_receive cfg up fuel priv = some q →
      ∃ l, q.trace = priv.trace ++ l ∧ l.countP is_input_call ≤ 1 ∧
        l.countP is_tap_call ≤ 1 ∧
        (∀ priv1, ftmac100_receive_scan cfg fuel (record Event.ftmac100_receive priv) =
            some (priv1, false) → q = priv1 ∧ l = [Event.ftmac100_receive]) ∧
        (∀ priv1, ftmac100_receive_scan cfg fuel (record Event.ftmac100_receive priv) =
            some (priv1, true) →
          q.rx_pointer = cursor_advance cfg.RX_DESC priv1.rx_pointer ∧
          ∀ i, i ≠ priv1.rx_pointer →
            (priv.rxdes.getD i default).rxdes0 &&& cfg.RXDES0_FRS ≠ 0 →
            q.rxdes.getD i default = priv.rxdes.getD i default ∧
            (¬ rx_hw_owned cfg (priv.rxdes.getD i default) →
              ¬ rx_hw_owned cfg (q.rxdes.getD i default)))) ∧
    ((∃ k, cfg.RX_DESC = 2 ^ k) → cfg.RXDES0_RXDMA_OWN ≠ 0 →
      priv.rxdes.length = cfg.RX_DESC → priv.rx_pointer < cfg.RX_DESC →
      cfg.RX_DESC + 1 ≤ fuel → ∃ q, ftmac100_receive cfg up fuel priv = some q) := by
  refine ⟨?_, fun hpow hown hlen hin hfuel =>
    receive_returns cfg hpow hown up fuel priv hlen hin hfuel⟩
  intro q h
  unfold ftmac100_receive at h
  cases hs : ftmac100_receive_scan cfg fuel (record Event.ftmac100_receive priv) with
  | none =>
    rw [hs] at h
    exact absurd h (by simp)
  | some rb =>
    obtain ⟨priv1, b⟩ := rb
    obtain ⟨r, x, e⟩ := scan_frame cfg fuel _ priv1 b hs
    have htr : priv1.trace = priv.trace ++ [Event.ftmac100_receive] := by
      rw [e]
      rfl
    rw [hs] at h
    cases b with
    | false =>
      have h2 : some priv1 = some q := h
      have h3 : priv1 = q := Option.some.inj h2
      subst h3
      refine ⟨[Event.ftmac100_receive], htr, by decide, by decide, ?_, ?_⟩
      · intro p1 hp1
        have := Option.some.inj hp1
        exact ⟨congrArg Prod.fst this, rfl⟩
      · intro p1 hp1
        have := congrArg Prod.snd (Option.some.inj hp1)
        exact absurd this (by simp)
    | true =>
      have h2 : some (ftmac100_receive_found cfg up priv1) = some q := h
      have h3 : ftmac100_receive_found cfg up priv1 = q := Option.some.inj h2
      obtain ⟨⟨l0, el0, _⟩, _, prx, prp⟩ := Pass_input cfg up (ftmac100_receive_copy cfg priv1)
      obtain ⟨c1, c2⟩ := input_counts cfg up (ftmac100_receive_copy cfg priv1)
      have k1 := Cnt_segment c1 el0
      have k2 := Cnt_segment c2 el0
      have prx1 : (ftmac100_receive_input cfg up (ftmac100_receive_copy cfg priv1)).rxdes =
          priv1.rxdes := prx
      have prp1 : (ftmac100_receive_input cfg up (ftmac100_receive_copy cfg priv1)).rx_pointer =
          priv1.rx_pointer := prp
      refine ⟨Event.ftmac100_receive :: l0, ?_, ?_, ?_, ?_, ?_⟩
      · rw [← h3]
        show (ftmac100_receive_input cfg up (ftmac100_receive_copy cfg priv1)).trace = _
        rw [el0]
        show priv1.trace ++ l0 = _
        rw [htr, List.append_assoc]
        rfl
      · rw [List.countP_cons]
        simp only [is_input_call, Bool.false_eq_true, if_false, Nat.add_zero]
        exact k1
      · rw [List.countP_cons]
        simp only [is_tap_call, Bool.false_eq_true, if_false, Nat.add_zero]
        exact k2
      · intro p1 hp1
        have := congrArg Prod.snd (Option.some.inj hp1)
        exact absurd this (by simp)
      · intro p1 hp1
        have hp : priv1 = p1 := congrArg Prod.fst (Option.some.inj hp1)
        subst hp
        refine ⟨?_, ?_⟩
        · rw [← h3]
          show ((ftmac100_receive_input cfg up (ftmac100_receive_copy cfg priv1)).rx_pointer + 1)
            &&& (cfg.RX_DESC - 1) = _
          rw [prp1]
          rfl
        · intro i hi hfrs
          have hq : q.rxdes.getD i default = priv.rxdes.getD i default := by
            rw [← h3]
            show (List.set _ _ _).getD _ _ = _
            rw [getD_set_eq_ite, if_neg (fun c => hi c.1.symm), prx1]
            rcases scan_keeps_first cfg fuel _ priv1 true hs i with h1 | h1
            · exact h1
            · exact absurd h1.2 hfrs
          refine ⟨hq, ?_⟩
          rw [hq]
          exact id

/-- Witness for C24: in `rxtwo4` (capacity 4, cursor at entry 0) entries 0 and
1 both hold a released complete frame.  One call of `ftmac100_receive` hands
one frame to `arp_ipin` and `ipv4_input`, ends with the cursor at entry 1 and
leaves entry 1 as it was, software-owned; a second call delivers that frame and
ends with the cursor at entry 2. -/
theorem receive_at_most_one_frame_witness :
    (∃ k, cfg4.RX_DESC = 2 ^ k) ∧ cfg4.RXDES0_RXDMA_OWN ≠ 0 ∧
      rxtwo4.rxdes.length = cfg4.RX_DESC ∧ rxtwo4.rx_pointer < cfg4.RX_DESC ∧
      cfg4.RX_DESC + 1 ≤ 5 ∧
      (∃ q, ftmac100_receive cfg4 sinkUp 5 rxtwo4 = some q) ∧
      (∀ i, i < 2 → ¬ rx_hw_owned cfg4 (rxtwo4.rxdes.getD i default) ∧
        (rxtwo4.rxdes.getD i default).rxdes0 &&& cfg4.RXDES0_FRS ≠ 0 ∧
        (rxtwo4.rxdes.getD i default).rxdes0 &&& cfg4.RXDES0_LRS ≠ 0) ∧
      (ftmac100_receive cfg4 sinkUp 5 rxtwo4).map
          (fun s => (upcalls_of s.trace, s.rx_pointer, s.rxdes.getD 1 default,
            decide (rx_hw_owned cfg4 (s.rxdes.getD 0 default)),
            decide (rx_hw_owned cfg4 (s.rxdes.getD 1 default)))) =
        some ([(Upcall.arp_ipin, 64), (Upcall.ipv4_input, 64)], 1,
          ⟨0x30000040, 0x7fc, 0x107fc, 0x1060⟩, true, false) ∧
      ((ftmac100_receive cfg4 sinkUp 5 rxtwo4).bind (ftmac100_receive cfg4 sinkUp 5)).map
          (fun s => (s.rx_pointer, decide (rx_hw_owned cfg4 (s.rxdes.getD 1 default)))) =
        some (2, true) :=
  ⟨⟨2, rfl⟩, by decide, rfl, by decide, by decide,
    (receive_at_most_one_frame cfg4 sinkUp 5 rxtwo4).2 ⟨2, rfl⟩ (by decide) rfl (by decide)
      (by decide),
    by decide, rfl, rfl⟩

theorem Cnt_txpoll {f : Event → Bool} (cfg : Config) (st : PollStep) (p : ftmac100_driver_s)
    (hup : ∀ g d, f (Event.upcall g d) = false)
    (h1 : f Event.ftmac100_transmit = false) (h2 : f (Event.putreg32 1 Reg.txpd) = false)
    (h3 : f (Event.wd_start WdogId.ft_txtimeout) = false) :
    Cnt f 0 p (ftmac100_txpoll cfg st p).2 := by
  simp only [ftmac100_txpoll]
  split_ifs <;>
    repeat (first
      | refine Cnt_transmit0 _ h1 h2 h3 ?_
      | refine Cnt_upcall0 _ _ (hup _) ?_
      | exact Cnt.crefl _ _ _)

theorem Cnt_poll_callbacks {f : Event → Bool} (cfg : Config) (steps : List PollStep)
    (p : ftmac100_driver_s) (hup : ∀ g d, f (Event.upcall g d) = false)
    (h1 : f Event.ftmac100_transmit = false) (h2 : f (Event.putreg32 1 Reg.txpd) = false)
    (h3 : f (Event.wd_start WdogId.ft_txtimeout) = false) :
    Cnt f 0 p (poll_callbacks cfg steps p) := by
  induction steps generalizing p with
  | nil => exact Cnt.crefl _ _ _
  | cons st rest ih =>
    simp only [poll_callbacks]
    exact ((Cnt_set_dev _ (Cnt.crefl f 0 p)).ctrans
      (Cnt_txpoll cfg st _ hup h1 h2 h3)).ctrans (ih _)

theorem devif_poll_line (cfg : Config) (up : Upstream) (p : ftmac100_driver_s) :
    ∃ l, (devif_poll cfg up p).trace = p.trace ++ l ∧ l.countP is_line_event = 0 ∧
      (devif_poll cfg up p).irq_masked = p.irq_masked ∧
      (devif_poll cfg up p).iobase Reg.imr = p.iobase Reg.imr ∧
      (devif_poll cfg up p).ft_work = p.ft_work ∧
      (devif_poll cfg up p).status = p.status ∧ l.filterMap action_of = [] := by
  have hp : Pass p (devif_poll cfg up p) :=
    (Pass_upcall Upcall.devif_poll id (Pass.prefl p)).ptrans
      (Pass_poll_callbacks cfg up.devif_poll _)
  have hc : Cnt is_line_event 0 p (devif_poll cfg up p) :=
    (Cnt_record0 (Event.upcall Upcall.devif_poll p.ft_dev) rfl (Cnt.crefl is_line_event 0 p)).ctrans
      (Cnt_poll_callbacks cfg up.devif_poll _ (fun _ _ => rfl) rfl rfl rfl)
  obtain ⟨⟨l, el, ha⟩, ⟨_, _, q3, q4, q5, _, _, q8⟩, _, _⟩ := hp
  have := Cnt_segment hc el
  exact ⟨l, el, by omega, q5, q8 Reg.imr (by decide), q4, q3, ha⟩

theorem txtimeout_fires_noints (cfg : Config) (up : Upstream) (fuel : Nat)
    (priv : ftmac100_driver_s) (hd : cfg.NET_NOINTS = true) :
    ∃ q l, txtimeout_fires cfg up fuel priv = some q ∧
      q.trace = priv.trace ++ Event.mask_irq :: Event.work_cancel ::
        Event.work_queue Work.ftmac100_txtimeout_work :: l ∧
      l.countP is_line_event = 0 ∧ q.irq_masked = true ∧ q.ft_work = none ∧
      q.iobase Reg.imr = priv.iobase Reg.imr ∧ q.status = priv.status ∧
      l.filterMap action_of = [] := by
  have e : txtimeout_fires cfg up fuel priv =
      some (devif_poll cfg up
        { work_queue Work.ftmac100_txtimeout_work
            (work_cancel (ftintc010_mask_irq (wd_expire WdogId.ft_txtimeout priv))) with
          ft_work := none }) := by
    simp only [txtimeout_fires, ftmac100_txtimeout_expiry, hd, if_true]
    rfl
  obtain ⟨l, h1, h2, h3, h4, h5, h6, h7⟩ := devif_poll_line cfg up
    { work_queue Work.ftmac100_txtimeout_work
        (work_cancel (ftintc010_mask_irq (wd_expire WdogId.ft_txtimeout priv))) with
      ft_work := none }
  refine ⟨_, l, e, ?_, h2, h3, h5, ?_, ?_, h7⟩
  · rw [h1]
    simp [work_queue, work_cancel, ftintc010_mask_irq, wd_expire, record]
  · rw [h4]
    rfl
  · rw [h6]
    rfl

theorem interrupt_queues_unit (cfg : Config) (up : Upstream) (fuel : Nat)
    (s : ftmac100_driver_s) (hd : cfg.NET_NOINTS = true) :
    ∃ s1, ftmac100_interrupt cfg up fuel s = some s1 ∧
      s1.ft_work = some Work.ftmac100_interrupt_work ∧ s1.status = s.iobase Reg.isr ∧
      s1.iobase Reg.imr = 0 ∧ s1.irq_masked = true := by
  simp only [ftmac100_interrupt, hd, if_true]
  refine ⟨_, rfl, rfl, ?_, ?_, ?_⟩
  · split_ifs <;> rfl
  · split_ifs <;> rfl
  · split_ifs <;> rfl
/-- C23: under `CONFIG_NET_NOINTS`, `ftmac100_txtimeout_expiry` masks the
interrupt line and leaves `ftmac100_txtimeout_work` in the work slot whatever
the slot held, without touching the registers or the captured status;
`ftmac100_txtimeout_work` neither unmasks the line nor writes the interrupt
mask register; so after a firing and the worker pass the line is masked, the
slot is empty and the interrupt mask register is as it was.  In particular,
after an interrupt whose unit has not run, the firing and the worker pass
leave the line masked and the interrupt mask register at 0; the trace shows neither
an unmasking nor a write of that register, nor any action of interrupt
processing, the captured status being left unprocessed in `status`. -/
theorem txtimeout_displaces_interrupt_unit (cfg : Config) (up : Upstream) (fuel : Nat)
    (priv : ftmac100_driver_s) (hd : cfg.NET_NOINTS = true) :
    ((ftmac100_txtimeout_expiry cfg up priv).irq_masked = true ∧
      (ftmac100_txtimeout_expiry cfg up priv).ft_work = some Work.ftmac100_txtimeout_work ∧
      (ftmac100_txtimeout_expiry cfg up priv).iobase = priv.iobase ∧
      (ftmac100_txtimeout_expiry cfg up priv).status = priv.status ∧
      (ftmac100_txtimeout_expiry cfg up priv).trace =
        priv.trace ++ [Event.mask_irq, Event.work_cancel,
          Event.work_queue Work.ftmac100_txtimeout_work]) ∧
    (∃ l, (ftmac100_txtimeout_work cfg up priv).trace = priv.trace ++ l ∧
      l.countP is_line_event = 0 ∧
      (ftmac100_txtimeout_work cfg up priv).irq_masked = priv.irq_masked ∧
      (ftmac100_txtimeout_work cfg up priv).iobase Reg.imr = priv.iobase Reg.imr) ∧
    (∃ q l, txtimeout_fires cfg up fuel priv = some q ∧ q.trace = priv.trace ++ l ∧
      l.countP is_line_event = 0 ∧ l.filterMap action_of = [] ∧ q.irq_masked = true ∧
      q.ft_work = none ∧ q.iobase Reg.imr = priv.iobase Reg.imr) ∧
    ∃ s1, ftmac100_interrupt cfg up fuel priv = some s1 ∧
      s1.ft_work = some Work.ftmac100_interrupt_work ∧ s1.status = priv.iobase Reg.isr ∧
      ∃ q l, txtimeout_fires cfg up fuel s1 = some q ∧ q.trace = s1.trace ++ l ∧
        l.countP is_line_event = 0 ∧ l.filterMap action_of = [] ∧ q.irq_masked = true ∧
        q.ft_work = none ∧ q.iobase Reg.imr = 0 ∧ q.status = priv.iobase Reg.isr := by
  refine ⟨?_, ?_, ?_, ?_⟩
  · simp only [ftmac100_txtimeout_expiry, hd, if_true]
    refine ⟨rfl, rfl, rfl, rfl, ?_⟩
    simp [work_queue, work_cancel, ftintc010_mask_irq, record]
  · obtain ⟨l, h1, h2, h3, h4, _, _⟩ := devif_poll_line cfg up priv
    exact ⟨l, h1, h2, h3, h4⟩
  · obtain ⟨q, l, h1, h2, h3, h4, h5, h6, _, h8⟩ := txtimeout_fires_noints cfg up fuel priv hd
    refine ⟨q, _, h1, h2, ?_, ?_, h4, h5, h6⟩
    · simp only [List.countP_cons, is_line_event, Bool.false_eq_true, if_false, Nat.add_zero]
      exact h3
    · simp only [List.filterMap_cons, action_of]
      exact h8
  · obtain ⟨s1, e1, w1, st1, i1, _⟩ := interrupt_queues_unit cfg up fuel priv hd
    obtain ⟨q, l, h1, h2, h3, h4, h5, h6, h7, h8⟩ := txtimeout_fires_noints cfg up fuel s1 hd
    refine ⟨s1, e1, w1, st1, q, _, h1, h2, ?_, ?_, h4, h5, h6.trans i1, h7.trans st1⟩
    · simp only [List.countP_cons, is_line_event, Bool.false_eq_true, if_false, Nat.add_zero]
      exact h3
    · simp only [List.filterMap_cons, action_of]
      exact h8

/-- Witness for C23: in the deferred configuration the device raises an
interrupt in `irq4` (status `0x251`) and the TX-timeout fires before the worker
has run.  The interrupt alone followed by the worker ends with the line
unmasked and all sources enabled; with the firing in between, the worker pass
ends with the line masked and the interrupt mask register at 0. -/
theorem txtimeout_displaces_interrupt_unit_witness :
    cfg4d.NET_NOINTS = true ∧
      ((ftmac100_interrupt cfg4d sinkUp 5 irq4).bind (work_run cfg4d sinkUp 5)).map
          (fun s => (s.irq_masked, s.iobase Reg.imr, s.ft_work)) =
        some (false, INT_MASK_ALL_ENABLED cfg4d, none) ∧
      ((ftmac100_interrupt cfg4d sinkUp 5 irq4).bind (txtimeout_fires cfg4d sinkUp 5)).map
          (fun s => (s.irq_masked, s.iobase Reg.imr, s.ft_work)) =
        some (true, 0, none) ∧
      ∃ s1, ftmac100_interrupt cfg4d sinkUp 5 irq4 = some s1 ∧
        s1.ft_work = some Work.ftmac100_interrupt_work ∧ s1.status = irq4.iobase Reg.isr ∧
        ∃ q l, txtimeout_fires cfg4d sinkUp 5 s1 = some q ∧ q.trace = s1.trace ++ l ∧
          l.countP is_line_event = 0 ∧ l.filterMap action_of = [] ∧ q.irq_masked = true ∧
          q.ft_work = none ∧
          q.iobase Reg.imr = 0 ∧ q.status = irq4.iobase Reg.isr :=
  ⟨rfl, rfl, rfl, (txtimeout_displaces_interrupt_unit cfg4d sinkUp 5 irq4 rfl).2.2.2⟩

theorem or_mod_pow (a b w : Nat) : (a ||| b) % 2 ^ w = a % 2 ^ w ||| b % 2 ^ w := by
  apply Nat.eq_of_testBit_eq
  intro i
  simp only [Nat.testBit_mod_two_pow, Nat.testBit_or, Bool.and_or_distrib_left]

theorem and_mod_pow_zero (a e w : Nat) (h : e % 2 ^ w = 0) : (a &&& e) % 2 ^ w = 0 := by
  apply Nat.eq_of_testBit_eq
  intro i
  have hi : (e % 2 ^ w).testBit i = false := by
    rw [h]
    exact Nat.zero_testBit i
  rw [Nat.testBit_mod_two_pow] at hi
  rw [Nat.testBit_mod_two_pow, Nat.testBit_and, Nat.zero_testBit]
  cases hd : decide (i < w)
  · rfl
  · rw [hd] at hi
    simp only [Bool.true_and] at hi
    rw [hi]
    simp

theorem txdes1_size_field (cfg : Config) (w old len : Nat)
    (hsize : ∀ x, cfg.TXDES1_TXBUF_SIZE x = x % 2 ^ w)
    (hwrap : cfg.TXDES1_EDOTR % 2 ^ w = 0)
    (hflags : (cfg.TXDES1_FTS ||| cfg.TXDES1_LTS ||| cfg.TXDES1_TXIC) % 2 ^ w = 0) :
    ((old &&& cfg.TXDES1_EDOTR) |||
      (cfg.TXDES1_FTS ||| cfg.TXDES1_LTS ||| cfg.TXDES1_TXIC ||| cfg.TXDES1_TXBUF_SIZE len)) %
        2 ^ w = len % 2 ^ w := by
  rw [or_mod_pow, or_mod_pow, and_mod_pow_zero _ _ _ hwrap, hflags, hsize, Nat.mod_mod,
    Nat.zero_or, Nat.zero_or]

/-- Counterexample to C5 as stated: one frame of 2048 bytes, a length that the
16-bit `d_len` can hold, submitted from `fresh4` (capacity 4).  The descriptor
word gets the flags and `TXBUF_SIZE(2048)`, which is 0 for the 11-bit size
field, so the recorded size is 0 and not `max(2048, 60)`. -/
theorem submit_size_truncated :
    [2048].length ≤ cfg4.TX_DESC ∧ 2048 < 2 ^ 16 ∧
      (submit_all cfg4 [2048] fresh4).tx_pending = 1 ∧
      ((submit_all cfg4 [2048] fresh4).txdes.getD 0 default).txdes1 = 0x58000000 ∧
      ((submit_all cfg4 [2048] fresh4).txdes.getD 0 default).txdes1 % 2 ^ 11 = 0 ∧
      cfg4.TXDES1_TXBUF_SIZE 2048 = 0 ∧
      ((submit_all cfg4 [2048] fresh4).txdes.getD 0 default).txdes1 % 2 ^ 11 ≠
        max 2048 ETH_ZLEN := by
  refine ⟨by decide, by decide, rfl, rfl, rfl, rfl, by decide⟩

/-- C5, amended: let the size field of `txdes1` be the low `w` bits, written
by `TXBUF_SIZE`, with the wrap marker and the segment and interrupt flags
above it.  Submitting a list of at most `capacity` frame lengths from a state
with `tx_pointer` and `tx_pending` zero, without reclaim in between, leaves
`tx_pending` equal to the number of frames and `tx_pointer` equal to that
number modulo the capacity; slot `i` holds the old wrap marker, the three
flags and `TXBUF_SIZE(max(L_i, 60))`, so its size field is `max(L_i, 60)`
modulo `2 ^ w`: equal to `max(L_i, 60)` exactly when that is below `2 ^ w`. -/
theorem submit_sizes (cfg : Config) (hpow : ∃ k, cfg.TX_DESC = 2 ^ k) (w : Nat)
    (hsize : ∀ x, cfg.TXDES1_TXBUF_SIZE x = x % 2 ^ w)
    (hwrap : cfg.TXDES1_EDOTR % 2 ^ w = 0)
    (hflags : (cfg.TXDES1_FTS ||| cfg.TXDES1_LTS ||| cfg.TXDES1_TXIC) % 2 ^ w = 0)
    (ls : List Nat)
    (priv : ftmac100_driver_s) (hlen : priv.txdes.length = cfg.TX_DESC)
    (hptr : priv.tx_pointer = 0) (hpend : priv.tx_pending = 0)
    (hls : ls.length ≤ cfg.TX_DESC) :
    (submit_all cfg ls priv).tx_pending = ls.length ∧
    (submit_all cfg ls priv).tx_pointer = ls.length % cfg.TX_DESC ∧
    (∀ i, i < ls.length →
      ((submit_all cfg ls priv).txdes.getD i default).txdes1 =
        ((priv.txdes.getD i default).txdes1 &&& cfg.TXDES1_EDOTR) |||
          (cfg.TXDES1_FTS ||| cfg.TXDES1_LTS ||| cfg.TXDES1_TXIC |||
            cfg.TXDES1_TXBUF_SIZE (max (ls.getD i 0) ETH_ZLEN)) ∧
      ((submit_all cfg ls priv).txdes.getD i default).txdes1 % 2 ^ w =
        max (ls.getD i 0) ETH_ZLEN % 2 ^ w ∧
      (((submit_all cfg ls priv).txdes.getD i default).txdes1 % 2 ^ w =
        max (ls.getD i 0) ETH_ZLEN ↔ max (ls.getD i 0) ETH_ZLEN < 2 ^ w)) := by
  have hN : 0 < cfg.TX_DESC := by
    obtain ⟨k, hk⟩ := hpow
    rw [hk]
    exact Nat.pos_pow_of_pos k (by decide)
  obtain ⟨h1, h2, h3, _⟩ := submit_all_spec cfg hpow ls priv hlen (by omega) hls
  rw [hptr] at h2 h3
  rw [hpend] at h1
  simp only [Nat.zero_add] at h1 h2 h3
  refine ⟨h1, h2, ?_⟩
  intro i hi
  have h := h3 i hi
  rw [Nat.mod_eq_of_lt (by omega)] at h
  have hf := txdes1_size_field cfg w (priv.txdes.getD i default).txdes1
    (max (ls.getD i 0) ETH_ZLEN) hsize hwrap hflags
  rw [← h] at hf
  refine ⟨h, hf, ?_⟩
  rw [hf]
  constructor
  · intro e
    rw [← e]
    exact Nat.mod_lt _ (Nat.pos_pow_of_pos w (by decide))
  · intro hlt
    exact Nat.mod_eq_of_lt hlt

/-- Witness for C5 (amended): capacity 4, an 11-bit size field and the lengths
64, 1500, 30 and 60 record the sizes 64, 1500, 60 and 60, with four
descriptors pending and `tx_pointer` back at 0. -/
theorem submit_sizes_witness :
    (∃ k, cfg4.TX_DESC = 2 ^ k) ∧ (∀ x, cfg4.TXDES1_TXBUF_SIZE x = x % 2 ^ 11) ∧
      cfg4.TXDES1_EDOTR % 2 ^ 11 = 0 ∧
      (cfg4.TXDES1_FTS ||| cfg4.TXDES1_LTS ||| cfg4.TXDES1_TXIC) % 2 ^ 11 = 0 ∧
      fresh4.txdes.length = cfg4.TX_DESC ∧
      fresh4.tx_pointer = 0 ∧ fresh4.tx_pending = 0 ∧
      [64, 1500, 30, 60].length ≤ cfg4.TX_DESC ∧
      (submit_all cfg4 [64, 1500, 30, 60] fresh4).tx_pending = 4 ∧
      (submit_all cfg4 [64, 1500, 30, 60] fresh4).tx_pointer = 0 ∧
      (submit_all cfg4 [64, 1500, 30, 60] fresh4).txdes.map (fun d => d.txdes1 % 2 ^ 11) =
        [64, 1500, 60, 60] ∧
      ∀ i, i < 4 →
        ((submit_all cfg4 [64, 1500, 30, 60] fresh4).txdes.getD i default).txdes1 % 2 ^ 11 =
          max ([64, 1500, 30, 60].getD i 0) ETH_ZLEN :=
  have hs : ∀ x, cfg4.TXDES1_TXBUF_SIZE x = x % 2 ^ 11 :=
    fun x => Nat.and_pow_two_sub_one_eq_mod x 11
  have h := submit_sizes cfg4 ⟨2, rfl⟩ 11 hs (by decide) (by decide) [64, 1500, 30, 60] fresh4
    rfl rfl rfl (by decide)
  ⟨⟨2, rfl⟩, hs, by decide, by decide, rfl, rfl, rfl, by decide, h.1, h.2.1, by decide,
    fun i hi => ((h.2.2 i hi).2.2).2 (by
      have h4 : i < 4 := hi
      interval_cases i <;> decide)⟩

theorem tap_trace (cfg : Config) (up : Upstream) (p : ftmac100_driver_s) :
    (ftmac100_receive_tap cfg up p).trace =
        p.trace ++ (if cfg.NET_PKT then [Event.upcall Upcall.pkt_input p.ft_dev] else []) ∧
      (ftmac100_receive_tap cfg up p).ft_dev =
        (if cfg.NET_PKT then up.pkt_input p.ft_dev else p.ft_dev) := by
  simp only [ftmac100_receive_tap]
  split_ifs
  · exact ⟨rfl, rfl⟩
  · exact ⟨(List.append_nil _).symm, rfl⟩

theorem handlers_trace (cfg : Config) (up : Upstream) (p : ftmac100_driver_s)
    (hacc : rx_accepted cfg p.ft_dev.d_data) :
    (ftmac100_receive_handlers cfg up p).trace =
      p.trace ++ (rx_before_input cfg p.ft_dev ++
        [Event.upcall (rx_input cfg p.ft_dev.d_data) (rx_input_dev cfg up p.ft_dev)]) ∧
    is_input_call
      (Event.upcall (rx_input cfg p.ft_dev.d_data) (rx_input_dev cfg up p.ft_dev)) = true ∧
    (rx_before_input cfg p.ft_dev).countP is_input_call = 0 := by
  by_cases c1 : (cfg.NET_IPv4 && cfg.eth_hdr_type p.ft_dev.d_data == cfg.HTONS_ETHTYPE_IP) = true
  · simp only [ftmac100_receive_handlers, rx_before_input, rx_input, rx_input_dev, c1, if_true]
    refine ⟨?_, rfl, rfl⟩
    show (p.trace ++ [_]) ++ [_] = _
    rw [List.append_assoc]
    rfl
  · by_cases c2 :
        (cfg.NET_IPv6 && cfg.eth_hdr_type p.ft_dev.d_data == cfg.HTONS_ETHTYPE_IP6) = true
    · simp only [ftmac100_receive_handlers, rx_before_input, rx_input, rx_input_dev, c1, c2,
        if_true, if_false]
      simp only [Bool.false_eq_true, if_false]
      exact ⟨rfl, rfl, rfl⟩
    · have c3 : (cfg.NET_ARP && cfg.eth_hdr_type p.ft_dev.d_data == cfg.HTONS_ETHTYPE_ARP) =
          true := by
        rcases hacc with ⟨a, b⟩ | ⟨a, b⟩ | ⟨a, b⟩
        · exact absurd (by simp [a, b]) c1
        · exact absurd (by simp [a, b]) c2
        · simp [a, b]
      simp only [ftmac100_receive_handlers, rx_before_input, rx_input, rx_input_dev, c1, c2, c3,
        if_true, if_false]
      simp only [Bool.false_eq_true, if_false]
      exact ⟨rfl, rfl, rfl⟩

theorem dispatch_rest (cfg : Config) (up : Upstream) (p : ftmac100_driver_s)
    (hacc : rx_accepted cfg p.ft_dev.d_data) :
    ∃ rest, (ftmac100_receive_dispatch cfg up p).trace =
        (ftmac100_receive_handlers cfg up p).trace ++ rest ∧
      rest.countP is_input_call = 0 ∧ rest.countP is_tap_call = 0 := by
  by_cases hlen : 0 < (ftmac100_receive_handlers cfg up p).ft_dev.d_len
  · obtain ⟨X, e, ⟨⟨l0, el0, _⟩, _, _, _⟩, _, _, c1, c2⟩ := dispatch_reply cfg up p hacc hlen
    have k1 := Cnt_segment c1 el0
    have k2 := Cnt_segment c2 el0
    refine ⟨l0 ++ [Event.ftmac100_transmit, Event.putreg32 1 Reg.txpd,
      Event.wd_start WdogId.ft_txtimeout], ?_, ?_, ?_⟩
    · rw [e, transmit_trace, el0, List.append_assoc]
    · rw [List.countP_append]
      have : List.countP is_input_call [Event.ftmac100_transmit, Event.putreg32 1 Reg.txpd,
          Event.wd_start WdogId.ft_txtimeout] = 0 := rfl
      omega
    · rw [List.countP_append]
      have : List.countP is_tap_call [Event.ftmac100_transmit, Event.putreg32 1 Reg.txpd,
          Event.wd_start WdogId.ft_txtimeout] = 0 := rfl
      omega
  · have h0 : (ftmac100_receive_handlers cfg up p).ft_dev.d_len = 0 := by omega
    refine ⟨[], ?_, rfl, rfl⟩
    rw [dispatch_silent cfg up p h0, List.append_nil]

theorem input_dev_kept (cfg : Config) (up : Upstream) (dev : net_driver_s)
    (harp : cfg.NET_IPv4 = true →
      ∀ d, (up.arp_ipin d).d_len = d.d_len ∧ (up.arp_ipin d).d_data = d.d_data) :
    (rx_input_dev cfg up dev).d_len = dev.d_len ∧
      (rx_input_dev cfg up dev).d_data = dev.d_data := by
  simp only [rx_input_dev]
  split_ifs with c
  · have h4 : cfg.NET_IPv4 = true := by
      cases h : cfg.NET_IPv4
      · rw [h] at c
        simp at c
      · rfl
    exact harp h4 dev
  · exact ⟨rfl, rfl⟩

/-- C7: let the scan of `ftmac100_receive` stop at a released slot with the
first-segment flag (in particular at a complete frame) whose frame has an
accepted Ethernet type.  The call returns.  Its trace is the entry of
`ftmac100_receive`, then `pkt_input` under `CONFIG_NET_PKT`, then `arp_ipin`
for an IPv4 frame, then the input function of the frame type (`ipv4_input`,
`ipv6_input` or `arp_arpin`), then a rest without any further input call.  The
copy leaves `d_len` equal to the frame-length field of the slot and the first
`d_len` bytes of the exchange buffer equal to those of the slot's buffer, and
the input function is called on that structure as `pkt_input` and `arp_ipin`
pass it on: when these leave `d_len` and the buffer alone, the input function
gets exactly that length and those bytes.  Afterwards the slot is
hardware-owned, its `rxdes1` is the old wrap marker together with
`RXBUF_SIZE(RX_BUF_SIZE)`, and `rx_pointer` is one past the slot modulo the
capacity. -/
theorem receive_delivers (cfg : Config) (up : Upstream) (fuel : Nat)
    (priv priv1 : ftmac100_driver_s)
    (hin : priv.rx_pointer < cfg.RX_DESC)
    (hpow : ∃ k, cfg.RX_DESC = 2 ^ k) (hown : cfg.RXDES0_RXDMA_OWN ≠ 0)
    (hsize : cfg.RXDES1_RXBUF_SIZE RX_BUF_SIZE &&& cfg.RXDES1_EDORR = 0)
    (hlen : priv.rxdes.length = cfg.RX_DESC)
    (hscan : ftmac100_receive_scan cfg fuel (record Event.ftmac100_receive priv) =
      some (priv1, true))
    (hacc : rx_accepted cfg
      (ftmac100_receive_tap cfg up (ftmac100_receive_copy cfg priv1)).ft_dev.d_data) :
    ∃ priv2 rest,
      ftmac100_receive cfg up fuel priv = some priv2 ∧
      priv1.rx_pointer < cfg.RX_DESC ∧
      ¬ rx_hw_owned cfg (priv.rxdes.getD priv1.rx_pointer default) ∧
      (priv.rxdes.getD priv1.rx_pointer default).rxdes0 &&& cfg.RXDES0_FRS ≠ 0 ∧
      priv2.trace = priv.trace ++ Event.ftmac100_receive ::
        ((if cfg.NET_PKT then
            [Event.upcall Upcall.pkt_input (ftmac100_receive_copy cfg priv1).ft_dev]
          else []) ++
          (rx_before_input cfg
              (ftmac100_receive_tap cfg up (ftmac100_receive_copy cfg priv1)).ft_dev ++
            Event.upcall
              (rx_input cfg
                (ftmac100_receive_tap cfg up (ftmac100_receive_copy cfg priv1)).ft_dev.d_data)
              (rx_input_dev cfg up
                (ftmac100_receive_tap cfg up (ftmac100_receive_copy cfg priv1)).ft_dev) ::
            rest)) ∧
      is_input_call
        (Event.upcall
          (rx_input cfg
            (ftmac100_receive_tap cfg up (ftmac100_receive_copy cfg priv1)).ft_dev.d_data)
          (rx_input_dev cfg up
            (ftmac100_receive_tap cfg up (ftmac100_receive_copy cfg priv1)).ft_dev)) = true ∧
      (rx_before_input cfg
        (ftmac100_receive_tap cfg up (ftmac100_receive_copy cfg priv1)).ft_dev).countP
          is_input_call = 0 ∧
      rest.countP is_input_call = 0 ∧
      (ftmac100_receive_copy cfg priv1).ft_dev.d_len =
        cfg.RXDES0_RFL (priv.rxdes.getD priv1.rx_pointer default).rxdes0 ∧
      (ftmac100_receive_copy cfg priv1).ft_dev.d_data.take
          (ftmac100_receive_copy cfg priv1).ft_dev.d_len =
        (List.range (ftmac100_receive_copy cfg priv1).ft_dev.d_len).map
          (fun k => priv.mem ((priv.rxdes.getD priv1.rx_pointer default).rxdes2 + k)) ∧
      ((cfg.NET_PKT = true →
          ∀ d, (up.pkt_input d).d_len = d.d_len ∧ (up.pkt_input d).d_data = d.d_data) →
        (cfg.NET_IPv4 = true →
          ∀ d, (up.arp_ipin d).d_len = d.d_len ∧ (up.arp_ipin d).d_data = d.d_data) →
        (rx_input_dev cfg up
            (ftmac100_receive_tap cfg up (ftmac100_receive_copy cfg priv1)).ft_dev).d_len =
          cfg.RXDES0_RFL (priv.rxdes.getD priv1.rx_pointer default).rxdes0 ∧
        (rx_input_dev cfg up
            (ftmac100_receive_tap cfg up (ftmac100_receive_copy cfg priv1)).ft_dev).d_data.take
            (cfg.RXDES0_RFL (priv.rxdes.getD priv1.rx_pointer default).rxdes0) =
          (List.range (cfg.RXDES0_RFL (priv.rxdes.getD priv1.rx_pointer default).rxdes0)).map
            (fun k => priv.mem ((priv.rxdes.getD priv1.rx_pointer default).rxdes2 + k))) ∧
      rx_hw_owned cfg (priv2.rxdes.getD priv1.rx_pointer default) ∧
      (priv2.rxdes.getD priv1.rx_pointer default).rxdes1 =
        ((priv.rxdes.getD priv1.rx_pointer default).rxdes1 &&& cfg.RXDES1_EDORR) |||
          cfg.RXDES1_RXBUF_SIZE RX_BUF_SIZE ∧
      (priv2.rxdes.getD priv1.rx_pointer default).rxdes1 &&& cfg.RXDES1_EDORR =
        (priv.rxdes.getD priv1.rx_pointer default).rxdes1 &&& cfg.RXDES1_EDORR ∧
      priv2.rx_pointer = (priv1.rx_pointer + 1) % cfg.RX_DESC := by
  obtain ⟨⟨r, x, e⟩, hl, hx, hb, _, hsl⟩ :=
    scan_spec cfg hown fuel (record Event.ftmac100_receive priv) priv1 true hscan
  obtain ⟨hrel1, hfrs1⟩ := hb rfl
  have hx1 : priv1.rx_pointer < cfg.RX_DESC := hx hin
  have hlen1 : priv1.rxdes.length = cfg.RX_DESC := by
    rw [hl]
    exact hlen
  have hslot : priv1.rxdes.getD priv1.rx_pointer default =
      priv.rxdes.getD priv1.rx_pointer default := by
    rcases hsl priv1.rx_pointer with h | h
    · exact h
    · exact absurd h hrel1
  have htr : (ftmac100_receive_copy cfg priv1).trace =
      priv.trace ++ [Event.ftmac100_receive] := by
    rw [e]
    rfl
  have hmem : priv1.mem = priv.mem := by
    rw [e]
    rfl
  obtain ⟨_, _, hrx, hrp⟩ := Pass_input cfg up (ftmac100_receive_copy cfg priv1)
  have hrx1 : (ftmac100_receive_input cfg up (ftmac100_receive_copy cfg priv1)).rxdes =
      priv1.rxdes := hrx
  have hrp1 : (ftmac100_receive_input cfg up (ftmac100_receive_copy cfg priv1)).rx_pointer =
      priv1.rx_pointer := hrp
  have hnew : (ftmac100_receive_found cfg up priv1).rxdes.getD priv1.rx_pointer default =
      ⟨(priv.rxdes.getD priv1.rx_pointer default).rxdes0 ||| cfg.RXDES0_RXDMA_OWN,
        ((priv.rxdes.getD priv1.rx_pointer default).rxdes1 &&& cfg.RXDES1_EDORR) |||
          cfg.RXDES1_RXBUF_SIZE RX_BUF_SIZE,
        (priv.rxdes.getD priv1.rx_pointer default).rxdes2,
        (priv.rxdes.getD priv1.rx_pointer default).rxdes3⟩ := by
    show (List.set _ _ _).getD _ _ = _
    rw [getD_set_eq_ite, if_pos]
    · show ftmac100_rxdes_s.mk _ _ _ _ = _
      rw [hrx1, hslot]
    · refine ⟨rfl, ?_⟩
      rw [hrx1, hlen1]
      exact hx1
  have hlen_eq : (ftmac100_receive_copy cfg priv1).ft_dev.d_len =
      cfg.RXDES0_RFL (priv.rxdes.getD priv1.rx_pointer default).rxdes0 := by
    show cfg.RXDES0_RFL (priv1.rxdes.getD priv1.rx_pointer default).rxdes0 = _
    rw [hslot]
  have hbytes : (ftmac100_receive_copy cfg priv1).ft_dev.d_data.take
      (ftmac100_receive_copy cfg priv1).ft_dev.d_len =
      (List.range (ftmac100_receive_copy cfg priv1).ft_dev.d_len).map
        (fun k => priv.mem ((priv.rxdes.getD priv1.rx_pointer default).rxdes2 + k)) := by
    rw [hlen_eq]
    show (memcpy_d_buf priv1 (priv1.rxdes.getD priv1.rx_pointer default).rxdes2
      (cfg.RXDES0_RFL (priv1.rxdes.getD priv1.rx_pointer default).rxdes0)).take _ = _
    rw [hslot, hmem.symm]
    unfold memcpy_d_buf
    rw [List.take_left']
    simp
  obtain ⟨tt, td⟩ := tap_trace cfg up (ftmac100_receive_copy cfg priv1)
  obtain ⟨ht, hic, hbc⟩ := handlers_trace cfg up
    (ftmac100_receive_tap cfg up (ftmac100_receive_copy cfg priv1)) hacc
  obtain ⟨rest, hd, hrc, _⟩ := dispatch_rest cfg up
    (ftmac100_receive_tap cfg up (ftmac100_receive_copy cfg priv1)) hacc
  refine ⟨ftmac100_receive_found cfg up priv1, rest, ?_, hx1, ?_, ?_, ?_, hic, hbc, hrc, hlen_eq,
    hbytes, ?_, ?_, ?_, ?_, ?_⟩
  · unfold ftmac100_receive
    rw [hscan]
  · rw [← hslot]
    exact hrel1
  · rw [← hslot]
    exact hfrs1
  · show (ftmac100_receive_input cfg up (ftmac100_receive_copy cfg priv1)).trace = _
    rw [input_eq, hd, ht, tt, htr]
    simp only [List.append_assoc, List.singleton_append, List.cons_append, List.nil_append]
  · intro hpkt harp
    obtain ⟨k1, k2⟩ := input_dev_kept cfg up
      (ftmac100_receive_tap cfg up (ftmac100_receive_copy cfg priv1)).ft_dev harp
    have t1 : (ftmac100_receive_tap cfg up (ftmac100_receive_copy cfg priv1)).ft_dev.d_len =
        (ftmac100_receive_copy cfg priv1).ft_dev.d_len ∧
        (ftmac100_receive_tap cfg up (ftmac100_receive_copy cfg priv1)).ft_dev.d_data =
        (ftmac100_receive_copy cfg priv1).ft_dev.d_data := by
      rw [td]
      split_ifs with c
      · exact hpkt c _
      · exact ⟨rfl, rfl⟩
    rw [k1, k2, t1.1, t1.2, ← hlen_eq]
    exact ⟨rfl, hbytes⟩
  · rw [hnew]
    show _ &&& _ ≠ 0
    rw [or_and_self]
    exact hown
  · rw [hnew]
  · rw [hnew]
    exact mask_or_keeps _ _ _ hsize
  · show ((ftmac100_receive_input cfg up (ftmac100_receive_copy cfg priv1)).rx_pointer + 1) &&&
      (cfg.RX_DESC - 1) = _
    rw [hrp1, and_pred_pow2 _ _ hpow]

/-- Witness for C7: in `rxfull4` the cursor is at the last slot, which holds
a complete 64-byte IPv4 frame; the receive pass returns, calls `arp_ipin` and
then `ipv4_input`, each with `d_len = 64` and the type byte `0x08` at offset
12, leaves the slot hardware-owned with the wrap marker kept, and wraps the
cursor to 0. -/
theorem receive_delivers_witness :
    rxfull4.rx_pointer < cfg4.RX_DESC ∧ (∃ k, cfg4.RX_DESC = 2 ^ k) ∧
      cfg4.RXDES0_RXDMA_OWN ≠ 0 ∧
      cfg4.RXDES1_RXBUF_SIZE RX_BUF_SIZE &&& cfg4.RXDES1_EDORR = 0 ∧
      rxfull4.rxdes.length = cfg4.RX_DESC ∧
      ftmac100_receive_scan cfg4 5 (record Event.ftmac100_receive rxfull4) =
        some (record Event.ftmac100_receive rxfull4, true) ∧
      (ftmac100_receive cfg4 sinkUp 5 rxfull4).map (fun s => upcalls_of s.trace) =
        some [(Upcall.arp_ipin, 64), (Upcall.ipv4_input, 64)] ∧
      rx_input cfg4 (ftmac100_receive_tap cfg4 sinkUp
        (ftmac100_receive_copy cfg4 (record Event.ftmac100_receive rxfull4))).ft_dev.d_data =
          Upcall.ipv4_input ∧
      ∃ priv2, ftmac100_receive cfg4 sinkUp 5 rxfull4 = some priv2 ∧
        (rx_input_dev cfg4 sinkUp (ftmac100_receive_tap cfg4 sinkUp
          (ftmac100_receive_copy cfg4 (record Event.ftmac100_receive rxfull4))).ft_dev).d_len =
            64 ∧
        (rx_input_dev cfg4 sinkUp (ftmac100_receive_tap cfg4 sinkUp
          (ftmac100_receive_copy cfg4
            (record Event.ftmac100_receive rxfull4))).ft_dev).d_data.getD 12 0 = 8 ∧
        rx_hw_owned cfg4 (priv2.rxdes.getD 3 default) ∧
        (priv2.rxdes.getD 3 default).rxdes1 = 0x800007fc ∧
        priv2.rx_pointer = 0 := by
  refine ⟨by decide, ⟨2, rfl⟩, by decide, by decide, rfl, rfl, rfl, rfl, ?_⟩
  obtain ⟨priv2, rest, h1, _, _, _, _, _, _, _, _, _, h10, h11, h12, _, h14⟩ :=
    receive_delivers cfg4 sinkUp 5 rxfull4 (record Event.ftmac100_receive rxfull4)
      (by decide) ⟨2, rfl⟩ (by decide) (by decide) rfl rfl (Or.inl ⟨rfl, rfl⟩)
  exact ⟨priv2, h1, (h10 (fun h => absurd h (by decide)) (fun _ _ => ⟨rfl, rfl⟩)).1, rfl, h11,
    h12, h14⟩

theorem txpoll_pending_eq (cfg : Config) (st : PollStep) (p : ftmac100_driver_s) :
    (ftmac100_txpoll cfg st p).2.tx_pending =
      if p.ft_dev.d_len > 0 then p.tx_pending + 1 else p.tx_pending := by
  simp only [ftmac100_txpoll]
  split_ifs <;> rfl

theorem poll_bound_iff (cfg : Config) (steps : List PollStep) (p : ftmac100_driver_s)
    (h : p.tx_pending ≤ cfg.TX_DESC) :
    (poll_callbacks cfg steps p).tx_pending ≤ cfg.TX_DESC ↔ poll_guarded cfg steps p := by
  induction steps generalizing p with
  | nil =>
    simp only [poll_callbacks, poll_guarded, iff_true]
    exact h
  | cons st rest ih =>
    simp only [poll_callbacks, poll_guarded]
    have hq := txpoll_pending_eq cfg st { p with ft_dev := st.prep p.ft_dev }
    have hmono := (poll_callbacks_tx cfg rest
      (ftmac100_txpoll cfg st { p with ft_dev := st.prep p.ft_dev }).2).2.1
    by_cases hl : (st.prep p.ft_dev).d_len > 0
    · have hq1 : (ftmac100_txpoll cfg st { p with ft_dev := st.prep p.ft_dev }).2.tx_pending =
          p.tx_pending + 1 := by
        rw [hq]
        exact if_pos hl
      by_cases hroom : p.tx_pending < cfg.TX_DESC
      · rw [ih _ (by rw [hq1]; omega)]
        exact ⟨fun g => ⟨fun _ => hroom, g⟩, fun g => g.2⟩
      · constructor
        · intro g
          rw [hq1] at hmono
          omega
        · intro g
          exact absurd (g.1 hl) hroom
    · have hq1 : (ftmac100_txpoll cfg st { p with ft_dev := st.prep p.ft_dev }).2.tx_pending =
          p.tx_pending := by
        rw [hq]
        exact if_neg hl
      rw [ih _ (by rw [hq1]; exact h)]
      exact ⟨fun g => ⟨fun c => absurd c hl, g⟩, fun g => g.2⟩

theorem dispatch_unaccepted (cfg : Config) (up : Upstream) (p : ftmac100_driver_s)
    (hacc : ¬ rx_accepted cfg p.ft_dev.d_data) : ftmac100_receive_dispatch cfg up p = p := by
  have c1 : ¬ (cfg.NET_IPv4 && cfg.eth_hdr_type p.ft_dev.d_data == cfg.HTONS_ETHTYPE_IP) =
      true := by
    intro c
    simp only [Bool.and_eq_true, beq_iff_eq] at c
    exact hacc (Or.inl c)
  have c2 : ¬ (cfg.NET_IPv6 && cfg.eth_hdr_type p.ft_dev.d_data == cfg.HTONS_ETHTYPE_IP6) =
      true := by
    intro c
    simp only [Bool.and_eq_true, beq_iff_eq] at c
    exact hacc (Or.inr (Or.inl c))
  have c3 : ¬ (cfg.NET_ARP && cfg.eth_hdr_type p.ft_dev.d_data == cfg.HTONS_ETHTYPE_ARP) =
      true := by
    intro c
    simp only [Bool.and_eq_true, beq_iff_eq] at c
    exact hacc (Or.inr (Or.inr c))
  simp only [ftmac100_receive_dispatch, c1, c2, c3, if_false]
  simp only [Bool.false_eq_true, if_false]

theorem input_pending_eq (cfg : Config) (up : Upstream) (p : ftmac100_driver_s) :
    ((rx_accepted cfg (ftmac100_receive_tap cfg up p).ft_dev.d_data ∧
        0 < (ftmac100_receive_handlers cfg up (ftmac100_receive_tap cfg up p)).ft_dev.d_len) →
      (ftmac100_receive_input cfg up p).tx_pending = p.tx_pending + 1) ∧
    (¬ (rx_accepted cfg (ftmac100_receive_tap cfg up p).ft_dev.d_data ∧
        0 < (ftmac100_receive_handlers cfg up (ftmac100_receive_tap cfg up p)).ft_dev.d_len) →
      (ftmac100_receive_input cfg up p).tx_pending = p.tx_pending) := by
  constructor
  · intro ⟨hacc, hlen⟩
    obtain ⟨X, e, _, t, _⟩ := input_reply cfg up p hacc hlen
    rw [e]
    show X.tx_pending + 1 = _
    rw [t.pending]
  · intro hn
    by_cases hacc : rx_accepted cfg (ftmac100_receive_tap cfg up p).ft_dev.d_data
    · have h0 : (ftmac100_receive_handlers cfg up
          (ftmac100_receive_tap cfg up p)).ft_dev.d_len = 0 := by
        by_contra c
        exact hn ⟨hacc, Nat.pos_of_ne_zero c⟩
      exact (input_silent cfg up p h0).2.1.pending
    · rw [input_eq, dispatch_unaccepted cfg up _ hacc]
      exact (tap_spec cfg up p).2.1.pending

theorem receive_bound_iff (cfg : Config) (up : Upstream) (fuel : Nat) (p q : ftmac100_driver_s)
    (h : ftmac100_receive cfg up fuel p = some q) (hinv : p.tx_pending ≤ cfg.TX_DESC) :
    q.tx_pending ≤ cfg.TX_DESC ↔ receive_guarded cfg up fuel p := by
  unfold ftmac100_receive at h
  unfold receive_guarded
  cases hs : ftmac100_receive_scan cfg fuel (record Event.ftmac100_receive p) with
  | none =>
    rw [hs] at h
    exact absurd h (by simp)
  | some rb =>
    obtain ⟨p1, b⟩ := rb
    obtain ⟨r, x, e⟩ := scan_frame cfg fuel _ p1 b hs
    have hp1 : p1.tx_pending = p.tx_pending := by
      rw [e]
      rfl
    rw [hs] at h
    cases b with
    | false =>
      have h3 : p1 = q := Option.some.inj h
      subst h3
      simp only [iff_true]
      rw [hp1]
      exact hinv
    | true =>
      have h3 : ftmac100_receive_found cfg up p1 = q := Option.some.inj h
      have hq : q.tx_pending =
          (ftmac100_receive_input cfg up (ftmac100_receive_copy cfg p1)).tx_pending := by
        rw [← h3]
        rfl
      have hA : (ftmac100_receive_copy cfg p1).tx_pending = p.tx_pending := hp1
      obtain ⟨k1, k2⟩ := input_pending_eq cfg up (ftmac100_receive_copy cfg p1)
      show q.tx_pending ≤ cfg.TX_DESC ↔ (_ → _ → p.tx_pending < cfg.TX_DESC)
      by_cases c : rx_accepted cfg
          (ftmac100_receive_tap cfg up (ftmac100_receive_copy cfg p1)).ft_dev.d_data ∧
          0 < (ftmac100_receive_handlers cfg up
            (ftmac100_receive_tap cfg up (ftmac100_receive_copy cfg p1))).ft_dev.d_len
      · rw [hq, k1 c, hA]
        constructor
        · intro g _ _
          omega
        · intro g
          have := g c.1 c.2
          omega
      · rw [hq, k2 c, hA]
        constructor
        · intro _ a b
          exact absurd ⟨a, b⟩ c
        · intro _
          exact hinv

theorem txdone_bound_iff (cfg : Config) (up : Upstream) (p : ftmac100_driver_s)
    (hinv : p.tx_pending ≤ cfg.TX_DESC) :
    (ftmac100_txdone cfg up p).tx_pending ≤ cfg.TX_DESC ↔ txdone_guarded cfg up p := by
  have h2 : (ftmac100_txdone_reclaim cfg (record Event.ftmac100_txdone p)).tx_pending ≤
      p.tx_pending :=
    txdone_loop_pending cfg _ (record Event.ftmac100_txdone p)
  exact poll_bound_iff cfg up.devif_poll _ (Nat.le_trans h2 hinv)

theorem interrupt_bound (cfg : Config) (up : Upstream) (fuel : Nat) (p q : ftmac100_driver_s)
    (hinv : p.tx_pending ≤ cfg.TX_DESC) (hg : interrupt_guarded cfg up fuel p)
    (h : ftmac100_interrupt_process cfg up fuel p = some q) : q.tx_pending ≤ cfg.TX_DESC := by
  rw [interrupt_process_eq] at h
  unfold interrupt_guarded at hg
  simp only at hg
  generalize interrupt_status cfg p = s at h hg
  by_cases hs : s = 0
  · unfold ftmac100_interrupt_steps at h
    rw [if_pos hs] at h
    rw [← Option.some.inj h]
    exact hinv
  · obtain ⟨g1, g2⟩ := hg hs
    rw [interrupt_steps_eq] at h
    have h0 : (if s &&& cfg.INT_RPKT_SAV ≠ 0 then putreg32 1 Reg.rxpd p else p).tx_pending =
        p.tx_pending := by split_ifs <;> rfl
    generalize (if s &&& cfg.INT_RPKT_SAV ≠ 0 then putreg32 1 Reg.rxpd p else p) = p1
      at h h0 g1 g2
    cases hrx : (if s &&& (cfg.INT_RPKT_FINISH ||| cfg.INT_NORXBUF) ≠ 0 then
        ftmac100_receive cfg up fuel p1 else some p1) with
    | none =>
      rw [hrx] at h
      exact absurd h (by simp)
    | some p2 =>
      rw [hrx] at h g2
      have hp2 : p2.tx_pending ≤ cfg.TX_DESC := by
        by_cases c : s &&& (cfg.INT_RPKT_FINISH ||| cfg.INT_NORXBUF) ≠ 0
        · rw [if_pos c] at hrx
          exact (receive_bound_iff cfg up fuel p1 p2 hrx (by rw [h0]; exact hinv)).mpr (g1 c)
        · rw [if_neg c] at hrx
          rw [← Option.some.inj hrx, h0]
          exact hinv
      have hp3 : (if s &&& cfg.INT_XPKT_OK ≠ 0 then ftmac100_txdone cfg up p2 else p2).tx_pending ≤
          cfg.TX_DESC := by
        by_cases c : s &&& cfg.INT_XPKT_OK ≠ 0
        · rw [if_pos c]
          exact (txdone_bound_iff cfg up p2 hp2).mpr (g2 c)
        · rw [if_neg c]
          exact hp2
      simp only [Option.map_some'] at h
      generalize (if s &&& cfg.INT_XPKT_OK ≠ 0 then ftmac100_txdone cfg up p2 else p2) = p3
        at h hp3
      have h4 : q = putreg32 (INT_MASK_ALL_ENABLED cfg) Reg.imr
          (if s &&& cfg.INT_PHYSTS_CHG ≠ 0 then ftmac100_phy_status cfg p3 else p3) :=
        (Option.some.inj h).symm
      rw [h4]
      show (if s &&& cfg.INT_PHYSTS_CHG ≠ 0 then ftmac100_phy_status cfg p3 else p3).tx_pending ≤ _
      split_ifs
      · obtain ⟨io, pin, tr, b, e⟩ := phy_status_frame cfg p3
        rw [e]
        exact hp3
      · exact hp3

/-- C18, amended: `tx_pending <= CONFIG_FTMAC100_TX_DESC` holds after
`ftmac100_init` and is preserved by the reclaim loop from every state that
satisfies it.  `ftmac100_transmit` adds one without checking for room, so from
a state that satisfies the bound each operation keeps it exactly when the
transmissions it makes are admitted, that is, entered with fewer than
`CONFIG_FTMAC100_TX_DESC` descriptors pending: `ftmac100_transmit` itself, the
reply of `ftmac100_receive`, and the submitting rounds of the poll in
`ftmac100_txdone`, in the timeout processing and in the poll processing;
`ftmac100_interrupt_process` keeps the bound when the reply and the poll
rounds of the functions it calls are admitted. -/
theorem pending_bound_admitted (cfg : Config) (up : Upstream) (bd : Board) (fuel : Nat)
    (priv : ftmac100_driver_s) (hinv : priv.tx_pending ≤ cfg.TX_DESC) :
    (ftmac100_init cfg bd priv).tx_pending ≤ cfg.TX_DESC ∧
    ((ftmac100_transmit cfg priv).2.tx_pending ≤ cfg.TX_DESC ↔
      priv.tx_pending < cfg.TX_DESC) ∧
    (ftmac100_txdone_reclaim cfg priv).tx_pending ≤ cfg.TX_DESC ∧
    ((ftmac100_txdone cfg up priv).tx_pending ≤ cfg.TX_DESC ↔ txdone_guarded cfg up priv) ∧
    (∀ q, ftmac100_receive cfg up fuel priv = some q →
      (q.tx_pending ≤ cfg.TX_DESC ↔ receive_guarded cfg up fuel priv)) ∧
    (interrupt_guarded cfg up fuel priv →
      ∀ q, ftmac100_interrupt_process cfg up fuel priv = some q →
        q.tx_pending ≤ cfg.TX_DESC) ∧
    ((ftmac100_txtimeout_process cfg up priv).tx_pending ≤ cfg.TX_DESC ↔
      poll_guarded cfg up.devif_poll
        (record (Event.upcall Upcall.devif_poll priv.ft_dev) priv)) ∧
    ((ftmac100_poll_process cfg up priv).tx_pending ≤ cfg.TX_DESC ↔
      poll_guarded cfg up.devif_timer
        (record (Event.upcall Upcall.devif_timer priv.ft_dev) priv)) := by
  refine ⟨?_, ?_, ?_, txdone_bound_iff cfg up priv hinv, ?_, ?_, ?_, ?_⟩
  · rw [init_pending]
    exact Nat.zero_le _
  · show priv.tx_pending + 1 ≤ cfg.TX_DESC ↔ _
    exact Nat.succ_le_iff
  · exact Nat.le_trans (txdone_loop_pending cfg _ priv) hinv
  · intro q hq
    exact receive_bound_iff cfg up fuel priv q hq hinv
  · intro hg q hq
    exact interrupt_bound cfg up fuel priv q hinv hg hq
  · exact poll_bound_iff cfg up.devif_poll
      (record (Event.upcall Upcall.devif_poll priv.ft_dev) priv) hinv
  · exact poll_bound_iff cfg up.devif_timer
      (record (Event.upcall Upcall.devif_timer priv.ft_dev) priv) hinv

/-- Witness for C18 (amended): in `txfull4done` all four descriptors of the
ring are pending and completed.  `ftmac100_txdone` reclaims the four, then the
poll submits one frame with nothing pending, so the transmission is admitted
and one descriptor is pending afterwards.  A fifth `ftmac100_transmit` in that
state is not admitted and breaks the bound. -/
theorem pending_bound_admitted_witness :
    txfull4done.tx_pending = 4 ∧ txfull4done.tx_pending ≤ cfg4.TX_DESC ∧
      txdone_guarded cfg4 framePollUp txfull4done ∧
      (ftmac100_txdone cfg4 framePollUp txfull4done).tx_pending = 1 ∧
      (ftmac100_txdone cfg4 framePollUp txfull4done).tx_pending ≤ cfg4.TX_DESC ∧
      ¬ (ftmac100_transmit cfg4 txfull4done).2.tx_pending ≤ cfg4.TX_DESC :=
  have hg : txdone_guarded cfg4 framePollUp txfull4done := ⟨fun _ => by decide, trivial⟩
  ⟨rfl, by decide, hg, rfl,
    (pending_bound_admitted cfg4 framePollUp board4 5 txfull4done (by decide)).2.2.2.1.mpr hg,
    fun h => absurd
      ((pending_bound_admitted cfg4 framePollUp board4 5 txfull4done (by decide)).2.1.mp h)
      (by decide)⟩

theorem sized_recycle (a e s : Nat) (h : a ||| s = s) : ((a &&& e) ||| s) ||| s = s := by
  apply Nat.eq_of_testBit_eq
  intro k
  have hk := congrArg (fun n => Nat.testBit n k) h
  simp only [Nat.testBit_or, Nat.testBit_and] at hk ⊢
  revert hk
  cases a.testBit k <;> cases e.testBit k <;> cases s.testBit k <;> simp

theorem Keeps.krefl (p : ftmac100_driver_s) : Keeps p p :=
  ⟨rfl, rfl, fun _ => rfl⟩

theorem Keeps.ktrans {p q r : ftmac100_driver_s} (h1 : Keeps p q) (h2 : Keeps q r) :
    Keeps p r :=
  ⟨h2.rxlen.trans h1.rxlen, h2.txlen.trans h1.txlen, fun i => (h2.rx1 i).trans (h1.rx1 i)⟩

theorem Keeps_same {p q : ftmac100_driver_s} (h1 : q.rxdes = p.rxdes)
    (h2 : q.txdes.length = p.txdes.length) : Keeps p q :=
  ⟨by rw [h1], h2, fun i => by rw [h1]⟩

theorem Keeps_upcall {p q : ftmac100_driver_s} (f : Upcall)
    (hook : net_driver_s → net_driver_s) (h : Keeps p q) : Keeps p (upcall f hook q) :=
  h.ktrans (Keeps_same rfl rfl)

theorem Keeps_transmit {p q : ftmac100_driver_s} (cfg : Config) (h : Keeps p q) :
    Keeps p (ftmac100_transmit cfg q).2 := by
  refine h.ktrans (Keeps_same rfl ?_)
  show (List.set _ _ _).length = _
  rw [List.length_set]
  rfl

theorem Keeps_txpoll (cfg : Config) (st : PollStep) (p : ftmac100_driver_s) :
    Keeps p (ftmac100_txpoll cfg st p).2 := by
  simp only [ftmac100_txpoll]
  split_ifs <;>
    repeat (first | apply Keeps_transmit | apply Keeps_upcall | exact Keeps.krefl _)

theorem Keeps_poll_callbacks (cfg : Config) (steps : List PollStep) (p : ftmac100_driver_s) :
    Keeps p (poll_callbacks cfg steps p) := by
  induction steps generalizing p with
  | nil => exact Keeps.krefl p
  | cons st rest ih =>
    simp only [poll_callbacks]
    have h0 : Keeps p { p with ft_dev := st.prep p.ft_dev } := Keeps_same rfl rfl
    exact (h0.ktrans (Keeps_txpoll cfg st _)).ktrans (ih _)

theorem Keeps_devif_poll (cfg : Config) (up : Upstream) (p : ftmac100_driver_s) :
    Keeps p (devif_poll cfg up p) := by
  have h0 : Keeps p (record (Event.upcall Upcall.devif_poll p.ft_dev) p) := Keeps_same rfl rfl
  exact h0.ktrans (Keeps_poll_callbacks cfg up.devif_poll _)

theorem Keeps_devif_timer (cfg : Config) (up : Upstream) (p : ftmac100_driver_s) :
    Keeps p (devif_timer cfg up p) := by
  have h0 : Keeps p (record (Event.upcall Upcall.devif_timer p.ft_dev) p) := Keeps_same rfl rfl
  exact h0.ktrans (Keeps_poll_callbacks cfg up.devif_timer _)

theorem Keeps_txdone_loop (cfg : Config) (fuel : Nat) (p : ftmac100_driver_s) :
    Keeps p (ftmac100_txdone_loop cfg fuel p) := by
  induction fuel generalizing p with
  | zero => exact Keeps.krefl p
  | succ n ih =>
    by_cases hp : p.tx_pending = 0
    · rw [txdone_loop_idle cfg _ p hp]
      exact Keeps.krefl p
    · by_cases h : tx_hw_owned cfg (p.txdes.getD p.tx_clean_pointer default)
      · rw [txdone_loop_stop cfg _ p h]
        exact Keeps.krefl p
      · rw [txdone_loop_step cfg n p hp h]
        refine Keeps.ktrans ?_ (ih _)
        refine Keeps_same rfl ?_
        show (List.set _ _ _).length = _
        rw [List.length_set]

theorem Keeps_txdone (cfg : Config) (up : Upstream) (p : ftmac100_driver_s) :
    Keeps p (ftmac100_txdone cfg up p) := by
  have h0 : Keeps p (record Event.ftmac100_txdone p) := Keeps_same rfl rfl
  have h1 := Keeps_txdone_loop cfg (record Event.ftmac100_txdone p).tx_pending
    (record Event.ftmac100_txdone p)
  have h2 : Keeps (ftmac100_txdone_reclaim cfg (record Event.ftmac100_txdone p))
      (wd_cancel WdogId.ft_txtimeout
        (ftmac100_txdone_reclaim cfg (record Event.ftmac100_txdone p))) := Keeps_same rfl rfl
  exact ((h0.ktrans h1).ktrans h2).ktrans (Keeps_devif_poll cfg up _)

theorem Keeps_scan (cfg : Config) (fuel : Nat) (p q : ftmac100_driver_s) (b : Bool)
    (h : ftmac100_receive_scan cfg fuel p = some (q, b)) : Keeps p q := by
  induction fuel generalizing p with
  | zero => simp [ftmac100_receive_scan] at h
  | succ n ih =>
    by_cases ho : rx_hw_owned cfg (p.rxdes.getD p.rx_pointer default)
    · rw [scan_stop_owned cfg n p ho] at h
      simp only [Option.some.injEq, Prod.mk.injEq] at h
      obtain ⟨rfl, _⟩ := h
      exact Keeps.krefl _
    · by_cases hf : (p.rxdes.getD p.rx_pointer default).rxdes0 &&& cfg.RXDES0_FRS = 0
      · rw [scan_skip cfg n p ho hf] at h
        refine Keeps.ktrans ?_ (ih _ h)
        refine ⟨?_, rfl, ?_⟩
        · show (List.set _ _ _).length = _
          rw [List.length_set]
        · intro i
          show ftmac100_rxdes_s.rxdes1 ((List.set _ _ _).getD i default) = _
          rw [getD_set_eq_ite]
          split_ifs with c
          · obtain ⟨c1, _⟩ := c
            rw [← c1]
          · rfl
      · rw [scan_stop_found cfg n p ho hf] at h
        simp only [Option.some.injEq, Prod.mk.injEq] at h
        obtain ⟨rfl, _⟩ := h
        exact Keeps.krefl _

theorem Keeps_dispatch (cfg : Config) (up : Upstream) (p : ftmac100_driver_s) :
    Keeps p (ftmac100_receive_dispatch cfg up p) := by
  simp only [ftmac100_receive_dispatch]
  split_ifs <;>
    repeat (first | apply Keeps_transmit | apply Keeps_upcall | exact Keeps.krefl _)

theorem Keeps_input (cfg : Config) (up : Upstream) (p : ftmac100_driver_s) :
    Keeps p (ftmac100_receive_input cfg up p) := by
  simp only [ftmac100_receive_input]
  split_ifs
  · exact (Keeps_upcall _ _ (Keeps.krefl p)).ktrans (Keeps_dispatch cfg up _)
  · exact Keeps_dispatch cfg up p

theorem Keeps_phy_status (cfg : Config) (p : ftmac100_driver_s) :
    Keeps p (ftmac100_phy_status cfg p) := by
  obtain ⟨io, pin, tr, b, e⟩ := phy_status_frame cfg p
  rw [e]
  exact Keeps_same rfl rfl

theorem shape_of_keeps {cfg : Config} {p q : ftmac100_driver_s} (h : Keeps p q)
    (hs : RingShape cfg p) : RingShape cfg q := by
  obtain ⟨s1, s2, s3⟩ := hs
  refine ⟨h.rxlen.trans s1, h.txlen.trans s2, ?_⟩
  intro i hi
  rw [h.rx1 i]
  exact s3 i hi

theorem shape_recycle (cfg : Config) (slot : Nat) (p : ftmac100_driver_s)
    (hs : RingShape cfg p) : RingShape cfg (ftmac100_receive_recycle cfg slot p) := by
  obtain ⟨s1, s2, s3⟩ := hs
  refine ⟨?_, s2, ?_⟩
  · show (List.set _ _ _).length = _
    rw [List.length_set]
    exact s1
  · intro i hi
    show ftmac100_rxdes_s.rxdes1 ((List.set _ _ _).getD i default) ||| _ = _
    rw [getD_set_eq_ite]
    split_ifs with c
    · obtain ⟨c1, _⟩ := c
      subst c1
      exact sized_recycle _ _ _ (s3 _ hi)
    · exact s3 i hi

theorem shape_receive (cfg : Config) (up : Upstream) (fuel : Nat) (p q : ftmac100_driver_s)
    (h : ftmac100_receive cfg up fuel p = some q) (hs : RingShape cfg p) :
    RingShape cfg q := by
  unfold ftmac100_receive at h
  cases hsc : ftmac100_receive_scan cfg fuel (record Event.ftmac100_receive p) with
  | none =>
    rw [hsc] at h
    exact absurd h (by simp)
  | some rb =>
    obtain ⟨p1, b⟩ := rb
    have h0 : Keeps p (record Event.ftmac100_receive p) := Keeps_same rfl rfl
    have h1 : RingShape cfg p1 := shape_of_keeps (h0.ktrans (Keeps_scan cfg fuel _ p1 b hsc)) hs
    rw [hsc] at h
    cases b with
    | false =>
      have h3 : p1 = q := Option.some.inj h
      rw [← h3]
      exact h1
    | true =>
      have h3 : ftmac100_receive_found cfg up p1 = q := Option.some.inj h
      rw [← h3]
      have h4 : Keeps p1 (ftmac100_receive_copy cfg p1) := Keeps_same rfl rfl
      exact shape_recycle cfg p1.rx_pointer _
        (shape_of_keeps (h4.ktrans (Keeps_input cfg up _)) h1)

theorem shape_interrupt_steps (cfg : Config) (up : Upstream) (fuel : Nat) (s : Nat)
    (p q : ftmac100_driver_s) (h : ftmac100_interrupt_steps cfg up fuel s p = some q)
    (hs : RingShape cfg p) : RingShape cfg q := by
  rw [interrupt_steps_eq] at h
  have h0 : RingShape cfg (if s &&& cfg.INT_RPKT_SAV ≠ 0 then putreg32 1 Reg.rxpd p else p) := by
    split_ifs
    · exact shape_of_keeps (Keeps_same rfl rfl) hs
    · exact hs
  generalize (if s &&& cfg.INT_RPKT_SAV ≠ 0 then putreg32 1 Reg.rxpd p else p) = p1 at h h0
  cases hrx : (if s &&& (cfg.INT_RPKT_FINISH ||| cfg.INT_NORXBUF) ≠ 0 then
      ftmac100_receive cfg up fuel p1 else some p1) with
  | none =>
    rw [hrx] at h
    exact absurd h (by simp)
  | some p2 =>
    rw [hrx] at h
    have hp2 : RingShape cfg p2 := by
      by_cases c : s &&& (cfg.INT_RPKT_FINISH ||| cfg.INT_NORXBUF) ≠ 0
      · rw [if_pos c] at hrx
        exact shape_receive cfg up fuel p1 p2 hrx h0
      · rw [if_neg c] at hrx
        rw [← Option.some.inj hrx]
        exact h0
    have hp3 : RingShape cfg
        (if s &&& cfg.INT_XPKT_OK ≠ 0 then ftmac100_txdone cfg up p2 else p2) := by
      split_ifs
      · exact shape_of_keeps (Keeps_txdone cfg up p2) hp2
      · exact hp2
    simp only [Option.map_some'] at h
    generalize (if s &&& cfg.INT_XPKT_OK ≠ 0 then ftmac100_txdone cfg up p2 else p2) = p3
      at h hp3
    rw [← Option.some.inj h]
    have hp4 : RingShape cfg
        (if s &&& cfg.INT_PHYSTS_CHG ≠ 0 then ftmac100_phy_status cfg p3 else p3) := by
      split_ifs
      · exact shape_of_keeps (Keeps_phy_status cfg p3) hp3
      · exact hp3
    exact shape_of_keeps (Keeps_same rfl rfl) hp4

theorem shape_interrupt_work (cfg : Config) (up : Upstream) (fuel : Nat)
    (p q : ftmac100_driver_s) (h : ftmac100_interrupt_work cfg up fuel p = some q)
    (hs : RingShape cfg p) : RingShape cfg q := by
  unfold ftmac100_interrupt_work at h
  rw [interrupt_process_eq] at h
  cases hp : ftmac100_interrupt_steps cfg up fuel (interrupt_status cfg p) p with
  | none =>
    rw [hp] at h
    exact absurd h (by simp)
  | some p1 =>
    rw [hp] at h
    have h3 : ftintc010_unmask_irq p1 = q := Option.some.inj h
    rw [← h3]
    exact shape_of_keeps (Keeps_same rfl rfl) (shape_interrupt_steps cfg up fuel _ p p1 hp hs)

theorem shape_interrupt (cfg : Config) (up : Upstream) (fuel : Nat)
    (p q : ftmac100_driver_s) (h : ftmac100_interrupt cfg up fuel p = some q)
    (hs : RingShape cfg p) : RingShape cfg q := by
  unfold ftmac100_interrupt at h
  by_cases hd : cfg.NET_NOINTS = true
  · rw [if_pos hd] at h
    rw [← Option.some.inj h]
    refine shape_of_keeps (Keeps_same ?_ ?_) hs
    · simp only [work_queue, work_cancel, record]
      split_ifs <;> rfl
    · simp only [work_queue, work_cancel, record]
      split_ifs <;> rfl
  · rw [if_neg hd] at h
    rw [interrupt_process_eq] at h
    exact shape_interrupt_steps cfg up fuel _ _ q h (shape_of_keeps (Keeps_same rfl rfl) hs)

theorem shape_txtimeout_expiry (cfg : Config) (up : Upstream) (p : ftmac100_driver_s)
    (hs : RingShape cfg p) : RingShape cfg (ftmac100_txtimeout_expiry cfg up p) := by
  simp only [ftmac100_txtimeout_expiry]
  split_ifs
  · exact shape_of_keeps (Keeps_same rfl rfl) hs
  · exact shape_of_keeps (Keeps_devif_poll cfg up p) hs

theorem shape_poll_process (cfg : Config) (up : Upstream) (p : ftmac100_driver_s)
    (hs : RingShape cfg p) : RingShape cfg (ftmac100_poll_process cfg up p) := by
  have h1 : Keeps (devif_timer cfg up p) (wd_start WdogId.ft_txpoll (devif_timer cfg up p)) :=
    Keeps_same rfl rfl
  exact shape_of_keeps ((Keeps_devif_timer cfg up p).ktrans h1) hs

theorem shape_poll_expiry (cfg : Config) (up : Upstream) (p : ftmac100_driver_s)
    (hs : RingShape cfg p) : RingShape cfg (ftmac100_poll_expiry cfg up p) := by
  simp only [ftmac100_poll_expiry]
  split_ifs
  · exact shape_of_keeps (Keeps_same rfl rfl) hs
  · exact shape_of_keeps (Keeps_same rfl rfl) hs
  · exact shape_poll_process cfg up p hs

theorem shape_txavail_process (cfg : Config) (up : Upstream) (p : ftmac100_driver_s)
    (hs : RingShape cfg p) : RingShape cfg (ftmac100_txavail_process cfg up p) := by
  simp only [ftmac100_txavail_process]
  split_ifs
  · exact shape_of_keeps (Keeps_devif_poll cfg up p) hs
  · exact hs

theorem shape_txavail (cfg : Config) (up : Upstream) (p : ftmac100_driver_s)
    (hs : RingShape cfg p) : RingShape cfg (ftmac100_txavail cfg up p) := by
  simp only [ftmac100_txavail]
  split_ifs
  · exact shape_of_keeps (Keeps_same rfl rfl) hs
  · exact hs
  · exact shape_txavail_process cfg up p hs

theorem shape_work_run (cfg : Config) (up : Upstream) (fuel : Nat)
    (p q : ftmac100_driver_s) (h : work_run cfg up fuel p = some q)
    (hs : RingShape cfg p) : RingShape cfg q := by
  have h0 : RingShape cfg { p with ft_work := none } := shape_of_keeps (Keeps_same rfl rfl) hs
  unfold work_run at h
  cases hw : p.ft_work with
  | none =>
    rw [hw] at h
    rw [← Option.some.inj h]
    exact hs
  | some w =>
    rw [hw] at h
    cases w with
    | ftmac100_interrupt_work => exact shape_interrupt_work cfg up fuel _ q h h0
    | ftmac100_txtimeout_work =>
      rw [← Option.some.inj h]
      exact shape_of_keeps (Keeps_devif_poll cfg up _) h0
    | ftmac100_poll_work =>
      rw [← Option.some.inj h]
      exact shape_poll_process cfg up _ h0
    | ftmac100_txavail_work =>
      rw [← Option.some.inj h]
      exact shape_txavail_process cfg up _ h0

theorem shape_ifdown (cfg : Config) (p : ftmac100_driver_s) (hs : RingShape cfg p) :
    RingShape cfg (ftmac100_ifdown p).2 := by
  obtain ⟨e1, e2, _⟩ := ifdown_frame p
  exact shape_of_keeps (Keeps_same e2 (by rw [e1])) hs

theorem shape_ifup (cfg : Config) (bd : Board) (p : ftmac100_driver_s)
    (hs : RingShape cfg p) : RingShape cfg (ftmac100_ifup cfg bd p).2 := by
  obtain ⟨s1, s2, s3⟩ := hs
  obtain ⟨_, _, _, _, _, _, _, _, h9, h10, h11, _, _, _⟩ := init_spec cfg bd p s1 s2
  have hr : (ftmac100_ifup cfg bd p).2.rxdes = (ftmac100_init cfg bd p).rxdes := rfl
  have ht : (ftmac100_ifup cfg bd p).2.txdes = (ftmac100_init cfg bd p).txdes := rfl
  refine ⟨by rw [hr]; exact h9, by rw [ht]; exact h10, ?_⟩
  intro i hi
  rw [hr, h11 i (by omega), if_neg (by omega)]
  show ((p.rxdes.getD i default).rxdes1 ||| _) ||| _ = _
  rw [s3 i hi, Nat.or_self]

theorem shape_initial (cfg : Config) (p : ftmac100_driver_s)
    (hrx : p.rxdes = List.replicate cfg.RX_DESC ⟨0, 0, 0, 0⟩)
    (htx : p.txdes = List.replicate cfg.TX_DESC ⟨0, 0, 0, 0⟩) : RingShape cfg p := by
  refine ⟨by rw [hrx, List.length_replicate], by rw [htx, List.length_replicate], ?_⟩
  intro i hi
  have e : (p.rxdes.getD i default).rxdes1 = 0 := by
    rw [hrx, List.getD_eq_getElem _ _ (by rw [List.length_replicate]; omega),
      List.getElem_replicate]
  rw [e, Nat.zero_or]

theorem shape_env (cfg : Config) (p q : ftmac100_driver_s) (hs : RingShape cfg p)
    (ht : q.txdes.length = p.txdes.length)
    (hr : q.rxdes.map (fun d => d.rxdes1) = p.rxdes.map (fun d => d.rxdes1)) :
    RingShape cfg q := by
  have hl : q.rxdes.length = p.rxdes.length := by
    have := congrArg List.length hr
    simpa only [List.length_map] using this
  refine shape_of_keeps ⟨hl, ht, ?_⟩ hs
  intro i
  have h1 : ∀ l : List ftmac100_rxdes_s,
      (l.getD i default).rxdes1 = (l.map (fun d => d.rxdes1)).getD i 0 := by
    intro l
    by_cases c : i < l.length
    · rw [List.getD_eq_getElem _ _ c, List.getD_eq_getElem _ _ (by rw [List.length_map]; exact c),
        List.getElem_map]
    · rw [List.getD_eq_default _ _ (by omega),
        List.getD_eq_default _ _ (by rw [List.length_map]; omega)]
      rfl
  rw [h1, h1, hr]

theorem reach_shape (cfg : Config) (p : ftmac100_driver_s) (h : Reach cfg p) :
    RingShape cfg p := by
  induction h with
  | zeroed priv hrx htx => exact shape_initial cfg priv hrx htx
  | env priv priv1 _ ht hr ih => exact shape_env cfg priv priv1 ih ht hr
  | ifup priv bd _ ih => exact shape_ifup cfg bd priv ih
  | ifdown priv _ ih => exact shape_ifdown cfg priv ih
  | txavail priv up _ ih => exact shape_txavail cfg up priv ih
  | interrupt priv priv1 up fuel _ hq ih => exact shape_interrupt cfg up fuel priv priv1 hq ih
  | txtimeout priv up _ ih => exact shape_txtimeout_expiry cfg up priv ih
  | poll priv up _ ih => exact shape_poll_expiry cfg up priv ih
  | work priv priv1 up fuel _ hq ih => exact shape_work_run cfg up fuel priv priv1 hq ih

/-- C20: let the device structure be in a state it can reach from
`ftmac100_initialize`, with at least one descriptor per ring.  After
`ftmac100_ifup`, which returns `OK`: the three cursors and `tx_pending` are 0;
every RX slot is hardware-owned and holds `RXBUF_SIZE(RX_BUF_SIZE)` in
`rxdes1`, the last one together with `EDORR`, so the size field reads
`RX_BUF_SIZE` in every slot; every TX slot is software-owned with all words
zero except `EDOTR` in the last one; the ring base registers hold the
addresses of the two descriptor arrays; `maccr` holds `MACCR_ENABLE_ALL` and
`imr` holds `INT_MASK_ALL_ENABLED`; the poll watchdog runs and the link flag is
set. -/
theorem ifup_establishes (cfg : Config) (bd : Board) (priv : ftmac100_driver_s)
    (hreach : Reach cfg priv)
    (hrx0 : 0 < cfg.RX_DESC) (htx0 : 0 < cfg.TX_DESC) (hown : cfg.RXDES0_RXDMA_OWN ≠ 0) :
    (ftmac100_ifup cfg bd priv).1 = OK ∧
    (ftmac100_ifup cfg bd priv).2.rx_pointer = 0 ∧
    (ftmac100_ifup cfg bd priv).2.tx_pointer = 0 ∧
    (ftmac100_ifup cfg bd priv).2.tx_clean_pointer = 0 ∧
    (ftmac100_ifup cfg bd priv).2.tx_pending = 0 ∧
    (∀ i, i < cfg.RX_DESC →
      rx_hw_owned cfg ((ftmac100_ifup cfg bd priv).2.rxdes.getD i default) ∧
      ((ftmac100_ifup cfg bd priv).2.rxdes.getD i default).rxdes0 = cfg.RXDES0_RXDMA_OWN ∧
      ((ftmac100_ifup cfg bd priv).2.rxdes.getD i default).rxdes2 =
        bd.kmem + i * RX_BUF_SIZE) ∧
    (∀ i, i + 1 < cfg.RX_DESC →
      ((ftmac100_ifup cfg bd priv).2.rxdes.getD i default).rxdes1 =
        cfg.RXDES1_RXBUF_SIZE RX_BUF_SIZE ∧
      ((ftmac100_ifup cfg bd priv).2.rxdes.getD i default).rxdes3 =
        bd.rxdes_addr + (i + 1) * bd.rxdes_size) ∧
    ((ftmac100_ifup cfg bd priv).2.rxdes.getD (cfg.RX_DESC - 1) default).rxdes1 =
      cfg.RXDES1_EDORR ||| cfg.RXDES1_RXBUF_SIZE RX_BUF_SIZE ∧
    ((ftmac100_ifup cfg bd priv).2.rxdes.getD (cfg.RX_DESC - 1) default).rxdes3 =
      bd.rxdes_addr ∧
    (∀ w, (∀ x, cfg.RXDES1_RXBUF_SIZE x = x % 2 ^ w) → RX_BUF_SIZE < 2 ^ w →
      cfg.RXDES1_EDORR % 2 ^ w = 0 →
      ∀ i, i < cfg.RX_DESC →
        ((ftmac100_ifup cfg bd priv).2.rxdes.getD i default).rxdes1 % 2 ^ w = RX_BUF_SIZE) ∧
    (∀ i, i < cfg.TX_DESC →
      ¬ tx_hw_owned cfg ((ftmac100_ifup cfg bd priv).2.txdes.getD i default)) ∧
    (∀ i, i + 1 < cfg.TX_DESC →
      (ftmac100_ifup cfg bd priv).2.txdes.getD i default = ⟨0, 0, 0, 0⟩) ∧
    (ftmac100_ifup cfg bd priv).2.txdes.getD (cfg.TX_DESC - 1) default =
      ⟨0, cfg.TXDES1_EDOTR, 0, 0⟩ ∧
    (ftmac100_ifup cfg bd priv).2.rxdes.length = cfg.RX_DESC ∧
    (ftmac100_ifup cfg bd priv).2.txdes.length = cfg.TX_DESC ∧
    (ftmac100_ifup cfg bd priv).2.iobase Reg.txr_badr = bd.txdes_addr ∧
    (ftmac100_ifup cfg bd priv).2.iobase Reg.rxr_badr = bd.rxdes_addr ∧
    (ftmac100_ifup cfg bd priv).2.iobase Reg.maccr = MACCR_ENABLE_ALL cfg ∧
    (ftmac100_ifup cfg bd priv).2.iobase Reg.imr = INT_MASK_ALL_ENABLED cfg ∧
    (ftmac100_ifup cfg bd priv).2.ft_txpoll = true ∧
    (ftmac100_ifup cfg bd priv).2.ft_bifup = true := by
  obtain ⟨hrx, htx, hprior⟩ := reach_shape cfg priv hreach
  obtain ⟨h1, h2, h3, h4, h5, h6, h7, h8, h9, h10, h11, h12, _, _⟩ :=
    init_spec cfg bd priv hrx htx
  have hr : (ftmac100_ifup cfg bd priv).2.rxdes = (ftmac100_init cfg bd priv).rxdes := rfl
  have ht : (ftmac100_ifup cfg bd priv).2.txdes = (ftmac100_init cfg bd priv).txdes := rfl
  rw [hr, ht]
  have hnl : ∀ i, i + 1 < cfg.RX_DESC →
      ((ftmac100_init cfg bd priv).rxdes.getD i default).rxdes1 =
        cfg.RXDES1_RXBUF_SIZE RX_BUF_SIZE := by
    intro i hi
    rw [h11 i (by omega), if_neg (by omega)]
    exact hprior i hi
  have hl : ((ftmac100_init cfg bd priv).rxdes.getD (cfg.RX_DESC - 1) default).rxdes1 =
      cfg.RXDES1_EDORR ||| cfg.RXDES1_RXBUF_SIZE RX_BUF_SIZE := by
    rw [h11 _ (by omega), if_pos rfl]
  refine ⟨rfl, h1, h2, h3, h4, ?_, ?_, hl, ?_, ?_, ?_, ?_, ?_, h9, h10, h5, h6, h7, h8, rfl,
    rfl⟩
  · intro i hi
    rw [h11 i hi]
    refine ⟨?_, rfl, rfl⟩
    show cfg.RXDES0_RXDMA_OWN &&& cfg.RXDES0_RXDMA_OWN ≠ 0
    rw [Nat.and_self]
    exact hown
  · intro i hi
    refine ⟨hnl i hi, ?_⟩
    rw [h11 i (by omega), if_neg (by omega), if_neg (by omega)]
  · rw [h11 _ (by omega)]
    show (if cfg.RX_DESC - 1 = cfg.RX_DESC - 1 then bd.rxdes_addr else _) = _
    rw [if_pos rfl]
  · intro w hsz hfit hwrap i hi
    by_cases c : i + 1 < cfg.RX_DESC
    · rw [hnl i c, hsz, Nat.mod_mod, Nat.mod_eq_of_lt hfit]
    · have e : i = cfg.RX_DESC - 1 := by omega
      rw [e, hl, or_mod_pow, hwrap, hsz, Nat.mod_mod, Nat.zero_or, Nat.mod_eq_of_lt hfit]
  · intro i hi
    rw [h12 i hi]
    show ¬ ((0 : Nat) &&& cfg.TXDES0_TXDMA_OWN ≠ 0)
    rw [Nat.zero_and]
    exact fun h => h rfl
  · intro i hi
    rw [h12 i (by omega), if_neg (by omega)]
  · rw [h12 _ (by omega), if_pos rfl]

/-- Witness for C20: the zeroed device structure is brought up, the hardware
releases a frame into the last receive slot (`rxfull4`), and the device is
brought up again; the rings come out as `rxring4` and `txring4`, and the size
field of every receive slot reads 2044. -/
theorem ifup_establishes_witness :
    Reach cfg4 rxfull4 ∧ 0 < cfg4.RX_DESC ∧ 0 < cfg4.TX_DESC ∧ cfg4.RXDES0_RXDMA_OWN ≠ 0 ∧
      (ftmac100_ifup cfg4 board4 zeroed4).2.rxdes = rxring4 ∧
      rxfull4.rxdes ≠ rxring4 ∧
      (ftmac100_ifup cfg4 board4 rxfull4).2.rxdes = rxring4 ∧
      (ftmac100_ifup cfg4 board4 rxfull4).2.txdes = txring4 ∧
      (ftmac100_ifup cfg4 board4 rxfull4).2.tx_pending = 0 ∧
      (∀ i, i < cfg4.RX_DESC →
        ((ftmac100_ifup cfg4 board4 rxfull4).2.rxdes.getD i default).rxdes1 % 2 ^ 11 =
          RX_BUF_SIZE) ∧
      (ftmac100_ifup cfg4 board4 rxfull4).2.iobase Reg.imr = INT_MASK_ALL_ENABLED cfg4 ∧
      (ftmac100_ifup cfg4 board4 rxfull4).2.ft_txpoll = true :=
  have hreach : Reach cfg4 rxfull4 :=
    Reach.env _ _ (Reach.ifup _ board4 (Reach.zeroed zeroed4 rfl rfl)) rfl rfl
  have h := ifup_establishes cfg4 board4 rxfull4 hreach (by decide) (by decide) (by decide)
  ⟨hreach, by decide, by decide, by decide, rfl, by decide, rfl, rfl, h.2.2.2.2.1,
    h.2.2.2.2.2.2.2.2.2.1 11 (fun x => Nat.and_pow_two_sub_one_eq_mod x 11) (by decide)
      (by decide),
    h.2.2.2.2.2.2.2.2.2.2.2.2.2.2.2.2.2.2.1, h.2.2.2.2.2.2.2.2.2.2.2.2.2.2.2.2.2.2.2.1⟩

/-- Counterexample to C21 as stated: the zeroed structure is brought up with
the receive buffers at `0x10000` (`board4`), which gives the ring `rxring4`.
After `ftmac100_ifdown` the next `ftmac100_ifup` calls `memalign` again; the
first block is still allocated, so the buffers are elsewhere (`board4b`), and
the ring is not `rxring4`: slot 0 points to `0x20000`. -/
theorem ifdown_ifup_new_buffers :
    (ftmac100_ifup cfg4 board4 zeroed4).2.rxdes = rxring4 ∧
      board4b.kmem ≠ board4.kmem ∧
      (ftmac100_ifup cfg4 board4b
        (ftmac100_ifdown (ftmac100_ifup cfg4 board4 zeroed4).2).2).2.rxdes ≠ rxring4 ∧
      ((ftmac100_ifup cfg4 board4 zeroed4).2.rxdes.getD 0 default).rxdes2 = 0x10000 ∧
      ((ftmac100_ifup cfg4 board4b
        (ftmac100_ifdown (ftmac100_ifup cfg4 board4 zeroed4).2).2).2.rxdes.getD 0
          default).rxdes2 = 0x20000 := by
  refine ⟨rfl, by decide, by decide, rfl, rfl⟩

/-- C21, amended: `ftmac100_ifdown` returns `OK`; afterwards the interrupt
line is masked, neither watchdog runs, `maccr` holds 0 and the link flag is
clear, while both rings, the three cursors and `tx_pending` are as before.
For every state that the device structure can reach, a following
`ftmac100_ifup` returns `OK`, sets the cursors and `tx_pending` to 0 and makes
the TX ring and the words `rxdes0`, `rxdes1` and `rxdes3` of the RX ring what
the first bring-up made them, whatever `ftmac100_ifdown` left behind; the
buffer addresses in `rxdes2` are those of the block that the new call of
`memalign` returns, so they differ from the first ones when that block is
another one. -/
theorem ifdown_then_ifup (cfg : Config) (bd0 bd : Board) (p0 priv : ftmac100_driver_s)
    (h0 : Reach cfg p0) (hreach : Reach cfg priv)
    (hb : bd.txdes_addr = bd0.txdes_addr ∧ bd.rxdes_addr = bd0.rxdes_addr ∧
      bd.rxdes_size = bd0.rxdes_size) :
    (ftmac100_ifdown priv).1 = OK ∧
    (ftmac100_ifdown priv).2.irq_masked = true ∧
    (ftmac100_ifdown priv).2.ft_txpoll = false ∧
    (ftmac100_ifdown priv).2.ft_txtimeout = false ∧
    (ftmac100_ifdown priv).2.iobase Reg.maccr = 0 ∧
    (ftmac100_ifdown priv).2.ft_bifup = false ∧
    (ftmac100_ifdown priv).2.txdes = priv.txdes ∧
    (ftmac100_ifdown priv).2.rxdes = priv.rxdes ∧
    (ftmac100_ifdown priv).2.rx_pointer = priv.rx_pointer ∧
    (ftmac100_ifdown priv).2.tx_pointer = priv.tx_pointer ∧
    (ftmac100_ifdown priv).2.tx_clean_pointer = priv.tx_clean_pointer ∧
    (ftmac100_ifdown priv).2.tx_pending = priv.tx_pending ∧
    (ftmac100_ifup cfg bd (ftmac100_ifdown priv).2).1 = OK ∧
    (ftmac100_ifup cfg bd (ftmac100_ifdown priv).2).2.rx_pointer = 0 ∧
    (ftmac100_ifup cfg bd (ftmac100_ifdown priv).2).2.tx_pointer = 0 ∧
    (ftmac100_ifup cfg bd (ftmac100_ifdown priv).2).2.tx_clean_pointer = 0 ∧
    (ftmac100_ifup cfg bd (ftmac100_ifdown priv).2).2.tx_pending = 0 ∧
    (ftmac100_ifup cfg bd (ftmac100_ifdown priv).2).2.txdes.length = cfg.TX_DESC ∧
    (ftmac100_ifup cfg bd (ftmac100_ifdown priv).2).2.rxdes.length = cfg.RX_DESC ∧
    (∀ i, i < cfg.TX_DESC →
      (ftmac100_ifup cfg bd (ftmac100_ifdown priv).2).2.txdes.getD i default =
        (ftmac100_ifup cfg bd0 p0).2.txdes.getD i default) ∧
    (∀ i, i < cfg.RX_DESC →
      (ftmac100_ifup cfg bd (ftmac100_ifdown priv).2).2.rxdes.getD i default =
        { (ftmac100_ifup cfg bd0 p0).2.rxdes.getD i default with
          rxdes2 := bd.kmem + i * RX_BUF_SIZE } ∧
      ((ftmac100_ifup cfg bd0 p0).2.rxdes.getD i default).rxdes2 =
        bd0.kmem + i * RX_BUF_SIZE) ∧
    (bd.kmem ≠ bd0.kmem → ∀ i, i < cfg.RX_DESC →
      (ftmac100_ifup cfg bd (ftmac100_ifdown priv).2).2.rxdes.getD i default ≠
        (ftmac100_ifup cfg bd0 p0).2.rxdes.getD i default) := by
  obtain ⟨d1, d2, d3, d4, d5, d6⟩ := ifdown_flags priv
  obtain ⟨d7, d8, d9, d10, d11, d12⟩ := ifdown_frame priv
  have hq := reach_shape cfg _ (Reach.ifdown priv hreach)
  obtain ⟨a1, a2, a3⟩ := reach_shape cfg p0 h0
  refine ⟨d1, d2, d3, d4, d5, d6, d7, d8, d9, d10, d11, d12, ?_⟩
  generalize (ftmac100_ifdown priv).2 = q at hq ⊢
  obtain ⟨q1, q2, q3⟩ := hq
  obtain ⟨h1, h2, h3, h4, _, _, _, _, h9, h10, h11, h12, _, _⟩ := init_spec cfg bd q q1 q2
  obtain ⟨_, _, _, _, _, _, _, _, _, _, g11, g12, _, _⟩ := init_spec cfg bd0 p0 a1 a2
  have hr : (ftmac100_ifup cfg bd q).2.rxdes = (ftmac100_init cfg bd q).rxdes := rfl
  have ht : (ftmac100_ifup cfg bd q).2.txdes = (ftmac100_init cfg bd q).txdes := rfl
  have hr0 : (ftmac100_ifup cfg bd0 p0).2.rxdes = (ftmac100_init cfg bd0 p0).rxdes := rfl
  have ht0 : (ftmac100_ifup cfg bd0 p0).2.txdes = (ftmac100_init cfg bd0 p0).txdes := rfl
  rw [hr, ht, hr0, ht0]
  obtain ⟨b1, b2, b3⟩ := hb
  have hslot : ∀ i, i < cfg.RX_DESC →
      (ftmac100_init cfg bd q).rxdes.getD i default =
        { (ftmac100_init cfg bd0 p0).rxdes.getD i default with
          rxdes2 := bd.kmem + i * RX_BUF_SIZE } := by
    intro i hi
    rw [h11 i hi, g11 i hi, b2, b3]
    by_cases c : i = cfg.RX_DESC - 1
    · simp only [if_pos c]
    · simp only [if_neg c]
      rw [q3 i (by omega), a3 i (by omega)]
  refine ⟨rfl, h1, h2, h3, h4, h10, h9, ?_, ?_, ?_⟩
  · intro i hi
    rw [h12 i hi, g12 i hi]
  · intro i hi
    refine ⟨hslot i hi, ?_⟩
    rw [g11 i hi]
  · intro hk i hi e
    have e2 := congrArg ftmac100_rxdes_s.rxdes2 e
    rw [h11 i hi, g11 i hi] at e2
    have e3 : bd.kmem + i * RX_BUF_SIZE = bd0.kmem + i * RX_BUF_SIZE := e2
    exact hk (by omega)

/-- Witness for C21 (amended): the device is brought up from the zeroed
structure, the hardware releases a frame (`rxfull4`), the device is taken down
and brought up again with the receive buffers at `0x20000`.  The TX ring is
`txring4` again and the RX ring is `rxring4` except for the buffer
addresses. -/
theorem ifdown_then_ifup_witness :
    Reach cfg4 zeroed4 ∧ Reach cfg4 rxfull4 ∧
      (board4b.txdes_addr = board4.txdes_addr ∧ board4b.rxdes_addr = board4.rxdes_addr ∧
        board4b.rxdes_size = board4.rxdes_size) ∧
      (ftmac100_ifdown rxfull4).2.irq_masked = true ∧
      (ftmac100_ifup cfg4 board4 zeroed4).2.rxdes = rxring4 ∧
      (ftmac100_ifup cfg4 board4b (ftmac100_ifdown rxfull4).2).2.txdes = txring4 ∧
      (ftmac100_ifup cfg4 board4b (ftmac100_ifdown rxfull4).2).2.rxdes =
        [⟨0x80000000, 0x7fc, 0x20000, 0x1050⟩, ⟨0x80000000, 0x7fc, 0x207fc, 0x1060⟩,
          ⟨0x80000000, 0x7fc, 0x20ff8, 0x1070⟩, ⟨0x80000000, 0x800007fc, 0x217f4, 0x1040⟩] ∧
      (ftmac100_ifup cfg4 board4b (ftmac100_ifdown rxfull4).2).2.tx_pending = 0 ∧
      ∀ i, i < cfg4.RX_DESC →
        (ftmac100_ifup cfg4 board4b (ftmac100_ifdown rxfull4).2).2.rxdes.getD i default ≠
          (ftmac100_ifup cfg4 board4 zeroed4).2.rxdes.getD i default :=
  have hz : Reach cfg4 zeroed4 := Reach.zeroed zeroed4 rfl rfl
  have hreach : Reach cfg4 rxfull4 := Reach.env _ _ (Reach.ifup _ board4 hz) rfl rfl
  have h := ifdown_then_ifup cfg4 board4 board4b zeroed4 rxfull4 hz hreach ⟨rfl, rfl, rfl⟩
  ⟨hz, hreach, ⟨rfl, rfl, rfl⟩, h.2.1, rfl, rfl, rfl,
    h.2.2.2.2.2.2.2.2.2.2.2.2.2.2.2.2.1,
    h.2.2.2.2.2.2.2.2.2.2.2.2.2.2.2.2.2.2.2.2.2 (by decide)⟩

end Ftmac100
